import Mathlib

/-!
# HTTP request pipeline of `prj_130`: shallow embedding and verified properties

The development embeds the byte-level request parser (`src/request_parser.cc`,
`src/request.cc`), the dispatcher (`src/dispatcher.cc`) and the response assembler
(`src/response_builder.cc`, `src/response.cc`) as Lean definitions and proves
properties of them.

Modelling conventions
* a `std::string` is a `List Byte`, a byte being a `Fin 256`;
* plain `char` is a signed 8-bit integer (`char_val`), as on the x86-64 build target;
* `std::size_t` is 64 bits wide; the only place where its wrap-around is exercised
  (the index rewind in state `HEADER_START`) is modelled with explicit `% 2^64`;
* the `for` loop of `RequestParser::parse` is modelled with a fuel argument that
  counts loop tests; `parse` supplies `2 * len + 1`, and the theorems show that this
  budget is never exhausted for a chunk whose length fits in `size_t`;
* logging has no influence on results and is omitted.
-/

namespace Prj130

set_option maxRecDepth 20000

/-! ## Bytes and strings -/

/-- One byte of a `std::string`. -/
abbrev Byte := Fin 256

/-- Bytes of an ASCII literal. -/
def bytes (s : String) : List Byte := s.toList.map (fun ch => Fin.ofNat ch.toNat)

/-- Value of a plain (signed) `char` holding the byte `b`, after integer promotion. -/
def char_val (b : Byte) : Int := if b.val < 128 then (b.val : Int) else (b.val : Int) - 256

/-- Modulus of `std::size_t` arithmetic. -/
def SIZE_MOD : Nat := 2 ^ 64

/-- `is_upper` of `request_parser.cc`: `c >= 'A' && c <= 'Z'`. -/
def is_upper (c : Byte) : Bool := decide (char_val c ≥ 65) && decide (char_val c ≤ 90)

/-- `is_uri_char` of `request_parser.cc`:
`c > 0x20 && c != '\r' && c != '\n' && c != '\t'`. -/
def is_uri_char (c : Byte) : Bool :=
  decide (char_val c > 0x20) && decide (c ≠ 13) && decide (c ≠ 10) && decide (c ≠ 9)

/-- `std::tolower` in the "C" locale. -/
def tolower (c : Byte) : Byte := if 65 ≤ c.val ∧ c.val ≤ 90 then c + 32 else c

/-! ## The request record (`request.h`, `request.cc`) -/

/-- `struct request`. -/
structure request where
  method : List Byte
  uri : List Byte
  version : List Byte
  headers : List (List Byte × List Byte)
  body : List Byte
  raw : List Byte
deriving DecidableEq, Repr

/-- `request::reset`: clears all six fields. -/
def request.reset (_req : request) : request :=
  { method := [], uri := [], version := [], headers := [], body := [], raw := [] }

/-- Inner loop of `request::get_header_value`: the two strings have the same size and
agree byte by byte under `tolower`. -/
def names_match : List Byte → List Byte → Bool
  | [], [] => true
  | a :: as, b :: bs => if tolower a ≠ tolower b then false else names_match as bs
  | _, _ => false

/-- Outer loop of `request::get_header_value` over the header sequence. -/
def get_header_value_loop (key : List Byte) : List (List Byte × List Byte) → List Byte
  | [] => []
  | header :: rest =>
      if names_match header.1 key then header.2 else get_header_value_loop key rest

/-- `request::get_header_value`: value of the first header whose name equals `key`
ignoring ASCII case, the empty string when there is none. -/
def request.get_header_value (req : request) (key : List Byte) : List Byte :=
  get_header_value_loop key req.headers

/-- An empty request record, as at connection start. -/
def request.empty : request :=
  { method := [], uri := [], version := [], headers := [], body := [], raw := [] }

/-! ## The parser (`request_parser.h`, `request_parser.cc`) -/

/-- `RequestParser::Status`. -/
inductive Status where
  | PROPER_REQUEST
  | IN_PROGRESS
  | BAD_REQUEST
deriving DecidableEq, Repr

/-- `RequestParser::StateMachine`. -/
inductive StateMachine where
  | START | METHOD | URI | H | T1 | T2 | P | SLASH | VERSION
  | REQUEST_LINE_CR | HEADER_START | HEADER_NAME | HEADER_COLON | HEADER_SPACE
  | HEADER_VALUE | HEADER_LINE_CR | END_CR | BODY
deriving DecidableEq, Repr

/-- Data members of `class RequestParser`. -/
structure RequestParser where
  m_state : StateMachine
  current_header_name_ : List Byte
  current_header_value_ : List Byte
  expected_body_len_ : Nat
  remaining_body_len_ : Nat
deriving DecidableEq, Repr

/-- `RequestParser::RequestParser()`: state `START`, empty strings, zero lengths. -/
def RequestParser.new : RequestParser :=
  { m_state := .START, current_header_name_ := [], current_header_value_ := [],
    expected_body_len_ := 0, remaining_body_len_ := 0 }

/-- `RequestParser::reset`. -/
def RequestParser.reset (p : RequestParser) : RequestParser :=
  { p with m_state := .START, current_header_name_ := [], current_header_value_ := [],
           expected_body_len_ := 0, remaining_body_len_ := 0 }

/-- `RequestParser::make_bad_request_` (the context string is only logged). -/
def make_bad_request_ : Status := .BAD_REQUEST

/-- `RequestParser::fail_impossible_state_`. -/
def fail_impossible_state_ : Status := .BAD_REQUEST

/-- Numeric value of a string of ASCII digits, most significant digit first. -/
def digits_value (s : List Byte) : Nat :=
  s.foldl (fun acc ch => 10 * acc + (ch.val - 48)) 0

/-- `std::stoul` on a non-empty string of ASCII digits (the only strings the parser
passes to it): the value, or `none` for the `std::out_of_range` exception raised when
the value exceeds `ULONG_MAX = 2^64 - 1`. -/
def stoul (s : List Byte) : Option Nat :=
  if digits_value s < 2 ^ 64 then some (digits_value s) else none

/-- The header name looked up at the end of the header block. -/
def Content_Length : List Byte := bytes "Content-Length"

/-- Outcome of one execution of the `switch` in the loop of `parse`: either the
function returns, or the loop goes on with index `i` (before the `++i`). -/
inductive Iter where
  | ret (s : Status) (p : RequestParser) (req : request)
  | cont (i : Nat) (p : RequestParser) (req : request)
deriving DecidableEq, Repr

/-- The body of `if (c == '\n')` in state `END_CR` (end of headers, lines 179-215):
decides whether a body is expected and copies what the chunk already holds of it. -/
def end_of_headers (data : List Byte) (i : Nat) (p : RequestParser) (req : request) : Iter :=
  let cl_str := req.get_header_value Content_Length
  if cl_str = [] then .ret .PROPER_REQUEST p req
  else if cl_str.any (fun ch => decide (char_val ch < 48) || decide (char_val ch > 57))
  then .ret make_bad_request_ p req
  else
    match stoul cl_str with
    | none => .ret make_bad_request_ p req
    | some n =>
        let start := i + 1
        let to_copy := if start < data.length then min (data.length - start) n else 0
        let req1 :=
          if to_copy > 0 then
            { req with body := req.body ++ (data.drop start).take to_copy }
          else req
        let p1 := { p with expected_body_len_ := n, remaining_body_len_ := n - to_copy }
        if p1.remaining_body_len_ = 0 then .ret .PROPER_REQUEST p1 req1
        else .ret .IN_PROGRESS { p1 with m_state := .BODY } req1

/-- The `switch (m_state)` of `RequestParser::parse` for the byte `c = data[i]`. -/
def switch_body (data : List Byte) (i : Nat) (c : Byte) (p : RequestParser)
    (req : request) : Iter :=
  match p.m_state with
  | .START =>
      if is_upper c then
        .cont i { p with m_state := .METHOD } { req with method := req.method ++ [c] }
      else .ret make_bad_request_ p req
  | .METHOD =>
      if is_upper c then .cont i p { req with method := req.method ++ [c] }
      else if c = 32 then .cont i { p with m_state := .URI } req
      else .ret make_bad_request_ p req
  | .URI =>
      if c = 32 then .cont i { p with m_state := .H } req
      else if !is_uri_char c then .ret make_bad_request_ p req
      else .cont i p { req with uri := req.uri ++ [c] }
  | .H =>
      if c = 72 then .cont i { p with m_state := .T1 } req
      else .ret make_bad_request_ p req
  | .T1 =>
      if c = 84 then .cont i { p with m_state := .T2 } req
      else .ret make_bad_request_ p req
  | .T2 =>
      if c = 84 then .cont i { p with m_state := .P } req
      else .ret make_bad_request_ p req
  | .P =>
      if c = 80 then .cont i { p with m_state := .SLASH } req
      else .ret make_bad_request_ p req
  | .SLASH =>
      if c = 47 then .cont i { p with m_state := .VERSION } req
      else .ret make_bad_request_ p req
  | .VERSION =>
      if c = 13 then
        if req.version ≠ bytes "1.1" then .ret make_bad_request_ p req
        else .cont i { p with m_state := .REQUEST_LINE_CR } req
      else if c = 49 ∨ c = 46 then .cont i p { req with version := req.version ++ [c] }
      else .ret make_bad_request_ p req
  | .REQUEST_LINE_CR =>
      if c = 10 then .cont i { p with m_state := .HEADER_START } req
      else .ret make_bad_request_ p req
  | .HEADER_START =>
      if c = 13 then .cont i { p with m_state := .END_CR } req
      else
        -- `--i`: reprocess the same byte as part of the header name
        .cont ((i + (SIZE_MOD - 1)) % SIZE_MOD)
          { p with current_header_name_ := [], current_header_value_ := [],
                   m_state := .HEADER_NAME } req
  | .HEADER_NAME =>
      if c = 58 then
        if p.current_header_name_ = [] then .ret make_bad_request_ p req
        else .cont i { p with m_state := .HEADER_COLON } req
      else if c = 13 ∨ c = 10 then .ret make_bad_request_ p req
      else .cont i { p with current_header_name_ := p.current_header_name_ ++ [c] } req
  | .HEADER_COLON =>
      if c = 32 then .cont i { p with m_state := .HEADER_SPACE } req
      else .ret make_bad_request_ p req
  | .HEADER_SPACE =>
      if c = 13 then .cont i { p with m_state := .HEADER_LINE_CR } req
      else
        .cont i { p with current_header_value_ := p.current_header_value_ ++ [c],
                         m_state := .HEADER_VALUE } req
  | .HEADER_VALUE =>
      if c = 13 then .cont i { p with m_state := .HEADER_LINE_CR } req
      else .cont i { p with current_header_value_ := p.current_header_value_ ++ [c] } req
  | .HEADER_LINE_CR =>
      if c = 10 then
        .cont i { p with m_state := .HEADER_START }
          { req with headers :=
              req.headers ++ [(p.current_header_name_, p.current_header_value_)] }
      else .ret make_bad_request_ p req
  | .END_CR =>
      if c = 10 then end_of_headers data i p req
      else .ret make_bad_request_ p req
  | .BODY => .ret fail_impossible_state_ p req

/-- The loop `for (std::size_t i = 0; i < len; ++i)` of `RequestParser::parse`,
started at index `i`. `fuel` bounds the number of loop tests; `none` means the
budget ran out. -/
def parse_loop (data : List Byte) : Nat → Nat → RequestParser → request →
    Option (Status × RequestParser × request)
  | 0, _, _, _ => none
  | fuel + 1, i, p, req =>
      if h : i < data.length then
        match switch_body data i (data.get ⟨i, h⟩) p req with
        | .ret s p1 req1 => some (s, p1, req1)
        | .cont i1 p1 req1 => parse_loop data fuel ((i1 + 1) % SIZE_MOD) p1 req1
      else some (.IN_PROGRESS, p, req)

/-- `RequestParser::parse(req, data, len)`. A null `data` pointer is `none`. The result
is the returned status with the parser and the request record after the call. -/
def RequestParser.parse (p : RequestParser) (req : request) (data : Option (List Byte)) :
    Option (Status × RequestParser × request) :=
  match data with
  | none => some (.IN_PROGRESS, p, req)
  | some d =>
      if d.length = 0 then some (.IN_PROGRESS, p, req)
      else
        let req0 := if p.m_state = .START then req.reset else req
        let req1 := { req0 with raw := req0.raw ++ d }
        if p.m_state = .BODY then
          let to_copy := min p.remaining_body_len_ d.length
          let req2 := if to_copy > 0 then { req1 with body := req1.body ++ d.take to_copy }
                      else req1
          let p2 := { p with remaining_body_len_ := p.remaining_body_len_ - to_copy }
          if p2.remaining_body_len_ = 0 then some (.PROPER_REQUEST, p2, req2)
          else some (.IN_PROGRESS, p2, req2)
        else parse_loop d (2 * d.length + 1) 0 p req1

/-! ## The read loop of a session (`session.cc`, `handle_read_callback`) -/

/-- Feeding successive chunks of one connection to the parser, as the session's read
loop does: after `IN_PROGRESS` the next chunk is parsed, the first terminal verdict
ends the run. `none` only if a `parse` call exhausts its loop budget. -/
def feed (p : RequestParser) (req : request) :
    List (List Byte) → Option (Status × RequestParser × request)
  | [] => some (.IN_PROGRESS, p, req)
  | d :: ds =>
      match p.parse req (some d) with
      | none => none
      | some (.IN_PROGRESS, p1, req1) => feed p1 req1 ds
      | some r => some r

/-! ## Sequences of `parse` calls of an arbitrary caller -/

/-- A sequence of `parse` calls on one parser and one request record, all of them made
whatever the verdicts are: the verdicts in order, and the parser and the record after
the last call. `none` only if a `parse` call exhausts its loop budget. -/
def parse_calls (p : RequestParser) (req : request) :
    List (Option (List Byte)) → Option (List Status × RequestParser × request)
  | [] => some ([], p, req)
  | d :: ds =>
      match p.parse req d with
      | none => none
      | some (s, p1, req1) =>
          match parse_calls p1 req1 ds with
          | none => none
          | some (ss, p2, req2) => some (s :: ss, p2, req2)

/-! ## The response record (`response.h`, `response.cc`) -/

/-- `class response`: the three parts and the byte ranges handed to the socket. -/
structure response where
  m_status_line : List Byte
  m_headers : List Byte
  m_content : List Byte
  m_bufs : List (List Byte)
deriving DecidableEq, Repr

/-- `response::response()`: all three parts start as the string `unset`. -/
def response.new : response :=
  { m_status_line := bytes "unset", m_headers := bytes "unset", m_content := bytes "unset",
    m_bufs := [] }

/-- `response::set_status_line`. -/
def response.set_status_line (r : response) (line : List Byte) : response :=
  { r with m_status_line := line }

/-- `response::set_headers`. -/
def response.set_headers (r : response) (line : List Byte) : response :=
  { r with m_headers := line }

/-- `response::set_content`. -/
def response.set_content (r : response) (line : List Byte) : response :=
  { r with m_content := line }

/-- `response::set_bufs`: throws `std::runtime_error` (here `Except.error` with the
message) when a part still equals `unset`, otherwise records the three byte ranges. -/
def response.set_bufs (r : response) : Except String response :=
  if r.m_status_line = bytes "unset" then
    .error "response: set_bufs called before set_status_line"
  else if r.m_headers = bytes "unset" then
    .error "response: set_bufs called before set_headers"
  else if r.m_content = bytes "unset" then
    .error "response: set_bufs called before set_content"
  else .ok { r with m_bufs := [r.m_status_line, r.m_headers, r.m_content] }

/-! ## The response assembler (`response_builder.h`, `response_builder.cc`) -/

/-- `operator<` of `std::string`: lexicographic order of the bytes as unsigned values. -/
def str_lt : List Byte → List Byte → Bool
  | [], [] => false
  | [], _ :: _ => true
  | _ :: _, [] => false
  | a :: as, b :: bs => if a < b then true else if b < a then false else str_lt as bs

/-- `m[key] = value` on a `std::map<std::string, std::string>`, kept as the list of its
entries in ascending key order. -/
def map_assign (key value : List Byte) :
    List (List Byte × List Byte) → List (List Byte × List Byte)
  | [] => [(key, value)]
  | e :: rest =>
      if str_lt key e.1 then (key, value) :: e :: rest
      else if str_lt e.1 key then e :: map_assign key value rest
      else (e.1, value) :: rest

/-- `std::to_string` of an unsigned value: its decimal digits. -/
def to_string_nat (n : Nat) : List Byte := (Nat.toDigits 10 n).map (fun ch => Fin.ofNat ch.toNat)

/-- `std::to_string(int)`. -/
def to_string_int (z : Int) : List Byte :=
  if z < 0 then 45 :: to_string_nat z.natAbs else to_string_nat z.natAbs

/-- Data members of `class ResponseBuilder`. -/
structure ResponseBuilder where
  status_code_ : Int
  reason_phrase_ : List Byte
  body_ : List Byte
  headers_ : List (List Byte × List Byte)
  http_version_ : List Byte
deriving DecidableEq, Repr

/-- `ResponseBuilder::getDefaultReasonPhrase`. -/
def getDefaultReasonPhrase (code : Int) : List Byte :=
  if code = 200 then bytes "OK"
  else if code = 400 then bytes "Bad Request"
  else if code = 404 then bytes "Not Found"
  else if code = 500 then bytes "Internal Server Error"
  else bytes "Unknown"

/-- `ResponseBuilder::ResponseBuilder(int status_code)`. -/
def ResponseBuilder.new (status_code : Int) : ResponseBuilder :=
  { status_code_ := status_code, reason_phrase_ := getDefaultReasonPhrase status_code,
    body_ := [], headers_ := [], http_version_ := bytes "1.1" }

/-- `ResponseBuilder::ResponseBuilder(int status_code, const std::string& reason_phrase)`. -/
def ResponseBuilder.new_with_reason (status_code : Int) (reason_phrase : List Byte) :
    ResponseBuilder :=
  { status_code_ := status_code, reason_phrase_ := reason_phrase,
    body_ := [], headers_ := [], http_version_ := bytes "1.1" }

/-- `ResponseBuilder::withBody`. -/
def ResponseBuilder.withBody (b : ResponseBuilder) (content : List Byte) : ResponseBuilder :=
  { b with body_ := content }

/-- `ResponseBuilder::withHeader`. -/
def ResponseBuilder.withHeader (b : ResponseBuilder) (name value : List Byte) :
    ResponseBuilder :=
  { b with headers_ := map_assign name value b.headers_ }

/-- `ResponseBuilder::withContentType`. -/
def ResponseBuilder.withContentType (b : ResponseBuilder) (type : List Byte) :
    ResponseBuilder :=
  b.withHeader (bytes "Content-Type") type

/-- `ResponseBuilder::withHttpVersion`. -/
def ResponseBuilder.withHttpVersion (b : ResponseBuilder) (version : List Byte) :
    ResponseBuilder :=
  { b with http_version_ := version }

/-- `ResponseBuilder::createOk`. -/
def ResponseBuilder.createOk : ResponseBuilder := ResponseBuilder.new 200

/-- `ResponseBuilder::createBadRequest()`. -/
def ResponseBuilder.createBadRequest : ResponseBuilder := ResponseBuilder.new 400

/-- `ResponseBuilder::createNotFound()`. -/
def ResponseBuilder.createNotFound : ResponseBuilder := ResponseBuilder.new 404

/-- `ResponseBuilder::createInternalServerError()`. -/
def ResponseBuilder.createInternalServerError : ResponseBuilder := ResponseBuilder.new 500

/-- The loop of `build` over the map: `key + ": " + value + "\r\n"` for each entry. -/
def headers_str_loop : List (List Byte × List Byte) → List Byte
  | [] => []
  | e :: rest => (e.1 ++ bytes ": " ++ e.2 ++ bytes "\r\n") ++ headers_str_loop rest

/-- `ResponseBuilder::build(out)`: the builder after the call (its map is updated) and
the response, or the exception thrown by `set_bufs`. -/
def ResponseBuilder.build (b : ResponseBuilder) (out : response) :
    Except String (ResponseBuilder × response) :=
  let headers1 := map_assign (bytes "Content-Length") (to_string_nat b.body_.length) b.headers_
  let headers2 := map_assign (bytes "Connection") (bytes "close") headers1
  let status_line :=
    bytes "HTTP/" ++ b.http_version_ ++ bytes " " ++ to_string_int b.status_code_ ++
      bytes " " ++ b.reason_phrase_ ++ bytes "\r\n"
  let headers_str := headers_str_loop headers2 ++ bytes "\r\n"
  let out1 := out.set_status_line status_line
  let out2 := out1.set_headers headers_str
  let out3 := out2.set_content b.body_
  match out3.set_bufs with
  | .error e => .error e
  | .ok out4 => .ok ({ b with headers_ := headers2 }, out4)

/-! ## The dispatcher (`dispatcher.h`, `dispatcher.cc`) -/

/-- `class RequestHandler`: what `handle_request` answers, a response or the exception
it throws. -/
structure RequestHandler where
  handle_request : request → Except String response

/-- `class RequestHandlerFactory`: `create(location, url)`, `none` for a null handler. -/
structure RequestHandlerFactory where
  create : List Byte → List Byte → Option RequestHandler

/-- `Dispatcher::RouteInit`; `factory` is `none` for a null `unique_ptr`. -/
structure RouteInit where
  location : List Byte
  factory : Option RequestHandlerFactory

/-- `Dispatcher::Route`. -/
structure Route where
  location : List Byte
  factory : Option RequestHandlerFactory

/-- `class Dispatcher`: the route table. -/
structure Dispatcher where
  routes_ : List Route

/-- The comparator given to `std::sort` in the constructor:
`lhs.location.size() > rhs.location.size()`. -/
def route_cmp (lhs rhs : RouteInit) : Bool := decide (lhs.location.length > rhs.location.length)

/-- What `std::sort` guarantees about its result: a permutation of the input in which no
element compares less than an earlier one. The order of equivalent elements is not
fixed. -/
def is_std_sort (input output : List RouteInit) : Prop :=
  output.Perm input ∧ output.Pairwise (fun a b => route_cmp b a = false)

/-- The loop of the constructor over the sorted routes: entries without a factory are
skipped. -/
def ctor_loop : List RouteInit → List Route
  | [] => []
  | init :: rest =>
      match init.factory with
      | none => ctor_loop rest
      | some f => { location := init.location, factory := some f } :: ctor_loop rest

/-- `Dispatcher::Dispatcher(routes)` once `std::sort` has produced `sorted`. -/
def Dispatcher.from_sorted (sorted : List RouteInit) : Dispatcher :=
  { routes_ := ctor_loop sorted }

/-- `Dispatcher::Dispatcher(routes)` with one admissible `std::sort`: a stable insertion
sort by descending location length. -/
def Dispatcher.new (routes : List RouteInit) : Dispatcher :=
  Dispatcher.from_sorted
    (routes.insertionSort (fun a b => b.location.length ≤ a.location.length))

/-- A stock response: `ResponseBuilder(...).build(*resp)` on a fresh response. -/
def stock_response (b : ResponseBuilder) : Except String response :=
  match b.build response.new with
  | .ok r => .ok r.2
  | .error e => .error e

/-- The inner loop of `Dispatch` (lines 92-102): the first route with location `/`
answers; without one the stock 500 is returned. Calling through a null pointer is
reported as an error. -/
def root_fallback (req : request) : List Route → Except String response
  | [] => stock_response ResponseBuilder.createInternalServerError
  | route :: rest =>
      if route.location = bytes "/" then
        match route.factory with
        | none => .error "null pointer dereference"
        | some f =>
            match f.create (bytes "/") req.uri with
            | none => .error "null pointer dereference"
            | some handler => handler.handle_request req
      else root_fallback req rest

/-- The outer loop of `Dispatch` over the routes still to be tried; `all` is the whole
table. `uri.rfind(location, 0) == 0` holds exactly when `location` is a prefix of
`uri`. -/
def dispatch_loop (all : List Route) (req : request) : List Route → Except String response
  | [] => stock_response ResponseBuilder.createNotFound
  | route :: rest =>
      if route.location.isPrefixOf req.uri then
        match route.factory with
        | none => dispatch_loop all req rest
        | some f =>
            match f.create route.location req.uri with
            | none => root_fallback req all
            | some handler => handler.handle_request req
      else dispatch_loop all req rest

/-- `Dispatcher::Dispatch`. -/
def Dispatcher.Dispatch (d : Dispatcher) (req : request) : Except String response :=
  dispatch_loop d.routes_ req d.routes_

/-- `Dispatcher::HandleBadRequest`. -/
def Dispatcher.HandleBadRequest (_d : Dispatcher) : Except String response :=
  stock_response ResponseBuilder.createBadRequest

/-! ## The factory calls made by `Dispatch`, and the two stock responses it builds -/

/-- The `create` calls of the inner loop of `Dispatch` (lines 92-98), as pairs
(location, url): one call on the first route with location `/` if it has a factory. -/
def root_fallback_calls (req : request) : List Route → List (List Byte × List Byte)
  | [] => []
  | route :: rest =>
      if route.location = bytes "/" then
        match route.factory with
        | none => []
        | some _ => [(bytes "/", req.uri)]
      else root_fallback_calls req rest

/-- The `create` calls of the outer loop of `Dispatch` over the routes still to be tried,
in the order in which they are made. -/
def dispatch_loop_calls (all : List Route) (req : request) :
    List Route → List (List Byte × List Byte)
  | [] => []
  | route :: rest =>
      if route.location.isPrefixOf req.uri then
        match route.factory with
        | none => dispatch_loop_calls all req rest
        | some f =>
            match f.create route.location req.uri with
            | none => (route.location, req.uri) :: root_fallback_calls req all
            | some _ => [(route.location, req.uri)]
      else dispatch_loop_calls all req rest

/-- The calls of `RequestHandlerFactory::create` that `Dispatcher::Dispatch` makes for a
request, as pairs (location, url) in order. -/
def Dispatcher.create_calls (d : Dispatcher) (req : request) : List (List Byte × List Byte) :=
  dispatch_loop_calls d.routes_ req d.routes_

/-- The stock 404 response produced by `ResponseBuilder::createNotFound().build`. -/
def stock_404 : response :=
  { m_status_line := bytes "HTTP/1.1 404 Not Found\r\n",
    m_headers := bytes "Connection: close\r\nContent-Length: 0\r\n\r\n",
    m_content := [],
    m_bufs := [bytes "HTTP/1.1 404 Not Found\r\n",
      bytes "Connection: close\r\nContent-Length: 0\r\n\r\n", []] }

/-- The stock 500 response produced by
`ResponseBuilder::createInternalServerError().build`. -/
def stock_500 : response :=
  { m_status_line := bytes "HTTP/1.1 500 Internal Server Error\r\n",
    m_headers := bytes "Connection: close\r\nContent-Length: 0\r\n\r\n",
    m_content := [],
    m_bufs := [bytes "HTTP/1.1 500 Internal Server Error\r\n",
      bytes "Connection: close\r\nContent-Length: 0\r\n\r\n", []] }

/-! ## Call histories of a response and of an assembler -/

/-- `response::get_bufs`: the byte ranges recorded by the last successful `set_bufs`. -/
def response.get_bufs (r : response) : List (List Byte) := r.m_bufs

/-- One call of a member function of `response` that can change the object. -/
inductive ResponseCall where
  | set_status_line (line : List Byte)
  | set_headers (line : List Byte)
  | set_content (line : List Byte)
  | set_bufs
deriving DecidableEq, Repr

/-- The object after one call. A `set_bufs` that throws leaves the object as it was (the
exception is raised before `m_bufs` is touched). -/
def response.call (r : response) : ResponseCall → response
  | .set_status_line line => r.set_status_line line
  | .set_headers line => r.set_headers line
  | .set_content line => r.set_content line
  | .set_bufs =>
      match r.set_bufs with
      | .ok r1 => r1
      | .error _ => r

/-- The object after a sequence of calls, in order. -/
def response.calls (r : response) (cs : List ResponseCall) : response :=
  cs.foldl response.call r

/-- One call of a fluent member function of `ResponseBuilder`. -/
inductive BuilderCall where
  | withBody (content : List Byte)
  | withHeader (name value : List Byte)
  | withContentType (type : List Byte)
  | withHttpVersion (version : List Byte)
deriving DecidableEq, Repr

/-- The builder after one fluent call. -/
def ResponseBuilder.call (b : ResponseBuilder) : BuilderCall → ResponseBuilder
  | .withBody content => b.withBody content
  | .withHeader name value => b.withHeader name value
  | .withContentType type => b.withContentType type
  | .withHttpVersion version => b.withHttpVersion version

/-- The builder after a chain of fluent calls, in order. -/
def ResponseBuilder.calls (b : ResponseBuilder) (cs : List BuilderCall) : ResponseBuilder :=
  cs.foldl ResponseBuilder.call b

/-- The version named by a call, if it is a `withHttpVersion` call. -/
def version_of_call : BuilderCall → Option (List Byte)
  | .withBody _ => none
  | .withHeader _ _ => none
  | .withContentType _ => none
  | .withHttpVersion version => some version

/-- The version named by the last `withHttpVersion` call of a chain, if there is one. -/
def version_override : List BuilderCall → Option (List Byte)
  | [] => none
  | c :: cs =>
      match version_override cs with
      | some v => some v
      | none => version_of_call c

/-- Either constructor of `ResponseBuilder`: with the default reason phrase of the code,
or with the phrase the caller gives. -/
def ResponseBuilder.construct (status_code : Int) : Option (List Byte) → ResponseBuilder
  | none => ResponseBuilder.new status_code
  | some reason_phrase => ResponseBuilder.new_with_reason status_code reason_phrase

/-- `std::map::find`: the value stored under a key, if there is one. -/
def map_find (key : List Byte) : List (List Byte × List Byte) → Option (List Byte)
  | [] => none
  | e :: rest => if e.1 = key then some e.2 else map_find key rest

/-- The entries of a map are in strictly ascending order of their keys. -/
def keys_ascending (m : List (List Byte × List Byte)) : Prop :=
  m.Pairwise (fun a b => str_lt a.1 b.1 = true)

/-- The header that a fluent call assigns: `withHeader` its name and value,
`withContentType` the name `Content-Type` and the type; the other calls assign none. -/
def header_of_call : BuilderCall → Option (List Byte × List Byte)
  | .withBody _ => none
  | .withHeader name value => some (name, value)
  | .withContentType type => some (bytes "Content-Type", type)
  | .withHttpVersion _ => none

/-- The final key-to-value mapping of a chain of calls, in the words of the
specification: a key is mapped to the value of the last call of the chain that assigns
it, and to nothing if no call assigns it. -/
def final_mapping : List BuilderCall → List Byte → Option (List Byte)
  | [], _ => none
  | c :: cs, k =>
      match final_mapping cs k with
      | some v => some v
      | none =>
          match header_of_call c with
          | none => none
          | some e => if e.1 = k then some e.2 else none

/-- `m[key] = value` on a `std::unordered_map`, kept as the list of its entries. -/
def umap_assign {V : Type} (key : List Byte) (value : V) :
    List (List Byte × V) → List (List Byte × V)
  | [] => [(key, value)]
  | e :: rest => if e.1 = key then (key, value) :: rest else e :: umap_assign key value rest

/-- `m.emplace(key, value)` on a `std::unordered_map`: nothing happens when the key is
present. -/
def umap_emplace {V : Type} (key : List Byte) (value : V) :
    List (List Byte × V) → List (List Byte × V)
  | [] => [(key, value)]
  | e :: rest => if e.1 = key then e :: rest else e :: umap_emplace key value rest

/-- `m.find(key)` on a `std::unordered_map`: the value stored under the key, if there is
one. -/
def umap_find {V : Type} (key : List Byte) : List (List Byte × V) → Option V
  | [] => none
  | e :: rest => if e.1 = key then some e.2 else umap_find key rest

/-! ## Handlers, the handler registry and `FromSpecs` (`echo_request_handler.cc`,
`not_found_request_handler.cc`, `handler_registry.cc`, `dispatcher.cc`) -/

/-- The stock 400 response produced by `ResponseBuilder::createBadRequest().build`. -/
def stock_400 : response :=
  { m_status_line := bytes "HTTP/1.1 400 Bad Request\r\n",
    m_headers := bytes "Connection: close\r\nContent-Length: 0\r\n\r\n",
    m_content := [],
    m_bufs := [bytes "HTTP/1.1 400 Bad Request\r\n",
      bytes "Connection: close\r\nContent-Length: 0\r\n\r\n", []] }

/-- `struct HandlerSpec` (`server_config.h`); the option map as its list of entries. -/
structure HandlerSpec where
  name : List Byte
  path : List Byte
  type : List Byte
  options : List (List Byte × List Byte)
deriving DecidableEq, Repr

/-- `handler_types::ECHO_HANDLER`. -/
def ECHO_HANDLER : List Byte := bytes "echo"

/-- `handler_types::NOT_FOUND_HANDLER`. -/
def NOT_FOUND_HANDLER : List Byte := bytes "not_found"

/-- `ResponseBuilder::createNotFound(message)`. -/
def ResponseBuilder.createNotFound_message (message : List Byte) : ResponseBuilder :=
  (ResponseBuilder.new 404).withBody message

/-- `class EchoRequestHandler`: `handle_request` builds a 200 response of type
`text/plain` whose body is `req.raw`. The instance name is only logged. -/
def EchoRequestHandler (_instance_name : List Byte) : RequestHandler :=
  { handle_request := fun req =>
      stock_response
        (((ResponseBuilder.new 200).withContentType (bytes "text/plain")).withBody req.raw) }

/-- `class EchoHandlerFactory`: `create` always produces an echo handler. -/
def EchoHandlerFactory (spec : HandlerSpec) : RequestHandlerFactory :=
  { create := fun _ _ =>
      some (EchoRequestHandler (if spec.name = [] then ECHO_HANDLER else spec.name)) }

/-- `class NotFoundRequestHandler`: `handle_request` builds a 404 response with a fixed
message as body. -/
def NotFoundRequestHandler (_instance_name : List Byte) : RequestHandler :=
  { handle_request := fun _ =>
      stock_response (ResponseBuilder.createNotFound_message
        (bytes "The requested resource could not be found.")) }

/-- `class NotFoundHandlerFactory`: `create` always produces a not-found handler. -/
def NotFoundHandlerFactory (spec : HandlerSpec) : RequestHandlerFactory :=
  { create := fun _ _ =>
      some (NotFoundRequestHandler
        (if spec.name = [] then NOT_FOUND_HANDLER else spec.name)) }

/-- `HandlerRegistry::FactoryCtor`: a null factory is `none`. -/
abbrev FactoryCtor := HandlerSpec → Option RequestHandlerFactory

/-- `handler_types::STATIC_HANDLER`. -/
def STATIC_HANDLER : List Byte := bytes "static"

/-- `handler_types::CRUD_HANDLER`. -/
def CRUD_HANDLER : List Byte := bytes "crud"

/-- `handler_types::HEALTH_HANDLER`. -/
def HEALTH_HANDLER : List Byte := bytes "health"

/-- `handler_types::SLEEP_HANDLER`. -/
def SLEEP_HANDLER : List Byte := bytes "sleep"

/-- `handler_types::LINK_MANAGE_HANDLER`. -/
def LINK_MANAGE_HANDLER : List Byte := bytes "link_manage"

/-- `handler_types::LINK_REDIRECT_HANDLER`. -/
def LINK_REDIRECT_HANDLER : List Byte := bytes "link_redirect"

/-- `handler_types::ANALYTICS_HANDLER`. -/
def ANALYTICS_HANDLER : List Byte := bytes "analytics"

/-- The constructors of the seven built-in factory classes whose handlers reach the file
system, the link manager or the clock: each field is the function from a specification
to the factory object that the constructor of the class builds from it (the constructors
only store the instance name, an option value or a manager for the data path). Nothing
is assumed about what these factories create; the lambdas that the registration
functions store around them are embedded below from the source. -/
structure BuiltinFactories where
  StaticHandlerFactory : HandlerSpec → RequestHandlerFactory
  CrudHandlerFactory : HandlerSpec → RequestHandlerFactory
  HealthHandlerFactory : HandlerSpec → RequestHandlerFactory
  SleepHandlerFactory : HandlerSpec → RequestHandlerFactory
  LinkManageHandlerFactory : HandlerSpec → RequestHandlerFactory
  LinkRedirectHandlerFactory : HandlerSpec → RequestHandlerFactory
  AnalyticsHandlerFactory : HandlerSpec → RequestHandlerFactory

/-- The state of `class HandlerRegistry`: the global map `g_registry` as the list of its
entries, and the function-local flag `done` of `RegisterBuiltins`. -/
structure HandlerRegistry where
  g_registry : List (List Byte × FactoryCtor)
  done : Bool

/-- The registry when the program starts: an empty map, `done` false. -/
def HandlerRegistry.initial : HandlerRegistry := { g_registry := [], done := false }

/-- `HandlerRegistry::Register`: `map()[type] = ctor`. -/
def HandlerRegistry.Register (r : HandlerRegistry) (type : List Byte) (ctor : FactoryCtor) :
    HandlerRegistry :=
  { r with g_registry := umap_assign type ctor r.g_registry }

/-- `RegisterEchoHandlerFactory` (`echo_handler_factory.cc`). -/
def RegisterEchoHandlerFactory (r : HandlerRegistry) : HandlerRegistry :=
  r.Register ECHO_HANDLER (fun spec => some (EchoHandlerFactory spec))

/-- `RegisterStaticHandlerFactory`: the lambda returns a null factory when the option
`root` is missing. -/
def RegisterStaticHandlerFactory (B : BuiltinFactories) (r : HandlerRegistry) :
    HandlerRegistry :=
  r.Register STATIC_HANDLER (fun spec =>
    match map_find (bytes "root") spec.options with
    | none => none
    | some _ => some (B.StaticHandlerFactory spec))

/-- `RegisterCrudHandlerFactory`: the lambda returns a null factory when the option
`data_path` is missing. -/
def RegisterCrudHandlerFactory (B : BuiltinFactories) (r : HandlerRegistry) :
    HandlerRegistry :=
  r.Register CRUD_HANDLER (fun spec =>
    match map_find (bytes "data_path") spec.options with
    | none => none
    | some _ => some (B.CrudHandlerFactory spec))

/-- `RegisterNotFoundHandlerFactory` (`not_found_handler_factory.cc`). -/
def RegisterNotFoundHandlerFactory (r : HandlerRegistry) : HandlerRegistry :=
  r.Register NOT_FOUND_HANDLER (fun spec => some (NotFoundHandlerFactory spec))

/-- `RegisterHealthHandlerFactory`. -/
def RegisterHealthHandlerFactory (B : BuiltinFactories) (r : HandlerRegistry) :
    HandlerRegistry :=
  r.Register HEALTH_HANDLER (fun spec => some (B.HealthHandlerFactory spec))

/-- `RegisterSleepHandlerFactory`. -/
def RegisterSleepHandlerFactory (B : BuiltinFactories) (r : HandlerRegistry) :
    HandlerRegistry :=
  r.Register SLEEP_HANDLER (fun spec => some (B.SleepHandlerFactory spec))

/-- `RegisterLinkManageHandlerFactory`: the lambda returns a null factory when the option
`data_path` is missing. -/
def RegisterLinkManageHandlerFactory (B : BuiltinFactories) (r : HandlerRegistry) :
    HandlerRegistry :=
  r.Register LINK_MANAGE_HANDLER (fun spec =>
    match map_find (bytes "data_path") spec.options with
    | none => none
    | some _ => some (B.LinkManageHandlerFactory spec))

/-- `RegisterLinkRedirectHandlerFactory`: the lambda returns a null factory when the
option `data_path` is missing. -/
def RegisterLinkRedirectHandlerFactory (B : BuiltinFactories) (r : HandlerRegistry) :
    HandlerRegistry :=
  r.Register LINK_REDIRECT_HANDLER (fun spec =>
    match map_find (bytes "data_path") spec.options with
    | none => none
    | some _ => some (B.LinkRedirectHandlerFactory spec))

/-- `RegisterAnalyticsHandlerFactory`: the lambda returns a null factory when the option
`data_path` is missing. -/
def RegisterAnalyticsHandlerFactory (B : BuiltinFactories) (r : HandlerRegistry) :
    HandlerRegistry :=
  r.Register ANALYTICS_HANDLER (fun spec =>
    match map_find (bytes "data_path") spec.options with
    | none => none
    | some _ => some (B.AnalyticsHandlerFactory spec))

/-- `HandlerRegistry::RegisterBuiltins`: nothing happens once `done` is set; otherwise
`done` is set and the nine registration functions run in the order of the source. -/
def HandlerRegistry.RegisterBuiltins (B : BuiltinFactories) (r : HandlerRegistry) :
    HandlerRegistry :=
  if r.done then r
  else
    let r0 : HandlerRegistry := { r with done := true }
    let r1 := RegisterEchoHandlerFactory r0
    let r2 := RegisterStaticHandlerFactory B r1
    let r3 := RegisterCrudHandlerFactory B r2
    let r4 := RegisterNotFoundHandlerFactory r3
    let r5 := RegisterHealthHandlerFactory B r4
    let r6 := RegisterSleepHandlerFactory B r5
    let r7 := RegisterLinkManageHandlerFactory B r6
    let r8 := RegisterLinkRedirectHandlerFactory B r7
    RegisterAnalyticsHandlerFactory B r8

/-- `HandlerRegistry::CreateFactory`: the factory (`none` for a null pointer) and the
registry after the call. The built-in types are registered only if the map is empty
when the call begins; a type that the map does not hold gives a null factory. -/
def HandlerRegistry.CreateFactory (B : BuiltinFactories) (r : HandlerRegistry)
    (spec : HandlerSpec) : Option RequestHandlerFactory × HandlerRegistry :=
  let r1 := if r.g_registry.isEmpty then r.RegisterBuiltins B else r
  match umap_find spec.type r1.g_registry with
  | none => (none, r1)
  | some ctor => (ctor spec, r1)

/-- The first loop of `BuildRoutesFromSpecs`: one route per specification whose factory
could be constructed, in the order of the specifications; the registry is passed from
one `CreateFactory` call to the next. -/
def build_routes_loop (B : BuiltinFactories) :
    HandlerRegistry → List HandlerSpec → List RouteInit × HandlerRegistry
  | r, [] => ([], r)
  | r, spec :: rest =>
      match r.CreateFactory B spec with
      | (none, r1) => build_routes_loop B r1 rest
      | (some factory, r1) =>
          match build_routes_loop B r1 rest with
          | (routes, r2) => ({ location := spec.path, factory := some factory } :: routes, r2)

/-- The second loop of `BuildRoutesFromSpecs`: is there a route with location `/`. -/
def has_root : List RouteInit → Bool
  | [] => false
  | route :: rest => if route.location = bytes "/" then true else has_root rest

/-- The specification of the injected default route (lines 40-43). -/
def not_found_spec : HandlerSpec :=
  { name := bytes "default_not_found", path := bytes "/", type := NOT_FOUND_HANDLER,
    options := [] }

/-- `BuildRoutesFromSpecs` of `dispatcher.cc`: the routes built and the registry after
the call. The default route is appended only if `CreateFactory` gives a factory for
`not_found_spec` (the test `if (not_found_factory)` of line 46). -/
def BuildRoutesFromSpecs (B : BuiltinFactories) (r : HandlerRegistry)
    (specs : List HandlerSpec) : List RouteInit × HandlerRegistry :=
  match build_routes_loop B r specs with
  | (routes, r1) =>
      if has_root routes then (routes, r1)
      else
        match r1.CreateFactory B not_found_spec with
        | (none, r2) => (routes, r2)
        | (some not_found_factory, r2) =>
            (routes ++ [{ location := bytes "/", factory := some not_found_factory }], r2)

/-- `Dispatcher::FromSpecs`, once the `std::sort` of the constructor has produced
`sorted` from the routes built. -/
def Dispatcher.FromSpecs (sorted : List RouteInit) : Dispatcher := Dispatcher.from_sorted sorted

/-- The routes of the specifications that survive, in the words of the specification:
each specification whose factory can be constructed by the registry gives one route at
its path; the others give none. -/
def surviving_routes (B : BuiltinFactories) (r : HandlerRegistry)
    (specs : List HandlerSpec) : List RouteInit :=
  specs.filterMap (fun spec =>
    (r.CreateFactory B spec).1.map
      (fun factory => { location := spec.path, factory := some factory }))

/-! ## The session and its socket operations (`session.h`, `session.cc`) -/

/-- An operation that a session issues on its socket. -/
inductive SocketOp where
  | async_read_some
  | async_write (bufs : List (List Byte))
  | shutdown_both
deriving DecidableEq, Repr

/-- Reads and writes complete later, through their callback; `shutdown` returns at once. -/
def SocketOp.is_async : SocketOp → Bool
  | .async_read_some => true
  | .async_write _ => true
  | .shutdown_both => false

/-- The operation is an `async_write`. -/
def SocketOp.is_write : SocketOp → Bool
  | .async_write _ => true
  | _ => false

/-- `Session::max_length`, the size of the read buffer `data_`. -/
def max_length : Nat := 1024

/-- Data members of `class Session`. Of `m_socket` the model keeps whether it is connected
(`remote_endpoint()` throws when it is not); `data_` is not kept: the bytes a read left in
it are passed to the read callback. `m_response` starts as a null pointer. -/
structure Session where
  m_socket_connected : Bool
  m_response : Option response
  parser_ : RequestParser
  current_request_ : request
  dispatcher_ : Dispatcher

/-- `Session::Session`: a socket that is not connected yet, no response, a new parser and
an empty request record. -/
def Session.new (dispatcher : Dispatcher) : Session :=
  { m_socket_connected := false, m_response := none, parser_ := RequestParser.new,
    current_request_ := request.empty, dispatcher_ := dispatcher }

/-- The session after the acceptor has connected its socket (`Server::start_accept`
accepts into `socket()`). -/
def Session.accepted (s : Session) : Session :=
  { s with m_socket_connected := true }

/-- `Session::handle_read`: issues one `async_read_some` into `data_`. -/
def Session.handle_read (s : Session) : Session × List SocketOp :=
  (s, [.async_read_some])

/-- `Session::start`. -/
def Session.start (s : Session) : Session × List SocketOp :=
  s.handle_read

/-- `Session::handle_write`: dereferences `m_response`, asks the socket for the remote
endpoint (for the log line) and issues one `async_write` of `get_bufs()`. -/
def Session.handle_write (s : Session) : Except String (Session × List SocketOp) :=
  match s.m_response with
  | none => .error "null pointer dereference"
  | some r =>
      if s.m_socket_connected then .ok (s, [.async_write r.get_bufs])
      else .error "remote_endpoint: transport endpoint is not connected"

/-- `Session::handle_read_callback`, with the first `bytes_transferred` bytes of `data_`
as `data`. The result is the session and the operations issued, or the exception that
leaves the callback. -/
def Session.handle_read_callback (s : Session) (error : Bool) (data : List Byte) :
    Except String (Session × List SocketOp) :=
  if error then .ok (s, [])
  else
    match s.parser_.parse s.current_request_ (some data) with
    | none => .error "parse: loop budget exhausted"
    | some (.PROPER_REQUEST, p, req) =>
        match s.dispatcher_.Dispatch req with
        | .error e => .error e
        | .ok resp =>
            Session.handle_write
              { s with m_response := some resp, parser_ := p.reset,
                       current_request_ := req.reset }
    | some (.BAD_REQUEST, p, req) =>
        match s.dispatcher_.HandleBadRequest with
        | .error e => .error e
        | .ok resp =>
            Session.handle_write
              { s with m_response := some resp, parser_ := p.reset,
                       current_request_ := req.reset }
    | some (.IN_PROGRESS, p, req) =>
        .ok (Session.handle_read { s with parser_ := p, current_request_ := req })

/-- `Session::handle_write_callback`: on success the socket is shut down in both
directions. -/
def Session.handle_write_callback (s : Session) (error : Bool) : Session × List SocketOp :=
  if error then (s, []) else (s, [.shutdown_both])

/-- A session with the asynchronous operations it has issued that have not completed yet,
and every operation it has issued so far, oldest first. -/
structure Connection where
  session : Session
  outstanding : List SocketOp
  issued : List SocketOp

/-- A session on which nothing has been issued yet. -/
def Connection.new (s : Session) : Connection :=
  { session := s, outstanding := [], issued := [] }

/-- Records the operations issued by one member function call. -/
def Connection.issue (c : Connection) (s : Session) (ops : List SocketOp) : Connection :=
  { session := s, outstanding := c.outstanding ++ ops.filter SocketOp.is_async,
    issued := c.issued ++ ops }

/-- What can happen to a session: a call of `start`, and the completion of an outstanding
read or write, which runs its callback. -/
inductive Event where
  | start
  | read_completes (error : Bool) (data : List Byte)
  | write_completes (error : Bool)
deriving DecidableEq, Repr

/-- One event. `none` when the event cannot occur (no such operation is outstanding; a
read without error delivers between 1 and `max_length` bytes) or when the callback ends
with an exception, which ends the run. -/
def Connection.step (c : Connection) : Event → Option Connection
  | .start => some (c.issue c.session.start.1 c.session.start.2)
  | .read_completes error data =>
      if SocketOp.async_read_some ∈ c.outstanding ∧
          (error = false → data ≠ [] ∧ data.length ≤ max_length) then
        match c.session.handle_read_callback error data with
        | .error _ => none
        | .ok r =>
            some (Connection.issue
              { c with outstanding := c.outstanding.erase .async_read_some } r.1 r.2)
      else none
  | .write_completes error =>
      if c.outstanding.any SocketOp.is_write then
        some (Connection.issue
          { c with outstanding := c.outstanding.eraseP SocketOp.is_write }
          (c.session.handle_write_callback error).1 (c.session.handle_write_callback error).2)
      else none

/-- A sequence of events, in order. -/
def Connection.run (c : Connection) : List Event → Option Connection
  | [] => some c
  | e :: es =>
      match c.step e with
      | none => none
      | some c1 => c1.run es

/-- The shape of a connection on which `start` has been called once. -/
def one_at_a_time (c : Connection) : Prop :=
  (c.outstanding = [.async_read_some] ∧
    ∃ n, c.issued = List.replicate n .async_read_some) ∨
  (∃ b n, c.outstanding = [.async_write b] ∧
    c.issued = List.replicate n .async_read_some ++ [.async_write b]) ∨
  (c.outstanding = [] ∧ ∃ n tail, c.issued = List.replicate n .async_read_some ++ tail ∧
    (tail = [] ∨ ∃ b, tail = [.async_write b] ∨ tail = [.async_write b, .shutdown_both]))

/-! ## The routes with a factory, and the iterations of the parser loop -/

/-- The input routes that have a factory, in the words of the specification: the routes
without a factory are left out, the others are kept as they are and in their order. -/
def routes_with_factory (routes : List RouteInit) : List Route :=
  routes.filterMap (fun init =>
    init.factory.map (fun f => { location := init.location, factory := some f }))

/-- The iterations of the loop of `RequestParser::parse`: the index `i` of each read
`char c = data[i]`, in order. The recursion is the one of `parse_loop`, with the same
budget of loop tests. -/
def parse_loop_reads (data : List Byte) : Nat → Nat → RequestParser → request → List Nat
  | 0, _, _, _ => []
  | fuel + 1, i, p, req =>
      if h : i < data.length then
        match switch_body data i (data.get ⟨i, h⟩) p req with
        | .ret _ _ _ => [i]
        | .cont i1 p1 req1 => i :: parse_loop_reads data fuel ((i1 + 1) % SIZE_MOD) p1 req1
      else []

/-! ## The link manager interface and the redirect handler (`link_manager_types.h`,
`link_manager_interface.h`, `link_redirect_request_handler.cc`) -/

/-- `struct LinkRecord`. -/
structure LinkRecord where
  code : List Byte
  url : List Byte
  visits : Nat
  password_hash : Option (List Byte)
  password_salt : Option (List Byte)
deriving DecidableEq, Repr

/-- `struct LinkCreateParams`. -/
structure LinkCreateParams where
  url : List Byte
  password_hash : Option (List Byte)
  password_salt : Option (List Byte)
deriving DecidableEq, Repr

/-- `enum class LinkStatus`. -/
inductive LinkStatus where
  | Ok | NotFound | Invalid | FsError
deriving DecidableEq, Repr

/-- `struct CreateResult`. -/
structure CreateResult where
  status : LinkStatus
  code : Option (List Byte)
deriving DecidableEq, Repr

/-- `struct GetResult`. -/
structure GetResult where
  status : LinkStatus
  record : Option LinkRecord
deriving DecidableEq, Repr

/-- `LinkManagerInterface::IsValidUrl`: not empty, at most 2048 bytes, starts with
`http://` or `https://`, holds no space. -/
def IsValidUrl (url : List Byte) : Bool :=
  if url = [] ∨ url.length > 2048 then false
  else
    let scheme := (bytes "http://").isPrefixOf url || (bytes "https://").isPrefixOf url
    if !scheme then false
    else !url.contains 32

/-- `LinkManagerInterface::IsValidCode`: 1 to 32 ASCII letters and digits. -/
def IsValidCode (code : List Byte) : Bool :=
  if code = [] ∨ code.length > 32 then false
  else
    code.all (fun c =>
      (decide (48 ≤ char_val c) && decide (char_val c ≤ 57)) ||
      (decide (65 ≤ char_val c) && decide (char_val c ≤ 90)) ||
      (decide (97 ≤ char_val c) && decide (char_val c ≤ 122)))

/-- A call of a virtual member function of `LinkManagerInterface` made by a handler. -/
inductive ManagerCall where
  | Get (code : List Byte)
  | IncrementCodeVisits (code : List Byte)
  | IncrementVisits (code : List Byte)
  | GetUrlVisitCount (url : List Byte)
  | GetAllUrlVisits
deriving DecidableEq, Repr

/-- What an implementation of `LinkManagerInterface` answers to the calls that a handler
makes while it serves one request. `GetUrlVisitCount` and `GetAllUrlVisits` are `none`
when they return `false`; the results of the two increment calls are not used by the
handlers. -/
structure LinkManagerInterface where
  Get : List Byte → GetResult
  GetUrlVisitCount : List Byte → Option Nat
  GetAllUrlVisits : Option (List (List Byte × Nat))

/-- `TrimPrefix` of the link and analytics handlers. -/
def TrimPrefix (s pre : List Byte) : List Byte :=
  if pre.isPrefixOf s then s.drop pre.length else s

/-- `ResponseBuilder::createBadRequest(message)`. -/
def ResponseBuilder.createBadRequest_message (message : List Byte) : ResponseBuilder :=
  (ResponseBuilder.new 400).withBody message

/-- `ResponseBuilder::createInternalServerError(message)`. -/
def ResponseBuilder.createInternalServerError_message (message : List Byte) :
    ResponseBuilder :=
  (ResponseBuilder.new 500).withBody message

/-- `LinkRedirectRequestHandler::handle_request`: the calls made on the manager, in
order, and the response or the exception of `build`. -/
def LinkRedirectRequestHandler.handle_request (mount_prefix_ : List Byte)
    (manager_ : LinkManagerInterface) (req : request) :
    List ManagerCall × Except String response :=
  let rel := TrimPrefix req.uri mount_prefix_
  if req.method ≠ bytes "GET" then
    ([], stock_response
      ((ResponseBuilder.new_with_reason 405 (bytes "Method Not Allowed")).withHeader
        (bytes "Allow") (bytes "GET")))
  else if rel = [] then
    ([], stock_response
      ((ResponseBuilder.new_with_reason 400 (bytes "Bad Request")).withBody
        (bytes "empty code")))
  else
    let code := if rel.head? = some 47 then rel.drop 1 else rel
    if !IsValidCode code then
      ([], stock_response (ResponseBuilder.createBadRequest_message (bytes "invalid code")))
    else
      let gr := manager_.Get code
      match gr.status, gr.record with
      | .Ok, some record =>
          ([.Get code, .IncrementCodeVisits code, .IncrementVisits code],
            stock_response
              ((ResponseBuilder.new_with_reason 302 (bytes "Found")).withHeader
                (bytes "Location") record.url))
      | .NotFound, _ => ([.Get code], stock_response ResponseBuilder.createNotFound)
      | .Invalid, _ =>
          ([.Get code],
            stock_response (ResponseBuilder.createBadRequest_message (bytes "Invalid code")))
      | .FsError, _ =>
          ([.Get code],
            stock_response
              (ResponseBuilder.createInternalServerError_message (bytes "Filesystem error")))
      | .Ok, none => ([.Get code], stock_response ResponseBuilder.createInternalServerError)

/-- Test fixture: a manager that answers every `Get` with a record holding `url` and
fails the two visit queries. -/
def url_manager (url : List Byte) : LinkManagerInterface :=
  { Get := fun code =>
      { status := .Ok,
        record := some { code := code, url := url, visits := 0, password_hash := none,
                         password_salt := none } },
    GetUrlVisitCount := fun _ => none,
    GetAllUrlVisits := none }

/-- The pieces into which the occurrences of CR LF, found from left to right, cut a byte
string; `acc` is the piece begun so far. A string that ends in CR LF has an empty last
piece. -/
def crlf_split : List Byte → List Byte → List (List Byte)
  | [], acc => [acc]
  | c :: rest, acc =>
      if c = 10 ∧ acc.getLast? = some 13 then acc.dropLast :: crlf_split rest []
      else crlf_split rest (acc ++ [c])

/-- The byte string holds a CR immediately followed by LF. -/
def has_crlf : List Byte → Bool
  | [] => false
  | c :: rest => (decide (c = 13) && decide (rest.head? = some 10)) || has_crlf rest

/-! ## Base 62 codes and the fake link manager (`base62.h`,
`tests/fakes/link_manager_fake.cc`) -/

/-- `base62::kAlphabet`. -/
def kAlphabet : List Byte :=
  bytes "0123456789ABCDEFGHIJKLMNOPQRSTUVWXYZabcdefghijklmnopqrstuvwxyz"

/-- The loop `while (n > 0)` of `base62::Encode`: pushes `kAlphabet[n % 62]` and divides
by 62. `fuel` bounds the number of loop tests; `none` means the budget ran out. -/
def Encode_loop : Nat → Nat → List Byte → Option (List Byte)
  | 0, _, _ => none
  | fuel + 1, n, out =>
      if n > 0 then
        Encode_loop fuel (n / 62)
          (out ++ [kAlphabet.get ⟨n % 62, Nat.mod_lt n (Nat.succ_pos 61)⟩])
      else some out

/-- `base62::Encode(n)` for a 64-bit `n`: twelve loop tests are enough below `62 ^ 11`. -/
def base62.Encode (n : Nat) : Option (List Byte) :=
  if n = 0 then some [kAlphabet.get ⟨0, Nat.succ_pos 61⟩]
  else (Encode_loop 12 n []).map List.reverse

/-- Data members of `class LinkManagerFake` (the mutex apart). -/
structure LinkManagerFake where
  counter_ : Nat
  by_code_ : List (List Byte × LinkRecord)
  url_counts_ : List (List Byte × Nat)
deriving DecidableEq, Repr

/-- `LinkManagerFake::LinkManagerFake()`. -/
def LinkManagerFake.new : LinkManagerFake :=
  { counter_ := 0, by_code_ := [], url_counts_ := [] }

/-- `LinkManagerFake::Create`: the result and the manager after the call; `++counter_`
is taken modulo `2 ^ 64`. `none` only if `Encode` exhausts its loop budget. -/
def LinkManagerFake.Create (m : LinkManagerFake) (params : LinkCreateParams) :
    Option (CreateResult × LinkManagerFake) :=
  if !IsValidUrl params.url then some ({ status := .Invalid, code := none }, m)
  else
    match base62.Encode ((m.counter_ + 1) % 2 ^ 64) with
    | none => none
    | some code =>
        some ({ status := .Ok, code := some code },
          { counter_ := (m.counter_ + 1) % 2 ^ 64,
            by_code_ := umap_assign code
              { code := code, url := params.url, visits := 0,
                password_hash := params.password_hash,
                password_salt := params.password_salt } m.by_code_,
            url_counts_ := umap_emplace params.url 0 m.url_counts_ })

/-- Successive `Create` calls on one manager: the results in order and the manager after
the last call. -/
def LinkManagerFake.creates (m : LinkManagerFake) :
    List LinkCreateParams → Option (List CreateResult × LinkManagerFake)
  | [] => some ([], m)
  | params :: rest =>
      match m.Create params with
      | none => none
      | some (r, m1) =>
          match m1.creates rest with
          | none => none
          | some (rs, m2) => some (r :: rs, m2)

/-- The digits of a number as `Encode` produces them, least significant first: the one
digit 0 for 0. -/
def base62_digits (n : Nat) : List Nat := if n = 0 then [0] else Nat.digits 62 n

/-! ## The analytics handler (`analytics_request_handler.cc`) -/

/-- `isspace` in the C locale. -/
def isspace (c : Byte) : Bool := decide (c = 32) || (decide (9 ≤ c.val) && decide (c.val ≤ 13))

/-- `isdigit`. -/
def isdigit (c : Byte) : Bool := decide (48 ≤ c.val) && decide (c.val ≤ 57)

/-- `std::strtol(s, &end, 10)` with a 64-bit `long`: white space is skipped, one sign is
accepted, then the longest run of digits is converted; the result is the value, clamped
to the range of `long`, and the offset of `end` in `s`, which is 0 when no digit was
converted. -/
def strtol (s : List Byte) : Int × Nat :=
  let s1 := s.dropWhile isspace
  let s2 := if s1.head? = some 45 ∨ s1.head? = some 43 then s1.drop 1 else s1
  let ds := s2.takeWhile isdigit
  if ds = [] then (0, 0)
  else
    let v : Int := (digits_value ds : Nat)
    let value : Int :=
      if s1.head? = some 45 then (if v > 2 ^ 63 then -(2 ^ 63) else -v)
      else (if v > 2 ^ 63 - 1 then 2 ^ 63 - 1 else v)
    (value, s.length - s2.length + ds.length)

/-- A JSON value as a handler hands it to `boost::json::serialize`; the members of an
object are in insertion order. -/
inductive JsonValue where
  | string (s : List Byte)
  | number (n : Nat)
  | object (members : List (List Byte × JsonValue))
  | array (items : List JsonValue)

/-- The comparator given to `std::sort` in `HandleTopQuery`: more visits first, equal
visits by `operator<` of the URLs. -/
def stats_cmp (lhs rhs : List Byte × Nat) : Bool :=
  if lhs.2 = rhs.2 then str_lt lhs.1 rhs.1 else decide (lhs.2 > rhs.2)

/-- `std::sort` with `stats_cmp`. The comparator orders any two different entries, so the
sorted sequence does not depend on the algorithm; it is computed by insertion. -/
def std_sort_stats (stats : List (List Byte × Nat)) : List (List Byte × Nat) :=
  stats.insertionSort (fun a b => stats_cmp b a = false)

/-- The JSON object built for one entry of the leaderboard. -/
def top_entry_json (entry : List Byte × Nat) : JsonValue :=
  .object [(bytes "url", .string entry.1), (bytes "visits", .number entry.2)]

/-- `AnalyticsRequestHandler::HandleTopQuery`: the calls made on the manager and the
response. `serialize` is `boost::json::serialize`. -/
def AnalyticsRequestHandler.HandleTopQuery (serialize : JsonValue → List Byte)
    (manager_ : LinkManagerInterface) (count_str : List Byte) :
    List ManagerCall × Except String response :=
  if count_str = [] then
    ([], stock_response
      (ResponseBuilder.createBadRequest_message (bytes "missing leaderboard size")))
  else if (strtol count_str).2 = 0 ∨ (strtol count_str).1 ≤ 0 then
    ([], stock_response
      (ResponseBuilder.createBadRequest_message (bytes "invalid leaderboard size")))
  else
    match manager_.GetAllUrlVisits with
    | none => ([.GetAllUrlVisits], stock_response ResponseBuilder.createInternalServerError)
    | some stats =>
        let sorted := std_sort_stats stats
        let kept :=
          if (strtol count_str).1.toNat < sorted.length then
            sorted.take (strtol count_str).1.toNat
          else sorted
        ([.GetAllUrlVisits], stock_response
          ((ResponseBuilder.createOk.withContentType (bytes "application/json")).withBody
            (serialize (.array (kept.map top_entry_json)))))

/-- `AnalyticsRequestHandler::HandleCodeQuery`. -/
def AnalyticsRequestHandler.HandleCodeQuery (serialize : JsonValue → List Byte)
    (manager_ : LinkManagerInterface) (code : List Byte) :
    List ManagerCall × Except String response :=
  if !IsValidCode code then
    ([], stock_response (ResponseBuilder.createBadRequest_message (bytes "invalid code")))
  else
    match (manager_.Get code).status, (manager_.Get code).record with
    | .NotFound, _ => ([.Get code], stock_response ResponseBuilder.createNotFound)
    | .Ok, some record =>
        match manager_.GetUrlVisitCount record.url with
        | none =>
            ([.Get code, .GetUrlVisitCount record.url],
              stock_response ResponseBuilder.createInternalServerError)
        | some url_visits =>
            ([.Get code, .GetUrlVisitCount record.url], stock_response
              ((ResponseBuilder.createOk.withContentType (bytes "application/json")).withBody
                (serialize (.object
                  [(bytes "code", .string record.code), (bytes "url", .string record.url),
                   (bytes "visits", .number record.visits),
                   (bytes "url_visits", .number url_visits)]))))
    | _, _ => ([.Get code], stock_response ResponseBuilder.createInternalServerError)

/-- `AnalyticsRequestHandler::handle_request`. -/
def AnalyticsRequestHandler.handle_request (serialize : JsonValue → List Byte)
    (mount_prefix_ : List Byte) (manager_ : LinkManagerInterface) (req : request) :
    List ManagerCall × Except String response :=
  let rel0 := TrimPrefix req.uri mount_prefix_
  let rel := if rel0.head? = some 47 then rel0.drop 1 else rel0
  if rel = [] then
    ([], stock_response
      (ResponseBuilder.createBadRequest_message (bytes "missing analytics path")))
  else if (bytes "top").isPrefixOf rel then
    if rel.length = 3 then
      ([], stock_response
        (ResponseBuilder.createBadRequest_message (bytes "missing leaderboard size")))
    else if rel.get? 3 = some 47 then
      AnalyticsRequestHandler.HandleTopQuery serialize manager_ (rel.drop 4)
    else
      ([], stock_response
        (ResponseBuilder.createBadRequest_message (bytes "malformed analytics path")))
  else AnalyticsRequestHandler.HandleCodeQuery serialize manager_ rel

/-- Test fixture: a stand-in for `boost::json::serialize` that writes the empty array
and, for every other value, `null`. -/
def serialize_fixture : JsonValue → List Byte
  | .array [] => bytes "[]"
  | _ => bytes "null"

/-- Test fixture: a manager whose `GetAllUrlVisits` returns the given statistics. -/
def stats_manager (stats : List (List Byte × Nat)) : LinkManagerInterface :=
  { Get := fun _ => { status := .NotFound, record := none },
    GetUrlVisitCount := fun _ => none,
    GetAllUrlVisits := some stats }

/-- Modelled from the spec: the tokenized configuration, `NginxConfigStatement` of
`config_parser.h`, a header that is not among the sources. A statement has its tokens
and, when it opens a block, the statements of that block (a `NginxConfig`); these are
the members that `server_config.cc` reads. -/
inductive NginxConfigStatement where
  | mk (tokens_ : List (List Byte)) (child_block_ : Option (List NginxConfigStatement))

/-- Member `tokens_`. -/
def NginxConfigStatement.tokens_ : NginxConfigStatement → List (List Byte)
  | .mk tokens _ => tokens

/-- Member `child_block_`: the statements of the block, `none` for a null pointer. -/
def NginxConfigStatement.child_block_ :
    NginxConfigStatement → Option (List NginxConfigStatement)
  | .mk _ child => child

/-- `struct ServerConfig`. -/
structure ServerConfig where
  port : Int
  handlers : List HandlerSpec
deriving DecidableEq, Repr

/-- A default-constructed `ServerConfig`. -/
def ServerConfig.new : ServerConfig := { port := 0, handlers := [] }

/-- `BuildError`. -/
def BuildError (message : List Byte) : List Byte := bytes "ServerConfigBuilder: " ++ message

/-- `std::stoi`: `none` for the exceptions `std::invalid_argument` (no digits) and
`std::out_of_range` (the value does not fit an `int`). -/
def stoi (s : List Byte) : Option Int :=
  if (strtol s).2 = 0 then none
  else if (strtol s).1 < -(2 ^ 31) ∨ (strtol s).1 > 2 ^ 31 - 1 then none
  else some (strtol s).1

/-- The first loop of `FromTokenizedConfig`: the block of the top-level `server`
statement, or the message of the error for a second one. -/
def find_server_scope :
    List NginxConfigStatement → Option (List NginxConfigStatement) →
      Except (List Byte) (Option (List NginxConfigStatement))
  | [], server_scope => .ok server_scope
  | statement :: rest, server_scope =>
      match statement.tokens_, statement.child_block_ with
      | directive :: _, some block =>
          if directive = bytes "server" then
            match server_scope with
            | some _ => .error (bytes "multiple top-level server blocks are not supported")
            | none => find_server_scope rest (some block)
          else find_server_scope rest server_scope
      | _, _ => find_server_scope rest server_scope

/-- The loop over the statements of a `location` block: `handler` sets the type, every
other statement with at least two tokens sets an option. -/
def location_loop (spec : HandlerSpec) :
    List NginxConfigStatement → Except (List Byte) HandlerSpec
  | [] => .ok spec
  | child :: rest =>
      match child.tokens_ with
      | [] => location_loop spec rest
      | key :: values =>
          if key = bytes "handler" then
            match values with
            | [value] => location_loop { spec with type := value } rest
            | _ => .error (bytes "handler type expects exactly one value")
          else
            match values with
            | value :: _ =>
                location_loop { spec with options := map_assign key value spec.options } rest
            | [] => location_loop spec rest

/-- The loop over the statements of the server block, with the locals `result`,
`port_set` and `paths` (the set as the list of its elements). -/
def server_loop :
    List NginxConfigStatement → ServerConfig → Bool → List (List Byte) →
      Except (List Byte) (ServerConfig × Bool)
  | [], result, port_set, _ => .ok (result, port_set)
  | statement :: rest, result, port_set, paths =>
      match statement.tokens_ with
      | [] => server_loop rest result port_set paths
      | directive :: values =>
          if directive = bytes "listen" then
            match values with
            | [value] =>
                match stoi value with
                | some port => server_loop rest { result with port := port } true paths
                | none => .error (bytes "listen directive has invalid port value")
            | _ => .error (bytes "listen directive expects exactly one port value")
          else if directive = bytes "location" then
            match values with
            | [path] =>
                match statement.child_block_ with
                | none => .error (bytes "handler block missing body")
                | some block =>
                    match location_loop
                        { name := path, path := path, type := [], options := [] } block with
                    | .error e => .error e
                    | .ok spec =>
                        if spec.path = [] ∨ spec.path.head? ≠ some 47 then
                          .error (bytes "handler path must start with '/'")
                        else if spec.type = [] then
                          .error (bytes "handler type must be specified")
                        else if spec.path ∈ paths then
                          .error (bytes "duplicate handler path: " ++ spec.path)
                        else
                          server_loop rest
                            { result with handlers := result.handlers ++ [spec] } port_set
                            (spec.path :: paths)
            | _ => .error (bytes "handler directive expects exactly one identifier")
          else server_loop rest result port_set paths

/-- The steps of `FromTokenizedConfig` up to the assignment to `*out`: the configuration
built, or the message of the error. -/
def build_server_config (tokenized_config : List NginxConfigStatement) :
    Except (List Byte) ServerConfig :=
  match find_server_scope tokenized_config none with
  | .error e => .error e
  | .ok none => .error (bytes "no top-level server block found")
  | .ok (some server_scope) =>
      match server_loop server_scope ServerConfig.new false [] with
      | .error e => .error e
      | .ok (result, port_set) =>
          if port_set then .ok result else .error (bytes "no listen directive found")

/-- `ServerConfig::FromTokenizedConfig(tokenized_config, out, error)`: the value returned,
and what `out` and `error` point to after the call (`none` for a null pointer). An error
is written only through a non-null `error`. -/
def ServerConfig.FromTokenizedConfig (tokenized_config : List NginxConfigStatement)
    (out : Option ServerConfig) (error : Option (List Byte)) :
    Bool × Option ServerConfig × Option (List Byte) :=
  match out with
  | none => (false, none, error.map (fun _ => BuildError (bytes "output pointer is null")))
  | some _ =>
      match build_server_config tokenized_config with
      | .error e => (false, out, error.map (fun _ => BuildError e))
      | .ok result => (true, some result, error)

/-- Test fixture: the tokens of a configuration with `listen 8082` and one `location`
statement per given path, each with `handler echo`. -/
def config_fixture (paths : List (List Byte)) : List NginxConfigStatement :=
  [.mk [bytes "server"]
    (some (.mk [bytes "listen", bytes "8082"] none ::
      paths.map (fun path =>
        .mk [bytes "location", path] (some [.mk [bytes "handler", bytes "echo"] none]))))]

/-- The `location` statements of a block, in the words of the specification. -/
def location_statements (block : List NginxConfigStatement) : List NginxConfigStatement :=
  block.filter (fun statement => decide (statement.tokens_.head? = some (bytes "location")))

/-- The path named by a `location` statement: its second token. -/
def location_path (statement : NginxConfigStatement) : List Byte :=
  statement.tokens_.getD 1 []

/-! ## The static file handler (`static_request_handler.cc`) -/

/-- `join_fs_path(root, rel)`: the path to open, `none` for `std::nullopt`, or the
exception rethrown. `weakly_canonical` is `boost::filesystem::weakly_canonical` followed
by `string()`; what it answers depends on the file system. -/
def join_fs_path (weakly_canonical : List Byte → Except String (List Byte))
    (root rel : List Byte) : Except String (Option (List Byte)) :=
  if root = [] then .ok (some rel)
  else if rel = [] then .ok (some root)
  else if root.getLast? = some 47 ∧ rel.head? = some 47 then .ok (some (root ++ rel.drop 1))
  else if root.getLast? ≠ some 47 ∧ rel.head? ≠ some 47 then
    .ok (some (root ++ bytes "/" ++ rel))
  else
    match weakly_canonical root with
    | .error e => .error e
    | .ok root_path =>
        match weakly_canonical (root ++ rel) with
        | .error e => .error e
        | .ok full_path =>
            if !root_path.isPrefixOf full_path then .ok none
            else .ok (some full_path)

/-- `get_extension`: what follows the last `.`, empty when there is none. -/
def get_extension (path : List Byte) : List Byte :=
  if path.contains 46 then (path.reverse.takeWhile (fun c => c ≠ 46)).reverse else []

/-- `StaticRequestHandler::content_type_for_extension`. -/
def content_type_for_extension (path : List Byte) : List Byte :=
  let ext := get_extension path
  if ext = bytes "html" then bytes "text/html"
  else if ext = bytes "css" then bytes "text/css"
  else if ext = bytes "js" then bytes "text/javascript"
  else if ext = bytes "jpg" then bytes "image/jpeg"
  else if ext = bytes "zip" then bytes "application/zip"
  else if ext = bytes "txt" then bytes "text/plain"
  else []

/-- `StaticRequestHandler::handle_request`. `read_file` stands for opening the path with
`std::ifstream` and reading it to the end: the contents, or `none` when the stream is
not good. -/
def StaticRequestHandler.handle_request
    (weakly_canonical : List Byte → Except String (List Byte))
    (read_file : List Byte → Option (List Byte))
    (mount_prefix_ root_ : List Byte) (req : request) : Except String response :=
  if !mount_prefix_.isPrefixOf req.uri then stock_response ResponseBuilder.createNotFound
  else
    let rel := req.uri.drop mount_prefix_.length
    if rel = [] ∨ rel = bytes "/" then stock_response ResponseBuilder.createNotFound
    else
      match join_fs_path weakly_canonical root_ rel with
      | .error _ => stock_response ResponseBuilder.createInternalServerError
      | .ok none => stock_response ResponseBuilder.createNotFound
      | .ok (some full_path) =>
          if content_type_for_extension full_path = [] then
            stock_response ResponseBuilder.createNotFound
          else
            match read_file full_path with
            | none => stock_response ResponseBuilder.createNotFound
            | some body =>
                stock_response
                  (((ResponseBuilder.new 200).withContentType
                    (content_type_for_extension full_path)).withBody body)

/-- The segments of a path: the pieces between `/`, `acc` being the piece begun. -/
def path_segments : List Byte → List Byte → List (List Byte)
  | [], acc => [acc]
  | c :: rest, acc => if c = 47 then acc :: path_segments rest [] else path_segments rest (acc ++ [c])

/-- Walking the segments of a relative path from depth 0: a `..` segment at depth 0
leaves the directory the walk started in. -/
def segments_escape : List (List Byte) → Nat → Bool
  | [], _ => false
  | seg :: rest, depth =>
      if seg = bytes ".." then
        match depth with
        | 0 => true
        | d + 1 => segments_escape rest d
      else if seg = [] ∨ seg = bytes "." then segments_escape rest depth
      else segments_escape rest (depth + 1)

/-- The part of a URI after the mount prefix escapes the root through `..` segments, in
the words of the specification. -/
def escapes_root (rel : List Byte) : Bool := segments_escape (path_segments rel []) 0

/-- Test fixture: a file system that holds one file. -/
def one_file (path contents : List Byte) : List Byte → Option (List Byte) :=
  fun p => if p = path then some contents else none

/-! ## The wire format of requests, in the words of the specification -/

/-- One header line on the wire: name, colon, one space, value, CR LF. -/
def header_line (h : List Byte × List Byte) : List Byte := h.1 ++ [58, 32] ++ h.2 ++ [13, 10]

/-- The header lines of a header sequence, in order. -/
def header_lines : List (List Byte × List Byte) → List Byte
  | [] => []
  | h :: hs => header_line h ++ header_lines hs

/-- The request line: method, one space, URI, the literal ` HTTP/1.1`, CR LF. -/
def request_line (m u : List Byte) : List Byte := m ++ [32] ++ u ++ bytes " HTTP/1.1\r\n"

/-- A request head: request line, header lines and the blank line CR LF. -/
def request_head (m u : List Byte) (hs : List (List Byte × List Byte)) : List Byte :=
  request_line m u ++ header_lines hs ++ [13, 10]

/-- A method of the wire format: non-empty, uppercase ASCII letters only. -/
abbrev wf_method (m : List Byte) : Prop := m ≠ [] ∧ ∀ c ∈ m, 65 ≤ c.val ∧ c.val ≤ 90

/-- A URI of the wire format: URI bytes only. -/
abbrev wf_uri (u : List Byte) : Prop := ∀ c ∈ u, is_uri_char c = true

/-- A header of the wire format: name non-empty and free of `:`, CR, LF; value free
of CR. -/
abbrev wf_header (h : List Byte × List Byte) : Prop :=
  h.1 ≠ [] ∧ (∀ c ∈ h.1, c ≠ 58 ∧ c ≠ 13 ∧ c ≠ 10) ∧ ∀ c ∈ h.2, c ≠ 13

/-- Numeric value of the Content-Length value the parser looks up in a header sequence
(first header with that name ignoring case; `0` when the value is empty). -/
def content_length_value (hs : List (List Byte × List Byte)) : Nat :=
  digits_value (get_header_value_loop Content_Length hs)

/-- The Content-Length condition of the wire format as the parser applies it: the value
it looks up (first header named Content-Length ignoring case; empty when there is none
or when that header has an empty value) is empty, or it is all digits and at least that
many bytes follow the blank line. -/
def content_length_ok (hs : List (List Byte × List Byte)) (rest : List Byte) : Prop :=
  get_header_value_loop Content_Length hs = [] ∨
    ((∀ c ∈ get_header_value_loop Content_Length hs, 48 ≤ c.val ∧ c.val ≤ 57) ∧
      content_length_value hs ≤ rest.length)

/-- The byte string begins with a request in the wire format: request line, header
lines, blank line, and the Content-Length condition `content_length_ok` on what
follows. -/
def wire_format (s : List Byte) : Prop :=
  ∃ m u hs rest, wf_method m ∧ wf_uri u ∧ (∀ h ∈ hs, wf_header h) ∧
    s = request_head m u hs ++ rest ∧ content_length_ok hs rest

/-- The Content-Length condition in the words of the specification: no Content-Length
header is present, or its value is a number `N` written in digits (at least one digit)
and at least `N` further bytes are present. -/
def content_length_ok_stated (hs : List (List Byte × List Byte)) (rest : List Byte) : Prop :=
  (∀ h ∈ hs, names_match h.1 Content_Length = false) ∨
    (get_header_value_loop Content_Length hs ≠ [] ∧
      (∀ c ∈ get_header_value_loop Content_Length hs, 48 ≤ c.val ∧ c.val ≤ 57) ∧
      content_length_value hs ≤ rest.length)

/-- The documented wire format in the words of the specification. -/
def wire_format_stated (s : List Byte) : Prop :=
  ∃ m u hs rest, wf_method m ∧ wf_uri u ∧ (∀ h ∈ hs, wf_header h) ∧
    s = request_head m u hs ++ rest ∧ content_length_ok_stated hs rest

/-- Two bytes are the same ASCII character up to letter case: equal, or one is an
uppercase letter `A..Z` and the other the lowercase letter 32 positions above. -/
def same_letter (a b : Byte) : Bool :=
  decide (a.val = b.val) ||
    (decide (65 ≤ a.val) && decide (a.val ≤ 90) && decide (b.val = a.val + 32)) ||
    (decide (65 ≤ b.val) && decide (b.val ≤ 90) && decide (a.val = b.val + 32))

/-- Equality of two strings under ASCII case-insensitive comparison, in the words of the
specification: same length, and the same character up to letter case at every position. -/
def ascii_ci_eq : List Byte → List Byte → Bool
  | [], [] => true
  | a :: as, b :: bs => same_letter a b && ascii_ci_eq as bs
  | _, _ => false

/-! ## Fixtures for concrete instances -/

/-- Test fixture: a factory whose handler answers every request with a response whose
content is the location the handler was created for. -/
def location_echo_factory : RequestHandlerFactory :=
  { create := fun location _ =>
      some { handle_request := fun _ => .ok (response.new.set_content location) } }

/-- Test fixture: a request with the given URI, as `MakeRequest` of the dispatcher
tests. -/
def make_request (raw uri : List Byte) : request :=
  { method := bytes "GET", uri := uri, version := bytes "1.1", headers := [], body := [],
    raw := raw }

/-- Test fixture `NullFactory`: `create` always returns a null handler. -/
def null_factory : RequestHandlerFactory := { create := fun _ _ => none }

/-- Stand-ins for the seven factory classes that are parameters of the registry: each
constructor gives the factory that creates no handler. -/
def builtin_fixture : BuiltinFactories :=
  { StaticHandlerFactory := fun _ => null_factory,
    CrudHandlerFactory := fun _ => null_factory,
    HealthHandlerFactory := fun _ => null_factory,
    SleepHandlerFactory := fun _ => null_factory,
    LinkManageHandlerFactory := fun _ => null_factory,
    LinkRedirectHandlerFactory := fun _ => null_factory,
    AnalyticsHandlerFactory := fun _ => null_factory }

/-! ## Auxiliary definitions for the proofs: the parser loop as a byte machine -/

/-- Result of the loop on one byte. -/
inductive ByteOut where
  | done (r : Status × RequestParser × request)
  | more (p : RequestParser) (req : request)

/-- Turns the outcome of the switch into the outcome for the byte. -/
def Iter.out : Iter → ByteOut
  | .ret s p req => .done (s, p, req)
  | .cont _ p req => .more p req

/-- What the loop does with the byte `c` followed by `rest`: one run of the switch, or
two when state `HEADER_START` sends the byte to `HEADER_NAME`. -/
def byte_step (rest : List Byte) (c : Byte) (p : RequestParser) (req : request) : ByteOut :=
  if p.m_state = .HEADER_START ∧ c ≠ 13 then
    (switch_body (c :: rest) 0 c
      { p with current_header_name_ := [], current_header_value_ := [],
               m_state := .HEADER_NAME } req).out
  else (switch_body (c :: rest) 0 c p req).out

/-- The loop of `parse` as a recursion over the bytes still to be read. -/
def run (p : RequestParser) (req : request) : List Byte → Status × RequestParser × request
  | [] => (.IN_PROGRESS, p, req)
  | c :: rest =>
      match byte_step rest c p req with
      | .done r => r
      | .more p1 req1 => run p1 req1 rest

/-- How the end of the headers splits the bytes `rest` that follow the blank line when
`n` body bytes are expected. -/
def body_split (rest : List Byte) (p : RequestParser) (req : request) (n : Nat) :
    Status × RequestParser × request :=
  if n ≤ rest.length then
    (.PROPER_REQUEST, { p with expected_body_len_ := n, remaining_body_len_ := 0 },
      { req with body := req.body ++ rest.take n })
  else
    (.IN_PROGRESS,
      { p with expected_body_len_ := n, remaining_body_len_ := n - rest.length,
               m_state := .BODY },
      { req with body := req.body ++ rest })

/-- The end of the headers in terms of the bytes that follow the blank line. -/
def end_of_headers_rest (rest : List Byte) (p : RequestParser) (req : request) :
    Status × RequestParser × request :=
  let cl_str := req.get_header_value Content_Length
  if cl_str = [] then (.PROPER_REQUEST, p, req)
  else if cl_str.any (fun ch => decide (char_val ch < 48) || decide (char_val ch > 57))
  then (.BAD_REQUEST, p, req)
  else
    match stoul cl_str with
    | none => (.BAD_REQUEST, p, req)
    | some n => body_split rest p req n

/-- The `BODY` branch of `parse` (lines 41-52). -/
def body_branch (p : RequestParser) (req : request) (d : List Byte) :
    Status × RequestParser × request :=
  let to_copy := min p.remaining_body_len_ d.length
  let req2 := if to_copy > 0 then { req with body := req.body ++ d.take to_copy } else req
  let p2 := { p with remaining_body_len_ := p.remaining_body_len_ - to_copy }
  if p2.remaining_body_len_ = 0 then (.PROPER_REQUEST, p2, req2) else (.IN_PROGRESS, p2, req2)

/-- What `parse` does with a non-empty chunk once `raw` has been extended. -/
def core (p : RequestParser) (req : request) (d : List Byte) :
    Status × RequestParser × request :=
  if p.m_state = .BODY then body_branch p req d else run p req d

/-- The request record as `parse` prepares it before looking at the bytes. -/
def prepare (p : RequestParser) (req : request) (d : List Byte) : request :=
  let req0 := if p.m_state = .START then req.reset else req
  { req0 with raw := req0.raw ++ d }

/-- Two results agree: same verdict, same request record, and the same parser when more
input is awaited. -/
def Agree (r r1 : Status × RequestParser × request) : Prop :=
  r.1 = r1.1 ∧ r.2.2 = r1.2.2 ∧ (r.1 = .IN_PROGRESS → r.2.1 = r1.2.1)

/-- Continuation of a result with a further chunk when the verdict is `IN_PROGRESS`. -/
def then_core (r : Status × RequestParser × request) (b : List Byte) :
    Status × RequestParser × request :=
  match r with
  | (.IN_PROGRESS, p1, r1) => core p1 r1 b
  | r => r

/-- Replaces the `raw` field. -/
def request.with_raw (x : List Byte) (req : request) : request := { req with raw := x }

/-- Replaces the `raw` field of the request record of a result. -/
def res_with_raw (x : List Byte) (r : Status × RequestParser × request) :
    Status × RequestParser × request := (r.1, r.2.1, r.2.2.with_raw x)

/-- The five fields of the request record other than `raw`. -/
def request.fields (req : request) :
    List Byte × List Byte × List Byte × List (List Byte × List Byte) × List Byte :=
  (req.method, req.uri, req.version, req.headers, req.body)

/-- Invariant relating the body read so far to the announced length: outside state
`BODY` no body byte has been stored; in state `BODY` the stored bytes and the remaining
count add up to the looked-up Content-Length value. -/
def body_inv (p : RequestParser) (req : request) : Prop :=
  (p.m_state ≠ .BODY → req.body = []) ∧
  (p.m_state = .BODY → req.body.length + p.remaining_body_len_ = content_length_value req.headers)

/-! ## Lemmas and theorems -/

/-! ### The loop of `parse` is the byte machine `run` -/

theorem end_of_headers_eq (data : List Byte) (i : Nat) (p : RequestParser) (req : request)
    (hi : i < data.length) :
    end_of_headers data i p req =
      .ret (end_of_headers_rest (data.drop (i + 1)) p req).1
        (end_of_headers_rest (data.drop (i + 1)) p req).2.1
        (end_of_headers_rest (data.drop (i + 1)) p req).2.2 := by
  unfold end_of_headers end_of_headers_rest
  by_cases h1 : req.get_header_value Content_Length = []
  · simp [h1]
  by_cases h2 : (req.get_header_value Content_Length).any
      (fun ch => decide (char_val ch < 48) || decide (char_val ch > 57)) = true
  · simp only [h1, h2, if_true, if_false, make_bad_request_]
  simp only [h1, h2, if_false]
  cases hst : stoul (req.get_header_value Content_Length) with
  | none => simp [make_bad_request_]
  | some n =>
    simp only [body_split, List.length_drop]
    by_cases hlt : i + 1 < data.length
    · by_cases hn : n ≤ data.length - (i + 1)
      · have e1 : min (data.length - (i + 1)) n = n := by omega
        simp only [hlt, if_true, e1, hn, Nat.sub_self]
        by_cases hn0 : n = 0
        · subst hn0; simp
        · have : n > 0 := by omega
          simp [this]
      · have e1 : min (data.length - (i + 1)) n = data.length - (i + 1) := by omega
        have e2 : n - (data.length - (i + 1)) ≠ 0 := by omega
        have e3 : data.length - (i + 1) > 0 := by omega
        have e4 : (List.drop (i + 1) data).take (data.length - (i + 1)) = List.drop (i + 1) data := by
          apply List.take_of_length_le; simp
        simp [hlt, e1, hn, e2, e3, e4]
    · have e0 : data.length - (i + 1) = 0 := by omega
      have e5 : List.drop (i + 1) data = [] := by
        apply List.drop_of_length_le; omega
      simp only [hlt, if_false, e0, e5]
      by_cases hn0 : n = 0
      · subst hn0; simp
      · simp [hn0]

theorem switch_body_rewind (data : List Byte) (i : Nat) (c : Byte) (p : RequestParser)
    (req : request) (hs : p.m_state = .HEADER_START) (hc : c ≠ 13) :
    switch_body data i c p req =
      .cont ((i + (SIZE_MOD - 1)) % SIZE_MOD)
        { p with current_header_name_ := [], current_header_value_ := [],
                 m_state := .HEADER_NAME } req := by
  simp [switch_body, hs, hc]

theorem switch_body_local (data : List Byte) (i : Nat) (c : Byte) (p : RequestParser)
    (req : request) (hi : i < data.length) (hs : ¬ (p.m_state = .HEADER_START ∧ c ≠ 13)) :
    switch_body data i c p req =
      match byte_step (data.drop (i + 1)) c p req with
      | .done r => .ret r.1 r.2.1 r.2.2
      | .more p1 req1 => .cont i p1 req1 := by
  rw [byte_step, if_neg hs]
  cases hst : p.m_state <;> simp only [switch_body, hst] <;>
    (try (split_ifs <;> simp [Iter.out]))
  · rename_i h; exact absurd ⟨hst, h⟩ hs
  · rw [end_of_headers_eq data i p req hi,
      end_of_headers_eq (c :: data.drop (i + 1)) 0 p req (by simp)]
    simp
  · simp [Iter.out]

theorem byte_step_rewind (rest : List Byte) (c : Byte) (p : RequestParser) (req : request)
    (hs : p.m_state = .HEADER_START) (hc : c ≠ 13) :
    byte_step rest c p req =
      byte_step rest c
        { p with current_header_name_ := [], current_header_value_ := [],
                 m_state := .HEADER_NAME } req := by
  simp [byte_step, hs, hc]

theorem parse_loop_eq_run (data : List Byte) (hlen : data.length < SIZE_MOD) :
    ∀ (fuel i : Nat) (p : RequestParser) (req : request), i ≤ data.length →
      (2 * (data.length - i) + 1 ≤ fuel ∨
        (p.m_state ≠ .HEADER_START ∧ i < data.length ∧ 2 * (data.length - i) ≤ fuel)) →
      parse_loop data fuel i p req = some (run p req (data.drop i)) := by
  intro fuel
  induction fuel with
  | zero =>
    intro i p req hi hf
    rcases hf with hf | ⟨_, h2, h3⟩ <;> omega
  | succ fuel ih =>
    intro i p req hi hf
    rw [parse_loop]
    by_cases hlt : i < data.length
    · rw [dif_pos hlt]
      have hdrop : data.drop i = data.get ⟨i, hlt⟩ :: data.drop (i + 1) := by
        rw [List.get_eq_getElem]
        exact List.drop_eq_getElem_cons hlt
      by_cases hs : p.m_state = .HEADER_START ∧ data.get ⟨i, hlt⟩ ≠ 13
      · rw [switch_body_rewind data i _ p req hs.1 hs.2]
        simp only
        have hi2 : ((i + (SIZE_MOD - 1)) % SIZE_MOD + 1) % SIZE_MOD = i := by
          unfold SIZE_MOD at *
          omega
        have hfuel : 2 * (data.length - i) ≤ fuel := by
          rcases hf with hf | ⟨h1, _, _⟩
          · omega
          · exact absurd hs.1 h1
        rw [hi2, ih i _ req hi (Or.inr ⟨by simp, hlt, hfuel⟩)]
        rw [hdrop, run, run, byte_step_rewind _ _ p req hs.1 hs.2]
      · rw [switch_body_local data i _ p req hlt hs, hdrop, run]
        cases hb : byte_step (List.drop (i + 1) data) (data.get ⟨i, hlt⟩) p req with
        | done r => simp
        | more p1 req1 =>
          simp only
          have hi2 : (i + 1) % SIZE_MOD = i + 1 := by
            unfold SIZE_MOD at *
            omega
          rw [hi2, ih (i + 1) p1 req1 (by omega) (Or.inl (by omega))]
    · rw [dif_neg hlt]
      have : data.drop i = [] := List.drop_of_length_le (by omega)
      rw [this, run]

theorem parse_eq_core (p : RequestParser) (req : request) (d : List Byte) (hd : d ≠ [])
    (hlen : d.length < SIZE_MOD) :
    p.parse req (some d) = some (core p (prepare p req d) d) := by
  have hl : d.length ≠ 0 := by
    intro h; exact hd (List.length_eq_zero.mp h)
  unfold RequestParser.parse core prepare
  simp only [hl, if_false]
  by_cases hb : p.m_state = .BODY
  · simp only [hb, if_true, body_branch]
    split_ifs <;> rfl
  · simp only [hb, if_false]
    rw [parse_loop_eq_run d hlen _ 0 p _ (by omega) (Or.inl (by omega))]
    simp

/-! ### Splitting the input at a chunk boundary -/

/-- The switch looks at the rest of the chunk only at the end of the headers. -/
theorem byte_step_rest (r1 r2 : List Byte) (c : Byte) (p : RequestParser) (req : request)
    (h : ¬ (p.m_state = .END_CR ∧ c = 10)) :
    byte_step r1 c p req = byte_step r2 c p req := by
  unfold byte_step
  by_cases hs : p.m_state = .HEADER_START ∧ c ≠ 13
  · simp only [hs, and_self, if_true, ne_eq, not_false_eq_true, switch_body]
  · simp only [hs, if_false]
    cases hst : p.m_state <;> simp only [switch_body, hst] 
    simp [hst] at h
    simp [h]

theorem byte_step_end (rest : List Byte) (p : RequestParser) (req : request)
    (h : p.m_state = .END_CR) :
    byte_step rest 10 p req = .done (end_of_headers_rest rest p req) := by
  unfold byte_step
  simp only [h, switch_body]
  rw [end_of_headers_eq _ 0 p req (by simp)]
  simp [Iter.out]

theorem byte_step_more_state (rest : List Byte) (c : Byte) (p p1 : RequestParser)
    (req req1 : request) (h : byte_step rest c p req = .more p1 req1) :
    p1.m_state ≠ .BODY ∧ p1.m_state ≠ .START := by
  unfold byte_step at h
  by_cases hs : p.m_state = .HEADER_START ∧ c ≠ 13
  · simp only [hs, and_self, if_true, ne_eq, not_false_eq_true, switch_body] at h
    split_ifs at h <;> simp [Iter.out] at h <;> (obtain ⟨h1, _⟩ := h; subst h1; simp)
  · simp only [hs, if_false] at h
    cases hst : p.m_state <;> simp only [switch_body, hst] at h <;>
      (try (split_ifs at h <;> simp [Iter.out] at h <;> (obtain ⟨h1, _⟩ := h; subst h1; simp [hst])))
    · by_cases hc : c = 10
      · rw [if_pos hc, end_of_headers_eq _ 0 p req (by simp)] at h
        simp [Iter.out] at h
      · rw [if_neg hc] at h
        simp [Iter.out] at h
    · simp [Iter.out] at h

/-- Outside the end of the headers the loop returns only with `BAD_REQUEST`. -/
theorem byte_step_done_bad (rest : List Byte) (c : Byte) (p : RequestParser)
    (req : request) (r : Status × RequestParser × request)
    (hne : ¬ (p.m_state = .END_CR ∧ c = 10)) (h : byte_step rest c p req = .done r) :
    r = (.BAD_REQUEST, p, req) ∨
      (p.m_state = .HEADER_START ∧
        r = (.BAD_REQUEST, { p with current_header_name_ := [], current_header_value_ := [],
                                    m_state := .HEADER_NAME }, req)) := by
  unfold byte_step at h
  by_cases hs : p.m_state = .HEADER_START ∧ c ≠ 13
  · simp only [hs, and_self, if_true, ne_eq, not_false_eq_true, switch_body] at h
    right
    refine ⟨hs.1, ?_⟩
    split_ifs at h <;> simp [Iter.out, make_bad_request_] at h <;> exact h.symm
  · simp only [hs, if_false] at h
    left
    cases hst : p.m_state <;> simp only [switch_body, hst] at h <;>
      (try (split_ifs at h <;> simp [Iter.out, make_bad_request_, fail_impossible_state_] at h <;>
        exact h.symm))
    · have hc : c ≠ 10 := fun hc => hne ⟨hst, hc⟩
      rw [if_neg hc] at h
      simp [Iter.out, make_bad_request_] at h
      exact h.symm
    · simp [Iter.out, make_bad_request_, fail_impossible_state_] at h
      exact h.symm

theorem agree_refl (r : Status × RequestParser × request) : Agree r r :=
  ⟨Eq.refl _, Eq.refl _, fun _ => Eq.refl _⟩

theorem body_split_append (a b : List Byte) (p : RequestParser) (req : request) (n : Nat) :
    Agree (body_split (a ++ b) p req n) (then_core (body_split a p req n) b) := by
  unfold body_split
  by_cases h1 : n ≤ a.length
  · have h2 : n ≤ (a ++ b).length := by simp; omega
    simp only [h1, h2, if_true, then_core]
    refine ⟨rfl, ?_, fun h => by simp at h⟩
    simp [List.take_append_of_le_length h1]
  · simp only [h1, if_false, then_core, core, if_true, body_branch]
    by_cases h2 : n ≤ (a ++ b).length
    · have h3 : min (n - a.length) b.length = n - a.length := by
        simp at h2; omega
      have h4 : n - a.length > 0 := by omega
      simp only [h2, if_true, h3, h4, Nat.sub_self]
      refine ⟨rfl, ?_, fun h => by simp at h⟩
      simp [List.take_append_eq_append_take, List.take_of_length_le (Nat.le_of_lt (Nat.lt_of_not_le h1))]
    · have h3 : min (n - a.length) b.length = b.length := by
        simp at h2; omega
      have h5 : n - a.length - b.length ≠ 0 := by simp at h2; omega
      simp only [h2, if_false, h3, h5, List.take_length]
      refine ⟨rfl, ?_, fun _ => ?_⟩
      · by_cases hb : b.length > 0
        · simp [hb]
        · have : b = [] := List.length_eq_zero.mp (by omega)
          subst this; simp
      · simp [Nat.sub_sub]

theorem body_branch_append (a b : List Byte) (p : RequestParser) (req : request)
    (hp : p.m_state = .BODY) :
    Agree (body_branch p req (a ++ b)) (then_core (body_branch p req a) b) := by
  unfold body_branch
  by_cases h1 : p.remaining_body_len_ ≤ a.length
  · have e1 : min p.remaining_body_len_ (a ++ b).length = p.remaining_body_len_ := by
      simp; omega
    have e2 : min p.remaining_body_len_ a.length = p.remaining_body_len_ := by omega
    simp only [e1, e2, Nat.sub_self, if_true, then_core]
    refine ⟨Eq.refl _, ?_, fun h => by simp at h⟩
    by_cases h0 : p.remaining_body_len_ > 0
    · simp [h0, List.take_append_of_le_length h1]
    · simp [h0]
  · have e2 : min p.remaining_body_len_ a.length = a.length := by omega
    have e3 : p.remaining_body_len_ - a.length ≠ 0 := by omega
    simp only [e2, e3, if_false, then_core, core, hp, if_true, body_branch, List.take_length]
    by_cases h2 : p.remaining_body_len_ ≤ (a ++ b).length
    · have e1 : min p.remaining_body_len_ (a ++ b).length = p.remaining_body_len_ := by omega
      have e4 : min (p.remaining_body_len_ - a.length) b.length =
          p.remaining_body_len_ - a.length := by simp at h2; omega
      have e5 : p.remaining_body_len_ > 0 := by omega
      have e6 : p.remaining_body_len_ - a.length > 0 := by omega
      simp only [e1, e4, e5, e6, Nat.sub_self, if_true]
      refine ⟨Eq.refl _, ?_, fun h => by simp at h⟩
      by_cases ha : a.length > 0
      · simp [ha, List.take_append_eq_append_take,
          List.take_of_length_le (Nat.le_of_lt (Nat.lt_of_not_le h1))]
      · have : a = [] := List.length_eq_zero.mp (by omega)
        subst this; simp
    · have e1 : min p.remaining_body_len_ (a ++ b).length = (a ++ b).length := by omega
      have e4 : min (p.remaining_body_len_ - a.length) b.length = b.length := by
        simp at h2; omega
      have e7 : p.remaining_body_len_ - (a ++ b).length ≠ 0 := by omega
      have e8 : p.remaining_body_len_ - a.length - b.length ≠ 0 := by simp at h2; omega
      simp only [e1, e4, e7, e8, if_false, List.take_length]
      refine ⟨Eq.refl _, ?_, fun _ => ?_⟩
      · by_cases ha : a.length > 0 <;> by_cases hb : b.length > 0
        · have : (a ++ b).length > 0 := by simp; omega
          simp [ha, hb, this]
        · have : b = [] := List.length_eq_zero.mp (by omega)
          subst this; simp [ha]
        · have : a = [] := List.length_eq_zero.mp (by omega)
          subst this; simp [hb]
        · have : a = [] := List.length_eq_zero.mp (by omega)
          have : b = [] := List.length_eq_zero.mp (by omega)
          subst_vars; simp
      · simp [Nat.sub_sub]

theorem end_of_headers_rest_append (a b : List Byte) (p : RequestParser) (req : request) :
    Agree (end_of_headers_rest (a ++ b) p req) (then_core (end_of_headers_rest a p req) b) := by
  unfold end_of_headers_rest
  by_cases h1 : req.get_header_value Content_Length = []
  · simp only [h1, if_true, then_core]; exact agree_refl _
  by_cases h2 : (req.get_header_value Content_Length).any
      (fun ch => decide (char_val ch < 48) || decide (char_val ch > 57)) = true
  · simp only [h1, h2, if_true, if_false, then_core]; exact agree_refl _
  simp only [h1, h2, if_false]
  cases hst : stoul (req.get_header_value Content_Length) with
  | none => simp only [then_core]; exact agree_refl _
  | some n => exact body_split_append a b p req n

theorem run_cons (p : RequestParser) (req : request) (c : Byte) (rest : List Byte) :
    run p req (c :: rest) =
      match byte_step rest c p req with
      | .done r => r
      | .more p1 req1 => run p1 req1 rest := rfl

theorem run_append (a b : List Byte) : ∀ (p : RequestParser) (req : request),
    p.m_state ≠ .BODY → Agree (run p req (a ++ b)) (then_core (run p req a) b) := by
  induction a with
  | nil =>
    intro p req hp
    simp only [List.nil_append, run, then_core, core, hp, if_false]
    exact agree_refl _
  | cons c a ih =>
    intro p req hp
    rw [List.cons_append, run_cons, run_cons]
    by_cases he : p.m_state = .END_CR ∧ c = 10
    · obtain ⟨he1, he2⟩ := he
      subst he2
      rw [byte_step_end _ p req he1, byte_step_end _ p req he1]
      exact end_of_headers_rest_append a b p req
    · rw [byte_step_rest (a ++ b) a c p req he]
      cases hb : byte_step a c p req with
      | done r =>
        simp only
        rcases byte_step_done_bad a c p req r he hb with h | ⟨_, h⟩ <;>
          (subst h; simp only [then_core]; exact agree_refl _)
      | more p1 req1 =>
        simp only
        exact ih p1 req1 (byte_step_more_state a c p p1 req req1 hb).1

theorem core_append (a b : List Byte) (p : RequestParser) (req : request) :
    Agree (core p req (a ++ b)) (then_core (core p req a) b) := by
  unfold core
  by_cases hp : p.m_state = .BODY
  · simp only [hp, if_true]
    exact body_branch_append a b p req hp
  · simp only [hp, if_false]
    exact run_append a b p req hp

/-! ### The field `raw` does not influence parsing -/

theorem end_of_headers_rest_raw (x : List Byte) (rest : List Byte) (p : RequestParser)
    (req : request) :
    end_of_headers_rest rest p (req.with_raw x) =
      res_with_raw x (end_of_headers_rest rest p req) := by
  unfold end_of_headers_rest
  have hg : (req.with_raw x).get_header_value Content_Length =
      req.get_header_value Content_Length := rfl
  simp only [hg]
  split_ifs
  · rfl
  · rfl
  · cases stoul (req.get_header_value Content_Length) with
    | none => rfl
    | some n =>
      simp only [body_split]
      split_ifs <;> rfl

theorem byte_step_raw (x : List Byte) (rest : List Byte) (c : Byte) (p : RequestParser)
    (req : request) :
    byte_step rest c p (req.with_raw x) =
      match byte_step rest c p req with
      | .done r => .done (res_with_raw x r)
      | .more p1 req1 => .more p1 (req1.with_raw x) := by
  by_cases he : p.m_state = .END_CR ∧ c = 10
  · obtain ⟨he1, he2⟩ := he
    subst he2
    rw [byte_step_end _ p _ he1, byte_step_end _ p _ he1, end_of_headers_rest_raw]
  · unfold byte_step
    by_cases hs : p.m_state = .HEADER_START ∧ c ≠ 13
    · simp only [hs, and_self, if_true, ne_eq, not_false_eq_true, switch_body]
      split_ifs <;> rfl
    · simp only [hs, if_false]
      cases hst : p.m_state <;> simp only [switch_body, hst, request.with_raw] <;>
        (try (split_ifs <;> rfl))
      · have hc : c ≠ 10 := fun hc => he ⟨hst, hc⟩
        simp only [hc, if_false]
        rfl
      · rfl

theorem run_raw (x : List Byte) (d : List Byte) : ∀ (p : RequestParser) (req : request),
    run p (req.with_raw x) d = res_with_raw x (run p req d) := by
  induction d with
  | nil => intro p req; rfl
  | cons c rest ih =>
    intro p req
    rw [run_cons, run_cons, byte_step_raw]
    cases byte_step rest c p req with
    | done r => rfl
    | more p1 req1 => exact ih p1 req1

theorem core_raw (x : List Byte) (d : List Byte) (p : RequestParser) (req : request) :
    core p (req.with_raw x) d = res_with_raw x (core p req d) := by
  unfold core
  split_ifs
  · simp only [body_branch, request.with_raw]
    split_ifs <;> rfl
  · exact run_raw x d p req

/-! ### Results that await more input -/

theorem end_of_headers_rest_in_progress (rest : List Byte) (p p1 : RequestParser)
    (req r1 : request) (h : end_of_headers_rest rest p req = (.IN_PROGRESS, p1, r1)) :
    p1.m_state = .BODY ∧ p1.remaining_body_len_ ≠ 0 := by
  simp only [end_of_headers_rest] at h
  by_cases h1 : req.get_header_value Content_Length = []
  · simp [h1] at h
  by_cases h2 : (req.get_header_value Content_Length).any
      (fun ch => decide (char_val ch < 48) || decide (char_val ch > 57)) = true
  · simp [h1, h2] at h
  simp only [h1, h2, if_false] at h
  cases hst : stoul (req.get_header_value Content_Length) with
  | none => rw [hst] at h; simp at h
  | some n =>
    rw [hst] at h
    simp only [body_split] at h
    by_cases hn : n ≤ rest.length
    · simp [hn] at h
    · simp only [hn, if_false, Prod.mk.injEq, true_and] at h
      obtain ⟨h3, _⟩ := h
      exact ⟨Eq.refl _, by simp; omega⟩

theorem run_in_progress (d : List Byte) : ∀ (p p1 : RequestParser) (req r1 : request),
    p.m_state ≠ .BODY → run p req d = (.IN_PROGRESS, p1, r1) →
      (p1.m_state = .BODY → p1.remaining_body_len_ ≠ 0) ∧
      ((p.m_state ≠ .START ∨ d ≠ []) → p1.m_state ≠ .START) := by
  induction d with
  | nil =>
    intro p p1 req r1 hp h
    simp only [run, Prod.mk.injEq, true_and] at h
    obtain ⟨h1, _⟩ := h
    subst h1
    exact ⟨fun hb => absurd hb hp, fun hs => by simpa using hs⟩
  | cons c rest ih =>
    intro p p1 req r1 hp h
    rw [run_cons] at h
    by_cases he : p.m_state = .END_CR ∧ c = 10
    · obtain ⟨he1, he2⟩ := he
      subst he2
      rw [byte_step_end _ p req he1] at h
      have := end_of_headers_rest_in_progress rest p p1 req r1 h
      exact ⟨fun _ => this.2, fun _ => by rw [this.1]; simp⟩
    · cases hb : byte_step rest c p req with
      | done r =>
        rw [hb] at h
        simp only at h
        rcases byte_step_done_bad rest c p req r he hb with h2 | ⟨_, h2⟩ <;>
          (rw [h2] at h; simp at h)
      | more p2 req2 =>
        rw [hb] at h
        simp only at h
        have hm := byte_step_more_state rest c p p2 req req2 hb
        have := ih p2 p1 req2 r1 hm.1 h
        exact ⟨this.1, fun _ => this.2 (Or.inl hm.2)⟩

theorem core_in_progress (d : List Byte) (p p1 : RequestParser) (req r1 : request)
    (h : core p req d = (.IN_PROGRESS, p1, r1)) :
    (p1.m_state = .BODY → p1.remaining_body_len_ ≠ 0) ∧
      ((p.m_state ≠ .START ∨ d ≠ []) → p1.m_state ≠ .START) := by
  unfold core at h
  by_cases hp : p.m_state = .BODY
  · simp only [hp, if_true, body_branch] at h
    by_cases h0 : p.remaining_body_len_ - min p.remaining_body_len_ d.length = 0
    · simp [h0] at h
    · simp only [h0, if_false, Prod.mk.injEq, true_and] at h
      obtain ⟨h1, _⟩ := h
      subst h1
      exact ⟨fun _ => h0, fun _ => by simp [hp]⟩
  · simp only [hp, if_false] at h
    exact run_in_progress d p p1 req r1 hp h

theorem with_raw_eq_of_fields (r1 r2 : request) (h : r1.fields = r2.fields) :
    r1 = r2.with_raw r1.raw := by
  cases r1; cases r2
  simp [request.fields, request.with_raw] at *
  tauto

theorem fields_with_raw (x : List Byte) (r : request) : (r.with_raw x).fields = r.fields := rfl

theorem feed_core (chunks : List (List Byte)) :
    ∀ (p : RequestParser) (req req0 : request),
      (∀ d ∈ chunks, d ≠ [] ∧ d.length < SIZE_MOD) →
      (p.m_state = .BODY → p.remaining_body_len_ ≠ 0) →
      req.fields = req0.fields → p.m_state ≠ .START →
      ∀ (st : Status) (p1 : RequestParser) (r1 : request),
        core p req0 chunks.flatten = (st, p1, r1) → st ≠ .IN_PROGRESS →
        ∃ p2 r2, feed p req chunks = some (st, p2, r2) ∧ r2.fields = r1.fields := by
  induction chunks with
  | nil =>
    intro p req req0 _ hinv _ _ st p1 r1 h hst
    exfalso
    simp only [List.flatten_nil, core] at h
    by_cases hb : p.m_state = .BODY
    · have := hinv hb
      simp [hb, body_branch, this] at h
      exact hst h.1.symm
    · simp [hb, run] at h
      exact hst h.1.symm
  | cons d ds ih =>
    intro p req req0 hch hinv hf hns st p1 r1 h hst
    have hd := hch d (List.mem_cons_self _ _)
    have hpar := parse_eq_core p req d hd.1 hd.2
    have hprep : prepare p req d = req0.with_raw (req.raw ++ d) := by
      have := with_raw_eq_of_fields req req0 hf
      simp only [prepare, hns, if_false]
      rw [this]
      rfl
    rw [hprep, core_raw] at hpar
    have happ := core_append d ds.flatten p req0
    rw [List.flatten_cons] at h
    rw [h] at happ
    rw [feed, hpar]
    rcases hc : core p req0 d with ⟨st', p', r'⟩
    rw [hc] at happ
    cases st' with
    | IN_PROGRESS =>
      simp only [res_with_raw, then_core] at happ ⊢
      have hinv' := core_in_progress d p p' req0 r' hc
      rcases hc2 : core p' r' ds.flatten with ⟨st2, p2, r2⟩
      rw [hc2] at happ
      obtain ⟨ha1, ha2, _⟩ := happ
      simp only at ha1 ha2
      subst ha1 ha2
      exact ih p' (r'.with_raw (req.raw ++ d)) r'
        (fun x hx => hch x (List.mem_cons_of_mem _ hx)) hinv'.1 (fields_with_raw _ _)
        (hinv'.2 (Or.inl hns)) st p2 r1 hc2 hst
    | PROPER_REQUEST =>
      simp only [res_with_raw, then_core] at happ ⊢
      obtain ⟨ha1, ha2, _⟩ := happ
      simp only at ha1 ha2
      subst ha1 ha2
      exact ⟨p', _, Eq.refl _, fields_with_raw _ _⟩
    | BAD_REQUEST =>
      simp only [res_with_raw, then_core] at happ ⊢
      obtain ⟨ha1, ha2, _⟩ := happ
      simp only at ha1 ha2
      subst ha1 ha2
      exact ⟨p', _, Eq.refl _, fields_with_raw _ _⟩

/-! ### Chunked parsing against a single call (C1) -/

theorem length_le_flatten (chunks : List (List Byte)) (d : List Byte) (h : d ∈ chunks) :
    d.length ≤ chunks.flatten.length := by
  induction chunks with
  | nil => simp at h
  | cons c cs ih =>
    rw [List.flatten_cons, List.length_append]
    rcases List.mem_cons.mp h with h1 | h1
    · subst h1; omega
    · have := ih h1; omega

theorem prepare_new (req : request) (d : List Byte) :
    prepare RequestParser.new req d = request.empty.with_raw d := rfl

/-- Feeding chunks agrees with the loop run over their concatenation: a terminal result
of `core` on the whole byte string from the initial state is the result of the chunked
run, up to `raw` and the parser. Only the single chunks have to fit in `size_t`. -/
theorem feed_of_core (chunks : List (List Byte)) (req' : request) (st : Status)
    (p1 : RequestParser) (r1 : request)
    (hne : ∀ d ∈ chunks, d ≠ [] ∧ d.length < SIZE_MOD)
    (hcore : core RequestParser.new request.empty chunks.flatten = (st, p1, r1))
    (hst : st ≠ .IN_PROGRESS) :
    ∃ p2 r2, feed RequestParser.new req' chunks = some (st, p2, r2) ∧
      r2.fields = r1.fields := by
  cases chunks with
  | nil =>
    simp [core, RequestParser.new, run] at hcore
    exact absurd hcore.1.symm hst
  | cons d ds =>
    have hd := hne d (List.mem_cons_self _ _)
    rw [feed, parse_eq_core _ req' d hd.1 hd.2, prepare_new, core_raw]
    have happ := core_append d ds.flatten RequestParser.new request.empty
    rw [← List.flatten_cons, hcore] at happ
    rcases hc : core RequestParser.new request.empty d with ⟨st', p', r'⟩
    rw [hc] at happ
    cases st' with
    | IN_PROGRESS =>
      simp only [res_with_raw, then_core] at happ ⊢
      have hinv := core_in_progress d _ p' _ r' hc
      rcases hc2 : core p' r' ds.flatten with ⟨st2, p2, r2⟩
      rw [hc2] at happ
      obtain ⟨ha1, ha2, _⟩ := happ
      simp only at ha1 ha2
      subst ha1 ha2
      exact feed_core ds p' (r'.with_raw d) r'
        (fun x hx => hne x (List.mem_cons_of_mem _ hx))
        hinv.1 (fields_with_raw _ _) (hinv.2 (Or.inr hd.1)) st p2 r1 hc2 hst
    | PROPER_REQUEST =>
      simp only [res_with_raw, then_core] at happ ⊢
      obtain ⟨ha1, ha2, _⟩ := happ
      simp only at ha1 ha2
      subst ha1 ha2
      exact ⟨p', _, Eq.refl _, Eq.refl _⟩
    | BAD_REQUEST =>
      simp only [res_with_raw, then_core] at happ ⊢
      obtain ⟨ha1, ha2, _⟩ := happ
      simp only at ha1 ha2
      subst ha1 ha2
      exact ⟨p', _, Eq.refl _, Eq.refl _⟩

/-- A single `parse` call on a fresh parser is the loop run on the cleared record. -/
theorem parse_new (req : request) (s : List Byte) (hs : s ≠ []) (hlen : s.length < SIZE_MOD) :
    RequestParser.new.parse req (some s) =
      some (res_with_raw s (core RequestParser.new request.empty s)) := by
  rw [parse_eq_core _ req s hs hlen, prepare_new, core_raw]

/-- C1. Chunking invariance: when one `parse` call on the byte string `s` from the initial
state returns a terminal verdict, feeding any split of `s` into non-empty chunks to a fresh
parser until the first terminal verdict yields the same verdict and the same method, uri,
version, headers and body. (`s` is a chunk, so its length fits in `size_t`.) -/
theorem C1_chunked_parse_agrees (s : List Byte) (chunks : List (List Byte))
    (req req' : request) (st : Status) (p1 : RequestParser) (r1 : request)
    (hlen : s.length < 2 ^ 64) (hne : ∀ d ∈ chunks, d ≠ []) (hsplit : chunks.flatten = s)
    (hsingle : RequestParser.new.parse req (some s) = some (st, p1, r1))
    (hterm : st = .PROPER_REQUEST ∨ st = .BAD_REQUEST) :
    ∃ p2 r2, feed RequestParser.new req' chunks = some (st, p2, r2) ∧
      r2.method = r1.method ∧ r2.uri = r1.uri ∧ r2.version = r1.version ∧
      r2.headers = r1.headers ∧ r2.body = r1.body := by
  have hst : st ≠ .IN_PROGRESS := by rcases hterm with h | h <;> simp [h]
  have hs0 : s ≠ [] := by
    intro h0
    subst h0
    simp [RequestParser.parse] at hsingle
    exact hst hsingle.1.symm
  rw [parse_new req s hs0 hlen] at hsingle
  rcases hcs : core RequestParser.new request.empty s with ⟨st0, p0, r0⟩
  rw [hcs] at hsingle
  simp only [res_with_raw, Option.some.injEq, Prod.mk.injEq] at hsingle
  obtain ⟨hs1, _, hs3⟩ := hsingle
  subst hs1 hs3 hsplit
  obtain ⟨p2, r2, h1, h2⟩ := feed_of_core chunks req' st0 p0 r0
    (fun d hd => ⟨hne d hd, lt_of_le_of_lt (length_le_flatten _ d hd) hlen⟩) hcs hst
  simp only [request.fields, Prod.mk.injEq] at h2
  exact ⟨p2, r2, h1, h2⟩

/-- C1 witness: the request of the end-to-end scenario, split in the middle of the body. -/
theorem C1_chunked_parse_agrees_witness :
    ∃ p2 r2, feed RequestParser.new request.empty
        [bytes "POST /x HTTP/1.1\r\nContent-Length: 5\r\n\r\nHE", bytes "LLO"] =
          some (.PROPER_REQUEST, p2, r2) ∧
      r2.method = bytes "POST" ∧ r2.uri = bytes "/x" ∧ r2.version = bytes "1.1" ∧
      r2.headers = [(bytes "Content-Length", bytes "5")] ∧ r2.body = bytes "HELLO" :=
  C1_chunked_parse_agrees (bytes "POST /x HTTP/1.1\r\nContent-Length: 5\r\n\r\nHELLO")
    [bytes "POST /x HTTP/1.1\r\nContent-Length: 5\r\n\r\nHE", bytes "LLO"]
    request.empty request.empty .PROPER_REQUEST
    { m_state := .END_CR, current_header_name_ := bytes "Content-Length",
      current_header_value_ := bytes "5", expected_body_len_ := 5, remaining_body_len_ := 0 }
    { method := bytes "POST", uri := bytes "/x", version := bytes "1.1",
      headers := [(bytes "Content-Length", bytes "5")], body := bytes "HELLO",
      raw := bytes "POST /x HTTP/1.1\r\nContent-Length: 5\r\n\r\nHELLO" }
    (by decide) (by decide) (by decide) (by decide) (Or.inl (Eq.refl _))

/-! ### The loop on a well-formed request head -/

theorem is_upper_iff (c : Byte) : is_upper c = true ↔ 65 ≤ c.val ∧ c.val ≤ 90 := by
  have := c.isLt
  simp only [is_upper, char_val, Bool.and_eq_true, decide_eq_true_eq]
  split_ifs <;> omega

theorem digit_check_iff (c : Byte) :
    (decide (char_val c < 48) || decide (char_val c > 57)) = false ↔
      48 ≤ c.val ∧ c.val ≤ 57 := by
  have := c.isLt
  simp only [char_val, Bool.or_eq_false_iff, decide_eq_false_iff_not]
  split_ifs <;> omega

theorem is_uri_char_ne_space (c : Byte) (h : is_uri_char c = true) : c ≠ 32 := by
  intro h32
  subst h32
  exact absurd h (by decide)

theorem bytes_http_literal :
    bytes " HTTP/1.1\r\n" = [32, 72, 84, 84, 80, 47, 49, 46, 49, 13, 10] := by decide

theorem bytes_version : bytes "1.1" = [49, 46, 49] := by decide

theorem run_method (m rest : List Byte) : ∀ (p : RequestParser) (req : request),
    p.m_state = .METHOD → (∀ c ∈ m, is_upper c = true) →
    run p req (m ++ rest) = run p { req with method := req.method ++ m } rest := by
  induction m with
  | nil => intro p req _ _; simp
  | cons c m ih =>
    intro p req hs hm
    have hc : is_upper c = true := hm c (List.mem_cons_self _ _)
    have hb : byte_step (m ++ rest) c p req =
        .more p { req with method := req.method ++ [c] } := by
      simp [byte_step, switch_body, hs, hc, Iter.out]
    rw [List.cons_append, run_cons, hb]
    simp only
    rw [ih p _ hs (fun x hx => hm x (List.mem_cons_of_mem _ hx))]
    simp

theorem run_uri (u rest : List Byte) : ∀ (p : RequestParser) (req : request),
    p.m_state = .URI → (∀ c ∈ u, is_uri_char c = true) →
    run p req (u ++ rest) = run p { req with uri := req.uri ++ u } rest := by
  induction u with
  | nil => intro p req _ _; simp
  | cons c u ih =>
    intro p req hs hu
    have hc : is_uri_char c = true := hu c (List.mem_cons_self _ _)
    have hc2 : c ≠ 32 := is_uri_char_ne_space c hc
    have hb : byte_step (u ++ rest) c p req =
        .more p { req with uri := req.uri ++ [c] } := by
      simp [byte_step, switch_body, hs, hc, hc2, Iter.out]
    rw [List.cons_append, run_cons, hb]
    simp only
    rw [ih p _ hs (fun x hx => hu x (List.mem_cons_of_mem _ hx))]
    simp

theorem run_http_literal (rest : List Byte) (p : RequestParser) (req : request)
    (hs : p.m_state = .URI) (hv : req.version = []) :
    run p req (bytes " HTTP/1.1\r\n" ++ rest) =
      run { p with m_state := .HEADER_START } { req with version := bytes "1.1" } rest := by
  rw [bytes_http_literal, bytes_version]
  simp [run_cons, byte_step, switch_body, Iter.out, hs, hv, bytes_version]

theorem run_name (n rest : List Byte) : ∀ (p : RequestParser) (req : request),
    p.m_state = .HEADER_NAME → (∀ c ∈ n, c ≠ 58 ∧ c ≠ 13 ∧ c ≠ 10) →
    run p req (n ++ rest) =
      run { p with current_header_name_ := p.current_header_name_ ++ n } req rest := by
  induction n with
  | nil => intro p req _ _; simp
  | cons c n ih =>
    intro p req hs hn
    obtain ⟨h1, h2, h3⟩ := hn c (List.mem_cons_self _ _)
    have hb : byte_step (n ++ rest) c p req =
        .more { p with current_header_name_ := p.current_header_name_ ++ [c] } req := by
      simp [byte_step, switch_body, hs, h1, h2, h3, Iter.out]
    rw [List.cons_append, run_cons, hb]
    simp only
    rw [ih { p with current_header_name_ := p.current_header_name_ ++ [c] } req hs
      (fun x hx => hn x (List.mem_cons_of_mem _ hx))]
    simp

theorem run_value (v rest : List Byte) : ∀ (p : RequestParser) (req : request),
    p.m_state = .HEADER_VALUE → (∀ c ∈ v, c ≠ 13) →
    run p req (v ++ rest) =
      run { p with current_header_value_ := p.current_header_value_ ++ v } req rest := by
  induction v with
  | nil => intro p req _ _; simp
  | cons c v ih =>
    intro p req hs hv
    have h1 := hv c (List.mem_cons_self _ _)
    have hb : byte_step (v ++ rest) c p req =
        .more { p with current_header_value_ := p.current_header_value_ ++ [c] } req := by
      simp [byte_step, switch_body, hs, h1, Iter.out]
    rw [List.cons_append, run_cons, hb]
    simp only
    rw [ih { p with current_header_value_ := p.current_header_value_ ++ [c] } req hs
      (fun x hx => hv x (List.mem_cons_of_mem _ hx))]
    simp

theorem step_hs_cr (r : List Byte) (p : RequestParser) (req : request)
    (hs : p.m_state = .HEADER_START) :
    byte_step r 13 p req = .more { p with m_state := .END_CR } req := by
  simp [byte_step, switch_body, Iter.out, hs]

theorem step_hs_name (r : List Byte) (c : Byte) (p : RequestParser) (req : request)
    (hs : p.m_state = .HEADER_START) (h1 : c ≠ 58) (h2 : c ≠ 13) (h3 : c ≠ 10) :
    byte_step r c p req =
      .more { p with current_header_name_ := [c], current_header_value_ := [],
                     m_state := .HEADER_NAME } req := by
  simp [byte_step, switch_body, Iter.out, hs, h1, h2, h3]

theorem step_name_colon (r : List Byte) (p : RequestParser) (req : request)
    (hs : p.m_state = .HEADER_NAME) (hn : p.current_header_name_ ≠ []) :
    byte_step r 58 p req = .more { p with m_state := .HEADER_COLON } req := by
  simp [byte_step, switch_body, Iter.out, hs, hn]

theorem step_colon (r : List Byte) (p : RequestParser) (req : request)
    (hs : p.m_state = .HEADER_COLON) :
    byte_step r 32 p req = .more { p with m_state := .HEADER_SPACE } req := by
  simp [byte_step, switch_body, Iter.out, hs]

theorem step_space_cr (r : List Byte) (p : RequestParser) (req : request)
    (hs : p.m_state = .HEADER_SPACE) :
    byte_step r 13 p req = .more { p with m_state := .HEADER_LINE_CR } req := by
  simp [byte_step, switch_body, Iter.out, hs]

theorem step_space_value (r : List Byte) (c : Byte) (p : RequestParser) (req : request)
    (hs : p.m_state = .HEADER_SPACE) (hc : c ≠ 13) :
    byte_step r c p req =
      .more { p with current_header_value_ := p.current_header_value_ ++ [c],
                     m_state := .HEADER_VALUE } req := by
  simp [byte_step, switch_body, Iter.out, hs, hc]

theorem step_value_cr (r : List Byte) (p : RequestParser) (req : request)
    (hs : p.m_state = .HEADER_VALUE) :
    byte_step r 13 p req = .more { p with m_state := .HEADER_LINE_CR } req := by
  simp [byte_step, switch_body, Iter.out, hs]

theorem step_line_lf (r : List Byte) (p : RequestParser) (req : request)
    (hs : p.m_state = .HEADER_LINE_CR) :
    byte_step r 10 p req =
      .more { p with m_state := .HEADER_START }
        { req with headers :=
            req.headers ++ [(p.current_header_name_, p.current_header_value_)] } := by
  simp [byte_step, switch_body, Iter.out, hs]

theorem header_line_cons (c : Byte) (n v rest : List Byte) :
    header_line (c :: n, v) ++ rest = c :: (n ++ (58 :: 32 :: (v ++ (13 :: 10 :: rest)))) := by
  simp [header_line]

theorem run_header_line (h : List Byte × List Byte) (rest : List Byte) (p : RequestParser)
    (req : request) (hs : p.m_state = .HEADER_START) (hw : wf_header h) :
    run p req (header_line h ++ rest) =
      run { p with current_header_name_ := h.1, current_header_value_ := h.2,
                   m_state := .HEADER_START }
        { req with headers := req.headers ++ [h] } rest := by
  obtain ⟨n, v⟩ := h
  obtain ⟨hne, hn, hv⟩ := hw
  simp only at hne hn hv
  cases n with
  | nil => exact absurd (Eq.refl _) hne
  | cons c n =>
    obtain ⟨h1, h2, h3⟩ := hn c (List.mem_cons_self _ _)
    rw [header_line_cons, run_cons, step_hs_name _ c p req hs h1 h2 h3]
    simp only
    rw [run_name n _ _ req (Eq.refl _) (fun x hx => hn x (List.mem_cons_of_mem _ hx))]
    rw [run_cons, step_name_colon _ _ req (Eq.refl _) (by simp)]
    simp only
    rw [run_cons, step_colon _ _ req (Eq.refl _)]
    simp only
    cases v with
    | nil =>
      simp only [List.nil_append]
      rw [run_cons, step_space_cr _ _ req (Eq.refl _)]
      simp only
      rw [run_cons, step_line_lf _ _ req (Eq.refl _)]
      simp
    | cons d v =>
      have hd := hv d (List.mem_cons_self _ _)
      simp only [List.nil_append, List.cons_append]
      rw [run_cons, step_space_value _ d _ req (Eq.refl _) hd]
      simp only
      rw [run_value v _ _ req (Eq.refl _) (fun x hx => hv x (List.mem_cons_of_mem _ hx))]
      rw [run_cons, step_value_cr _ _ req (Eq.refl _)]
      simp only
      rw [run_cons, step_line_lf _ _ req (Eq.refl _)]
      simp

theorem run_header_lines (hs : List (List Byte × List Byte)) :
    ∀ (p : RequestParser) (req : request), p.m_state = .HEADER_START →
      (∀ h ∈ hs, wf_header h) →
      ∃ p1 : RequestParser, p1.m_state = .HEADER_START ∧
        ∀ rest, run p req (header_lines hs ++ rest) =
          run p1 { req with headers := req.headers ++ hs } rest := by
  induction hs with
  | nil =>
    intro p req hp _
    exact ⟨p, hp, fun rest => by simp [header_lines]⟩
  | cons h hs ih =>
    intro p req hp hw
    obtain ⟨p1, hp1, hrun⟩ := ih
      { p with current_header_name_ := h.1, current_header_value_ := h.2,
               m_state := .HEADER_START }
      { req with headers := req.headers ++ [h] } (Eq.refl _)
      (fun x hx => hw x (List.mem_cons_of_mem _ hx))
    refine ⟨p1, hp1, fun rest => ?_⟩
    rw [header_lines, List.append_assoc,
      run_header_line h _ p req hp (hw h (List.mem_cons_self _ _)), hrun rest]
    simp

theorem run_blank_line (rest : List Byte) (p : RequestParser) (req : request)
    (hs : p.m_state = .HEADER_START) :
    run p req (13 :: 10 :: rest) =
      end_of_headers_rest rest { p with m_state := .END_CR } req := by
  rw [run_cons, step_hs_cr _ p req hs]
  simp only
  rw [run_cons, byte_step_end _ _ req (Eq.refl _)]

theorem run_request_line (m u rest : List Byte) (hm : wf_method m) (hu : wf_uri u) :
    run RequestParser.new request.empty (request_line m u ++ rest) =
      run { RequestParser.new with m_state := .HEADER_START }
        { request.empty with method := m, uri := u, version := bytes "1.1" } rest := by
  obtain ⟨hne, hup⟩ := hm
  cases m with
  | nil => exact absurd (Eq.refl _) hne
  | cons c m =>
    have hc : is_upper c = true := (is_upper_iff c).mpr (hup c (List.mem_cons_self _ _))
    have hb : ∀ r, byte_step r c RequestParser.new request.empty =
        .more { RequestParser.new with m_state := .METHOD }
          { request.empty with method := [c] } := by
      intro r
      simp [byte_step, switch_body, Iter.out, RequestParser.new, request.empty, hc]
    simp only [request_line, List.cons_append, List.append_assoc]
    rw [run_cons, hb]
    simp only
    rw [run_method m _ _ _ (Eq.refl _)
      (fun x hx => (is_upper_iff x).mpr (hup x (List.mem_cons_of_mem _ hx)))]
    simp only [List.singleton_append, List.cons_append, List.nil_append]
    rw [run_cons]
    have hb2 : ∀ r (p : RequestParser) (req : request), p.m_state = .METHOD →
        byte_step r 32 p req = .more { p with m_state := .URI } req := by
      intro r p req hp
      have : is_upper 32 = false := by decide
      simp [byte_step, switch_body, Iter.out, hp, this]
    rw [hb2 _ _ _ (Eq.refl _)]
    simp only
    rw [run_uri u _ _ _ (Eq.refl _) hu, run_http_literal _ _ _ (Eq.refl _) (Eq.refl _)]
    simp [RequestParser.new, request.empty]

/-- The loop on a well-formed request head followed by `rest`, from the initial
state: the end-of-headers decision on `rest` with the parsed request line and
headers. -/
theorem run_request_head (m u : List Byte) (hs : List (List Byte × List Byte))
    (hm : wf_method m) (hu : wf_uri u) (hh : ∀ h ∈ hs, wf_header h) :
    ∃ p1 : RequestParser, p1.m_state = .END_CR ∧
      ∀ rest, run RequestParser.new request.empty (request_head m u hs ++ rest) =
        end_of_headers_rest rest p1
          { method := m, uri := u, version := bytes "1.1", headers := hs, body := [],
            raw := [] } := by
  obtain ⟨p1, hp1, hrun⟩ := run_header_lines hs
    { RequestParser.new with m_state := .HEADER_START }
    { request.empty with method := m, uri := u, version := bytes "1.1" } (Eq.refl _) hh
  refine ⟨{ p1 with m_state := .END_CR }, Eq.refl _, fun rest => ?_⟩
  simp only [request_head, List.append_assoc]
  rw [run_request_line m u _ hm hu, hrun]
  simp only [List.cons_append, List.nil_append]
  rw [run_blank_line rest p1 _ hp1]
  simp [request.empty]

/-! ### Body and Content-Length (C2, C3) -/

theorem stoul_eq_some (v : List Byte) (n : Nat) (h : stoul v = some n) : n = digits_value v := by
  unfold stoul at h
  split_ifs at h
  simp at h
  exact h.symm

theorem any_nondigit_false (v : List Byte) (h : ∀ c ∈ v, 48 ≤ c.val ∧ c.val ≤ 57) :
    ¬ (v.any (fun ch => decide (char_val ch < 48) || decide (char_val ch > 57)) = true) := by
  simp only [List.any_eq_true, not_exists, not_and, Bool.not_eq_true]
  intro c hc
  exact (digit_check_iff c).mpr (h c hc)

/-- The end-of-headers decision when the looked-up value is all digits and the announced
body is available. -/
theorem end_of_headers_rest_proper (t : List Byte) (p : RequestParser) (req : request)
    (hd : ∀ c ∈ get_header_value_loop Content_Length req.headers, 48 ≤ c.val ∧ c.val ≤ 57)
    (hN : content_length_value req.headers < 2 ^ 64)
    (ht : content_length_value req.headers ≤ t.length) :
    ∃ p1 r1, end_of_headers_rest t p req = (.PROPER_REQUEST, p1, r1) ∧
      r1.body = req.body ++ t.take (content_length_value req.headers) ∧
      r1.method = req.method ∧ r1.uri = req.uri ∧ r1.version = req.version ∧
      r1.headers = req.headers := by
  unfold end_of_headers_rest
  unfold content_length_value at *
  by_cases h1 : req.get_header_value Content_Length = []
  · refine ⟨p, req, ?_⟩
    have h1b : get_header_value_loop Content_Length req.headers = [] := h1
    simp [h1, h1b, digits_value]
  · have h2 := any_nondigit_false _ hd
    have h1b : ¬ get_header_value_loop Content_Length req.headers = [] := h1
    simp only [request.get_header_value, h1b, h2, if_false, stoul, hN, if_true, body_split, ht]
    exact ⟨_, _, Eq.refl _, Eq.refl _, Eq.refl _, Eq.refl _, Eq.refl _, Eq.refl _⟩

/-- C2 (amended). For every well-formed request head whose Content-Length value, as looked
up by the parser (first header with that name, ignoring case), is all digits with a
numeric value `N` that fits in `unsigned long`, and every `t` of length at least `N`
following the blank line, parsing under any chunking into non-empty chunks ends in
`PROPER_REQUEST` with body equal to the first `N` bytes of `t`. -/
theorem C2_body_is_content_length_prefix (m u : List Byte) (hs : List (List Byte × List Byte))
    (t : List Byte) (chunks : List (List Byte)) (req : request)
    (hm : wf_method m) (hu : wf_uri u) (hh : ∀ h ∈ hs, wf_header h)
    (hd : ∀ c ∈ get_header_value_loop Content_Length hs, 48 ≤ c.val ∧ c.val ≤ 57)
    (hN : content_length_value hs < 2 ^ 64)
    (ht : content_length_value hs ≤ t.length)
    (hch : ∀ d ∈ chunks, d ≠ [] ∧ d.length < 2 ^ 64)
    (hsplit : chunks.flatten = request_head m u hs ++ t) :
    ∃ p r, feed RequestParser.new req chunks = some (.PROPER_REQUEST, p, r) ∧
      r.body = t.take (content_length_value hs) := by
  obtain ⟨p1, _, hrun⟩ := run_request_head m u hs hm hu hh
  obtain ⟨p2, r2, hend, hbody, _⟩ := end_of_headers_rest_proper t p1
    { method := m, uri := u, version := bytes "1.1", headers := hs, body := [], raw := [] }
    hd hN ht
  have hcore : core RequestParser.new request.empty chunks.flatten =
      (.PROPER_REQUEST, p2, r2) := by
    rw [hsplit, core, if_neg (by simp [RequestParser.new]), hrun t, hend]
  obtain ⟨p3, r3, hf, hfields⟩ := feed_of_core chunks req _ _ _ hch hcore (by simp)
  refine ⟨p3, r3, hf, ?_⟩
  simp only [request.fields, Prod.mk.injEq] at hfields
  rw [hfields.2.2.2.2, hbody]
  simp

/-- C2 witness: the scenario `POST /x ... Content-Length: 5 ... HELLO` with trailing bytes,
split in the middle of the body. -/
theorem C2_body_is_content_length_prefix_witness :
    ∃ p r, feed RequestParser.new request.empty
        [bytes "POST /x HTTP/1.1\r\nContent-Length: 5\r\n\r\nHE", bytes "LLOextra"] =
          some (.PROPER_REQUEST, p, r) ∧
      r.body = (bytes "HELLOextra").take
        (content_length_value [(bytes "Content-Length", bytes "5")]) :=
  C2_body_is_content_length_prefix (bytes "POST") (bytes "/x")
    [(bytes "Content-Length", bytes "5")] (bytes "HELLOextra")
    [bytes "POST /x HTTP/1.1\r\nContent-Length: 5\r\n\r\nHE", bytes "LLOextra"] request.empty
    (by decide) (by decide) (by decide) (by decide) (by decide) (by decide) (by decide)
    (by decide)

/-- C2 counterexample: a well-formed head announcing `Content-Length: 18446744073709551616`
(`2^64`, all digits) followed by `2^64` bytes, delivered as the head and two chunks of
`2^63` bytes: the parser answers `BAD_REQUEST` at the blank line (`std::stoul` overflows),
not `PROPER_REQUEST`. -/
theorem C2_counterexample :
    wf_method (bytes "POST") ∧ wf_uri (bytes "/x") ∧
    wf_header (bytes "Content-Length", bytes "18446744073709551616") ∧
    (∀ c ∈ bytes "18446744073709551616", 48 ≤ c.val ∧ c.val ≤ 57) ∧
    digits_value (bytes "18446744073709551616") ≤ (List.replicate (2 ^ 64) (65 : Byte)).length ∧
    (∀ d ∈ [request_head (bytes "POST") (bytes "/x")
              [(bytes "Content-Length", bytes "18446744073709551616")],
            List.replicate (2 ^ 63) (65 : Byte), List.replicate (2 ^ 63) (65 : Byte)],
        d ≠ [] ∧ d.length < 2 ^ 64) ∧
    [request_head (bytes "POST") (bytes "/x")
        [(bytes "Content-Length", bytes "18446744073709551616")],
      List.replicate (2 ^ 63) (65 : Byte), List.replicate (2 ^ 63) (65 : Byte)].flatten =
      request_head (bytes "POST") (bytes "/x")
        [(bytes "Content-Length", bytes "18446744073709551616")] ++
        List.replicate (2 ^ 64) (65 : Byte) ∧
    (feed RequestParser.new request.empty
      [request_head (bytes "POST") (bytes "/x")
          [(bytes "Content-Length", bytes "18446744073709551616")],
        List.replicate (2 ^ 63) (65 : Byte), List.replicate (2 ^ 63) (65 : Byte)]).map
      (fun r => r.1) = some .BAD_REQUEST := by
  refine ⟨by decide, by decide, by decide, by decide, ?_, ?_, ?_, ?_⟩
  · rw [List.length_replicate]; decide
  · intro d hd
    simp only [List.mem_cons, List.mem_singleton, List.not_mem_nil, or_false] at hd
    rcases hd with h | h | h
    · subst h; decide
    · subst h
      refine ⟨fun h0 => ?_, by rw [List.length_replicate]; decide⟩
      have h1 := congrArg List.length h0
      rw [List.length_replicate] at h1
      exact absurd h1 (by decide)
    · subst h
      refine ⟨fun h0 => ?_, by rw [List.length_replicate]; decide⟩
      have h1 := congrArg List.length h0
      rw [List.length_replicate] at h1
      exact absurd h1 (by decide)
  · simp only [List.flatten_cons, List.flatten_nil, List.append_nil]
    rw [List.append_replicate_replicate]
    have h2 : (2 : Nat) ^ 63 + 2 ^ 63 = 2 ^ 64 := by norm_num
    rw [h2]
  · have hp : RequestParser.new.parse request.empty
        (some (request_head (bytes "POST") (bytes "/x")
          [(bytes "Content-Length", bytes "18446744073709551616")])) =
        some (.BAD_REQUEST,
          { m_state := .END_CR, current_header_name_ := bytes "Content-Length",
            current_header_value_ := bytes "18446744073709551616",
            expected_body_len_ := 0, remaining_body_len_ := 0 },
          { method := bytes "POST", uri := bytes "/x", version := bytes "1.1",
            headers := [(bytes "Content-Length", bytes "18446744073709551616")],
            body := [],
            raw := request_head (bytes "POST") (bytes "/x")
              [(bytes "Content-Length", bytes "18446744073709551616")] }) := by
      decide
    rw [feed, hp]
    rfl

theorem byte_step_more_body (rest : List Byte) (c : Byte) (p p1 : RequestParser)
    (req req1 : request) (h : byte_step rest c p req = .more p1 req1) :
    req1.body = req.body := by
  unfold byte_step at h
  by_cases hs : p.m_state = .HEADER_START ∧ c ≠ 13
  · simp only [hs, and_self, if_true, ne_eq, not_false_eq_true, switch_body] at h
    split_ifs at h <;> simp [Iter.out] at h <;> (obtain ⟨_, h1⟩ := h; subst h1; rfl)
  · simp only [hs, if_false] at h
    cases hst : p.m_state <;> simp only [switch_body, hst] at h <;>
      (try (split_ifs at h <;> simp [Iter.out] at h <;> (obtain ⟨_, h1⟩ := h; subst h1; rfl)))
    · by_cases hc : c = 10
      · rw [if_pos hc, end_of_headers_eq _ 0 p req (by simp)] at h
        simp [Iter.out] at h
      · rw [if_neg hc] at h
        simp [Iter.out] at h
    · simp [Iter.out] at h

theorem end_of_headers_rest_body (rest : List Byte) (p p1 : RequestParser) (req r1 : request)
    (st : Status) (hb : req.body = [])
    (h : end_of_headers_rest rest p req = (st, p1, r1)) :
    (st = .IN_PROGRESS → body_inv p1 r1) ∧
      (st = .PROPER_REQUEST → r1.body.length = content_length_value r1.headers) := by
  simp only [end_of_headers_rest] at h
  by_cases h1 : req.get_header_value Content_Length = []
  · simp only [h1, if_true] at h
    cases h
    refine ⟨fun h => by simp at h, fun _ => ?_⟩
    have h1b : get_header_value_loop Content_Length req.headers = [] := h1
    simp [hb, content_length_value, h1b, digits_value]
  by_cases h2 : (req.get_header_value Content_Length).any
      (fun ch => decide (char_val ch < 48) || decide (char_val ch > 57)) = true
  · simp only [h1, h2, if_true, if_false] at h
    cases h
    exact ⟨fun h => by simp at h, fun h => by simp at h⟩
  simp only [h1, h2, if_false] at h
  cases hst : stoul (req.get_header_value Content_Length) with
  | none =>
    rw [hst] at h
    cases h
    exact ⟨fun h => by simp at h, fun h => by simp at h⟩
  | some n =>
    rw [hst] at h
    have hn : n = content_length_value req.headers := stoul_eq_some _ n hst
    simp only [body_split] at h
    by_cases hle : n ≤ rest.length
    · simp only [hle, if_true] at h
      cases h
      refine ⟨fun h => by simp at h, fun _ => ?_⟩
      simp [hb, ← hn, hle]
    · simp only [hle, if_false] at h
      cases h
      refine ⟨fun _ => ⟨fun h => by simp at h, fun _ => ?_⟩, fun h => by simp at h⟩
      simp only [hb, List.nil_append, ← hn]
      omega

theorem run_body (d : List Byte) : ∀ (p p1 : RequestParser) (req r1 : request) (st : Status),
    p.m_state ≠ .BODY → req.body = [] → run p req d = (st, p1, r1) →
      (st = .IN_PROGRESS → body_inv p1 r1) ∧
        (st = .PROPER_REQUEST → r1.body.length = content_length_value r1.headers) := by
  induction d with
  | nil =>
    intro p p1 req r1 st hp hb h
    simp only [run] at h
    cases h
    exact ⟨fun _ => ⟨fun _ => hb, fun h => absurd h hp⟩, fun h => by simp at h⟩
  | cons c rest ih =>
    intro p p1 req r1 st hp hb h
    rw [run_cons] at h
    by_cases he : p.m_state = .END_CR ∧ c = 10
    · obtain ⟨he1, he2⟩ := he
      subst he2
      rw [byte_step_end _ p req he1] at h
      exact end_of_headers_rest_body rest p p1 req r1 st hb h
    · cases hbs : byte_step rest c p req with
      | done r =>
        rw [hbs] at h
        simp only at h
        rcases byte_step_done_bad rest c p req r he hbs with h2 | ⟨_, h2⟩ <;>
          (rw [h2] at h
           cases h
           exact ⟨fun h => by simp at h, fun h => by simp at h⟩)
      | more p2 req2 =>
        rw [hbs] at h
        simp only at h
        have hm := byte_step_more_state rest c p p2 req req2 hbs
        have hb2 : req2.body = [] := by
          rw [byte_step_more_body rest c p p2 req req2 hbs]; exact hb
        exact ih p2 p1 req2 r1 st hm.1 hb2 h

theorem body_branch_body (d : List Byte) (p p1 : RequestParser) (req r1 : request)
    (st : Status) (hp : p.m_state = .BODY)
    (hsum : req.body.length + p.remaining_body_len_ = content_length_value req.headers)
    (h : body_branch p req d = (st, p1, r1)) :
    (st = .IN_PROGRESS → body_inv p1 r1) ∧
      (st = .PROPER_REQUEST → r1.body.length = content_length_value r1.headers) := by
  simp only [body_branch] at h
  have hreq : ∀ (r : request), r =
      (if min p.remaining_body_len_ d.length > 0 then
        { req with body := req.body ++ d.take (min p.remaining_body_len_ d.length) }
       else req) →
      r.headers = req.headers ∧
        r.body.length = req.body.length + min p.remaining_body_len_ d.length := by
    intro r hr
    subst hr
    split_ifs with h0
    · simp
    · exact ⟨Eq.refl _, by omega⟩
  by_cases h0 : p.remaining_body_len_ - min p.remaining_body_len_ d.length = 0
  · simp only [h0, if_true] at h
    cases h
    obtain ⟨hh, hl⟩ := hreq _ (Eq.refl _)
    refine ⟨fun h => by simp at h, fun _ => ?_⟩
    rw [hh, hl, ← hsum]
    omega
  · simp only [h0, if_false] at h
    cases h
    obtain ⟨hh, hl⟩ := hreq _ (Eq.refl _)
    refine ⟨fun _ => ⟨fun h => absurd hp h, fun _ => ?_⟩, fun h => by simp at h⟩
    rw [hh, hl, ← hsum]
    simp only
    omega

theorem core_body (d : List Byte) (p p1 : RequestParser) (req r1 : request) (st : Status)
    (hinv : body_inv p req) (h : core p req d = (st, p1, r1)) :
    (st = .IN_PROGRESS → body_inv p1 r1) ∧
      (st = .PROPER_REQUEST → r1.body.length = content_length_value r1.headers) := by
  unfold core at h
  by_cases hp : p.m_state = .BODY
  · simp only [hp, if_true] at h
    exact body_branch_body d p p1 req r1 st hp (hinv.2 hp) h
  · simp only [hp, if_false] at h
    exact run_body d p p1 req r1 st hp (hinv.1 hp) h

theorem feed_body (chunks : List (List Byte)) :
    ∀ (p p1 : RequestParser) (req r1 : request),
      (∀ d ∈ chunks, d ≠ [] ∧ d.length < SIZE_MOD) →
      (p.m_state = .START ∨ body_inv p req) →
      feed p req chunks = some (.PROPER_REQUEST, p1, r1) →
      r1.body.length = content_length_value r1.headers := by
  induction chunks with
  | nil =>
    intro p p1 req r1 _ _ h
    simp [feed] at h
  | cons d ds ih =>
    intro p p1 req r1 hch hinv h
    have hd := hch d (List.mem_cons_self _ _)
    rw [feed, parse_eq_core p req d hd.1 hd.2] at h
    have hprep : body_inv p (prepare p req d) := by
      unfold prepare
      by_cases hs : p.m_state = .START
      · simp only [hs, if_true]
        exact ⟨fun _ => rfl, fun h => by rw [hs] at h; simp at h⟩
      · simp only [hs, if_false]
        rcases hinv with h1 | h1
        · exact absurd h1 hs
        · exact h1
    rcases hc : core p (prepare p req d) d with ⟨st, p2, r2⟩
    have hcb := core_body d p p2 _ r2 st hprep hc
    rw [hc] at h
    cases st with
    | IN_PROGRESS =>
      simp only at h
      exact ih p2 p1 r2 r1 (fun x hx => hch x (List.mem_cons_of_mem _ hx))
        (Or.inr (hcb.1 (Eq.refl _))) h
    | PROPER_REQUEST =>
      simp only [Option.some.injEq, Prod.mk.injEq, true_and] at h
      obtain ⟨_, hr⟩ := h
      subst hr
      exact hcb.2 (Eq.refl _)
    | BAD_REQUEST =>
      simp at h

/-- C3 (amended). Whenever a run of `parse` calls from the initial state, each call before
the last returning `IN_PROGRESS`, ends in `PROPER_REQUEST`, the length of body equals the
numeric value of the first header named Content-Length ignoring case (the value the
parser looks up; an empty value and a missing header count as 0). -/
theorem C3_body_length_is_content_length (chunks : List (List Byte)) (req : request)
    (p1 : RequestParser) (r1 : request)
    (hch : ∀ d ∈ chunks, d ≠ [] ∧ d.length < 2 ^ 64)
    (hfeed : feed RequestParser.new req chunks = some (.PROPER_REQUEST, p1, r1)) :
    r1.body.length = digits_value (r1.get_header_value Content_Length) :=
  feed_body chunks RequestParser.new p1 req r1 hch (Or.inl (Eq.refl _)) hfeed

/-- C3 witness: `Content-Length: 5` with the body split over two chunks. -/
theorem C3_body_length_is_content_length_witness :
    (bytes "HELLO").length = digits_value
      (request.get_header_value
        { method := bytes "POST", uri := bytes "/x", version := bytes "1.1",
          headers := [(bytes "Content-Length", bytes "5")], body := bytes "HELLO",
          raw := bytes "POST /x HTTP/1.1\r\nContent-Length: 5\r\n\r\nHELLO" } Content_Length) :=
  C3_body_length_is_content_length
    [bytes "POST /x HTTP/1.1\r\nContent-Length: 5\r\n\r\nHE", bytes "LLO"] request.empty
    { m_state := .BODY, current_header_name_ := bytes "Content-Length",
      current_header_value_ := bytes "5", expected_body_len_ := 5, remaining_body_len_ := 0 }
    { method := bytes "POST", uri := bytes "/x", version := bytes "1.1",
      headers := [(bytes "Content-Length", bytes "5")], body := bytes "HELLO",
      raw := bytes "POST /x HTTP/1.1\r\nContent-Length: 5\r\n\r\nHELLO" }
    (by decide) (by decide)

/-- C3 counterexample: a request carrying the headers `Content-Length: 0` and
`Content-Length: 5` ends in `PROPER_REQUEST` with an empty body, so the body length (0)
differs from the numeric value (5) of a Content-Length header the request carries. -/
theorem C3_counterexample :
    (feed RequestParser.new request.empty
      [bytes "POST /x HTTP/1.1\r\nContent-Length: 0\r\nContent-Length: 5\r\n\r\nHELLO"]).map
      (fun r => (r.1, r.2.2.headers, r.2.2.body)) =
      some (.PROPER_REQUEST,
        [(bytes "Content-Length", bytes "0"), (bytes "Content-Length", bytes "5")], []) ∧
    names_match (bytes "Content-Length") Content_Length = true ∧
    ([] : List Byte).length ≠ digits_value (bytes "5") := by
  decide

/-! ### Headers and Content-Length validation (C7, C8) -/

theorem lookup_nil_of_no_match (key : List Byte) (hs : List (List Byte × List Byte))
    (h : ∀ x ∈ hs, names_match x.1 key = false) : get_header_value_loop key hs = [] := by
  induction hs with
  | nil => rfl
  | cons x xs ih =>
    rw [get_header_value_loop, h x (List.mem_cons_self _ _)]
    simp only [Bool.false_eq_true, if_false]
    exact ih (fun y hy => h y (List.mem_cons_of_mem _ hy))

theorem end_of_headers_rest_nil (rest : List Byte) (p : RequestParser) (req : request)
    (h : get_header_value_loop Content_Length req.headers = []) :
    end_of_headers_rest rest p req = (.PROPER_REQUEST, p, req) := by
  simp [end_of_headers_rest, request.get_header_value, h]

theorem end_of_headers_rest_nondigit (rest : List Byte) (p : RequestParser) (req : request)
    (h : ∃ c ∈ get_header_value_loop Content_Length req.headers, ¬ (48 ≤ c.val ∧ c.val ≤ 57)) :
    end_of_headers_rest rest p req = (.BAD_REQUEST, p, req) := by
  obtain ⟨c, hc, hnd⟩ := h
  have h1 : get_header_value_loop Content_Length req.headers ≠ [] := by
    intro h0; rw [h0] at hc; simp at hc
  have h2 : (get_header_value_loop Content_Length req.headers).any
      (fun ch => decide (char_val ch < 48) || decide (char_val ch > 57)) = true := by
    rw [List.any_eq_true]
    refine ⟨c, hc, ?_⟩
    by_contra hf
    exact hnd ((digit_check_iff c).mp (by simpa using hf))
  simp [end_of_headers_rest, request.get_header_value, h1, h2]

theorem request_line_get : bytes "GET / HTTP/1.1\r\n" = request_line (bytes "GET") (bytes "/") := by
  decide

/-- C7. For every list of header pairs (name non-empty and free of `:`, CR, LF; value free
of CR; no name equal to `Content-Length` ignoring case), parsing `GET / HTTP/1.1` CR LF,
the pairs serialized as name `: ` value CR LF, and a final CR LF returns
`PROPER_REQUEST` with headers equal to that list, order and duplicates kept. -/
theorem C7_headers_roundtrip (hs : List (List Byte × List Byte)) (req : request)
    (hw : ∀ h ∈ hs, wf_header h)
    (hcl : ∀ h ∈ hs, names_match h.1 Content_Length = false)
    (hlen : (bytes "GET / HTTP/1.1\r\n" ++ header_lines hs ++ [13, 10]).length < 2 ^ 64) :
    ∃ p r, RequestParser.new.parse req
        (some (bytes "GET / HTTP/1.1\r\n" ++ header_lines hs ++ [13, 10])) =
          some (.PROPER_REQUEST, p, r) ∧ r.headers = hs := by
  obtain ⟨p1, _, hrun⟩ := run_request_head (bytes "GET") (bytes "/") hs (by decide) (by decide) hw
  have hne : bytes "GET / HTTP/1.1\r\n" ++ header_lines hs ++ [13, 10] ≠ [] := by simp
  rw [parse_new req _ hne hlen, core, if_neg (by simp [RequestParser.new])]
  have h0 := hrun []
  rw [List.append_nil, request_head, ← request_line_get] at h0
  rw [h0, end_of_headers_rest_nil _ _ _ (lookup_nil_of_no_match _ _ hcl)]
  exact ⟨_, _, Eq.refl _, Eq.refl _⟩

/-- C7 witness: two headers with the same name are both kept, in order. -/
theorem C7_headers_roundtrip_witness :
    ∃ p r, RequestParser.new.parse request.empty
        (some (bytes "GET / HTTP/1.1\r\n" ++
          header_lines [(bytes "Host", bytes "a"), (bytes "Host", bytes "")] ++ [13, 10])) =
          some (.PROPER_REQUEST, p, r) ∧
      r.headers = [(bytes "Host", bytes "a"), (bytes "Host", bytes "")] :=
  C7_headers_roundtrip [(bytes "Host", bytes "a"), (bytes "Host", bytes "")] request.empty
    (by decide) (by decide) (by decide)

/-- C8 (amended). For every otherwise well-formed request: if the value of the first header
named Content-Length ignoring case (the one the parser looks up) contains a byte that is
not an ASCII digit, `parse` returns `BAD_REQUEST`; if that value is `0`, `parse` returns
`PROPER_REQUEST` with an empty body. -/
theorem C8_content_length_validation (m u : List Byte) (hs : List (List Byte × List Byte))
    (rest : List Byte) (req : request)
    (hm : wf_method m) (hu : wf_uri u) (hh : ∀ h ∈ hs, wf_header h)
    (hlen : (request_head m u hs ++ rest).length < 2 ^ 64) :
    ((∃ c ∈ get_header_value_loop Content_Length hs, ¬ (48 ≤ c.val ∧ c.val ≤ 57)) →
      ∃ p r, RequestParser.new.parse req (some (request_head m u hs ++ rest)) =
        some (.BAD_REQUEST, p, r)) ∧
    (get_header_value_loop Content_Length hs = bytes "0" →
      ∃ p r, RequestParser.new.parse req (some (request_head m u hs ++ rest)) =
        some (.PROPER_REQUEST, p, r) ∧ r.body = []) := by
  obtain ⟨p1, _, hrun⟩ := run_request_head m u hs hm hu hh
  have hne : request_head m u hs ++ rest ≠ [] := by simp [request_head]
  rw [parse_new req _ hne hlen, core, if_neg (by simp [RequestParser.new]), hrun rest]
  constructor
  · intro hnd
    rw [end_of_headers_rest_nondigit _ _ _ hnd]
    exact ⟨_, _, Eq.refl _⟩
  · intro h0
    obtain ⟨p2, r2, hend, hbody, _⟩ := end_of_headers_rest_proper rest p1
      { method := m, uri := u, version := bytes "1.1", headers := hs, body := [], raw := [] }
      (by rw [h0]; decide) (by unfold content_length_value; rw [h0]; decide)
      (by unfold content_length_value; rw [h0]; exact Nat.zero_le _)
    rw [hend]
    refine ⟨_, _, Eq.refl _, ?_⟩
    simp only [res_with_raw, request.with_raw]
    rw [hbody]
    unfold content_length_value
    rw [h0]
    rfl

/-- C8 witness: the request of the test `BadNegativeContentLength` is rejected. -/
theorem C8_content_length_validation_witness :
    ∃ p r, RequestParser.new.parse request.empty
      (some (request_head (bytes "POST") (bytes "/api/neg")
        [(bytes "Host", bytes "example.com"), (bytes "Content-Length", bytes "-5")] ++
        bytes "abc")) = some (.BAD_REQUEST, p, r) :=
  (C8_content_length_validation (bytes "POST") (bytes "/api/neg")
    [(bytes "Host", bytes "example.com"), (bytes "Content-Length", bytes "-5")] (bytes "abc")
    request.empty (by decide) (by decide) (by decide) (by decide)).1
    ⟨45, by decide, by decide⟩

/-- C8 counterexample: an otherwise well-formed request that contains the header
`content-length: x` (non-digit value) after the header `Content-Length: 0` is answered
with `PROPER_REQUEST`, not `BAD_REQUEST`. -/
theorem C8_counterexample :
    wf_method (bytes "GET") ∧ wf_uri (bytes "/") ∧
    (∀ h ∈ [(bytes "Content-Length", bytes "0"), (bytes "content-length", bytes "x")],
      wf_header h) ∧
    names_match (bytes "content-length") Content_Length = true ∧
    (∃ c ∈ bytes "x", ¬ (48 ≤ c.val ∧ c.val ≤ 57)) ∧
    (RequestParser.new.parse request.empty
      (some (request_head (bytes "GET") (bytes "/")
        [(bytes "Content-Length", bytes "0"), (bytes "content-length", bytes "x")]))).map
      (fun r => r.1) = some .PROPER_REQUEST := by
  decide

/-! ### The version string (C9) -/

/-- The verdict of a single `parse` call on a fresh parser is the verdict of the loop. -/
theorem parse_new_status (req : request) (s : List Byte) (st : Status) (hs : s ≠ [])
    (hlen : s.length < SIZE_MOD) (h : (run RequestParser.new request.empty s).1 = st) :
    ∃ p r, RequestParser.new.parse req (some s) = some (st, p, r) := by
  rw [parse_new req s hs hlen, core, if_neg (by simp [RequestParser.new])]
  exact ⟨_, _, by rw [← h]; rfl⟩

theorem run_version_ok (v rest : List Byte) : ∀ (p : RequestParser) (req : request),
    p.m_state = .VERSION → (∀ c ∈ v, c = 49 ∨ c = 46) →
    run p req (v ++ rest) = run p { req with version := req.version ++ v } rest := by
  induction v with
  | nil => intro p req _ _; simp
  | cons c v ih =>
    intro p req hs hv
    have hc := hv c (List.mem_cons_self _ _)
    have hc13 : c ≠ 13 := by rcases hc with h | h <;> (subst h; decide)
    have hb : byte_step (v ++ rest) c p req =
        .more p { req with version := req.version ++ [c] } := by
      simp [byte_step, switch_body, hs, hc, hc13, Iter.out]
    rw [List.cons_append, run_cons, hb]
    simp only
    rw [ih p _ hs (fun x hx => hv x (List.mem_cons_of_mem _ hx))]
    simp

theorem run_version_bad (v rest : List Byte) : ∀ (p : RequestParser) (req : request),
    p.m_state = .VERSION → 13 ∉ v → (∃ c ∈ v, ¬ (c = 49 ∨ c = 46)) →
    (run p req (v ++ rest)).1 = .BAD_REQUEST := by
  induction v with
  | nil => intro p req _ _ h; simp at h
  | cons c v ih =>
    intro p req hs hcr hbad
    have hc13 : c ≠ 13 := fun h => hcr (by rw [h]; exact List.mem_cons_self _ _)
    rw [List.cons_append, run_cons]
    by_cases hc : c = 49 ∨ c = 46
    · have hb : byte_step (v ++ rest) c p req =
          .more p { req with version := req.version ++ [c] } := by
        simp [byte_step, switch_body, hs, hc, hc13, Iter.out]
      rw [hb]
      simp only
      refine ih p _ hs (fun h => hcr (List.mem_cons_of_mem _ h)) ?_
      obtain ⟨x, hx, hxb⟩ := hbad
      rcases List.mem_cons.mp hx with h | h
      · subst h; exact absurd hc hxb
      · exact ⟨x, h, hxb⟩
    · have hb : byte_step (v ++ rest) c p req = .done (.BAD_REQUEST, p, req) := by
        simp [byte_step, switch_body, hs, hc, hc13, Iter.out, make_bad_request_]
      rw [hb]

theorem run_to_version (rest : List Byte) :
    run RequestParser.new request.empty (bytes "GET / HTTP/" ++ rest) =
      run { RequestParser.new with m_state := .VERSION }
        { request.empty with method := bytes "GET", uri := bytes "/" } rest := by
  have e : bytes "GET / HTTP/" = [71, 69, 84, 32, 47, 32, 72, 84, 84, 80, 47] := by decide
  have e1 : bytes "GET" = [71, 69, 84] := by decide
  have e2 : bytes "/" = [47] := by decide
  have u1 : is_upper 71 = true := by decide
  have u2 : is_upper 69 = true := by decide
  have u3 : is_upper 84 = true := by decide
  have u4 : is_upper 32 = false := by decide
  have u5 : is_uri_char 47 = true := by decide
  rw [e, e1, e2]
  simp [run_cons, byte_step, switch_body, Iter.out, RequestParser.new, request.empty,
    u1, u2, u3, u4, u5]

theorem run_version_end (p : RequestParser) (req : request) (hs : p.m_state = .VERSION)
    (hh : req.headers = []) :
    (run p req [13, 10, 13, 10]).1 =
      if req.version = bytes "1.1" then .PROPER_REQUEST else .BAD_REQUEST := by
  by_cases hv : req.version = bytes "1.1"
  · have hl : get_header_value_loop Content_Length req.headers = [] := by rw [hh]; rfl
    simp [run_cons, byte_step, switch_body, Iter.out, hs, hv, end_of_headers_eq,
      end_of_headers_rest, request.get_header_value, hl]
  · simp [run_cons, byte_step, switch_body, Iter.out, hs, hv, make_bad_request_]

/-- C9. For every version string `v` without CR, parsing `GET / HTTP/` `v` CR LF CR LF on
a fresh parser returns `PROPER_REQUEST` when `v` is exactly `1.1` and `BAD_REQUEST` for
every other `v` (among them `1.0`, `2`, `1.3`, `1.1.1` and the empty string). -/
theorem C9_version_must_be_1_1 (v : List Byte) (req : request) (hcr : 13 ∉ v)
    (hlen : (bytes "GET / HTTP/" ++ v ++ [13, 10, 13, 10]).length < 2 ^ 64) :
    ∃ p r, RequestParser.new.parse req (some (bytes "GET / HTTP/" ++ v ++ [13, 10, 13, 10])) =
      some (if v = bytes "1.1" then .PROPER_REQUEST else .BAD_REQUEST, p, r) := by
  apply parse_new_status req _ _ (by simp) hlen
  rw [List.append_assoc, run_to_version]
  by_cases hv : ∀ c ∈ v, c = 49 ∨ c = 46
  · rw [run_version_ok v _ _ _ (Eq.refl _) hv, run_version_end _ _ (Eq.refl _) (Eq.refl _)]
    simp [request.empty]
  · have hne : v ≠ bytes "1.1" := by
      intro h
      apply hv
      rw [h]
      decide
    rw [run_version_bad v _ _ _ (Eq.refl _) hcr (by simpa using hv), if_neg hne]

/-- C9 witness: version `1.0`, as in the test `BadHTTP10Version`. -/
theorem C9_version_must_be_1_1_witness :
    ∃ p r, RequestParser.new.parse request.empty
        (some (bytes "GET / HTTP/" ++ bytes "1.0" ++ [13, 10, 13, 10])) =
      some (if bytes "1.0" = bytes "1.1" then .PROPER_REQUEST else .BAD_REQUEST, p, r) :=
  C9_version_must_be_1_1 (bytes "1.0") request.empty (by decide) (by decide)

/-! ### Bytes before the URI (C10) -/

theorem byte_step_more_method (rest : List Byte) (c : Byte) (p p1 : RequestParser)
    (req req1 : request) (h : byte_step rest c p req = .more p1 req1)
    (hm : p1.m_state = .METHOD) : req1.method ≠ [] := by
  unfold byte_step at h
  by_cases hs : p.m_state = .HEADER_START ∧ c ≠ 13
  · simp only [hs, and_self, if_true, ne_eq, not_false_eq_true, switch_body] at h
    split_ifs at h <;> simp [Iter.out] at h
    obtain ⟨h1, _⟩ := h
    subst h1
    simp at hm
  · simp only [hs, if_false] at h
    cases hst : p.m_state <;> simp only [switch_body, hst] at h <;>
      (try (split_ifs at h <;> simp [Iter.out] at h <;>
        (obtain ⟨h1, h2⟩ := h; subst h1; subst h2; simp [hst] at hm ⊢)))
    · by_cases hc : c = 10
      · rw [if_pos hc, end_of_headers_eq _ 0 p req (by simp)] at h
        simp [Iter.out] at h
      · rw [if_neg hc] at h
        simp [Iter.out] at h
    · simp [Iter.out] at h

theorem run_method_nonempty (d : List Byte) : ∀ (p p1 : RequestParser) (req r1 : request),
    p.m_state ≠ .BODY → (p.m_state = .METHOD → req.method ≠ []) →
    run p req d = (.IN_PROGRESS, p1, r1) → p1.m_state = .METHOD → r1.method ≠ [] := by
  induction d with
  | nil =>
    intro p p1 req r1 _ hi h hm
    simp only [run] at h
    cases h
    exact hi hm
  | cons c rest ih =>
    intro p p1 req r1 hp hi h hm
    rw [run_cons] at h
    by_cases he : p.m_state = .END_CR ∧ c = 10
    · obtain ⟨he1, he2⟩ := he
      subst he2
      rw [byte_step_end _ p req he1] at h
      have := (end_of_headers_rest_in_progress rest p p1 req r1 h).1
      rw [this] at hm
      simp at hm
    · cases hbs : byte_step rest c p req with
      | done r =>
        rw [hbs] at h
        simp only at h
        rcases byte_step_done_bad rest c p req r he hbs with h2 | ⟨_, h2⟩ <;>
          (rw [h2] at h; simp at h)
      | more p2 req2 =>
        rw [hbs] at h
        simp only at h
        exact ih p2 p1 req2 r1 (byte_step_more_state rest c p p2 req req2 hbs).1
          (byte_step_more_method rest c p p2 req req2 hbs) h hm

theorem feed_method_nonempty (chunks : List (List Byte)) :
    ∀ (p p1 : RequestParser) (req r1 : request),
      (∀ d ∈ chunks, d ≠ [] ∧ d.length < SIZE_MOD) →
      (p.m_state = .METHOD → req.method ≠ []) →
      feed p req chunks = some (.IN_PROGRESS, p1, r1) →
      p1.m_state = .METHOD → r1.method ≠ [] := by
  induction chunks with
  | nil =>
    intro p p1 req r1 _ hi h hm
    simp only [feed, Option.some.injEq] at h
    cases h
    exact hi hm
  | cons d ds ih =>
    intro p p1 req r1 hch hi h hm
    have hd := hch d (List.mem_cons_self _ _)
    rw [feed, parse_eq_core p req d hd.1 hd.2] at h
    rcases hc : core p (prepare p req d) d with ⟨st, p2, r2⟩
    rw [hc] at h
    cases st with
    | IN_PROGRESS =>
      simp only at h
      refine ih p2 p1 r2 r1 (fun x hx => hch x (List.mem_cons_of_mem _ hx)) ?_ h hm
      intro hm2
      unfold core at hc
      by_cases hb : p.m_state = .BODY
      · simp only [hb, if_true, body_branch] at hc
        split_ifs at hc <;> cases hc <;> simp [hb] at hm2
      · simp only [hb, if_false] at hc
        refine run_method_nonempty d p p2 _ r2 hb ?_ hc hm2
        intro hpm
        have hns : p.m_state ≠ .START := by rw [hpm]; simp
        simp only [prepare, hns, if_false]
        exact hi hpm
    | PROPER_REQUEST => simp at h
    | BAD_REQUEST => simp at h

/-- C10. In the parser states before the URI begins (`START` and `METHOD`), a byte that is
not an uppercase ASCII letter makes `parse` return `BAD_REQUEST`, except the space in
state `METHOD`, which is accepted and switches to `URI`; in every state `METHOD` reached
from a fresh parser the method is then non-empty. With `p` the fresh parser: every chunk
whose first byte is not in `A..Z` is rejected. -/
theorem C10_non_letter_rejected (p : RequestParser) (req : request) (c : Byte)
    (rest : List Byte) (hlen : (c :: rest).length < 2 ^ 64)
    (hst : p.m_state = .START ∨ p.m_state = .METHOD)
    (hc : ¬ (65 ≤ c.val ∧ c.val ≤ 90)) :
    (¬ (p.m_state = .METHOD ∧ c = 32) →
      ∃ p1 r1, p.parse req (some (c :: rest)) = some (.BAD_REQUEST, p1, r1)) ∧
    (p.m_state = .METHOD ∧ c = 32 →
      ∃ r1, p.parse req (some [c]) = some (.IN_PROGRESS, { p with m_state := .URI }, r1) ∧
        r1.method = req.method) ∧
    (∀ (chunks : List (List Byte)) (req0 : request),
      (∀ d ∈ chunks, d ≠ [] ∧ d.length < 2 ^ 64) →
      feed RequestParser.new req0 chunks = some (.IN_PROGRESS, p, req) →
      p.m_state = .METHOD → req.method ≠ []) := by
  have hup : is_upper c = false := by
    rw [← Bool.not_eq_true, is_upper_iff]
    exact hc
  refine ⟨fun hsp => ?_, fun hsp => ?_, fun chunks req0 hch hf hm => ?_⟩
  · rw [parse_eq_core p req _ (by simp) hlen, core]
    rcases hst with h | h
    · rw [if_neg (by rw [h]; simp), run_cons]
      have hb : byte_step rest c p (prepare p req (c :: rest)) =
          .done (.BAD_REQUEST, p, prepare p req (c :: rest)) := by
        simp [byte_step, switch_body, h, hup, Iter.out, make_bad_request_]
      rw [hb]
      exact ⟨_, _, Eq.refl _⟩
    · have hc32 : c ≠ 32 := fun h32 => hsp ⟨h, h32⟩
      rw [if_neg (by rw [h]; simp), run_cons]
      have hb : byte_step rest c p (prepare p req (c :: rest)) =
          .done (.BAD_REQUEST, p, prepare p req (c :: rest)) := by
        simp [byte_step, switch_body, h, hup, hc32, Iter.out, make_bad_request_]
      rw [hb]
      exact ⟨_, _, Eq.refl _⟩
  · obtain ⟨h, h32⟩ := hsp
    subst h32
    have hup32 : is_upper 32 = false := by decide
    rw [parse_eq_core p req _ (by simp) (by simp [SIZE_MOD]), core,
      if_neg (by rw [h]; simp), run_cons]
    have hb : byte_step [] 32 p (prepare p req [32]) =
        .more { p with m_state := .URI } (prepare p req [32]) := by
      simp [byte_step, switch_body, h, hup32, Iter.out]
    rw [hb]
    refine ⟨_, Eq.refl _, ?_⟩
    simp [prepare, h]
  · exact feed_method_nonempty chunks RequestParser.new p req0 req hch
      (fun h => by simp [RequestParser.new] at h) hf hm

/-- C10 witness: the fresh parser rejects a chunk that starts with the digit `1`
(test `StartFail`). -/
theorem C10_non_letter_rejected_witness :
    ∃ p1 r1, RequestParser.new.parse request.empty
      (some ((49 : Byte) :: bytes "GET /index.html HTTP/1.1\r\n\r\n")) =
        some (.BAD_REQUEST, p1, r1) :=
  (C10_non_letter_rejected RequestParser.new request.empty 49
    (bytes "GET /index.html HTTP/1.1\r\n\r\n") (by decide) (Or.inl (Eq.refl _))
    (by decide)).1 (by decide)

/-! ### The response assembler (C5) -/

/-- C5, evaluation at the failing input: building a 200 response whose body is the
five bytes `unset` throws the `std::runtime_error` of `set_bufs` although the body was
set. -/
theorem C5_build_fails_on_body_unset :
    ((ResponseBuilder.new 200).withBody (bytes "unset")).build response.new =
      .error "response: set_bufs called before set_content" := by
  rfl

theorem str_lt_irrefl (a : List Byte) : str_lt a a = false := by
  induction a with
  | nil => rfl
  | cons x xs ih => simp [str_lt, ih]

theorem str_eq_of_not_lt : ∀ (a b : List Byte), str_lt a b = false → str_lt b a = false → a = b
  | [], [], _, _ => rfl
  | [], _ :: _, h, _ => by simp [str_lt] at h
  | _ :: _, [], _, h => by simp [str_lt] at h
  | x :: xs, y :: ys, h1, h2 => by
    simp only [str_lt] at h1 h2
    by_cases hxy : x < y
    · simp [hxy] at h1
    · by_cases hyx : y < x
      · simp [hyx] at h2
      · simp only [hxy, hyx, if_false] at h1 h2
        have : x = y := le_antisymm (not_lt.mp hyx) (not_lt.mp hxy)
        rw [this, str_eq_of_not_lt xs ys h1 h2]

theorem mem_map_assign_self (key value : List Byte) (m : List (List Byte × List Byte)) :
    (key, value) ∈ map_assign key value m := by
  induction m with
  | nil => simp [map_assign]
  | cons e rest ih =>
    rw [map_assign]
    by_cases h1 : str_lt key e.1 = true
    · simp [h1]
    · by_cases h2 : str_lt e.1 key = true
      · simp only [h1, h2, if_true, if_false]
        exact List.mem_cons_of_mem _ ih
      · simp only [h1, h2, if_false]
        have : key = e.1 := str_eq_of_not_lt _ _ (by simpa using h1) (by simpa using h2)
        rw [← this]
        exact List.mem_cons_self _ _

theorem mem_map_assign_of_ne (key value : List Byte) (x : List Byte × List Byte)
    (m : List (List Byte × List Byte)) (hx : x ∈ m) (hne : x.1 ≠ key) :
    x ∈ map_assign key value m := by
  induction m with
  | nil => simp at hx
  | cons e rest ih =>
    rw [map_assign]
    by_cases h1 : str_lt key e.1 = true
    · simp only [h1, if_true]
      exact List.mem_cons_of_mem _ hx
    · by_cases h2 : str_lt e.1 key = true
      · simp only [h1, h2, if_true, if_false]
        rcases List.mem_cons.mp hx with h | h
        · rw [h]; exact List.mem_cons_self _ _
        · exact List.mem_cons_of_mem _ (ih h)
      · simp only [h1, h2, if_false]
        have hk : key = e.1 := str_eq_of_not_lt _ _ (by simpa using h1) (by simpa using h2)
        rcases List.mem_cons.mp hx with h | h
        · rw [h] at hne; exact absurd hk.symm hne
        · exact List.mem_cons_of_mem _ h

/-- What `build` returns whenever the body differs from the five bytes `unset`: it
succeeds, the body is emitted unchanged, the header block is the serialization of the
final map followed by CR LF, and the map holds `Content-Length: N` and
`Connection: close`. -/
theorem build_ok_of_body_ne_unset (b : ResponseBuilder) (out : response)
    (hb : b.body_ ≠ bytes "unset") :
    ∃ b1 out1, b.build out = .ok (b1, out1) ∧ out1.m_content = b.body_ ∧
      out1.m_headers = headers_str_loop b1.headers_ ++ bytes "\r\n" ∧
      (bytes "Content-Length", to_string_nat b.body_.length) ∈ b1.headers_ ∧
      (bytes "Connection", bytes "close") ∈ b1.headers_ := by
  have h1 : ∀ x : List Byte, bytes "HTTP/" ++ x ≠ bytes "unset" := by
    intro x h
    have e1 : bytes "HTTP/" = [72, 84, 84, 80, 47] := by decide
    have e2 : bytes "unset" = [117, 110, 115, 101, 116] := by decide
    rw [e1, e2] at h
    simp at h
  have h2 : ∀ x : List Byte, x ++ bytes "\r\n" ≠ bytes "unset" := by
    intro x h
    have e1 : bytes "\r\n" = [13, 10] := by decide
    have e2 : bytes "unset" = [117, 110, 115, 101, 116] := by decide
    rw [e1, e2] at h
    have := congrArg List.getLast? h
    simp at this
  unfold ResponseBuilder.build
  simp only [response.set_status_line, response.set_headers, response.set_content,
    response.set_bufs, List.append_assoc, h1, h2, hb, if_false]
  refine ⟨_, _, Eq.refl _, Eq.refl _, Eq.refl _, ?_, ?_⟩
  · have hne : bytes "Content-Length" ≠ bytes "Connection" := by decide
    exact mem_map_assign_of_ne _ _ _ _ (mem_map_assign_self _ _ _) hne
  · exact mem_map_assign_self _ _ _

/-! ### Longest-prefix dispatch (C4) -/

theorem dispatch_loop_first_match (req : request) (L : List RouteInit) :
    L.Pairwise (fun a b => route_cmp b a = false) →
    (∃ r ∈ L, r.factory.isSome = true ∧ r.location.isPrefixOf req.uri = true) →
    ∃ r ∈ L, ∃ f, r.factory = some f ∧ r.location.isPrefixOf req.uri = true ∧
      (∀ r1 ∈ L, r1.factory.isSome = true → r1.location.isPrefixOf req.uri = true →
        r1.location.length ≤ r.location.length) ∧
      ∀ all, dispatch_loop all req (ctor_loop L) =
        match f.create r.location req.uri with
        | none => root_fallback req all
        | some handler => handler.handle_request req := by
  induction L with
  | nil => intro _ h; simp at h
  | cons init rest ih =>
    intro hpw hex
    rw [List.pairwise_cons] at hpw
    obtain ⟨hfirst, hrest⟩ := hpw
    by_cases hsel : init.factory.isSome = true ∧ init.location.isPrefixOf req.uri = true
    · obtain ⟨hf, hp⟩ := hsel
      obtain ⟨f, hf2⟩ := Option.isSome_iff_exists.mp hf
      refine ⟨init, List.mem_cons_self _ _, f, hf2, hp, ?_, ?_⟩
      · intro r1 hr1 _ _
        rcases List.mem_cons.mp hr1 with h | h
        · rw [h]
        · have := hfirst r1 h
          simp only [route_cmp, decide_eq_false_iff_not, not_lt] at this
          exact this
      · intro all
        simp only [ctor_loop, hf2, dispatch_loop, hp, if_true]
    · have hex2 : ∃ r ∈ rest, r.factory.isSome = true ∧
          r.location.isPrefixOf req.uri = true := by
        obtain ⟨r, hr, h1, h2⟩ := hex
        rcases List.mem_cons.mp hr with h | h
        · subst h; exact absurd ⟨h1, h2⟩ hsel
        · exact ⟨r, h, h1, h2⟩
      obtain ⟨r, hr, f, hf, hp, hmax, hd⟩ := ih hrest hex2
      refine ⟨r, List.mem_cons_of_mem _ hr, f, hf, hp, ?_, ?_⟩
      · intro r1 hr1 h1 h2
        rcases List.mem_cons.mp hr1 with h | h
        · subst h; exact absurd ⟨h1, h2⟩ hsel
        · exact hmax r1 h h1 h2
      · intro all
        cases hfi : init.factory with
        | none => simp only [ctor_loop, hfi]; exact hd all
        | some g =>
          have hnp : init.location.isPrefixOf req.uri = false := by
            by_contra hc
            exact hsel ⟨by rw [hfi]; rfl, by simpa using hc⟩
          simp only [ctor_loop, hfi, dispatch_loop, hnp, Bool.false_eq_true, if_false]
          exact hd all

/-- The insertion sort used by `Dispatcher.new` is an admissible `std::sort`. -/
theorem insertionSort_is_std_sort (routes : List RouteInit) :
    is_std_sort routes
      (routes.insertionSort (fun a b => b.location.length ≤ a.location.length)) := by
  refine ⟨List.perm_insertionSort _ _, ?_⟩
  have hs : (routes.insertionSort
      (fun a b : RouteInit => b.location.length ≤ a.location.length)).Sorted
      (fun a b : RouteInit => b.location.length ≤ a.location.length) := by
    haveI : IsTotal RouteInit (fun a b => b.location.length ≤ a.location.length) :=
      ⟨fun a b => le_total _ _⟩
    haveI : IsTrans RouteInit (fun a b => b.location.length ≤ a.location.length) :=
      ⟨fun a b c h1 h2 => le_trans h2 h1⟩
    exact List.sorted_insertionSort _ _
  refine List.Pairwise.imp ?_ hs
  intro a b h
  simp only [route_cmp, decide_eq_false_iff_not, not_lt]
  exact h

/-- C4 (amended). For every list of routes passed to the constructor, every admissible
result of its `std::sort`, and every request URI that has the location of at least one
route with a factory as a literal prefix, `Dispatch` selects a route with a factory whose
location is the longest among the locations of routes with a factory that are prefixes
of the URI, calls its factory with (that location, the URI) and, when a handler is
produced, returns that handler's response unmodified. -/
theorem C4_longest_prefix_dispatch (routes sorted : List RouteInit) (req : request)
    (hsort : is_std_sort routes sorted)
    (hex : ∃ r ∈ routes, r.factory.isSome = true ∧ r.location.isPrefixOf req.uri = true) :
    ∃ r ∈ routes, ∃ f, r.factory = some f ∧ r.location.isPrefixOf req.uri = true ∧
      (∀ r1 ∈ routes, r1.factory.isSome = true → r1.location.isPrefixOf req.uri = true →
        r1.location.length ≤ r.location.length) ∧
      ∀ handler, f.create r.location req.uri = some handler →
        (Dispatcher.from_sorted sorted).Dispatch req = handler.handle_request req := by
  obtain ⟨hperm, hpw⟩ := hsort
  have hex2 : ∃ r ∈ sorted, r.factory.isSome = true ∧
      r.location.isPrefixOf req.uri = true := by
    obtain ⟨r, hr, h⟩ := hex
    exact ⟨r, hperm.mem_iff.mpr hr, h⟩
  obtain ⟨r, hr, f, hf, hp, hmax, hd⟩ := dispatch_loop_first_match req sorted hpw hex2
  refine ⟨r, hperm.mem_iff.mp hr, f, hf, hp, ?_, ?_⟩
  · intro r1 hr1 h1 h2
    exact hmax r1 (hperm.mem_iff.mpr hr1) h1 h2
  · intro handler hh
    rw [Dispatcher.Dispatch, Dispatcher.from_sorted, hd, hh]

/-- C4 witness: the routes of the test `LongestPrefixMatchPickedFirst`, given shortest
first. -/
theorem C4_longest_prefix_dispatch_witness :
    ∃ r ∈ [{ location := bytes "/static", factory := some location_echo_factory },
           ({ location := bytes "/static/images", factory := some location_echo_factory } :
             RouteInit)],
      ∃ f, r.factory = some f ∧
        r.location.isPrefixOf (make_request [] (bytes "/static/images/logo.png")).uri = true ∧
        (∀ r1 ∈ [{ location := bytes "/static", factory := some location_echo_factory },
                 ({ location := bytes "/static/images",
                    factory := some location_echo_factory } : RouteInit)],
          r1.factory.isSome = true →
          r1.location.isPrefixOf (make_request [] (bytes "/static/images/logo.png")).uri = true →
          r1.location.length ≤ r.location.length) ∧
        ∀ handler,
          f.create r.location (make_request [] (bytes "/static/images/logo.png")).uri =
            some handler →
          (Dispatcher.from_sorted
            [{ location := bytes "/static/images", factory := some location_echo_factory },
             { location := bytes "/static", factory := some location_echo_factory }]).Dispatch
            (make_request [] (bytes "/static/images/logo.png")) =
            handler.handle_request (make_request [] (bytes "/static/images/logo.png")) :=
  C4_longest_prefix_dispatch
    [{ location := bytes "/static", factory := some location_echo_factory },
     { location := bytes "/static/images", factory := some location_echo_factory }]
    [{ location := bytes "/static/images", factory := some location_echo_factory },
     { location := bytes "/static", factory := some location_echo_factory }]
    (make_request [] (bytes "/static/images/logo.png"))
    ⟨List.Perm.swap _ _ _, by
      simp only [List.pairwise_cons, List.mem_singleton, List.not_mem_nil, forall_eq,
        List.Pairwise.nil, and_true, false_implies, implies_true]
      decide⟩
    ⟨_, List.mem_cons_self _ _, Eq.refl _, by decide⟩

/-- C4 counterexample: the routes `/static/images` without a factory and `/static` with
one. The URI `/static/images/logo.png` has route locations as prefixes, but no route that
has a factory carries the longest of them; `Dispatch` answers through the handler
created for `/static`. -/
theorem C4_counterexample :
    is_std_sort
      [{ location := bytes "/static/images", factory := none },
       { location := bytes "/static", factory := some location_echo_factory }]
      [{ location := bytes "/static/images", factory := none },
       { location := bytes "/static", factory := some location_echo_factory }] ∧
    (bytes "/static/images").isPrefixOf (bytes "/static/images/logo.png") = true ∧
    (¬ ∃ r ∈ [({ location := bytes "/static/images", factory := none } : RouteInit),
              { location := bytes "/static", factory := some location_echo_factory }],
        ∃ f, r.factory = some f ∧
          r.location.isPrefixOf (bytes "/static/images/logo.png") = true ∧
          ∀ r1 ∈ [({ location := bytes "/static/images", factory := none } : RouteInit),
                  { location := bytes "/static", factory := some location_echo_factory }],
            r1.location.isPrefixOf (bytes "/static/images/logo.png") = true →
            r1.location.length ≤ r.location.length) ∧
    (Dispatcher.from_sorted
      [{ location := bytes "/static/images", factory := none },
       { location := bytes "/static", factory := some location_echo_factory }]).Dispatch
      (make_request [] (bytes "/static/images/logo.png")) =
      .ok (response.new.set_content (bytes "/static")) := by
  refine ⟨⟨List.Perm.refl _, ?_⟩, by decide, ?_, by rfl⟩
  · simp only [List.pairwise_cons, List.mem_singleton, List.not_mem_nil, forall_eq,
      List.Pairwise.nil, and_true, false_implies, implies_true]
    decide
  · rintro ⟨r, hr, f, hf, _, hmax⟩
    simp only [List.mem_cons, List.mem_singleton, List.not_mem_nil, or_false] at hr
    rcases hr with h | h
    · subst h
      simp at hf
    · subst h
      have := hmax { location := bytes "/static/images", factory := none }
        (List.mem_cons_self _ _) (by decide)
      revert this
      decide

/-! ### From `PROPER_REQUEST` back to the wire format (C6) -/

theorem inv_method (s : List Byte) : ∀ (p : RequestParser) (req : request),
    p.m_state = .METHOD → (run p req s).1 = .PROPER_REQUEST →
    ∃ m s1, s = m ++ 32 :: s1 ∧ (∀ c ∈ m, is_upper c = true) ∧
      (run { p with m_state := .URI } { req with method := req.method ++ m } s1).1 =
        .PROPER_REQUEST := by
  induction s with
  | nil => intro p req _ h; simp [run] at h
  | cons c s ih =>
    intro p req hs h
    rw [run_cons] at h
    by_cases hu : is_upper c = true
    · have hb : byte_step s c p req = .more p { req with method := req.method ++ [c] } := by
        simp [byte_step, switch_body, hs, hu, Iter.out]
      rw [hb] at h
      obtain ⟨m, s1, h1, h2, h3⟩ := ih p _ hs h
      refine ⟨c :: m, s1, by rw [h1]; rfl, ?_, ?_⟩
      · intro x hx
        rcases List.mem_cons.mp hx with h | h
        · rw [h]; exact hu
        · exact h2 x h
      · simpa using h3
    · by_cases h32 : c = 32
      · subst h32
        have hb : byte_step s 32 p req = .more { p with m_state := .URI } req := by
          simp [byte_step, switch_body, hs, hu, Iter.out]
        rw [hb] at h
        refine ⟨[], s, Eq.refl _, by simp, ?_⟩
        simpa using h
      · have hb : byte_step s c p req = .done (.BAD_REQUEST, p, req) := by
          simp [byte_step, switch_body, hs, hu, h32, Iter.out, make_bad_request_]
        rw [hb] at h
        simp at h

theorem inv_uri (s : List Byte) : ∀ (p : RequestParser) (req : request),
    p.m_state = .URI → (run p req s).1 = .PROPER_REQUEST →
    ∃ u s1, s = u ++ 32 :: s1 ∧ (∀ c ∈ u, is_uri_char c = true) ∧
      (run { p with m_state := .H } { req with uri := req.uri ++ u } s1).1 =
        .PROPER_REQUEST := by
  induction s with
  | nil => intro p req _ h; simp [run] at h
  | cons c s ih =>
    intro p req hs h
    rw [run_cons] at h
    by_cases h32 : c = 32
    · have hb : byte_step s c p req = .more { p with m_state := .H } req := by
        simp [byte_step, switch_body, hs, h32, Iter.out]
      rw [hb] at h
      refine ⟨[], s, by rw [h32]; rfl, by simp, ?_⟩
      simpa using h
    · by_cases hu : is_uri_char c = true
      · have hb : byte_step s c p req = .more p { req with uri := req.uri ++ [c] } := by
          simp [byte_step, switch_body, hs, hu, h32, Iter.out]
        rw [hb] at h
        obtain ⟨u, s1, h1, h2, h3⟩ := ih p _ hs h
        refine ⟨c :: u, s1, by rw [h1]; rfl, ?_, ?_⟩
        · intro x hx
          rcases List.mem_cons.mp hx with h | h
          · rw [h]; exact hu
          · exact h2 x h
        · simpa using h3
      · have hb : byte_step s c p req = .done (.BAD_REQUEST, p, req) := by
          simp [byte_step, switch_body, hs, hu, h32, Iter.out, make_bad_request_]
        rw [hb] at h
        simp at h

/-- One state that accepts exactly the byte `b` and moves to state `next`. -/
theorem inv_literal_byte (b : Byte) (next : StateMachine) (s : List Byte)
    (p : RequestParser) (req : request)
    (hstep : ∀ (r : List Byte) (c : Byte), byte_step r c p req =
      if c = b then .more { p with m_state := next } req else .done (.BAD_REQUEST, p, req))
    (h : (run p req s).1 = .PROPER_REQUEST) :
    ∃ s1, s = b :: s1 ∧ (run { p with m_state := next } req s1).1 = .PROPER_REQUEST := by
  cases s with
  | nil => simp [run] at h
  | cons c s =>
    rw [run_cons, hstep] at h
    by_cases hc : c = b
    · rw [if_pos hc] at h
      exact ⟨s, by rw [hc], h⟩
    · rw [if_neg hc] at h
      simp at h

theorem inv_http (s : List Byte) (p : RequestParser) (req : request)
    (hs : p.m_state = .H) (h : (run p req s).1 = .PROPER_REQUEST) :
    ∃ s1, s = bytes "HTTP/" ++ s1 ∧
      (run { p with m_state := .VERSION } req s1).1 = .PROPER_REQUEST := by
  obtain ⟨s1, e1, h1⟩ := inv_literal_byte 72 .T1 s p req (by
    intro r c
    by_cases hc : c = 72 <;> simp [byte_step, switch_body, hs, hc, Iter.out, make_bad_request_]) h
  obtain ⟨s2, e2, h2⟩ := inv_literal_byte 84 .T2 s1 _ req (by
    intro r c
    by_cases hc : c = 84 <;> simp [byte_step, switch_body, hc, Iter.out, make_bad_request_]) h1
  obtain ⟨s3, e3, h3⟩ := inv_literal_byte 84 .P s2 _ req (by
    intro r c
    by_cases hc : c = 84 <;> simp [byte_step, switch_body, hc, Iter.out, make_bad_request_]) h2
  obtain ⟨s4, e4, h4⟩ := inv_literal_byte 80 .SLASH s3 _ req (by
    intro r c
    by_cases hc : c = 80 <;> simp [byte_step, switch_body, hc, Iter.out, make_bad_request_]) h3
  obtain ⟨s5, e5, h5⟩ := inv_literal_byte 47 .VERSION s4 _ req (by
    intro r c
    by_cases hc : c = 47 <;> simp [byte_step, switch_body, hc, Iter.out, make_bad_request_]) h4
  have e : bytes "HTTP/" = [72, 84, 84, 80, 47] := by decide
  refine ⟨s5, by rw [e1, e2, e3, e4, e5, e]; rfl, ?_⟩
  simpa using h5

theorem inv_version (s : List Byte) : ∀ (p : RequestParser) (req : request),
    p.m_state = .VERSION → (run p req s).1 = .PROPER_REQUEST →
    ∃ v s1, s = v ++ 13 :: s1 ∧ req.version ++ v = bytes "1.1" ∧
      (run { p with m_state := .REQUEST_LINE_CR } { req with version := req.version ++ v }
        s1).1 = .PROPER_REQUEST := by
  induction s with
  | nil => intro p req _ h; simp [run] at h
  | cons c s ih =>
    intro p req hs h
    rw [run_cons] at h
    by_cases h13 : c = 13
    · by_cases hv : req.version = bytes "1.1"
      · have hb : byte_step s c p req = .more { p with m_state := .REQUEST_LINE_CR } req := by
          simp [byte_step, switch_body, hs, h13, hv, Iter.out]
        rw [hb] at h
        refine ⟨[], s, by rw [h13]; rfl, by simpa using hv, ?_⟩
        simpa using h
      · have hb : byte_step s c p req = .done (.BAD_REQUEST, p, req) := by
          simp [byte_step, switch_body, hs, h13, hv, Iter.out, make_bad_request_]
        rw [hb] at h
        simp at h
    · by_cases hc : c = 49 ∨ c = 46
      · have hb : byte_step s c p req =
            .more p { req with version := req.version ++ [c] } := by
          simp [byte_step, switch_body, hs, h13, hc, Iter.out]
        rw [hb] at h
        obtain ⟨v, s1, h1, h2, h3⟩ := ih p _ hs h
        refine ⟨c :: v, s1, by rw [h1]; rfl, by simpa using h2, ?_⟩
        simpa using h3
      · have hb : byte_step s c p req = .done (.BAD_REQUEST, p, req) := by
          simp [byte_step, switch_body, hs, h13, hc, Iter.out, make_bad_request_]
        rw [hb] at h
        simp at h

theorem inv_name (s : List Byte) : ∀ (p : RequestParser) (req : request),
    p.m_state = .HEADER_NAME → (run p req s).1 = .PROPER_REQUEST →
    ∃ n s1, s = n ++ 58 :: s1 ∧ (∀ c ∈ n, c ≠ 58 ∧ c ≠ 13 ∧ c ≠ 10) ∧
      p.current_header_name_ ++ n ≠ [] ∧
      (run { p with current_header_name_ := p.current_header_name_ ++ n,
                    m_state := .HEADER_COLON } req s1).1 = .PROPER_REQUEST := by
  induction s with
  | nil => intro p req _ h; simp [run] at h
  | cons c s ih =>
    intro p req hs h
    rw [run_cons] at h
    by_cases h58 : c = 58
    · by_cases hn : p.current_header_name_ = []
      · have hb : byte_step s c p req = .done (.BAD_REQUEST, p, req) := by
          simp [byte_step, switch_body, hs, h58, hn, Iter.out, make_bad_request_]
        rw [hb] at h
        simp at h
      · have hb : byte_step s c p req = .more { p with m_state := .HEADER_COLON } req := by
          simp [byte_step, switch_body, hs, h58, hn, Iter.out]
        rw [hb] at h
        refine ⟨[], s, by rw [h58]; rfl, by simp, by simpa using hn, ?_⟩
        simpa using h
    · by_cases hc : c = 13 ∨ c = 10
      · have hb : byte_step s c p req = .done (.BAD_REQUEST, p, req) := by
          simp [byte_step, switch_body, hs, h58, hc, Iter.out, make_bad_request_]
        rw [hb] at h
        simp at h
      · have hb : byte_step s c p req =
            .more { p with current_header_name_ := p.current_header_name_ ++ [c] } req := by
          simp [byte_step, switch_body, hs, h58, hc, Iter.out]
        rw [hb] at h
        obtain ⟨n, s1, h1, h2, h3, h4⟩ :=
          ih { p with current_header_name_ := p.current_header_name_ ++ [c] } req hs h
        push_neg at hc
        refine ⟨c :: n, s1, by rw [h1]; rfl, ?_, by simp, ?_⟩
        · intro x hx
          rcases List.mem_cons.mp hx with h | h
          · rw [h]; exact ⟨h58, hc.1, hc.2⟩
          · exact h2 x h
        · simpa using h4

theorem inv_value (s : List Byte) : ∀ (p : RequestParser) (req : request),
    p.m_state = .HEADER_VALUE → (run p req s).1 = .PROPER_REQUEST →
    ∃ v s1, s = v ++ 13 :: s1 ∧ (∀ c ∈ v, c ≠ 13) ∧
      (run { p with current_header_value_ := p.current_header_value_ ++ v,
                    m_state := .HEADER_LINE_CR } req s1).1 = .PROPER_REQUEST := by
  induction s with
  | nil => intro p req _ h; simp [run] at h
  | cons c s ih =>
    intro p req hs h
    rw [run_cons] at h
    by_cases h13 : c = 13
    · have hb : byte_step s c p req = .more { p with m_state := .HEADER_LINE_CR } req := by
        simp [byte_step, switch_body, hs, h13, Iter.out]
      rw [hb] at h
      refine ⟨[], s, by rw [h13]; rfl, by simp, ?_⟩
      simpa using h
    · have hb : byte_step s c p req =
          .more { p with current_header_value_ := p.current_header_value_ ++ [c] } req := by
        simp [byte_step, switch_body, hs, h13, Iter.out]
      rw [hb] at h
      obtain ⟨v, s1, h1, h2, h3⟩ :=
        ih { p with current_header_value_ := p.current_header_value_ ++ [c] } req hs h
      refine ⟨c :: v, s1, by rw [h1]; rfl, ?_, ?_⟩
      · intro x hx
        rcases List.mem_cons.mp hx with h | h
        · rw [h]; exact h13
        · exact h2 x h
      · simpa using h3

theorem inv_line_lf (s : List Byte) (p : RequestParser) (req : request)
    (hs : p.m_state = .HEADER_LINE_CR) (h : (run p req s).1 = .PROPER_REQUEST) :
    ∃ s1, s = 10 :: s1 ∧
      (run { p with m_state := .HEADER_START }
        { req with headers :=
            req.headers ++ [(p.current_header_name_, p.current_header_value_)] } s1).1 =
        .PROPER_REQUEST := by
  cases s with
  | nil => simp [run] at h
  | cons x s1 =>
    rw [run_cons] at h
    by_cases hx : x = 10
    · subst hx
      rw [step_line_lf _ _ req hs] at h
      exact ⟨s1, Eq.refl _, h⟩
    · have hb : byte_step s1 x p req = .done (.BAD_REQUEST, p, req) := by
        simp [byte_step, switch_body, hs, hx, Iter.out, make_bad_request_]
      rw [hb] at h
      simp at h

theorem inv_header_line (s : List Byte) (c : Byte) (p : RequestParser) (req : request)
    (hs : p.m_state = .HEADER_START) (hc : c ≠ 13)
    (h : (run p req (c :: s)).1 = .PROPER_REQUEST) :
    ∃ hd s1 p1, c :: s = header_line hd ++ s1 ∧ wf_header hd ∧ p1.m_state = .HEADER_START ∧
      (run p1 { req with headers := req.headers ++ [hd] } s1).1 = .PROPER_REQUEST := by
  rw [run_cons, byte_step_rewind s c p req hs hc, ← run_cons] at h
  obtain ⟨n, s1, e1, hn, hne, h1⟩ := inv_name (c :: s) _ req (Eq.refl _) h
  simp only [List.nil_append] at hne h1
  obtain ⟨s2, e2, h2⟩ := inv_literal_byte 32 .HEADER_SPACE s1 _ req (by
    intro r x
    by_cases hx : x = 32 <;> simp [byte_step, switch_body, hx, Iter.out, make_bad_request_]) h1
  simp only at h2
  have hval : ∃ v s3, s2 = v ++ 13 :: s3 ∧ (∀ x ∈ v, x ≠ 13) ∧
      (run { m_state := .HEADER_LINE_CR, current_header_name_ := n,
             current_header_value_ := v, expected_body_len_ := p.expected_body_len_,
             remaining_body_len_ := p.remaining_body_len_ } req s3).1 = .PROPER_REQUEST := by
    cases s2 with
    | nil => simp [run] at h2
    | cons x s3 =>
      rw [run_cons] at h2
      by_cases hx : x = 13
      · subst hx
        rw [step_space_cr _ _ req (Eq.refl _)] at h2
        exact ⟨[], s3, Eq.refl _, by simp, h2⟩
      · rw [step_space_value _ x _ req (Eq.refl _) hx] at h2
        obtain ⟨v, s4, e4, hv, h4⟩ := inv_value s3 _ req (Eq.refl _) h2
        refine ⟨x :: v, s4, by rw [e4]; rfl, ?_, by simpa using h4⟩
        intro y hy
        rcases List.mem_cons.mp hy with h | h
        · rw [h]; exact hx
        · exact hv y h
  obtain ⟨v, s3, e3, hv, h3⟩ := hval
  obtain ⟨s4, e4, h4⟩ := inv_line_lf s3 _ req (Eq.refl _) h3
  refine ⟨(n, v), s4, _, ?_, ⟨hne, hn, hv⟩, Eq.refl _, h4⟩
  rw [e1, e2, e3, e4]
  simp [header_line]

theorem inv_headers : ∀ (k : Nat) (s : List Byte), s.length ≤ k →
    ∀ (p : RequestParser) (req : request), p.m_state = .HEADER_START →
    (run p req s).1 = .PROPER_REQUEST →
    ∃ hs rest p1, s = header_lines hs ++ 13 :: 10 :: rest ∧ (∀ h ∈ hs, wf_header h) ∧
      p1.m_state = .END_CR ∧
      (end_of_headers_rest rest p1 { req with headers := req.headers ++ hs }).1 =
        .PROPER_REQUEST := by
  intro k
  induction k with
  | zero =>
    intro s hk p req _ h
    have : s = [] := List.length_eq_zero.mp (by omega)
    subst this
    simp [run] at h
  | succ k ih =>
    intro s hk p req hs h
    cases s with
    | nil => simp [run] at h
    | cons c s0 =>
      by_cases hc : c = 13
      · subst hc
        rw [run_cons, step_hs_cr _ p req hs] at h
        simp only at h
        cases s0 with
        | nil => simp [run] at h
        | cons x s1 =>
          rw [run_cons] at h
          by_cases hx : x = 10
          · subst hx
            rw [byte_step_end _ _ req (Eq.refl _)] at h
            refine ⟨[], s1, { p with m_state := .END_CR }, by simp [header_lines], by simp,
              Eq.refl _, ?_⟩
            simpa using h
          · have hb : byte_step s1 x { p with m_state := .END_CR } req =
                .done (.BAD_REQUEST, { p with m_state := .END_CR }, req) := by
              simp [byte_step, switch_body, hx, Iter.out, make_bad_request_]
            rw [hb] at h
            simp at h
      · obtain ⟨hd, s1, p1, e1, hw, hp1, h1⟩ := inv_header_line s0 c p req hs hc h
        have hl : s1.length ≤ k := by
          have := congrArg List.length e1
          obtain ⟨hne, _, _⟩ := hw
          have hpos : 0 < hd.1.length := List.length_pos.mpr hne
          simp [header_line] at this
          simp at hk
          omega
        obtain ⟨hs2, rest, p2, e2, hw2, hp2, h2⟩ := ih s1 hl p1 _ hp1 h1
        refine ⟨hd :: hs2, rest, p2, ?_, ?_, hp2, ?_⟩
        · rw [e1, e2, header_lines, List.append_assoc]
        · intro x hx
          rcases List.mem_cons.mp hx with h | h
          · rw [h]; exact hw
          · exact hw2 x h
        · simpa using h2

theorem stoul_some_lt (v : List Byte) (n : Nat) (h : stoul v = some n) :
    digits_value v < 2 ^ 64 := by
  unfold stoul at h
  by_contra hc
  rw [if_neg hc] at h
  simp at h

theorem stoul_none_ge (v : List Byte) (h : stoul v = none) : ¬ digits_value v < 2 ^ 64 := by
  unfold stoul at h
  intro hc
  rw [if_pos hc] at h
  simp at h

theorem end_of_headers_rest_status (rest : List Byte) (p : RequestParser) (req : request) :
    (end_of_headers_rest rest p req).1 = .PROPER_REQUEST ↔
      (get_header_value_loop Content_Length req.headers = [] ∨
        ((∀ c ∈ get_header_value_loop Content_Length req.headers, 48 ≤ c.val ∧ c.val ≤ 57) ∧
          content_length_value req.headers < 2 ^ 64 ∧
          content_length_value req.headers ≤ rest.length)) := by
  unfold end_of_headers_rest content_length_value
  simp only [request.get_header_value]
  by_cases h1 : get_header_value_loop Content_Length req.headers = []
  · simp [h1]
  by_cases h2 : (get_header_value_loop Content_Length req.headers).any
      (fun ch => decide (char_val ch < 48) || decide (char_val ch > 57)) = true
  · simp only [h1, h2, if_true, if_false, false_or]
    constructor
    · intro h; simp at h
    · intro ⟨hd, _, _⟩
      exact absurd h2 (any_nondigit_false _ hd)
  · have hd : ∀ c ∈ get_header_value_loop Content_Length req.headers,
        48 ≤ c.val ∧ c.val ≤ 57 := by
      intro c hc
      apply (digit_check_iff c).mp
      simp only [List.any_eq_true, not_exists, not_and, Bool.not_eq_true] at h2
      exact h2 c hc
    simp only [h1, h2, if_false, false_or]
    cases hst : stoul (get_header_value_loop Content_Length req.headers) with
    | none =>
      have hN := stoul_none_ge _ hst
      constructor
      · intro h; simp at h
      · intro ⟨_, h, _⟩; exact absurd h hN
    | some n =>
      have hN := stoul_some_lt _ n hst
      have hn := stoul_eq_some _ n hst
      subst hn
      simp only [body_split]
      by_cases hle : digits_value (get_header_value_loop Content_Length req.headers) ≤
          rest.length
      · rw [if_pos hle]
        exact ⟨fun _ => ⟨hd, hN, hle⟩, fun _ => Eq.refl _⟩
      · rw [if_neg hle]
        constructor
        · intro h; simp at h
        · intro ⟨_, _, h⟩; exact absurd h hle

theorem end_of_headers_rest_headers (rest : List Byte) (p : RequestParser) (req : request) :
    (end_of_headers_rest rest p req).2.2.headers = req.headers := by
  unfold end_of_headers_rest
  simp only
  split_ifs
  · rfl
  · rfl
  · cases stoul (req.get_header_value Content_Length) with
    | none => rfl
    | some n =>
      simp only [body_split]
      split_ifs <;> rfl

theorem wire_format_of_run (s : List Byte)
    (h : (run RequestParser.new request.empty s).1 = .PROPER_REQUEST) : wire_format s := by
  cases s with
  | nil => simp [run] at h
  | cons c s0 =>
    rw [run_cons] at h
    by_cases hu : is_upper c = true
    · have hb : byte_step s0 c RequestParser.new request.empty =
          .more { RequestParser.new with m_state := .METHOD }
            { request.empty with method := [c] } := by
        simp [byte_step, switch_body, Iter.out, RequestParser.new, request.empty, hu]
      rw [hb] at h
      simp only at h
      obtain ⟨m, s1, e1, hm, h1⟩ := inv_method s0 _ _ (Eq.refl _) h
      obtain ⟨u, s2, e2, hu2, h2⟩ := inv_uri s1 _ _ (Eq.refl _) h1
      obtain ⟨s3, e3, h3⟩ := inv_http s2 _ _ (Eq.refl _) h2
      obtain ⟨v, s4, e4, hv, h4⟩ := inv_version s3 _ _ (Eq.refl _) h3
      obtain ⟨s5, e5, h5⟩ := inv_literal_byte 10 .HEADER_START s4 _ _ (by
        intro r x
        by_cases hx : x = 10 <;>
          simp [byte_step, switch_body, hx, Iter.out, make_bad_request_]) h4
      obtain ⟨hs, rest, p1, e6, hw, _, h6⟩ := inv_headers s5.length s5 (le_refl _) _ _
        (Eq.refl _) h5
      have hv2 : v = bytes "1.1" := by simpa [request.empty] using hv
      refine ⟨c :: m, u, hs, rest, ⟨by simp, ?_⟩, hu2, hw, ?_, ?_⟩
      · intro x hx
        rcases List.mem_cons.mp hx with hxc | hxm
        · rw [hxc]; exact (is_upper_iff c).mp hu
        · exact (is_upper_iff x).mp (hm x hxm)
      · rw [e1, e2, e3, e4, e5, e6, hv2]
        have e : bytes "HTTP/" = [72, 84, 84, 80, 47] := by decide
        simp [request_head, request_line, bytes_http_literal, bytes_version, e]
      · have := (end_of_headers_rest_status rest _ _).mp h6
        simp only [request.empty, List.nil_append] at this
        rcases this with h0 | ⟨hd, _, hle⟩
        · exact Or.inl h0
        · exact Or.inr ⟨hd, hle⟩
    · have hb : byte_step s0 c RequestParser.new request.empty =
          .done (.BAD_REQUEST, RequestParser.new, request.empty) := by
        simp [byte_step, switch_body, Iter.out, RequestParser.new, request.empty, hu,
          make_bad_request_]
      rw [hb] at h
      simp at h

theorem run_of_wire_format (s : List Byte) (hlen : s.length < 2 ^ 64) (h : wire_format s) :
    (run RequestParser.new request.empty s).1 = .PROPER_REQUEST := by
  obtain ⟨m, u, hs, rest, hm, hu, hh, e, hcl⟩ := h
  obtain ⟨p1, _, hrun⟩ := run_request_head m u hs hm hu hh
  rw [e, hrun rest, end_of_headers_rest_status]
  rcases hcl with h0 | ⟨hd, hle⟩
  · exact Or.inl h0
  · refine Or.inr ⟨hd, ?_, hle⟩
    have : rest.length ≤ s.length := by rw [e]; simp
    simp only at hle ⊢
    omega

/-- C6 (amended). A single `parse` call on a fresh parser returns `PROPER_REQUEST` for a
byte string `s` (a chunk, so shorter than `2^64`) if and only if `s` begins with a request
in the wire format: a non-empty method of uppercase ASCII letters, one space, a URI of URI
bytes, ` HTTP/1.1` CR LF, header lines `Name: Value` CR LF, a blank line, and then either
the Content-Length value looked up by the parser (first header with that name ignoring
case) is empty or missing, or it is all digits `N` and at least `N` further bytes are
present. -/
theorem C6_proper_iff_wire_format (s : List Byte) (req : request) (hlen : s.length < 2 ^ 64) :
    (∃ p r, RequestParser.new.parse req (some s) = some (.PROPER_REQUEST, p, r)) ↔
      wire_format s := by
  constructor
  · rintro ⟨p, r, h⟩
    have hs0 : s ≠ [] := by
      intro h0
      subst h0
      simp [RequestParser.parse] at h
    rw [parse_new req s hs0 hlen, core, if_neg (by simp [RequestParser.new])] at h
    apply wire_format_of_run
    simp only [res_with_raw, Option.some.injEq, Prod.mk.injEq] at h
    exact h.1
  · intro h
    have hs0 : s ≠ [] := by
      obtain ⟨m, u, hs, rest, _, _, _, e, _⟩ := h
      rw [e]
      simp [request_head]
    exact parse_new_status req s _ hs0 hlen (run_of_wire_format s hlen h)

/-- C6 witness: the request of the test `ProperPostWithBodySingleBuffer` in miniature. -/
theorem C6_proper_iff_wire_format_witness :
    (∃ p r, RequestParser.new.parse request.empty
        (some (bytes "POST /x HTTP/1.1\r\nContent-Length: 5\r\n\r\nHELLO")) =
          some (.PROPER_REQUEST, p, r)) ↔
      wire_format (bytes "POST /x HTTP/1.1\r\nContent-Length: 5\r\n\r\nHELLO") :=
  C6_proper_iff_wire_format (bytes "POST /x HTTP/1.1\r\nContent-Length: 5\r\n\r\nHELLO")
    request.empty (by decide)

/-- C6 counterexample: `GET / HTTP/1.1` with the header `Content-Length: ` (empty value)
is answered with `PROPER_REQUEST`, although a Content-Length header is present and its
value is not a number, so the byte string is not in the wire format as stated. -/
theorem C6_counterexample :
    (RequestParser.new.parse request.empty
      (some (bytes "GET / HTTP/1.1\r\nContent-Length: \r\n\r\n"))).map (fun r => r.1) =
      some .PROPER_REQUEST ∧
    ¬ wire_format_stated (bytes "GET / HTTP/1.1\r\nContent-Length: \r\n\r\n") := by
  refine ⟨by decide, ?_⟩
  rintro ⟨m, u, hs, rest, hm, hu, hh, e, hcl⟩
  obtain ⟨p1, _, hrun⟩ := run_request_head m u hs hm hu hh
  have hrun2 := hrun rest
  rw [← e] at hrun2
  have hval : (run RequestParser.new request.empty
      (bytes "GET / HTTP/1.1\r\nContent-Length: \r\n\r\n")).2.2.headers =
      [(bytes "Content-Length", [])] := by decide
  rw [hrun2, end_of_headers_rest_headers] at hval
  simp only at hval
  subst hval
  rcases hcl with h0 | ⟨h1, _⟩
  · have := h0 (bytes "Content-Length", []) (List.mem_singleton.mpr (Eq.refl _))
    revert this
    decide
  · exact h1 (by decide)

/-! ### Totality of `parse` -/

/-- `parse` always returns: for every parser, request record and chunk whose length fits
in `size_t`, the loop budget `2 * len + 1` is never exhausted. -/
theorem parse_total (p : RequestParser) (req : request) (data : Option (List Byte))
    (hlen : ∀ d, data = some d → d.length < 2 ^ 64) :
    ∃ r, p.parse req data = some r := by
  cases data with
  | none => exact ⟨_, Eq.refl _⟩
  | some d =>
    by_cases hd : d = []
    · subst hd
      exact ⟨_, Eq.refl _⟩
    · exact ⟨_, parse_eq_core p req d hd (hlen d (Eq.refl _))⟩

/-! ### Bytes of the URI (C11) -/

theorem is_uri_char_iff (c : Byte) : is_uri_char c = true ↔ 33 ≤ c.val ∧ c.val ≤ 127 := by
  have := c.isLt
  have h13 : c = 13 ↔ c.val = 13 := Fin.ext_iff
  have h10 : c = 10 ↔ c.val = 10 := Fin.ext_iff
  have h9 : c = 9 ↔ c.val = 9 := Fin.ext_iff
  simp only [is_uri_char, char_val, Bool.and_eq_true, decide_eq_true_eq, ne_eq, h13, h10, h9]
  split_ifs <;> omega

theorem parse_cons_more (p p1 : RequestParser) (req req1 : request) (c : Byte)
    (rest : List Byte) (hlen : (c :: rest).length < 2 ^ 64) (hb : p.m_state ≠ .BODY)
    (hs : p.m_state ≠ .START) (hs1 : p1.m_state ≠ .START) (hb1 : p1.m_state ≠ .BODY)
    (hstep : ∀ (r : List Byte) (x : List Byte),
      byte_step r c p (req.with_raw x) = .more p1 (req1.with_raw x)) :
    p.parse req (some [c]) = some (.IN_PROGRESS, p1, req1.with_raw (req.raw ++ [c])) ∧
    (rest ≠ [] →
      p.parse req (some (c :: rest)) = p1.parse (req1.with_raw (req.raw ++ [c])) (some rest)) := by
  have hlen1 : rest.length < SIZE_MOD := by
    simp only [List.length_cons, SIZE_MOD] at hlen ⊢
    omega
  have hprep : ∀ d, prepare p req d = req.with_raw (req.raw ++ d) := by
    intro d
    simp [prepare, hs, request.with_raw]
  constructor
  · rw [parse_eq_core p req _ (by simp) (by simp [SIZE_MOD]), core, if_neg hb, run_cons,
      hprep, hstep]
    rfl
  · intro hne
    rw [parse_eq_core p req _ (by simp) hlen, core, if_neg hb, run_cons, hprep, hstep,
      parse_eq_core p1 _ rest hne hlen1, core, if_neg hb1]
    simp [prepare, hs1, request.with_raw]

/-- C11 (amended). In state `URI`, with plain `char` signed: a byte from 0x21 through
0x7F is accepted and appended to `uri` (the state stays `URI`); a space switches to state
`H`, where the literal `HTTP` is matched, and leaves `uri` as it is; every other byte,
that is 0x00 through 0x1F and 0x80 through 0xFF, makes `parse` return `BAD_REQUEST`. -/
theorem C11_uri_state_bytes (p : RequestParser) (req : request) (c : Byte) (rest : List Byte)
    (hlen : (c :: rest).length < 2 ^ 64) (hst : p.m_state = .URI) :
    ((33 ≤ c.val ∧ c.val ≤ 127) →
      p.parse req (some [c]) =
        some (.IN_PROGRESS, p, { req with uri := req.uri ++ [c], raw := req.raw ++ [c] }) ∧
      (rest ≠ [] → p.parse req (some (c :: rest)) =
        p.parse { req with uri := req.uri ++ [c], raw := req.raw ++ [c] } (some rest))) ∧
    (c = 32 →
      p.parse req (some [c]) =
        some (.IN_PROGRESS, { p with m_state := .H }, { req with raw := req.raw ++ [c] }) ∧
      (rest ≠ [] → p.parse req (some (c :: rest)) =
        RequestParser.parse { p with m_state := .H } { req with raw := req.raw ++ [c] }
          (some rest))) ∧
    (c ≠ 32 → ¬ (33 ≤ c.val ∧ c.val ≤ 127) →
      p.parse req (some (c :: rest)) =
        some (.BAD_REQUEST, p, { req with raw := req.raw ++ c :: rest })) := by
  have hb : p.m_state ≠ .BODY := by rw [hst]; simp
  have hs : p.m_state ≠ .START := by rw [hst]; simp
  refine ⟨fun hc => ?_, fun hc => ?_, fun h32 hc => ?_⟩
  · have hu : is_uri_char c = true := (is_uri_char_iff c).mpr hc
    have h32 : c ≠ 32 := is_uri_char_ne_space c hu
    exact parse_cons_more p p req { req with uri := req.uri ++ [c] } c rest hlen hb hs hs hb
      (fun r x => by simp [byte_step, switch_body, hst, hu, h32, Iter.out, request.with_raw])
  · subst hc
    exact parse_cons_more p { p with m_state := .H } req req 32 rest hlen hb hs
      (by simp) (by simp)
      (fun r x => by simp [byte_step, switch_body, hst, Iter.out, request.with_raw])
  · have hu : is_uri_char c = false := by
      rw [← Bool.not_eq_true, is_uri_char_iff]
      exact hc
    rw [parse_eq_core p req _ (by simp) hlen, core, if_neg hb, run_cons]
    have hstep : byte_step rest c p (prepare p req (c :: rest)) =
        .done (.BAD_REQUEST, p, prepare p req (c :: rest)) := by
      simp [byte_step, switch_body, hst, hu, h32, Iter.out, make_bad_request_]
    rw [hstep]
    simp [prepare, hs]

/-- C11 witness: in state `URI` the byte `/` is appended to the uri. -/
theorem C11_uri_state_bytes_witness :
    RequestParser.parse { RequestParser.new with m_state := .URI }
        { request.empty with method := bytes "GET", raw := bytes "GET " } (some [47]) =
      some (.IN_PROGRESS, { RequestParser.new with m_state := .URI },
        { request.empty with method := bytes "GET", uri := [47], raw := bytes "GET /" }) :=
  ((C11_uri_state_bytes { RequestParser.new with m_state := .URI }
    { request.empty with method := bytes "GET", raw := bytes "GET " } 47 []
    (by decide) (Eq.refl _)).1 (by decide)).1

/-- C11 counterexample: the byte 0xC3 lies in 0x21..0xFF and is none of CR, LF, TAB, yet
in state `URI` (reached by `GET /caf`) it is answered with `BAD_REQUEST`. -/
theorem C11_counterexample :
    (0x21 ≤ (195 : Byte).val ∧ (195 : Byte).val ≤ 0xFF) ∧
    (195 : Byte) ≠ 13 ∧ (195 : Byte) ≠ 10 ∧ (195 : Byte) ≠ 9 ∧
    (feed RequestParser.new request.empty [bytes "GET /caf"]).map
      (fun r => (r.1, r.2.1.m_state)) = some (.IN_PROGRESS, .URI) ∧
    (feed RequestParser.new request.empty [bytes "GET /caf", [195, 169]]).map
      (fun r => r.1) = some .BAD_REQUEST := by
  decide

/-! ### A head without Content-Length, and the empty chunk (C12, C14) -/

/-- C12. For every well-formed request head without a header named Content-Length
(ignoring case) and whatever bytes `rest` follow the blank line in the same chunk, `parse`
on a fresh parser returns `PROPER_REQUEST` at the blank line (the parser is left in state
`END_CR`, not `BODY`) with method, uri, version and headers of the head and an empty
body. -/
theorem C12_no_content_length_no_body (m u : List Byte) (hs : List (List Byte × List Byte))
    (rest : List Byte) (req : request)
    (hm : wf_method m) (hu : wf_uri u) (hh : ∀ h ∈ hs, wf_header h)
    (hcl : ∀ h ∈ hs, names_match h.1 Content_Length = false)
    (hlen : (request_head m u hs ++ rest).length < 2 ^ 64) :
    ∃ p r, RequestParser.new.parse req (some (request_head m u hs ++ rest)) =
        some (.PROPER_REQUEST, p, r) ∧
      p.m_state = .END_CR ∧ r.body = [] ∧
      r.method = m ∧ r.uri = u ∧ r.version = bytes "1.1" ∧ r.headers = hs := by
  obtain ⟨p1, hp1, hrun⟩ := run_request_head m u hs hm hu hh
  have hne : request_head m u hs ++ rest ≠ [] := by simp [request_head]
  rw [parse_new req _ hne hlen, core, if_neg (by simp [RequestParser.new]), hrun rest,
    end_of_headers_rest_nil _ _ _ (lookup_nil_of_no_match _ _ hcl)]
  exact ⟨_, _, Eq.refl _, hp1, Eq.refl _, Eq.refl _, Eq.refl _, Eq.refl _, Eq.refl _⟩

/-- C12 witness: the request of the test `PostWithoutContentLengthTreatsNoBody`, with
bytes after the blank line. -/
theorem C12_no_content_length_no_body_witness :
    ∃ p r, RequestParser.new.parse request.empty
        (some (request_head (bytes "POST") (bytes "/api/no-cl")
          [(bytes "Host", bytes "example.com")] ++ bytes "x=true")) =
        some (.PROPER_REQUEST, p, r) ∧
      p.m_state = .END_CR ∧ r.body = [] ∧
      r.method = bytes "POST" ∧ r.uri = bytes "/api/no-cl" ∧ r.version = bytes "1.1" ∧
      r.headers = [(bytes "Host", bytes "example.com")] :=
  C12_no_content_length_no_body (bytes "POST") (bytes "/api/no-cl")
    [(bytes "Host", bytes "example.com")] (bytes "x=true") request.empty
    (by decide) (by decide) (by decide) (by decide) (by decide)

/-- C14. In every parser state and for every request record, a `parse` call with an
absent chunk (null pointer) or an empty chunk (length 0) returns `IN_PROGRESS` and
leaves the request record and the parser as they are. -/
theorem C14_empty_chunk_no_effect (p : RequestParser) (req : request) :
    p.parse req none = some (.IN_PROGRESS, p, req) ∧
    p.parse req (some []) = some (.IN_PROGRESS, p, req) := by
  constructor
  · rfl
  · simp [RequestParser.parse]

/-! ### Case-insensitive header lookup (C13) -/

theorem tolower_val (c : Byte) :
    (tolower c).val = if 65 ≤ c.val ∧ c.val ≤ 90 then c.val + 32 else c.val := by
  have := c.isLt
  unfold tolower
  split_ifs with h
  · rw [Fin.val_add]
    have h32 : ((32 : Byte) : Nat) = 32 := rfl
    rw [h32]
    omega
  · rfl

theorem tolower_eq_iff (a b : Byte) : tolower a = tolower b ↔ same_letter a b = true := by
  rw [Fin.ext_iff, tolower_val, tolower_val, same_letter]
  simp only [Bool.or_eq_true, Bool.and_eq_true, decide_eq_true_eq]
  split_ifs <;> omega

/-- The comparison loop of `get_header_value` computes ASCII case-insensitive equality. -/
theorem names_match_eq : ∀ (a b : List Byte), names_match a b = ascii_ci_eq a b
  | [], [] => rfl
  | [], _ :: _ => rfl
  | _ :: _, [] => rfl
  | a :: as, b :: bs => by
    rw [names_match, ascii_ci_eq, ← names_match_eq as bs]
    by_cases h : tolower a = tolower b
    · simp [h, (tolower_eq_iff a b).mp h]
    · have : same_letter a b = false := by
        rw [← Bool.not_eq_true, ← tolower_eq_iff]
        exact h
      simp [h, this]

theorem names_match_iff_map : ∀ (a b : List Byte),
    names_match a b = true ↔ a.map tolower = b.map tolower
  | [], [] => by simp [names_match]
  | [], _ :: _ => by simp [names_match]
  | _ :: _, [] => by simp [names_match]
  | a :: as, b :: bs => by
    rw [names_match, List.map_cons, List.map_cons, List.cons.injEq, ← names_match_iff_map as bs]
    by_cases h : tolower a = tolower b <;> simp [h]

theorem names_match_congr (n k1 k2 : List Byte) (h : names_match k1 k2 = true) :
    names_match n k1 = names_match n k2 := by
  rw [Bool.eq_iff_iff, names_match_iff_map, names_match_iff_map,
    (names_match_iff_map k1 k2).mp h]

theorem lookup_congr (k1 k2 : List Byte) (h : names_match k1 k2 = true)
    (hs : List (List Byte × List Byte)) :
    get_header_value_loop k1 hs = get_header_value_loop k2 hs := by
  induction hs with
  | nil => rfl
  | cons x xs ih => rw [get_header_value_loop, get_header_value_loop, ih,
      names_match_congr x.1 k1 k2 h]

theorem lookup_first (key : List Byte) (h : List Byte × List Byte)
    (post : List (List Byte × List Byte)) :
    ∀ pre : List (List Byte × List Byte), (∀ x ∈ pre, names_match x.1 key = false) →
      names_match h.1 key = true → get_header_value_loop key (pre ++ h :: post) = h.2 := by
  intro pre
  induction pre with
  | nil =>
    intro _ hm
    simp [get_header_value_loop, hm]
  | cons x xs ih =>
    intro hpre hm
    rw [List.cons_append, get_header_value_loop, hpre x (List.mem_cons_self _ _)]
    simp only [Bool.false_eq_true, if_false]
    exact ih (fun y hy => hpre y (List.mem_cons_of_mem _ hy)) hm

/-- C13. `request::get_header_value(k)` returns the value of the first header of the
sequence whose name equals `k` under ASCII case-insensitive comparison, and the empty
string when no header name does; hence looking a header up by any case variant `k` of its
name `h.1` returns the same value as looking it up by the exact name. -/
theorem C13_get_header_value_case_insensitive (req : request) (key : List Byte) :
    (∀ pre h post, req.headers = pre ++ h :: post →
      (∀ x ∈ pre, ascii_ci_eq x.1 key = false) → ascii_ci_eq h.1 key = true →
      req.get_header_value key = h.2) ∧
    ((∀ x ∈ req.headers, ascii_ci_eq x.1 key = false) → req.get_header_value key = []) ∧
    (∀ h ∈ req.headers, ascii_ci_eq key h.1 = true →
      req.get_header_value key = req.get_header_value h.1) := by
  refine ⟨fun pre h post hh hpre hm => ?_, fun hno => ?_, fun h _ hk => ?_⟩
  · rw [request.get_header_value, hh]
    refine lookup_first key h post pre (fun x hx => ?_) (by rw [names_match_eq]; exact hm)
    rw [names_match_eq]
    exact hpre x hx
  · refine lookup_nil_of_no_match key req.headers (fun x hx => ?_)
    rw [names_match_eq]
    exact hno x hx
  · exact lookup_congr key h.1 (by rw [names_match_eq]; exact hk) req.headers

/-- C13 witness: the lookups of the test `HeaderLookupHelperCaseInsensitive`: `HOST`
finds the value of `Host`. -/
theorem C13_get_header_value_case_insensitive_witness :
    request.get_header_value
      { request.empty with
        headers := [(bytes "Host", bytes "Example.COM"), (bytes "X-Custom", bytes "Value")] }
      (bytes "HOST") = bytes "Example.COM" :=
  (C13_get_header_value_case_insensitive
    { request.empty with
      headers := [(bytes "Host", bytes "Example.COM"), (bytes "X-Custom", bytes "Value")] }
    (bytes "HOST")).1 [] (bytes "Host", bytes "Example.COM")
    [(bytes "X-Custom", bytes "Value")] (Eq.refl _) (fun x hx => by simp at hx)
    (by decide)

/-! ### The field `raw` after a completed request (C15) -/

theorem with_raw_self (req : request) : req.with_raw req.raw = req := by
  cases req; rfl

theorem core_keeps_raw (p : RequestParser) (req : request) (d : List Byte) :
    (core p req d).2.2.raw = req.raw := by
  have h := core_raw req.raw d p req
  rw [with_raw_self] at h
  rw [h]
  rfl

theorem prepare_raw (p : RequestParser) (req : request) (d : List Byte) :
    (prepare p req d).raw = (if p.m_state = .START then [] else req.raw) ++ d := by
  unfold prepare
  split_ifs <;> rfl

/-- A run of `feed` that ends with a terminal verdict has consumed a prefix of the chunk
list, and `raw` holds exactly the bytes of that prefix. -/
theorem feed_consumed (chunks : List (List Byte)) :
    ∀ (p p1 : RequestParser) (req r1 : request) (st : Status),
      (∀ d ∈ chunks, d ≠ [] ∧ d.length < SIZE_MOD) →
      feed p req chunks = some (st, p1, r1) → st ≠ .IN_PROGRESS →
      ∃ k, feed p req (chunks.take k) = some (st, p1, r1) ∧
        r1.raw = (if p.m_state = .START then [] else req.raw) ++ (chunks.take k).flatten := by
  induction chunks with
  | nil =>
    intro p p1 req r1 st _ h hst
    simp only [feed, Option.some.injEq, Prod.mk.injEq] at h
    exact absurd h.1.symm hst
  | cons d ds ih =>
    intro p p1 req r1 st hch h hst
    have hd := hch d (List.mem_cons_self _ _)
    have hpar := parse_eq_core p req d hd.1 hd.2
    have hraw := core_keeps_raw p (prepare p req d) d
    rw [prepare_raw] at hraw
    rcases hc : core p (prepare p req d) d with ⟨st', p', r'⟩
    rw [hc] at hpar hraw
    simp only at hraw
    rw [feed, hpar] at h
    cases st' with
    | IN_PROGRESS =>
      simp only at h
      have hns : p'.m_state ≠ .START := (core_in_progress d p p' _ r' hc).2 (Or.inr hd.1)
      obtain ⟨k, hk1, hk2⟩ := ih p' p1 r' r1 st
        (fun x hx => hch x (List.mem_cons_of_mem _ hx)) h hst
      refine ⟨k + 1, ?_, ?_⟩
      · rw [List.take_succ_cons, feed, hpar]
        exact hk1
      · rw [hk2, if_neg hns, hraw, List.take_succ_cons, List.flatten_cons, List.append_assoc]
    | PROPER_REQUEST =>
      simp only [Option.some.injEq, Prod.mk.injEq] at h
      obtain ⟨h1, h2, h3⟩ := h
      subst h1 h2 h3
      refine ⟨1, ?_, ?_⟩
      · simp [feed, hpar]
      · simp [hraw]
    | BAD_REQUEST =>
      simp only [Option.some.injEq, Prod.mk.injEq] at h
      obtain ⟨h1, h2, h3⟩ := h
      subst h1 h2 h3
      refine ⟨1, ?_, ?_⟩
      · simp [feed, hpar]
      · simp [hraw]

/-- The converse of `feed_core`: the result of a chunked run is the result of the loop
on the concatenation of the chunks, up to `raw` and the parser. -/
theorem core_of_feed (chunks : List (List Byte)) :
    ∀ (p : RequestParser) (req req0 : request),
      (∀ d ∈ chunks, d ≠ [] ∧ d.length < SIZE_MOD) →
      (p.m_state = .BODY → p.remaining_body_len_ ≠ 0) →
      req.fields = req0.fields → p.m_state ≠ .START →
      ∀ (st : Status) (p1 : RequestParser) (r1 : request),
        feed p req chunks = some (st, p1, r1) →
        (core p req0 chunks.flatten).1 = st ∧
          (core p req0 chunks.flatten).2.2.fields = r1.fields := by
  induction chunks with
  | nil =>
    intro p req req0 _ hinv hf _ st p1 r1 h
    simp only [feed, Option.some.injEq, Prod.mk.injEq] at h
    obtain ⟨h1, _, h3⟩ := h
    subst h1 h3
    simp only [List.flatten_nil, core]
    by_cases hb : p.m_state = .BODY
    · have := hinv hb
      simp [hb, body_branch, this, hf]
    · simp [hb, run, hf]
  | cons d ds ih =>
    intro p req req0 hch hinv hf hns st p1 r1 h
    have hd := hch d (List.mem_cons_self _ _)
    have hpar := parse_eq_core p req d hd.1 hd.2
    have hprep : prepare p req d = req0.with_raw (req.raw ++ d) := by
      have := with_raw_eq_of_fields req req0 hf
      simp only [prepare, hns, if_false]
      rw [this]
      rfl
    rw [hprep, core_raw] at hpar
    have happ := core_append d ds.flatten p req0
    rw [feed, hpar] at h
    rw [List.flatten_cons]
    rcases hc : core p req0 d with ⟨st', p', r'⟩
    rw [hc] at happ h
    obtain ⟨ha1, ha2, _⟩ := happ
    cases st' with
    | IN_PROGRESS =>
      simp only [res_with_raw, then_core] at ha1 ha2 h
      have hinv' := core_in_progress d p p' req0 r' hc
      have := ih p' (r'.with_raw (req.raw ++ d)) r'
        (fun x hx => hch x (List.mem_cons_of_mem _ hx)) hinv'.1 (fields_with_raw _ _)
        (hinv'.2 (Or.inl hns)) st p1 r1 h
      rw [ha1, ha2]
      exact this
    | PROPER_REQUEST =>
      simp only [res_with_raw, then_core, Option.some.injEq, Prod.mk.injEq] at ha1 ha2 h
      obtain ⟨h1, _, h3⟩ := h
      subst h1 h3
      rw [ha1, ha2]
      exact ⟨Eq.refl _, Eq.refl _⟩
    | BAD_REQUEST =>
      simp only [res_with_raw, then_core, Option.some.injEq, Prod.mk.injEq] at ha1 ha2 h
      obtain ⟨h1, _, h3⟩ := h
      subst h1 h3
      rw [ha1, ha2]
      exact ⟨Eq.refl _, Eq.refl _⟩

/-- The converse of `feed_of_core`, from the initial state. -/
theorem core_of_feed_new (chunks : List (List Byte)) (req : request) (st : Status)
    (p1 : RequestParser) (r1 : request)
    (hne : ∀ d ∈ chunks, d ≠ [] ∧ d.length < SIZE_MOD)
    (h : feed RequestParser.new req chunks = some (st, p1, r1)) (hst : st ≠ .IN_PROGRESS) :
    (run RequestParser.new request.empty chunks.flatten).1 = st ∧
      (run RequestParser.new request.empty chunks.flatten).2.2.fields = r1.fields := by
  have hcr : ∀ s, core RequestParser.new request.empty s = run RequestParser.new request.empty s := by
    intro s
    rw [core, if_neg (by simp [RequestParser.new])]
  cases chunks with
  | nil =>
    simp only [feed, Option.some.injEq, Prod.mk.injEq] at h
    exact absurd h.1.symm hst
  | cons d ds =>
    have hd := hne d (List.mem_cons_self _ _)
    rw [feed, parse_eq_core _ req d hd.1 hd.2, prepare_new, core_raw] at h
    have happ := core_append d ds.flatten RequestParser.new request.empty
    rw [List.flatten_cons, ← hcr]
    rcases hc : core RequestParser.new request.empty d with ⟨st', p', r'⟩
    rw [hc] at happ h
    obtain ⟨ha1, ha2, _⟩ := happ
    cases st' with
    | IN_PROGRESS =>
      simp only [res_with_raw, then_core] at ha1 ha2 h
      have hinv := core_in_progress d _ p' _ r' hc
      have := core_of_feed ds p' (r'.with_raw d) r'
        (fun x hx => hne x (List.mem_cons_of_mem _ hx)) hinv.1 (fields_with_raw _ _)
        (hinv.2 (Or.inr hd.1)) st p1 r1 h
      rw [ha1, ha2]
      exact this
    | PROPER_REQUEST =>
      simp only [res_with_raw, then_core, Option.some.injEq, Prod.mk.injEq] at ha1 ha2 h
      obtain ⟨h1, _, h3⟩ := h
      subst h1 h3
      rw [ha1, ha2]
      exact ⟨Eq.refl _, Eq.refl _⟩
    | BAD_REQUEST =>
      simp only [res_with_raw, then_core, Option.some.injEq, Prod.mk.injEq] at ha1 ha2 h
      obtain ⟨h1, _, h3⟩ := h
      subst h1 h3
      rw [ha1, ha2]
      exact ⟨Eq.refl _, Eq.refl _⟩

theorem end_of_headers_rest_fields (rest : List Byte) (p : RequestParser) (req : request)
    (h : (end_of_headers_rest rest p req).1 = .PROPER_REQUEST) :
    ∃ n, (end_of_headers_rest rest p req).2.2.fields =
      (req.method, req.uri, req.version, req.headers, req.body ++ rest.take n) := by
  rcases (end_of_headers_rest_status rest p req).mp h with h0 | ⟨hd, hN, hle⟩
  · refine ⟨0, ?_⟩
    rw [end_of_headers_rest_nil rest p req h0]
    simp [request.fields]
  · obtain ⟨p1, r1, he, hb, hm, hu, hv, hh⟩ := end_of_headers_rest_proper rest p req hd hN hle
    refine ⟨content_length_value req.headers, ?_⟩
    rw [he]
    simp [request.fields, hb, hm, hu, hv, hh]

/-- A byte string accepted by the loop from the initial state is the request head
serialized from the resulting fields, the resulting body, and the bytes left over. -/
theorem run_proper_bytes (s : List Byte)
    (h : (run RequestParser.new request.empty s).1 = .PROPER_REQUEST) :
    ∃ extra, s =
      request_head (run RequestParser.new request.empty s).2.2.method
        (run RequestParser.new request.empty s).2.2.uri
        (run RequestParser.new request.empty s).2.2.headers ++
      (run RequestParser.new request.empty s).2.2.body ++ extra := by
  obtain ⟨m, u, hs, rest, hm, hu, hh, hseq, _⟩ := wire_format_of_run s h
  obtain ⟨p1, _, hrun⟩ := run_request_head m u hs hm hu hh
  subst hseq
  rw [hrun rest] at h ⊢
  obtain ⟨n, hn⟩ := end_of_headers_rest_fields rest p1 _ h
  simp only [request.fields, Prod.mk.injEq, List.nil_append] at hn
  obtain ⟨e1, e2, _, e4, e5⟩ := hn
  refine ⟨rest.drop n, ?_⟩
  rw [e1, e2, e4, e5, List.append_assoc, List.take_append_drop]

/-- C15 (amended). Whenever a run of `parse` calls from the initial state ends in
`PROPER_REQUEST`, `raw` equals the bytes of all chunks passed to `parse` up to and including
the last call: the request itself (request line, header lines, blank line and the bytes
consumed into `body`) followed by whatever bytes `extra` came after it in the last chunk. -/
theorem C15_raw_is_all_bytes_fed (chunks : List (List Byte)) (req : request)
    (p1 : RequestParser) (r1 : request)
    (hch : ∀ d ∈ chunks, d ≠ [] ∧ d.length < 2 ^ 64)
    (hfeed : feed RequestParser.new req chunks = some (.PROPER_REQUEST, p1, r1)) :
    ∃ k extra, feed RequestParser.new req (chunks.take k) = some (.PROPER_REQUEST, p1, r1) ∧
      r1.raw = (chunks.take k).flatten ∧
      r1.raw = request_head r1.method r1.uri r1.headers ++ r1.body ++ extra := by
  obtain ⟨k, hk, hraw⟩ := feed_consumed chunks RequestParser.new p1 req r1 .PROPER_REQUEST hch
    hfeed (by simp)
  have hch2 : ∀ d ∈ chunks.take k, d ≠ [] ∧ d.length < SIZE_MOD :=
    fun d hd => hch d (List.mem_of_mem_take hd)
  obtain ⟨hst, hf⟩ := core_of_feed_new (chunks.take k) req .PROPER_REQUEST p1 r1 hch2 hk
    (by simp)
  obtain ⟨extra, hex⟩ := run_proper_bytes _ hst
  simp only [request.fields, Prod.mk.injEq] at hf
  obtain ⟨f1, f2, _, f4, f5⟩ := hf
  rw [f1, f2, f4, f5] at hex
  have hraw2 : r1.raw = (chunks.take k).flatten := by
    rw [hraw]
    simp [RequestParser.new]
  exact ⟨k, extra, hk, hraw2, by rw [hraw2]; exact hex⟩

/-- C15 witness: the request of the test `RawBufferMatchesInputAndBodyEmpty`, in two
chunks. -/
theorem C15_raw_is_all_bytes_fed_witness :
    ∃ k extra,
      feed RequestParser.new request.empty
        ([bytes "GET /echo HTTP/1.1\r\nHost: exa", bytes "mple.com\r\n\r\n"].take k) =
        some (.PROPER_REQUEST,
          { m_state := .END_CR, current_header_name_ := bytes "Host",
            current_header_value_ := bytes "example.com", expected_body_len_ := 0,
            remaining_body_len_ := 0 },
          { method := bytes "GET", uri := bytes "/echo", version := bytes "1.1",
            headers := [(bytes "Host", bytes "example.com")], body := [],
            raw := bytes "GET /echo HTTP/1.1\r\nHost: example.com\r\n\r\n" }) ∧
      bytes "GET /echo HTTP/1.1\r\nHost: example.com\r\n\r\n" =
        ([bytes "GET /echo HTTP/1.1\r\nHost: exa", bytes "mple.com\r\n\r\n"].take k).flatten ∧
      bytes "GET /echo HTTP/1.1\r\nHost: example.com\r\n\r\n" =
        request_head (bytes "GET") (bytes "/echo") [(bytes "Host", bytes "example.com")] ++
          [] ++ extra :=
  C15_raw_is_all_bytes_fed [bytes "GET /echo HTTP/1.1\r\nHost: exa", bytes "mple.com\r\n\r\n"]
    request.empty _ _ (by decide) (by decide)

/-- C15 counterexample: the request of the test `PostWithExtraDataBeyondContentLength` in
miniature. Parsing ends in `PROPER_REQUEST` with body `HELLO`, and `raw` holds the bytes
`extra` that came after the body, so it is not the request line, header lines, blank
line and body alone. -/
theorem C15_counterexample :
    (feed RequestParser.new request.empty
      [bytes "POST /x HTTP/1.1\r\nContent-Length: 5\r\n\r\nHELLOextra"]).map
      (fun r => (r.1, r.2.2.method, r.2.2.uri)) =
      some (.PROPER_REQUEST, bytes "POST", bytes "/x") ∧
    (feed RequestParser.new request.empty
      [bytes "POST /x HTTP/1.1\r\nContent-Length: 5\r\n\r\nHELLOextra"]).map
      (fun r => (r.2.2.headers, r.2.2.body, r.2.2.raw)) =
      some ([(bytes "Content-Length", bytes "5")], bytes "HELLO",
        bytes "POST /x HTTP/1.1\r\nContent-Length: 5\r\n\r\nHELLOextra") ∧
    bytes "POST /x HTTP/1.1\r\nContent-Length: 5\r\n\r\nHELLOextra" ≠
      request_head (bytes "POST") (bytes "/x") [(bytes "Content-Length", bytes "5")] ++
        bytes "HELLO" := by
  decide

/-! ### Reset against a new parser (C16) -/

theorem parse_start_any_record (req req' : request) (d : List Byte) (hd : d ≠ []) :
    RequestParser.new.parse req (some d) = RequestParser.new.parse req' (some d) := by
  have hl : d.length ≠ 0 := fun h => hd (List.length_eq_zero.mp h)
  simp [RequestParser.parse, RequestParser.new, request.reset, hl]

theorem parse_empty_chunk (p : RequestParser) (req : request) (d : Option (List Byte))
    (h : d = none ∨ d = some []) : p.parse req d = some (.IN_PROGRESS, p, req) := by
  rcases h with h | h <;> subst h <;> simp [RequestParser.parse]

theorem parse_calls_verdicts (chunks : List (Option (List Byte))) :
    ∀ (req req' : request),
      (parse_calls RequestParser.new req chunks).map (fun r => (r.1, r.2.1)) =
        (parse_calls RequestParser.new req' chunks).map (fun r => (r.1, r.2.1)) := by
  induction chunks with
  | nil => intro req req'; rfl
  | cons d ds ih =>
    intro req req'
    by_cases he : d = none ∨ d = some []
    · rw [parse_calls, parse_calls, parse_empty_chunk _ req d he, parse_empty_chunk _ req' d he]
      have := ih req req'
      simp only
      generalize parse_calls RequestParser.new req ds = a at this ⊢
      generalize parse_calls RequestParser.new req' ds = b at this ⊢
      rcases a with _ | ⟨ss, p2, r2⟩ <;> rcases b with _ | ⟨ss', p2', r2'⟩ <;>
        simp at this ⊢
      exact this
    · have hd : ∃ bs, d = some bs ∧ bs ≠ [] := by
        cases d with
        | none => exact absurd (Or.inl (Eq.refl _)) he
        | some bs => exact ⟨bs, Eq.refl _, fun h => he (Or.inr (by rw [h]))⟩
      obtain ⟨bs, hbs, hne⟩ := hd
      subst hbs
      rw [parse_calls, parse_calls, parse_start_any_record req req' bs hne]

theorem parse_calls_fresh (chunks : List (Option (List Byte))) :
    ∀ (req req' : request), (∃ d ∈ chunks, ∃ bs, d = some bs ∧ bs ≠ []) →
      parse_calls RequestParser.new req chunks = parse_calls RequestParser.new req' chunks := by
  induction chunks with
  | nil => intro req req' h; simp at h
  | cons d ds ih =>
    intro req req' h
    by_cases he : d = none ∨ d = some []
    · rw [parse_calls, parse_calls, parse_empty_chunk _ req d he, parse_empty_chunk _ req' d he]
      have hex : ∃ d ∈ ds, ∃ bs, d = some bs ∧ bs ≠ [] := by
        obtain ⟨x, hx, bs, hbs, hne⟩ := h
        rcases List.mem_cons.mp hx with h1 | h1
        · subst h1
          rcases he with he | he
          · rw [he] at hbs; simp at hbs
          · rw [he] at hbs
            simp only [Option.some.injEq] at hbs
            exact absurd hbs.symm hne
        · exact ⟨x, h1, bs, hbs, hne⟩
      simp only
      rw [ih req req' hex]
    · have hd : ∃ bs, d = some bs ∧ bs ≠ [] := by
        cases d with
        | none => exact absurd (Or.inl (Eq.refl _)) he
        | some bs => exact ⟨bs, Eq.refl _, fun h => he (Or.inr (by rw [h]))⟩
      obtain ⟨bs, hbs, hne⟩ := hd
      subst hbs
      rw [parse_calls, parse_calls, parse_start_any_record req req' bs hne]

theorem parse_calls_total (chunks : List (Option (List Byte))) :
    ∀ (p : RequestParser) (req : request),
      (∀ d ∈ chunks, ∀ bs, d = some bs → bs.length < 2 ^ 64) →
      ∃ r, parse_calls p req chunks = some r := by
  induction chunks with
  | nil => intro p req _; exact ⟨_, Eq.refl _⟩
  | cons d ds ih =>
    intro p req h
    obtain ⟨⟨s, p1, r1⟩, hr⟩ := parse_total p req d (fun bs hbs => h d (List.mem_cons_self _ _) bs hbs)
    obtain ⟨⟨ss, p2, r2⟩, hr2⟩ := ih p1 r1 (fun x hx => h x (List.mem_cons_of_mem _ hx))
    rw [parse_calls, hr]
    simp only
    rw [hr2]
    exact ⟨_, Eq.refl _⟩

/-- C16 (amended). `RequestParser::reset` (which has no access to the request record)
puts the parser in the state of a freshly constructed parser, whatever its history. After
it, for every prior content of the record, any sequence of `parse` calls returns the same
verdicts and leaves the same parser as on a new parser with an empty record; as soon as
the sequence contains a call with a non-empty chunk, the record is the same too, because
that call clears it. (Calls with an empty or absent chunk leave the prior content in
place.) The calls all return when the chunk lengths fit in `size_t`. -/
theorem C16_reset_like_new (p : RequestParser) (req : request)
    (chunks : List (Option (List Byte))) :
    p.reset = RequestParser.new ∧
    (parse_calls p.reset req chunks).map (fun r => (r.1, r.2.1)) =
      (parse_calls RequestParser.new request.empty chunks).map (fun r => (r.1, r.2.1)) ∧
    ((∃ d ∈ chunks, ∃ bs, d = some bs ∧ bs ≠ []) →
      parse_calls p.reset req chunks = parse_calls RequestParser.new request.empty chunks) ∧
    ((∀ d ∈ chunks, ∀ bs, d = some bs → bs.length < 2 ^ 64) →
      ∃ r, parse_calls p.reset req chunks = some r) := by
  have hr : p.reset = RequestParser.new := rfl
  rw [hr]
  exact ⟨Eq.refl _, parse_calls_verdicts chunks req request.empty,
    parse_calls_fresh chunks req request.empty, parse_calls_total chunks _ req⟩

/-- C16 witness: after a request was parsed (parser in `END_CR`, record filled), a reset
parser handles the next request like a new parser with an empty record. -/
theorem C16_reset_like_new_witness :
    parse_calls
      (RequestParser.reset
        { m_state := .END_CR, current_header_name_ := bytes "Host",
          current_header_value_ := bytes "x", expected_body_len_ := 0,
          remaining_body_len_ := 0 })
      { method := bytes "GET", uri := bytes "/", version := bytes "1.1",
        headers := [(bytes "Host", bytes "x")], body := [],
        raw := bytes "GET / HTTP/1.1\r\nHost: x\r\n\r\n" }
      [some (bytes "GET /fresh HTTP/1.1\r\nHost: z\r\n\r\n")] =
    parse_calls RequestParser.new request.empty
      [some (bytes "GET /fresh HTTP/1.1\r\nHost: z\r\n\r\n")] :=
  (C16_reset_like_new _ _ _).2.2.1
    ⟨_, List.mem_cons_self _ _, _, Eq.refl _, by decide⟩

/-- C16 counterexample: a request is parsed, the parser is reset, and `parse` is called
with an empty chunk. The verdict is `IN_PROGRESS` as on a new parser, but the record still
holds the method `GET` of the earlier request, whereas the empty record of the new parser
holds none. -/
theorem C16_counterexample :
    ((RequestParser.new.parse request.empty (some (bytes "GET / HTTP/1.1\r\n\r\n"))).bind
      (fun r => parse_calls r.2.1.reset r.2.2 [some []])).map
      (fun r => (r.1, r.2.2.method)) = some ([.IN_PROGRESS], bytes "GET") ∧
    (parse_calls RequestParser.new request.empty [some []]).map
      (fun r => (r.1, r.2.2.method)) = some ([.IN_PROGRESS], []) := by
  decide

/-! ### Fallback, miss and root route of the dispatcher (C17, C18, C19, C20) -/

theorem stock_404_eq : stock_response ResponseBuilder.createNotFound = .ok stock_404 := by
  rfl

theorem stock_500_eq :
    stock_response ResponseBuilder.createInternalServerError = .ok stock_500 := by
  rfl

theorem mem_ctor_loop (L : List RouteInit) (r : Route) (h : r ∈ ctor_loop L) :
    ∃ f, r.factory = some f ∧ ∃ init ∈ L, init.location = r.location ∧ init.factory = some f := by
  induction L with
  | nil => simp [ctor_loop] at h
  | cons init rest ih =>
    cases hf : init.factory with
    | none =>
      simp only [ctor_loop, hf] at h
      obtain ⟨f, h1, i, h2, h3⟩ := ih h
      exact ⟨f, h1, i, List.mem_cons_of_mem _ h2, h3⟩
    | some g =>
      simp only [ctor_loop, hf, List.mem_cons] at h
      rcases h with h | h
      · subst h
        exact ⟨g, Eq.refl _, init, List.mem_cons_self _ _, Eq.refl _, hf⟩
      · obtain ⟨f, h1, i, h2, h3⟩ := ih h
        exact ⟨f, h1, i, List.mem_cons_of_mem _ h2, h3⟩

theorem dispatch_loop_no_match (all : List Route) (req : request) (L : List Route)
    (h : ∀ r ∈ L, r.location.isPrefixOf req.uri = false) :
    dispatch_loop all req L = stock_response ResponseBuilder.createNotFound ∧
      dispatch_loop_calls all req L = [] := by
  induction L with
  | nil => exact ⟨Eq.refl _, Eq.refl _⟩
  | cons r rest ih =>
    have hr := h r (List.mem_cons_self _ _)
    simp only [dispatch_loop, dispatch_loop_calls, hr, Bool.false_eq_true, if_false]
    exact ih (fun x hx => h x (List.mem_cons_of_mem _ hx))

theorem dispatch_loop_select (all : List Route) (req : request) (r : Route)
    (f : RequestHandlerFactory) (post : List Route) :
    ∀ pre : List Route, (∀ x ∈ pre, x.location.isPrefixOf req.uri = false) →
      r.location.isPrefixOf req.uri = true → r.factory = some f →
      dispatch_loop all req (pre ++ r :: post) =
        match f.create r.location req.uri with
        | none => root_fallback req all
        | some handler => handler.handle_request req := by
  intro pre
  induction pre with
  | nil =>
    intro _ hp hf
    simp only [List.nil_append, dispatch_loop, hp, if_true, hf]
  | cons x xs ih =>
    intro hpre hp hf
    have hx := hpre x (List.mem_cons_self _ _)
    simp only [List.cons_append, dispatch_loop, hx, Bool.false_eq_true, if_false]
    exact ih (fun y hy => hpre y (List.mem_cons_of_mem _ hy)) hp hf

theorem root_fallback_select (req : request) (rt : Route) (post : List Route) :
    ∀ pre : List Route, (∀ x ∈ pre, x.location ≠ bytes "/") → rt.location = bytes "/" →
      root_fallback req (pre ++ rt :: post) =
        match rt.factory with
        | none => .error "null pointer dereference"
        | some f =>
            match f.create (bytes "/") req.uri with
            | none => .error "null pointer dereference"
            | some handler => handler.handle_request req := by
  intro pre
  induction pre with
  | nil =>
    intro _ hl
    simp only [List.nil_append, root_fallback, hl, if_true]
  | cons x xs ih =>
    intro hpre hl
    have hx := hpre x (List.mem_cons_self _ _)
    simp only [List.cons_append, root_fallback, hx, if_false]
    exact ih (fun y hy => hpre y (List.mem_cons_of_mem _ hy)) hl

theorem root_fallback_no_root (req : request) (L : List Route)
    (h : ∀ x ∈ L, x.location ≠ bytes "/") :
    root_fallback req L = stock_response ResponseBuilder.createInternalServerError := by
  induction L with
  | nil => rfl
  | cons x xs ih =>
    have hx := h x (List.mem_cons_self _ _)
    simp only [root_fallback, hx, if_false]
    exact ih (fun y hy => h y (List.mem_cons_of_mem _ hy))

/-- C17. When the route selected by `Dispatch` (the first route of the table whose
location is a prefix of the URI) has a factory that returns no handler, `Dispatch` turns
to the first route with location exactly `/`. If the factory of that route creates a
handler for (`/`, the URI), `Dispatch` returns the response of that handler; if the table
has no route at `/`, `Dispatch` returns the stock 500 response, whose status line is
`HTTP/1.1 500 Internal Server Error` CR LF. If the factory of that root route returns no
handler, `Dispatch` returns no response: it calls `handle_request` through the null
pointer. -/
theorem C17_fallback_root_handler_500_or_null_call (d : Dispatcher) (req : request)
    (pre post : List Route) (r : Route) (f : RequestHandlerFactory)
    (htab : d.routes_ = pre ++ r :: post)
    (hpre : ∀ x ∈ pre, x.location.isPrefixOf req.uri = false)
    (hsel : r.location.isPrefixOf req.uri = true) (hf : r.factory = some f)
    (hnone : f.create r.location req.uri = none) :
    (∀ pre2 rt post2 g handler, d.routes_ = pre2 ++ rt :: post2 →
      (∀ x ∈ pre2, x.location ≠ bytes "/") → rt.location = bytes "/" → rt.factory = some g →
      g.create (bytes "/") req.uri = some handler →
      d.Dispatch req = handler.handle_request req) ∧
    ((∀ x ∈ d.routes_, x.location ≠ bytes "/") →
      d.Dispatch req = .ok stock_500 ∧
      stock_500.m_status_line = bytes "HTTP/1.1 500 Internal Server Error\r\n") ∧
    (∀ pre2 rt post2 g, d.routes_ = pre2 ++ rt :: post2 →
      (∀ x ∈ pre2, x.location ≠ bytes "/") → rt.location = bytes "/" → rt.factory = some g →
      g.create (bytes "/") req.uri = none →
      d.Dispatch req = .error "null pointer dereference") := by
  have hd : d.Dispatch req = root_fallback req d.routes_ := by
    have h := dispatch_loop_select d.routes_ req r f post pre hpre hsel hf
    rw [← htab, hnone] at h
    exact h
  refine ⟨fun pre2 rt post2 g handler htab2 hpre2 hl hg hc => ?_, fun hno => ?_,
    fun pre2 rt post2 g htab2 hpre2 hl hg hc => ?_⟩
  · rw [hd, htab2, root_fallback_select req rt post2 pre2 hpre2 hl, hg]
    simp only [hc]
  · rw [hd, root_fallback_no_root req d.routes_ hno, stock_500_eq]
    exact ⟨Eq.refl _, Eq.refl _⟩
  · rw [hd, htab2, root_fallback_select req rt post2 pre2 hpre2 hl, hg]
    simp only [hc]

/-- C17 witness, the failing input: the table of the test
`MatchingRouteFactoryReturnsNullFallsBackToRootHandler` with the root route given a
factory that returns no handler as well. The route `/api` is selected and creates no
handler; the table has a route at `/`; its factory returns a null pointer, through which
`handle_request` is called. -/
theorem C17_fallback_root_handler_500_or_null_call_witness :
    (Dispatcher.from_sorted
      [{ location := bytes "/api", factory := some null_factory },
       { location := bytes "/", factory := some null_factory }]).Dispatch
      (make_request [] (bytes "/api/bad")) = .error "null pointer dereference" :=
  (C17_fallback_root_handler_500_or_null_call
    (Dispatcher.from_sorted
      [{ location := bytes "/api", factory := some null_factory },
       { location := bytes "/", factory := some null_factory }])
    (make_request [] (bytes "/api/bad")) []
    [{ location := bytes "/", factory := some null_factory }]
    { location := bytes "/api", factory := some null_factory } null_factory
    (Eq.refl _) (fun x hx => by simp at hx) (by decide) (Eq.refl _) (Eq.refl _)).2.2
    [{ location := bytes "/api", factory := some null_factory }]
    { location := bytes "/", factory := some null_factory } []
    null_factory
    (Eq.refl _)
    (fun x hx => by
      simp only [List.mem_singleton] at hx
      subst hx
      decide)
    (Eq.refl _) (Eq.refl _) (Eq.refl _)

/-- C18, evaluation at the failing input: a table whose only route is `/` with a factory
that returns no handler. For the URI `/x` the selected route creates no handler, the
fallback loop calls the root factory again and calls `handle_request` through the null
pointer it returns. -/
theorem C18_null_root_handler_dereferenced :
    (Dispatcher.from_sorted
      [{ location := bytes "/", factory := some null_factory }]).Dispatch
      (make_request [] (bytes "/x")) = .error "null pointer dereference" := by
  rfl

theorem root_fallback_outcome (req : request) (L : List Route)
    (h : ∀ r ∈ L, r.location = bytes "/" →
      ∃ f, r.factory = some f ∧ (f.create (bytes "/") req.uri).isSome = true) :
    root_fallback req L = .ok stock_500 ∨
      ∃ r ∈ L, ∃ f handler, r.factory = some f ∧
        f.create (bytes "/") req.uri = some handler ∧
        root_fallback req L = handler.handle_request req := by
  induction L with
  | nil => exact Or.inl stock_500_eq
  | cons x xs ih =>
    by_cases hx : x.location = bytes "/"
    · obtain ⟨f, hf, hc⟩ := h x (List.mem_cons_self _ _) hx
      obtain ⟨handler, hh⟩ := Option.isSome_iff_exists.mp hc
      refine Or.inr ⟨x, List.mem_cons_self _ _, f, handler, hf, hh, ?_⟩
      simp only [root_fallback, hx, if_true, hf, hh]
    · simp only [root_fallback, hx, if_false]
      rcases ih (fun y hy => h y (List.mem_cons_of_mem _ hy)) with h1 | ⟨r, hr, hrest⟩
      · exact Or.inl h1
      · exact Or.inr ⟨r, List.mem_cons_of_mem _ hr, hrest⟩

theorem dispatch_loop_outcome (all : List Route) (req : request)
    (h : ∀ r ∈ all, r.location = bytes "/" →
      ∃ f, r.factory = some f ∧ (f.create (bytes "/") req.uri).isSome = true)
    (L : List Route) :
    dispatch_loop all req L = .ok stock_404 ∨ dispatch_loop all req L = .ok stock_500 ∨
      ∃ r ∈ L ++ all, ∃ f loc handler, r.factory = some f ∧
        f.create loc req.uri = some handler ∧
        dispatch_loop all req L = handler.handle_request req := by
  induction L with
  | nil => exact Or.inl stock_404_eq
  | cons x xs ih =>
    have hskip : dispatch_loop all req (x :: xs) = dispatch_loop all req xs →
        (dispatch_loop all req (x :: xs) = .ok stock_404 ∨
          dispatch_loop all req (x :: xs) = .ok stock_500 ∨
          ∃ r ∈ x :: xs ++ all, ∃ f loc handler, r.factory = some f ∧
            f.create loc req.uri = some handler ∧
            dispatch_loop all req (x :: xs) = handler.handle_request req) := by
      intro e
      rw [e]
      rcases ih with h1 | h1 | ⟨r, hr, hrest⟩
      · exact Or.inl h1
      · exact Or.inr (Or.inl h1)
      · exact Or.inr (Or.inr ⟨r, List.mem_cons_of_mem _ hr, hrest⟩)
    by_cases hp : x.location.isPrefixOf req.uri = true
    · cases hf : x.factory with
      | none =>
        refine hskip ?_
        simp only [dispatch_loop, hp, if_true, hf]
      | some f =>
        cases hc : f.create x.location req.uri with
        | none =>
          have e : dispatch_loop all req (x :: xs) = root_fallback req all := by
            simp only [dispatch_loop, hp, if_true, hf, hc]
          rw [e]
          rcases root_fallback_outcome req all h with h1 | ⟨r, hr, g, handler, h2, h3, h4⟩
          · exact Or.inr (Or.inl h1)
          · exact Or.inr (Or.inr ⟨r, List.mem_cons_of_mem _ (List.mem_append_right _ hr), g, _,
              handler, h2, h3, h4⟩)
        | some handler =>
          have e : dispatch_loop all req (x :: xs) = handler.handle_request req := by
            simp only [dispatch_loop, hp, if_true, hf, hc]
          exact Or.inr (Or.inr ⟨x, List.mem_cons_self _ _, f, _, handler, hf, hc, e⟩)
    · refine hskip ?_
      simp only [dispatch_loop, hp, Bool.false_eq_true, if_false]

/-- Apart from the defect evaluated above, `Dispatch` ends in one of three ways: for every
table built by the constructor in which each root route creates a handler for the
request, the result is the stock 404, the stock 500, or the outcome of `handle_request`
of a handler that a factory of the table has produced. -/
theorem dispatch_outcome_of_root_creates (sorted : List RouteInit) (req : request)
    (hroot : ∀ r ∈ sorted, r.location = bytes "/" → ∀ f, r.factory = some f →
      (f.create (bytes "/") req.uri).isSome = true) :
    (Dispatcher.from_sorted sorted).Dispatch req = .ok stock_404 ∨
    (Dispatcher.from_sorted sorted).Dispatch req = .ok stock_500 ∨
    ∃ r ∈ (Dispatcher.from_sorted sorted).routes_, ∃ f loc handler, r.factory = some f ∧
      f.create loc req.uri = some handler ∧
      (Dispatcher.from_sorted sorted).Dispatch req = handler.handle_request req := by
  have h := dispatch_loop_outcome (ctor_loop sorted) req (fun r hr hl => by
    obtain ⟨f, hf, init, hi, hil, hif⟩ := mem_ctor_loop sorted r hr
    exact ⟨f, hf, hroot init hi (by rw [hil, hl]) f hif⟩) (ctor_loop sorted)
  rcases h with h1 | h1 | ⟨r, hr, hrest⟩
  · exact Or.inl h1
  · exact Or.inr (Or.inl h1)
  · refine Or.inr (Or.inr ⟨r, ?_, hrest⟩)
    rcases List.mem_append.mp hr with h2 | h2 <;> exact h2

/-- C19. For every list of routes given to the constructor (the empty one included) and
every request whose URI has no route location as a prefix, `Dispatch` returns the stock
404 response (status line `HTTP/1.1 404 Not Found` CR LF, empty body) and makes no
`create` call on any factory. -/
theorem C19_no_prefix_stock_404 (routes sorted : List RouteInit) (req : request)
    (hsort : is_std_sort routes sorted)
    (hno : ∀ r ∈ routes, r.location.isPrefixOf req.uri = false) :
    (Dispatcher.from_sorted sorted).Dispatch req = .ok stock_404 ∧
    stock_404.m_status_line = bytes "HTTP/1.1 404 Not Found\r\n" ∧
    stock_404.m_content = [] ∧
    (Dispatcher.from_sorted sorted).create_calls req = [] := by
  have h : ∀ r ∈ ctor_loop sorted, r.location.isPrefixOf req.uri = false := by
    intro r hr
    obtain ⟨f, _, init, hi, hil, _⟩ := mem_ctor_loop sorted r hr
    rw [← hil]
    exact hno init (hsort.1.mem_iff.mp hi)
  obtain ⟨h1, h2⟩ := dispatch_loop_no_match (ctor_loop sorted) req (ctor_loop sorted) h
  refine ⟨?_, Eq.refl _, Eq.refl _, h2⟩
  rw [Dispatcher.Dispatch, Dispatcher.from_sorted, h1, stock_404_eq]

/-- C19 witness: the table of the test `UnmatchedRouteReturns404`. -/
theorem C19_no_prefix_stock_404_witness :
    (Dispatcher.from_sorted
      [{ location := bytes "/api", factory := some location_echo_factory }]).Dispatch
      (make_request [] (bytes "/static")) = .ok stock_404 ∧
    stock_404.m_status_line = bytes "HTTP/1.1 404 Not Found\r\n" ∧
    stock_404.m_content = [] ∧
    (Dispatcher.from_sorted
      [{ location := bytes "/api", factory := some location_echo_factory }]).create_calls
      (make_request [] (bytes "/static")) = [] :=
  C19_no_prefix_stock_404
    [{ location := bytes "/api", factory := some location_echo_factory }]
    [{ location := bytes "/api", factory := some location_echo_factory }]
    (make_request [] (bytes "/static"))
    ⟨List.Perm.refl _, List.pairwise_singleton _ _⟩
    (fun r hr => by
      simp only [List.mem_singleton] at hr
      subst hr
      decide)

/-- C20 (amended). When the routes given to the constructor contain a root route `/`
whose factory always produces a handler, every request whose URI begins with `/` and has
no other route with a factory as a prefix is answered by the handler that the root
factory creates for (`/`, the URI), not by the stock 404. -/
theorem C20_root_handler_answers (pre post sorted : List RouteInit)
    (f : RequestHandlerFactory) (req : request)
    (hsort : is_std_sort (pre ++ { location := bytes "/", factory := some f } :: post) sorted)
    (hf : ∀ loc url, (f.create loc url).isSome = true)
    (hother : ∀ r ∈ pre ++ post, r.factory.isSome = true →
      r.location.isPrefixOf req.uri = false)
    (huri : (bytes "/").isPrefixOf req.uri = true) :
    ∃ handler, f.create (bytes "/") req.uri = some handler ∧
      (Dispatcher.from_sorted sorted).Dispatch req = handler.handle_request req := by
  obtain ⟨hperm, hpw⟩ := hsort
  have hex : ∃ r ∈ sorted, r.factory.isSome = true ∧ r.location.isPrefixOf req.uri = true :=
    ⟨{ location := bytes "/", factory := some f },
      hperm.mem_iff.mpr (List.mem_append_right _ (List.mem_cons_self _ _)), Eq.refl _, huri⟩
  obtain ⟨r, hr, g, hg, hp, _, hd⟩ := dispatch_loop_first_match req sorted hpw hex
  have hr2 := hperm.mem_iff.mp hr
  have hroot : r = { location := bytes "/", factory := some f } := by
    rcases List.mem_append.mp hr2 with h | h
    · have := hother r (List.mem_append_left _ h) (by rw [hg]; rfl)
      rw [hp] at this
      exact absurd this (by simp)
    · rcases List.mem_cons.mp h with h | h
      · exact h
      · have := hother r (List.mem_append_right _ h) (by rw [hg]; rfl)
        rw [hp] at this
        exact absurd this (by simp)
  subst hroot
  simp only [Option.some.injEq] at hg
  subst hg
  obtain ⟨handler, hh⟩ := Option.isSome_iff_exists.mp (hf (bytes "/") req.uri)
  refine ⟨handler, hh, ?_⟩
  rw [Dispatcher.Dispatch, Dispatcher.from_sorted, hd]
  simp only [hh]

/-- C20 witness: the routes of the test `FromSpecsWithExplicitRootUsesProvidedRootHandler`
(a root route and `/echo`) and a request for `/index.html`. -/
theorem C20_root_handler_answers_witness :
    ∃ handler, location_echo_factory.create (bytes "/")
        (make_request [] (bytes "/index.html")).uri = some handler ∧
      (Dispatcher.from_sorted
        [{ location := bytes "/echo", factory := some location_echo_factory },
         { location := bytes "/", factory := some location_echo_factory }]).Dispatch
        (make_request [] (bytes "/index.html")) =
        handler.handle_request (make_request [] (bytes "/index.html")) :=
  C20_root_handler_answers [] [{ location := bytes "/echo", factory := some location_echo_factory }]
    [{ location := bytes "/echo", factory := some location_echo_factory },
     { location := bytes "/", factory := some location_echo_factory }]
    location_echo_factory (make_request [] (bytes "/index.html"))
    ⟨List.Perm.swap _ _ _, by
      simp only [List.pairwise_cons, List.mem_singleton, List.not_mem_nil, forall_eq,
        List.Pairwise.nil, and_true, false_implies, implies_true]
      decide⟩
    (fun _ _ => Eq.refl _)
    (fun r hr _ => by
      simp only [List.nil_append, List.mem_singleton] at hr
      subst hr
      decide)
    (by decide)

/-- C20 counterexample: the parser accepts `OPTIONS * HTTP/1.1` with the URI `*`. With a
root route whose factory always produces a handler and no other route, `/` is not a
prefix of `*`, so `Dispatch` answers with the stock 404 and not with the root handler's
response. -/
theorem C20_counterexample :
    (feed RequestParser.new request.empty [bytes "OPTIONS * HTTP/1.1\r\n\r\n"]).map
      (fun r => (r.1, r.2.2.uri)) = some (.PROPER_REQUEST, bytes "*") ∧
    (∀ loc url, (location_echo_factory.create loc url).isSome = true) ∧
    is_std_sort [{ location := bytes "/", factory := some location_echo_factory }]
      [{ location := bytes "/", factory := some location_echo_factory }] ∧
    (feed RequestParser.new request.empty [bytes "OPTIONS * HTTP/1.1\r\n\r\n"]).map
      (fun r => (Dispatcher.from_sorted
        [{ location := bytes "/", factory := some location_echo_factory }]).Dispatch r.2.2) =
      some (.ok stock_404) ∧
    response.new.set_content (bytes "/") ≠ stock_404 := by
  refine ⟨by decide, fun _ _ => Eq.refl _, ⟨List.Perm.refl _, List.pairwise_singleton _ _⟩,
    by rfl, by decide⟩

/-! ### The stock 400 and the byte ranges of a response (C22, C25, C26) -/

/-- C22. For every route table, `HandleBadRequest` returns the same stock 400 response:
status line `HTTP/1.1 400 Bad Request` CR LF, header block `Connection: close` CR LF
`Content-Length: 0` CR LF CR LF, an empty body, and these three as its byte ranges. -/
theorem C22_bad_request_stock_400 (d : Dispatcher) :
    d.HandleBadRequest = .ok stock_400 ∧
    stock_400.m_status_line = bytes "HTTP/1.1 400 Bad Request\r\n" ∧
    stock_400.m_headers = bytes "Connection: close\r\nContent-Length: 0\r\n\r\n" ∧
    stock_400.m_content = [] ∧
    stock_400.get_bufs = [bytes "HTTP/1.1 400 Bad Request\r\n",
      bytes "Connection: close\r\nContent-Length: 0\r\n\r\n", []] := by
  refine ⟨?_, Eq.refl _, Eq.refl _, Eq.refl _, Eq.refl _⟩
  rfl

theorem set_bufs_ok_of_ne_unset (r : response) (h1 : r.m_status_line ≠ bytes "unset")
    (h2 : r.m_headers ≠ bytes "unset") (h3 : r.m_content ≠ bytes "unset") :
    r.set_bufs = .ok { r with m_bufs := [r.m_status_line, r.m_headers, r.m_content] } := by
  simp [response.set_bufs, h1, h2, h3]

/-- C25, evaluation at the failing input: the status line, the header block and the body
are each set once, the body to the five bytes `unset`; `set_bufs` throws the
`std::runtime_error` for a body that was never set. -/
theorem C25_set_bufs_fails_on_content_unset :
    (((response.new.set_status_line (bytes "HTTP/1.1 200 OK\r\n")).set_headers
      (bytes "Content-Type: text/plain\r\n")).set_content (bytes "unset")).set_bufs =
      .error "response: set_bufs called before set_content" := by
  rfl

/-- Apart from the defect evaluated above: when the three parts have been set to strings
other than `unset`, `set_bufs` succeeds and `get_bufs` returns the three parts in order,
whatever the object held before. -/
theorem set_bufs_after_setters (r : response) (s h c : List Byte)
    (hs : s ≠ bytes "unset") (hh : h ≠ bytes "unset") (hc : c ≠ bytes "unset") :
    ∃ r1, (((r.set_status_line s).set_headers h).set_content c).set_bufs = .ok r1 ∧
      r1.get_bufs = [s, h, c] := by
  refine ⟨_, set_bufs_ok_of_ne_unset _ ?_ ?_ ?_, Eq.refl _⟩ <;>
    simpa [response.set_status_line, response.set_headers, response.set_content]

theorem call_keeps_unset_status (r : response) (c : ResponseCall)
    (hc : ∀ l, c ≠ .set_status_line l)
    (h : r.m_status_line = bytes "unset" ∧ r.m_bufs = []) :
    (r.call c).m_status_line = bytes "unset" ∧ (r.call c).m_bufs = [] := by
  cases c with
  | set_status_line l => exact absurd (Eq.refl _) (hc l)
  | set_headers l => exact h
  | set_content l => exact h
  | set_bufs =>
    have : r.set_bufs = .error "response: set_bufs called before set_status_line" := by
      simp [response.set_bufs, h.1]
    simp only [response.call, this]
    exact h

theorem call_keeps_unset_headers (r : response) (c : ResponseCall)
    (hc : ∀ l, c ≠ .set_headers l)
    (h : r.m_headers = bytes "unset" ∧ r.m_bufs = []) :
    (r.call c).m_headers = bytes "unset" ∧ (r.call c).m_bufs = [] := by
  cases c with
  | set_status_line l => exact h
  | set_headers l => exact absurd (Eq.refl _) (hc l)
  | set_content l => exact h
  | set_bufs =>
    have : ∃ msg, r.set_bufs = .error msg := by
      simp only [response.set_bufs, h.1]
      split_ifs <;> exact ⟨_, Eq.refl _⟩
    obtain ⟨msg, hm⟩ := this
    simp only [response.call, hm]
    exact h

theorem call_keeps_unset_content (r : response) (c : ResponseCall)
    (hc : ∀ l, c ≠ .set_content l)
    (h : r.m_content = bytes "unset" ∧ r.m_bufs = []) :
    (r.call c).m_content = bytes "unset" ∧ (r.call c).m_bufs = [] := by
  cases c with
  | set_status_line l => exact h
  | set_headers l => exact h
  | set_content l => exact absurd (Eq.refl _) (hc l)
  | set_bufs =>
    have : ∃ msg, r.set_bufs = .error msg := by
      simp only [response.set_bufs, h.1]
      split_ifs <;> exact ⟨_, Eq.refl _⟩
    obtain ⟨msg, hm⟩ := this
    simp only [response.call, hm]
    exact h

theorem calls_keep (P : response → Prop) (ok : ResponseCall → Prop)
    (hstep : ∀ r c, ok c → P r → P (r.call c)) (cs : List ResponseCall) :
    ∀ r, (∀ c ∈ cs, ok c) → P r → P (r.calls cs) := by
  induction cs with
  | nil => intro r _ h; exact h
  | cons c cs ih =>
    intro r hok h
    rw [response.calls, List.foldl_cons]
    exact ih (r.call c) (fun x hx => hok x (List.mem_cons_of_mem _ hx))
      (hstep r c (hok c (List.mem_cons_self _ _)) h)

/-- C26. If, in the calls made on a response since its construction, the status line,
the header block or the body has never been set, then `set_bufs` fails with an error
(the `std::runtime_error` it throws) and the response has no byte ranges. -/
theorem C26_set_bufs_fails_when_part_never_set (cs : List ResponseCall)
    (h : (∀ l, ResponseCall.set_status_line l ∉ cs) ∨ (∀ l, ResponseCall.set_headers l ∉ cs) ∨
      (∀ l, ResponseCall.set_content l ∉ cs)) :
    (∃ msg, (response.new.calls cs).set_bufs = .error msg) ∧
      (response.new.calls cs).get_bufs = [] := by
  rcases h with h | h | h
  · have := calls_keep (fun r => r.m_status_line = bytes "unset" ∧ r.m_bufs = [])
      (fun c => ∀ l, c ≠ .set_status_line l) call_keeps_unset_status cs response.new
      (fun c hc l e => h l (e ▸ hc)) ⟨Eq.refl _, Eq.refl _⟩
    refine ⟨⟨"response: set_bufs called before set_status_line", ?_⟩, this.2⟩
    simp only [response.set_bufs, this.1, if_true]
  · have := calls_keep (fun r => r.m_headers = bytes "unset" ∧ r.m_bufs = [])
      (fun c => ∀ l, c ≠ .set_headers l) call_keeps_unset_headers cs response.new
      (fun c hc l e => h l (e ▸ hc)) ⟨Eq.refl _, Eq.refl _⟩
    refine ⟨?_, this.2⟩
    simp only [response.set_bufs, this.1, if_true]
    split_ifs <;> exact ⟨_, Eq.refl _⟩
  · have := calls_keep (fun r => r.m_content = bytes "unset" ∧ r.m_bufs = [])
      (fun c => ∀ l, c ≠ .set_content l) call_keeps_unset_content cs response.new
      (fun c hc l e => h l (e ▸ hc)) ⟨Eq.refl _, Eq.refl _⟩
    refine ⟨?_, this.2⟩
    simp only [response.set_bufs, this.1, if_true]
    split_ifs <;> exact ⟨_, Eq.refl _⟩

/-- C26 witness: the test `ContentUnset`, with an attempt of `set_bufs` in between. -/
theorem C26_set_bufs_fails_when_part_never_set_witness :
    (∃ msg, (response.new.calls
        [.set_status_line (bytes "HTTP/1.1 200 OK\r\n"), .set_bufs,
         .set_headers (bytes "Content-Type: text/plain\r\n")]).set_bufs = .error msg) ∧
      (response.new.calls
        [.set_status_line (bytes "HTTP/1.1 200 OK\r\n"), .set_bufs,
         .set_headers (bytes "Content-Type: text/plain\r\n")]).get_bufs = [] :=
  C26_set_bufs_fails_when_part_never_set _ (Or.inr (Or.inr (fun l => by simp)))

/-! ### The status line built by the assembler (C23) -/

theorem digitChar_byte (k : Nat) (hk : k < 10) :
    (Fin.ofNat (Nat.digitChar k).toNat : Byte) = Fin.ofNat (48 + k) := by
  interval_cases k <;> rfl

theorem toDigitsCore_append (fuel : Nat) : ∀ (n : Nat) (ds : List Char),
    Nat.toDigitsCore 10 fuel n ds = Nat.toDigitsCore 10 fuel n [] ++ ds := by
  induction fuel with
  | zero => intro n ds; simp [Nat.toDigitsCore]
  | succ f ih =>
    intro n ds
    simp only [Nat.toDigitsCore]
    split_ifs with h
    · simp
    · rw [ih (n / 10) (_ :: ds), ih (n / 10) [_]]
      simp

theorem digits_value_append_one (s : List Byte) (c : Byte) :
    digits_value (s ++ [c]) = 10 * digits_value s + (c.val - 48) := by
  simp [digits_value, List.foldl_append]

theorem digits_value_toDigitsCore (fuel : Nat) : ∀ n : Nat, n < fuel →
    digits_value ((Nat.toDigitsCore 10 fuel n []).map (fun ch => Fin.ofNat ch.toNat)) = n := by
  induction fuel with
  | zero => intro n h; omega
  | succ f ih =>
    intro n hn
    have hmod : n % 10 < 10 := Nat.mod_lt _ (by norm_num)
    have hd : ((Fin.ofNat (48 + n % 10) : Byte).val - 48) = n % 10 := by
      have : (Fin.ofNat (48 + n % 10) : Byte).val = 48 + n % 10 := by
        simp only [Fin.ofNat, Fin.val_mk]
        omega
      omega
    simp only [Nat.toDigitsCore]
    split_ifs with h
    · have hlt : n < 10 := by
        by_contra hc
        have : 1 ≤ n / 10 := (Nat.le_div_iff_mul_le (by norm_num)).mpr (by omega)
        omega
      simp only [List.map_cons, List.map_nil]
      rw [digitChar_byte _ hmod]
      have := digits_value_append_one [] (Fin.ofNat (48 + n % 10))
      simp only [List.nil_append] at this
      rw [this, hd]
      simp only [digits_value, List.foldl_nil]
      omega
    · rw [toDigitsCore_append, List.map_append, List.map_cons, List.map_nil,
        digits_value_append_one, digitChar_byte _ hmod, hd,
        ih (n / 10) (by
          have : n / 10 < n := Nat.div_lt_self (by omega) (by norm_num)
          omega)]
      omega

/-- `std::to_string` writes the decimal numeral: reading it back gives the number. -/
theorem digits_value_to_string_nat (n : Nat) : digits_value (to_string_nat n) = n := by
  unfold to_string_nat Nat.toDigits
  exact digits_value_toDigitsCore (n + 1) n (Nat.lt_succ_self n)

theorem calls_cons (b : ResponseBuilder) (c : BuilderCall) (cs : List BuilderCall) :
    b.calls (c :: cs) = (b.call c).calls cs := rfl

theorem calls_fixed (cs : List BuilderCall) : ∀ b : ResponseBuilder,
    (b.calls cs).status_code_ = b.status_code_ ∧
    (b.calls cs).reason_phrase_ = b.reason_phrase_ ∧
    (b.calls cs).http_version_ = (version_override cs).getD b.http_version_ := by
  induction cs with
  | nil => intro b; exact ⟨Eq.refl _, Eq.refl _, Eq.refl _⟩
  | cons c cs ih =>
    intro b
    obtain ⟨h1, h2, h3⟩ := ih (b.call c)
    rw [calls_cons, h1, h2, h3, version_override]
    cases hv : version_override cs with
    | some v => cases c <;> exact ⟨Eq.refl _, Eq.refl _, Eq.refl _⟩
    | none => cases c <;> exact ⟨Eq.refl _, Eq.refl _, Eq.refl _⟩

theorem build_status_line (b b1 : ResponseBuilder) (out out1 : response)
    (h : b.build out = .ok (b1, out1)) :
    out1.m_status_line = bytes "HTTP/" ++ b.http_version_ ++ bytes " " ++
      to_string_int b.status_code_ ++ bytes " " ++ b.reason_phrase_ ++ bytes "\r\n" := by
  unfold ResponseBuilder.build at h
  simp only [response.set_status_line, response.set_headers, response.set_content,
    response.set_bufs] at h
  split_ifs at h <;> simp only [reduceCtorEq, Except.ok.injEq, Prod.mk.injEq] at h
  obtain ⟨_, h2⟩ := h
  rw [← h2]

/-- C23. The status line that `build` produces is exactly `HTTP/` version, a space, the
decimal numeral of the code, a space, the reason and CR LF, where the version is `1.1`
unless a `withHttpVersion` call overrides it (the last one counts), and the reason is
the phrase given to the constructor if one was given and otherwise `OK` for 200,
`Bad Request` for 400, `Not Found` for 404, `Internal Server Error` for 500 and
`Unknown` for every other code. -/
theorem C23_status_line (code : Int) (phrase : Option (List Byte)) (cs : List BuilderCall)
    (out out1 : response) (b1 : ResponseBuilder)
    (hbuild : ((ResponseBuilder.construct code phrase).calls cs).build out = .ok (b1, out1)) :
    ∃ version reason,
      out1.m_status_line = bytes "HTTP/" ++ version ++ bytes " " ++ to_string_int code ++
        bytes " " ++ reason ++ bytes "\r\n" ∧
      (version_override cs = none → version = bytes "1.1") ∧
      (∀ v, version_override cs = some v → version = v) ∧
      (∀ ph, phrase = some ph → reason = ph) ∧
      (phrase = none →
        (code = 200 → reason = bytes "OK") ∧
        (code = 400 → reason = bytes "Bad Request") ∧
        (code = 404 → reason = bytes "Not Found") ∧
        (code = 500 → reason = bytes "Internal Server Error") ∧
        (code ≠ 200 → code ≠ 400 → code ≠ 404 → code ≠ 500 → reason = bytes "Unknown")) ∧
      (0 ≤ code → digits_value (to_string_int code) = code.toNat) := by
  obtain ⟨h1, h2, h3⟩ := calls_fixed cs (ResponseBuilder.construct code phrase)
  have hs := build_status_line _ b1 out out1 hbuild
  rw [h1, h2, h3] at hs
  have hc : (ResponseBuilder.construct code phrase).status_code_ = code := by
    cases phrase <;> rfl
  have hv : (ResponseBuilder.construct code phrase).http_version_ = bytes "1.1" := by
    cases phrase <;> rfl
  rw [hc, hv] at hs
  refine ⟨_, _, hs, ?_, ?_, ?_, ?_, ?_⟩
  · intro h; rw [h]; rfl
  · intro v h; rw [h]; rfl
  · intro ph h; rw [h]; rfl
  · intro h
    rw [h]
    simp only [ResponseBuilder.construct, ResponseBuilder.new, getDefaultReasonPhrase]
    refine ⟨?_, ?_, ?_, ?_, ?_⟩
    · intro e; rw [e]; rfl
    · intro e; rw [e]; rfl
    · intro e; rw [e]; rfl
    · intro e; rw [e]; rfl
    · intro e1 e2 e3 e4; simp [e1, e2, e3, e4]
  · intro h0
    have : ¬ code < 0 := not_lt.mpr h0
    simp only [to_string_int, this, if_false]
    rw [digits_value_to_string_nat]
    omega

/-- C23 witness: the test `ResponseWithCustomHttpVersion`, version `1.0` for code 200. -/
theorem C23_status_line_witness :
    ∃ version reason,
      bytes "HTTP/1.0 200 OK\r\n" = bytes "HTTP/" ++ version ++ bytes " " ++
        to_string_int 200 ++ bytes " " ++ reason ++ bytes "\r\n" ∧
      (version_override [.withHttpVersion (bytes "1.0")] = none → version = bytes "1.1") ∧
      (∀ v, version_override [.withHttpVersion (bytes "1.0")] = some v → version = v) ∧
      (∀ ph, (none : Option (List Byte)) = some ph → reason = ph) ∧
      ((none : Option (List Byte)) = none →
        ((200 : Int) = 200 → reason = bytes "OK") ∧
        ((200 : Int) = 400 → reason = bytes "Bad Request") ∧
        ((200 : Int) = 404 → reason = bytes "Not Found") ∧
        ((200 : Int) = 500 → reason = bytes "Internal Server Error") ∧
        ((200 : Int) ≠ 200 → (200 : Int) ≠ 400 → (200 : Int) ≠ 404 → (200 : Int) ≠ 500 →
          reason = bytes "Unknown")) ∧
      ((0 : Int) ≤ 200 → digits_value (to_string_int 200) = (200 : Int).toNat) :=
  C23_status_line 200 none [.withHttpVersion (bytes "1.0")] response.new
    { m_status_line := bytes "HTTP/1.0 200 OK\r\n",
      m_headers := bytes "Connection: close\r\nContent-Length: 0\r\n\r\n",
      m_content := [],
      m_bufs := [bytes "HTTP/1.0 200 OK\r\n",
        bytes "Connection: close\r\nContent-Length: 0\r\n\r\n", []] }
    { status_code_ := 200, reason_phrase_ := bytes "OK", body_ := [],
      headers_ := [(bytes "Connection", bytes "close"), (bytes "Content-Length", bytes "0")],
      http_version_ := bytes "1.0" }
    (by rfl)

/-! ### The header block built by the assembler (C24) -/

theorem str_lt_trans : ∀ (a b c : List Byte), str_lt a b = true → str_lt b c = true →
    str_lt a c = true
  | [], [], _, h, _ => by simp [str_lt] at h
  | [], _ :: _, [], _, h => by simp [str_lt] at h
  | [], _ :: _, _ :: _, _, _ => by simp [str_lt]
  | _ :: _, [], _, h, _ => by simp [str_lt] at h
  | _ :: _, _ :: _, [], _, h => by simp [str_lt] at h
  | x :: xs, y :: ys, z :: zs, h1, h2 => by
    simp only [str_lt] at h1 h2 ⊢
    by_cases hxy : x < y
    · by_cases hyz : y < z
      · simp [lt_trans hxy hyz]
      · by_cases hzy : z < y
        · simp [hyz, hzy] at h2
        · have : y = z := le_antisymm (not_lt.mp hzy) (not_lt.mp hyz)
          subst this
          simp [hxy]
    · by_cases hyx : y < x
      · simp [hxy, hyx] at h1
      · have : x = y := le_antisymm (not_lt.mp hyx) (not_lt.mp hxy)
        subst this
        simp only [hxy, if_false] at h1
        by_cases hxz : x < z
        · simp [hxz]
        · by_cases hzx : z < x
          · simp [hxz, hzx] at h2
          · simp only [hxz, hzx, if_false] at h2 ⊢
            exact str_lt_trans xs ys zs h1 h2

theorem str_lt_ne (a b : List Byte) (h : str_lt a b = true) : a ≠ b := by
  intro e
  subst e
  rw [str_lt_irrefl] at h
  exact absurd h (by simp)

theorem key_of_mem_map_assign (key value : List Byte) (x : List Byte × List Byte) :
    ∀ m : List (List Byte × List Byte), x ∈ map_assign key value m → x.1 = key ∨ x ∈ m := by
  intro m
  induction m with
  | nil =>
    intro h
    simp only [map_assign, List.mem_singleton] at h
    exact Or.inl (by rw [h])
  | cons e rest ih =>
    intro h
    rw [map_assign] at h
    split_ifs at h with h1 h2
    · rcases List.mem_cons.mp h with h | h
      · exact Or.inl (by rw [h])
      · exact Or.inr h
    · rcases List.mem_cons.mp h with h | h
      · exact Or.inr (by rw [h]; exact List.mem_cons_self _ _)
      · rcases ih h with h3 | h3
        · exact Or.inl h3
        · exact Or.inr (List.mem_cons_of_mem _ h3)
    · have hk : key = e.1 := str_eq_of_not_lt _ _ (by simpa using h1) (by simpa using h2)
      rcases List.mem_cons.mp h with h | h
      · exact Or.inl (by rw [h, hk])
      · exact Or.inr (List.mem_cons_of_mem _ h)

theorem keys_ascending_map_assign (key value : List Byte) :
    ∀ m : List (List Byte × List Byte), keys_ascending m →
      keys_ascending (map_assign key value m) := by
  intro m
  induction m with
  | nil => intro _; simp [map_assign, keys_ascending]
  | cons e rest ih =>
    intro hm
    unfold keys_ascending at hm ih ⊢
    rw [List.pairwise_cons] at hm
    obtain ⟨he, hrest⟩ := hm
    rw [map_assign]
    split_ifs with h1 h2
    · refine List.pairwise_cons.mpr ⟨?_, List.pairwise_cons.mpr ⟨he, hrest⟩⟩
      intro x hx
      rcases List.mem_cons.mp hx with h | h
      · rw [h]; exact h1
      · exact str_lt_trans _ _ _ h1 (he x h)
    · refine List.pairwise_cons.mpr ⟨?_, ih hrest⟩
      intro x hx
      rcases key_of_mem_map_assign key value x rest hx with h | h
      · rw [h]; exact h2
      · exact he x h
    · exact List.pairwise_cons.mpr ⟨he, hrest⟩

theorem map_find_map_assign (key value k : List Byte) :
    ∀ m : List (List Byte × List Byte),
      map_find k (map_assign key value m) = if k = key then some value else map_find k m := by
  intro m
  induction m with
  | nil =>
    simp only [map_assign, map_find]
    by_cases h : k = key
    · simp [h]
    · have : ¬ key = k := fun e => h e.symm
      simp [h, this]
  | cons e rest ih =>
    rw [map_assign]
    by_cases h1 : str_lt key e.1 = true
    · rw [if_pos h1]
      by_cases h3 : k = key
      · subst h3
        simp [map_find]
      · have : ¬ key = k := fun e => h3 e.symm
        simp only [map_find, this, if_false, h3]
    · rw [if_neg h1]
      by_cases h2 : str_lt e.1 key = true
      · rw [if_pos h2]
        by_cases h3 : k = key
        · subst h3
          have : e.1 ≠ k := str_lt_ne _ _ h2
          simp only [map_find, this, if_false, ih, if_true]
        · simp only [map_find, ih, h3, if_false]
      · rw [if_neg h2]
        have hk : key = e.1 := str_eq_of_not_lt _ _ (by simpa using h1) (by simpa using h2)
        by_cases h3 : k = key
        · rw [h3]
          simp [map_find, hk]
        · have : ¬ e.1 = k := fun e2 => h3 (by rw [hk, e2])
          simp only [map_find, this, if_false, h3]

theorem map_find_none_of_lt (k : List Byte) (m : List (List Byte × List Byte))
    (h : ∀ x ∈ m, str_lt k x.1 = true) : map_find k m = none := by
  induction m with
  | nil => rfl
  | cons e rest ih =>
    have he : e.1 ≠ k := (str_lt_ne _ _ (h e (List.mem_cons_self _ _))).symm
    simp only [map_find, he, if_false]
    exact ih (fun x hx => h x (List.mem_cons_of_mem _ hx))

/-- A map is determined by its key-to-value mapping. -/
theorem map_ext : ∀ (m1 m2 : List (List Byte × List Byte)),
    keys_ascending m1 → keys_ascending m2 → (∀ k, map_find k m1 = map_find k m2) → m1 = m2
  | [], [], _, _, _ => rfl
  | [], e :: _, _, _, h => by
    have := h e.1
    simp [map_find] at this
  | e :: _, [], _, _, h => by
    have := h e.1
    simp [map_find] at this
  | e1 :: r1, e2 :: r2, h1, h2, h => by
    unfold keys_ascending at h1 h2
    rw [List.pairwise_cons] at h1 h2
    have hkey : e1.1 = e2.1 := by
      by_contra hne
      by_cases hlt : str_lt e1.1 e2.1 = true
      · have := h e1.1
        rw [map_find_none_of_lt e1.1 (e2 :: r2) (fun x hx => by
          rcases List.mem_cons.mp hx with hx | hx
          · rw [hx]; exact hlt
          · exact str_lt_trans _ _ _ hlt (h2.1 x hx))] at this
        simp [map_find] at this
      · have hgt : str_lt e2.1 e1.1 = true := by
          by_contra hc
          exact hne (str_eq_of_not_lt _ _ (by simpa using hlt) (by simpa using hc))
        have := h e2.1
        rw [map_find_none_of_lt e2.1 (e1 :: r1) (fun x hx => by
          rcases List.mem_cons.mp hx with hx | hx
          · rw [hx]; exact hgt
          · exact str_lt_trans _ _ _ hgt (h1.1 x hx))] at this
        simp [map_find] at this
    have hval : e1.2 = e2.2 := by
      have := h e1.1
      simp [map_find, hkey] at this
      exact this
    have he : e1 = e2 := Prod.ext hkey hval
    have hr : r1 = r2 := by
      refine map_ext r1 r2 h1.2 h2.2 (fun k => ?_)
      by_cases hk : k = e1.1
      · rw [hk, map_find_none_of_lt e1.1 r1 h1.1,
          map_find_none_of_lt e1.1 r2 (hkey ▸ h2.1)]
      · have := h k
        have hk1 : ¬ e1.1 = k := fun e => hk e.symm
        have hk2 : ¬ e2.1 = k := fun e => hk (by rw [hkey, e])
        simp only [map_find, hk1, hk2, if_false] at this
        exact this
    rw [he, hr]

theorem headers_str_loop_eq (m : List (List Byte × List Byte)) :
    headers_str_loop m =
      (m.map (fun e => e.1 ++ bytes ": " ++ e.2 ++ bytes "\r\n")).flatten := by
  induction m with
  | nil => rfl
  | cons e rest ih => rw [headers_str_loop, ih, List.map_cons, List.flatten_cons]

theorem build_headers (b b1 : ResponseBuilder) (out out1 : response)
    (h : b.build out = .ok (b1, out1)) :
    b1.headers_ = map_assign (bytes "Connection") (bytes "close")
        (map_assign (bytes "Content-Length") (to_string_nat b.body_.length) b.headers_) ∧
      out1.m_headers = headers_str_loop b1.headers_ ++ bytes "\r\n" := by
  unfold ResponseBuilder.build at h
  simp only [response.set_status_line, response.set_headers, response.set_content,
    response.set_bufs] at h
  split_ifs at h <;> simp only [reduceCtorEq, Except.ok.injEq, Prod.mk.injEq] at h
  obtain ⟨h1, h2⟩ := h
  rw [← h1, ← h2]
  exact ⟨Eq.refl _, Eq.refl _⟩

theorem calls_keys_ascending (cs : List BuilderCall) : ∀ b : ResponseBuilder,
    keys_ascending b.headers_ → keys_ascending (b.calls cs).headers_ := by
  induction cs with
  | nil => intro b h; exact h
  | cons c cs ih =>
    intro b h
    rw [calls_cons]
    refine ih _ ?_
    cases c with
    | withBody content => exact h
    | withHeader name value => exact keys_ascending_map_assign _ _ _ h
    | withContentType type => exact keys_ascending_map_assign _ _ _ h
    | withHttpVersion version => exact h

theorem construct_headers (code : Int) (phrase : Option (List Byte)) :
    (ResponseBuilder.construct code phrase).headers_ = [] := by
  cases phrase <;> rfl

theorem final_mapping_calls (k : List Byte) (cs : List BuilderCall) : ∀ b : ResponseBuilder,
    map_find k (b.calls cs).headers_ =
      match final_mapping cs k with
      | some v => some v
      | none => map_find k b.headers_ := by
  induction cs with
  | nil => intro b; rfl
  | cons c cs ih =>
    intro b
    rw [calls_cons, ih, final_mapping]
    cases hfm : final_mapping cs k with
    | some v => rfl
    | none =>
      cases c with
      | withBody content => rfl
      | withHeader name value =>
        simp only [ResponseBuilder.call, ResponseBuilder.withHeader, header_of_call,
          map_find_map_assign]
        by_cases h : k = name
        · subst h; simp
        · have : ¬ name = k := fun e => h e.symm
          simp [h, this]
      | withContentType type =>
        simp only [ResponseBuilder.call, ResponseBuilder.withContentType,
          ResponseBuilder.withHeader, header_of_call, map_find_map_assign]
        by_cases h : k = bytes "Content-Type"
        · subst h; simp
        · have : ¬ bytes "Content-Type" = k := fun e => h e.symm
          simp [h, this]
      | withHttpVersion version => rfl

/-- C24. The header block that `build` produces is the concatenation, over the entries of
the final map in strictly ascending byte-wise order of their keys, of key, `: `, value,
CR LF, followed by one CR LF. The final map is the caller's map with `Content-Length`
and `Connection` assigned; a map in ascending key order is determined by its
key-to-value mapping, so the block depends on that mapping only; `withHeader` calls on
distinct keys commute, and for a repeated key the last value wins. `withHeader k v` maps
`k` to `v` and leaves every other key as it was; the map after a chain of calls maps each
key to the value of the last call that assigns it; and two chains with the same final
mapping and the same body length give the same header block. -/
theorem C24_header_block (code : Int) (phrase : Option (List Byte)) (cs : List BuilderCall) :
    (∀ out b1 out1, ((ResponseBuilder.construct code phrase).calls cs).build out =
        .ok (b1, out1) →
      out1.m_headers =
        (b1.headers_.map (fun e => e.1 ++ bytes ": " ++ e.2 ++ bytes "\r\n")).flatten ++
          bytes "\r\n" ∧
      keys_ascending b1.headers_ ∧
      ∀ k, map_find k b1.headers_ =
        if k = bytes "Connection" then some (bytes "close")
        else if k = bytes "Content-Length" then
          some (to_string_nat ((ResponseBuilder.construct code phrase).calls cs).body_.length)
        else map_find k ((ResponseBuilder.construct code phrase).calls cs).headers_) ∧
    (∀ m1 m2, keys_ascending m1 → keys_ascending m2 →
      (∀ k, map_find k m1 = map_find k m2) → headers_str_loop m1 = headers_str_loop m2) ∧
    (∀ k1 v1 k2 v2, k1 ≠ k2 →
      (((ResponseBuilder.construct code phrase).calls cs).withHeader k1 v1).withHeader k2 v2 =
      (((ResponseBuilder.construct code phrase).calls cs).withHeader k2 v2).withHeader k1 v1) ∧
    (∀ k v1 v2,
      (((ResponseBuilder.construct code phrase).calls cs).withHeader k v1).withHeader k v2 =
      ((ResponseBuilder.construct code phrase).calls cs).withHeader k v2) ∧
    (∀ (b : ResponseBuilder) k v k2, map_find k2 (b.withHeader k v).headers_ =
      if k2 = k then some v else map_find k2 b.headers_) ∧
    (∀ k v1 v2, map_find k
      ((((ResponseBuilder.construct code phrase).calls cs).withHeader k v1).withHeader
        k v2).headers_ = some v2) ∧
    (∀ k, map_find k ((ResponseBuilder.construct code phrase).calls cs).headers_ =
      final_mapping cs k) ∧
    (∀ code2 phrase2 cs2 out out2 b1 out1 b2 out3,
      (∀ k, final_mapping cs k = final_mapping cs2 k) →
      ((ResponseBuilder.construct code phrase).calls cs).body_.length =
        ((ResponseBuilder.construct code2 phrase2).calls cs2).body_.length →
      ((ResponseBuilder.construct code phrase).calls cs).build out = .ok (b1, out1) →
      ((ResponseBuilder.construct code2 phrase2).calls cs2).build out2 = .ok (b2, out3) →
      out1.m_headers = out3.m_headers) := by
  have hasc : keys_ascending ((ResponseBuilder.construct code phrase).calls cs).headers_ :=
    calls_keys_ascending cs _ (by rw [construct_headers]; exact List.Pairwise.nil)
  have hfin : ∀ (code2 : Int) (phrase2 : Option (List Byte)) (cs2 : List BuilderCall) k,
      map_find k ((ResponseBuilder.construct code2 phrase2).calls cs2).headers_ =
        final_mapping cs2 k := by
    intro code2 phrase2 cs2 k
    rw [final_mapping_calls, construct_headers]
    cases final_mapping cs2 k <;> rfl
  refine ⟨fun out b1 out1 hb => ?_, fun m1 m2 h1 h2 h => ?_, fun k1 v1 k2 v2 hne => ?_,
    fun k v1 v2 => ?_, fun b k v k2 => ?_, fun k v1 v2 => ?_, hfin code phrase cs,
    fun code2 phrase2 cs2 out out2 b1 out1 b2 out3 hmap hlen hb1 hb2 => ?_⟩
  · obtain ⟨e1, e2⟩ := build_headers _ b1 out out1 hb
    refine ⟨by rw [e2, headers_str_loop_eq], ?_, fun k => ?_⟩
    · rw [e1]
      exact keys_ascending_map_assign _ _ _ (keys_ascending_map_assign _ _ _ hasc)
    · rw [e1, map_find_map_assign, map_find_map_assign]
  · rw [map_ext m1 m2 h1 h2 h]
  · simp only [ResponseBuilder.withHeader]
    congr 1
    refine map_ext _ _ (keys_ascending_map_assign _ _ _ (keys_ascending_map_assign _ _ _ hasc))
      (keys_ascending_map_assign _ _ _ (keys_ascending_map_assign _ _ _ hasc)) (fun k => ?_)
    simp only [map_find_map_assign]
    by_cases h1 : k = k1
    · have : ¬ k = k2 := fun e => hne (by rw [← h1, e])
      simp [h1, this, hne]
    · simp [h1]
  · simp only [ResponseBuilder.withHeader]
    congr 1
    refine map_ext _ _ (keys_ascending_map_assign _ _ _ (keys_ascending_map_assign _ _ _ hasc))
      (keys_ascending_map_assign _ _ _ hasc) (fun k2 => ?_)
    simp only [map_find_map_assign]
    by_cases h1 : k2 = k <;> simp [h1]
  · simp only [ResponseBuilder.withHeader, map_find_map_assign]
  · simp only [ResponseBuilder.withHeader, map_find_map_assign, if_true]
  · have hasc2 : keys_ascending
        ((ResponseBuilder.construct code2 phrase2).calls cs2).headers_ :=
      calls_keys_ascending cs2 _ (by rw [construct_headers]; exact List.Pairwise.nil)
    obtain ⟨e1, e2⟩ := build_headers _ b1 out out1 hb1
    obtain ⟨e3, e4⟩ := build_headers _ b2 out2 out3 hb2
    have hb : b1.headers_ = b2.headers_ := by
      rw [e1, e3]
      refine map_ext _ _
        (keys_ascending_map_assign _ _ _ (keys_ascending_map_assign _ _ _ hasc))
        (keys_ascending_map_assign _ _ _ (keys_ascending_map_assign _ _ _ hasc2))
        (fun k => ?_)
      rw [map_find_map_assign, map_find_map_assign, map_find_map_assign, map_find_map_assign,
        hfin code phrase cs, hfin code2 phrase2 cs2, hmap k, hlen]
    rw [e2, e4, hb]

/-- C24 witness: the chain of the test `FluentChaining`; the block lists `Cache-Control`,
`Connection`, `Content-Length` and `Content-Type` in this order. -/
theorem C24_header_block_witness :
    bytes "Cache-Control: no-cache\r\nConnection: close\r\nContent-Length: 4\r\nContent-Type: text/html\r\n\r\n" =
      ([(bytes "Cache-Control", bytes "no-cache"), (bytes "Connection", bytes "close"),
        (bytes "Content-Length", bytes "4"), (bytes "Content-Type", bytes "text/html")].map
        (fun e => e.1 ++ bytes ": " ++ e.2 ++ bytes "\r\n")).flatten ++ bytes "\r\n" :=
  ((C24_header_block 200 none
    [.withContentType (bytes "text/html"), .withHeader (bytes "Cache-Control") (bytes "no-cache"),
     .withBody (bytes "Test")]).1 response.new
    { status_code_ := 200, reason_phrase_ := bytes "OK", body_ := bytes "Test",
      headers_ := [(bytes "Cache-Control", bytes "no-cache"), (bytes "Connection", bytes "close"),
        (bytes "Content-Length", bytes "4"), (bytes "Content-Type", bytes "text/html")],
      http_version_ := bytes "1.1" }
    { m_status_line := bytes "HTTP/1.1 200 OK\r\n",
      m_headers := bytes "Cache-Control: no-cache\r\nConnection: close\r\nContent-Length: 4\r\nContent-Type: text/html\r\n\r\n",
      m_content := bytes "Test",
      m_bufs := [bytes "HTTP/1.1 200 OK\r\n",
        bytes "Cache-Control: no-cache\r\nConnection: close\r\nContent-Length: 4\r\nContent-Type: text/html\r\n\r\n",
        bytes "Test"] }
    (by rfl)).1

/-! ### The route table built from handler specifications (C21) -/

theorem has_root_iff (routes : List RouteInit) :
    has_root routes = true ↔ ∃ r ∈ routes, r.location = bytes "/" := by
  induction routes with
  | nil => simp [has_root]
  | cons r rest ih =>
    rw [has_root]
    by_cases h : r.location = bytes "/"
    · simp [h]
    · simp [h, ih]

theorem mem_ctor_loop_of_factory (L : List RouteInit) (init : RouteInit) (f : RequestHandlerFactory)
    (hi : init ∈ L) (hf : init.factory = some f) :
    ({ location := init.location, factory := some f } : Route) ∈ ctor_loop L := by
  induction L with
  | nil => simp at hi
  | cons x xs ih =>
    rcases List.mem_cons.mp hi with h | h
    · subst h
      simp [ctor_loop, hf]
    · cases hx : x.factory with
      | none => simp only [ctor_loop, hx]; exact ih h
      | some g => simp only [ctor_loop, hx]; exact List.mem_cons_of_mem _ (ih h)

theorem umap_assign_isEmpty {V : Type} (key : List Byte) (value : V)
    (m : List (List Byte × V)) : (umap_assign key value m).isEmpty = false := by
  cases m with
  | nil => rfl
  | cons e rest =>
    rw [umap_assign]
    split_ifs <;> rfl

theorem RegisterBuiltins_done (B : BuiltinFactories) (r : HandlerRegistry)
    (h : r.done = true) : r.RegisterBuiltins B = r := by
  rw [HandlerRegistry.RegisterBuiltins, if_pos h]

theorem RegisterBuiltins_isEmpty (B : BuiltinFactories) (r : HandlerRegistry)
    (h : r.done = false) : (r.RegisterBuiltins B).g_registry.isEmpty = false := by
  rw [HandlerRegistry.RegisterBuiltins, if_neg (by rw [h]; exact Bool.false_ne_true)]
  exact umap_assign_isEmpty _ _ _

/-- The registry that the lookup of `CreateFactory` consults and leaves behind. -/
theorem CreateFactory_eq (B : BuiltinFactories) (r : HandlerRegistry) (spec : HandlerSpec) :
    r.CreateFactory B spec =
      ((umap_find spec.type
          (if r.g_registry.isEmpty then r.RegisterBuiltins B else r).g_registry).bind
        (fun ctor => ctor spec),
       if r.g_registry.isEmpty then r.RegisterBuiltins B else r) := by
  simp only [HandlerRegistry.CreateFactory]
  cases umap_find spec.type
    (if r.g_registry.isEmpty then r.RegisterBuiltins B else r).g_registry <;> rfl

theorem lookup_registry_idem (B : BuiltinFactories) (r : HandlerRegistry) :
    (if (if r.g_registry.isEmpty then r.RegisterBuiltins B else r).g_registry.isEmpty then
        (if r.g_registry.isEmpty then r.RegisterBuiltins B else r).RegisterBuiltins B
      else (if r.g_registry.isEmpty then r.RegisterBuiltins B else r)) =
      (if r.g_registry.isEmpty then r.RegisterBuiltins B else r) := by
  by_cases he : r.g_registry.isEmpty = true
  · simp only [he, if_true]
    cases hd : r.done with
    | false =>
      rw [if_neg (by rw [RegisterBuiltins_isEmpty B r hd]; exact Bool.false_ne_true)]
    | true =>
      rw [RegisterBuiltins_done B r hd, if_pos he, RegisterBuiltins_done B r hd]
  · rw [if_neg he, if_neg he]

theorem CreateFactory_after (B : BuiltinFactories) (r : HandlerRegistry)
    (spec spec2 : HandlerSpec) :
    (r.CreateFactory B spec).2.CreateFactory B spec2 = r.CreateFactory B spec2 := by
  rw [CreateFactory_eq B r spec, CreateFactory_eq B r spec2, CreateFactory_eq]
  simp only [lookup_registry_idem]

theorem surviving_routes_after (B : BuiltinFactories) (r : HandlerRegistry)
    (spec : HandlerSpec) (specs : List HandlerSpec) :
    surviving_routes B (r.CreateFactory B spec).2 specs = surviving_routes B r specs := by
  simp only [surviving_routes, CreateFactory_after]

theorem build_routes_loop_eq (B : BuiltinFactories) (specs : List HandlerSpec) :
    ∀ r : HandlerRegistry,
      (build_routes_loop B r specs).1 = surviving_routes B r specs ∧
      ∀ spec2, (build_routes_loop B r specs).2.CreateFactory B spec2 =
        r.CreateFactory B spec2 := by
  induction specs with
  | nil => intro r; exact ⟨rfl, fun _ => rfl⟩
  | cons spec rest ih =>
    intro r
    have hs : surviving_routes B r (spec :: rest) =
        match (r.CreateFactory B spec).1 with
        | none => surviving_routes B r rest
        | some factory =>
            { location := spec.path, factory := some factory } :: surviving_routes B r rest := by
      simp only [surviving_routes, List.filterMap_cons]
      cases (r.CreateFactory B spec).1 <;> rfl
    obtain ⟨ih1, ih2⟩ := ih (r.CreateFactory B spec).2
    rw [surviving_routes_after] at ih1
    rw [hs, build_routes_loop]
    rcases hc : r.CreateFactory B spec with ⟨o, r1⟩
    rw [hc] at ih1 ih2
    have hafter : ∀ spec2, r1.CreateFactory B spec2 = r.CreateFactory B spec2 := by
      intro spec2
      have := CreateFactory_after B r spec spec2
      rw [hc] at this
      exact this
    cases o with
    | none =>
      simp only
      exact ⟨ih1, fun spec2 => (ih2 spec2).trans (hafter spec2)⟩
    | some factory =>
      simp only
      simp only at ih1 ih2
      exact ⟨by rw [ih1], fun spec2 => (ih2 spec2).trans (hafter spec2)⟩

/-- What `BuildRoutesFromSpecs` returns, in terms of the surviving routes and of the
factory that the registry gives for `not_found_spec`. -/
theorem BuildRoutesFromSpecs_eq (B : BuiltinFactories) (r : HandlerRegistry)
    (specs : List HandlerSpec) :
    (BuildRoutesFromSpecs B r specs).1 =
      if has_root (surviving_routes B r specs) then surviving_routes B r specs
      else
        match (r.CreateFactory B not_found_spec).1 with
        | none => surviving_routes B r specs
        | some f => surviving_routes B r specs ++ [{ location := bytes "/", factory := some f }] := by
  obtain ⟨h1, h2⟩ := build_routes_loop_eq B specs r
  rw [BuildRoutesFromSpecs]
  rcases hl : build_routes_loop B r specs with ⟨routes, r1⟩
  rw [hl] at h1 h2
  simp only at h1 h2
  subst h1
  simp only
  by_cases hr : has_root (surviving_routes B r specs) = true
  · simp only [hr, if_true]
  · simp only [hr, Bool.false_eq_true, if_false]
    rw [← h2 not_found_spec]
    rcases r1.CreateFactory B not_found_spec with ⟨o, r2⟩
    cases o <;> rfl

theorem create_not_found_initial (B : BuiltinFactories) (r : HandlerRegistry)
    (he : r.g_registry = []) (hd : r.done = false) :
    (r.CreateFactory B not_found_spec).1 = some (NotFoundHandlerFactory not_found_spec) := by
  rcases r with ⟨m, d⟩
  simp only at he hd
  subst he
  subst hd
  rfl

theorem surviving_routes_locations (B : BuiltinFactories) (r : HandlerRegistry)
    (specs : List HandlerSpec) :
    (surviving_routes B r specs).map (fun x => x.location) =
      (specs.filter (fun spec => (r.CreateFactory B spec).1.isSome)).map
        (fun spec => spec.path) := by
  induction specs with
  | nil => rfl
  | cons spec rest ih =>
    unfold surviving_routes at ih ⊢
    rw [List.filterMap_cons, List.filter_cons]
    cases h : (r.CreateFactory B spec).1 with
    | none => simpa using ih
    | some f => simpa using ih

theorem surviving_routes_factory (B : BuiltinFactories) (r : HandlerRegistry)
    (specs : List HandlerSpec) :
    ∀ x ∈ surviving_routes B r specs, x.factory.isSome = true := by
  intro x hx
  simp only [surviving_routes, List.mem_filterMap] at hx
  obtain ⟨spec, _, hs⟩ := hx
  cases hc : (r.CreateFactory B spec).1 with
  | none => rw [hc] at hs; simp at hs
  | some f =>
    rw [hc] at hs
    simp only [Option.map_some', Option.some.injEq] at hs
    rw [← hs]
    rfl

/-- C21 (amended). For every list of handler specifications and every state of the
handler registry, `FromSpecs` builds one route per specification for which the registry
constructs a factory, at the path of the specification and in the order given, and drops
the others. It appends one default not-found route at `/` if and only if no surviving
route has location exactly `/` and the registry constructs a factory for the type
`not_found`. The routes built contain a route at `/` exactly when a surviving route is at
`/` or the registry constructs that factory; in that second case so does the table of the
dispatcher after any admissible sort. A registry that is empty with `done` unset, as at
program start, constructs that factory, because the first lookup registers the built-in
types. -/
theorem C21_from_specs_routes (B : BuiltinFactories) (r : HandlerRegistry)
    (specs : List HandlerSpec) :
    ((surviving_routes B r specs).map (fun x => x.location) =
        (specs.filter (fun spec => (r.CreateFactory B spec).1.isSome)).map
          (fun spec => spec.path) ∧
      ∀ x ∈ surviving_routes B r specs, x.factory.isSome = true) ∧
    ((∃ x ∈ surviving_routes B r specs, x.location = bytes "/") →
      (BuildRoutesFromSpecs B r specs).1 = surviving_routes B r specs) ∧
    (∀ f, (¬ ∃ x ∈ surviving_routes B r specs, x.location = bytes "/") →
      (r.CreateFactory B not_found_spec).1 = some f →
      (BuildRoutesFromSpecs B r specs).1 =
        surviving_routes B r specs ++ [{ location := bytes "/", factory := some f }]) ∧
    ((r.CreateFactory B not_found_spec).1 = none →
      (BuildRoutesFromSpecs B r specs).1 = surviving_routes B r specs) ∧
    ((∃ x ∈ (BuildRoutesFromSpecs B r specs).1, x.location = bytes "/") ↔
      ((∃ x ∈ surviving_routes B r specs, x.location = bytes "/") ∨
        (r.CreateFactory B not_found_spec).1.isSome = true)) ∧
    ((r.CreateFactory B not_found_spec).1.isSome = true →
      (∃ x ∈ (BuildRoutesFromSpecs B r specs).1,
        x.location = bytes "/" ∧ x.factory.isSome = true) ∧
      ∀ sorted, is_std_sort (BuildRoutesFromSpecs B r specs).1 sorted →
        ∃ x ∈ (Dispatcher.FromSpecs sorted).routes_, x.location = bytes "/") ∧
    (r.g_registry = [] → r.done = false →
      (r.CreateFactory B not_found_spec).1 = some (NotFoundHandlerFactory not_found_spec)) := by
  have hsurv := surviving_routes_factory B r specs
  have heq := BuildRoutesFromSpecs_eq B r specs
  have h1 : (∃ x ∈ surviving_routes B r specs, x.location = bytes "/") →
      (BuildRoutesFromSpecs B r specs).1 = surviving_routes B r specs := by
    intro h
    rw [heq, if_pos ((has_root_iff _).mpr h)]
  have h2 : ∀ f, (¬ ∃ x ∈ surviving_routes B r specs, x.location = bytes "/") →
      (r.CreateFactory B not_found_spec).1 = some f →
      (BuildRoutesFromSpecs B r specs).1 =
        surviving_routes B r specs ++ [{ location := bytes "/", factory := some f }] := by
    intro f h hf
    rw [heq, if_neg (fun hr => h ((has_root_iff _).mp hr)), hf]
  have h3 : (r.CreateFactory B not_found_spec).1 = none →
      (BuildRoutesFromSpecs B r specs).1 = surviving_routes B r specs := by
    intro hf
    rw [heq, hf]
    split_ifs <;> rfl
  have h4 : (∃ x ∈ (BuildRoutesFromSpecs B r specs).1, x.location = bytes "/") ↔
      ((∃ x ∈ surviving_routes B r specs, x.location = bytes "/") ∨
        (r.CreateFactory B not_found_spec).1.isSome = true) := by
    by_cases h : ∃ x ∈ surviving_routes B r specs, x.location = bytes "/"
    · rw [h1 h]
      exact ⟨fun _ => Or.inl h, fun _ => h⟩
    · cases hf : (r.CreateFactory B not_found_spec).1 with
      | none =>
        rw [h3 hf]
        exact ⟨fun hx => absurd hx h, fun hx => hx.elim (fun hy => absurd hy h)
          (fun hy => absurd hy (by simp))⟩
      | some f =>
        rw [h2 f h hf]
        exact ⟨fun _ => Or.inr (Eq.refl _),
          fun _ => ⟨_, List.mem_append_right _ (List.mem_singleton.mpr (Eq.refl _)),
            Eq.refl _⟩⟩
  have h5 : (r.CreateFactory B not_found_spec).1.isSome = true →
      ∃ x ∈ (BuildRoutesFromSpecs B r specs).1,
        x.location = bytes "/" ∧ x.factory.isSome = true := by
    intro hf
    obtain ⟨f, hf2⟩ := Option.isSome_iff_exists.mp hf
    by_cases h : ∃ x ∈ surviving_routes B r specs, x.location = bytes "/"
    · rw [h1 h]
      obtain ⟨x, hx, hl⟩ := h
      exact ⟨x, hx, hl, hsurv x hx⟩
    · rw [h2 f h hf2]
      exact ⟨_, List.mem_append_right _ (List.mem_singleton.mpr (Eq.refl _)), Eq.refl _,
        Eq.refl _⟩
  refine ⟨⟨surviving_routes_locations B r specs, hsurv⟩, h1, h2, h3, h4,
    fun hf => ⟨h5 hf, fun sorted hsort => ?_⟩, create_not_found_initial B r⟩
  obtain ⟨x, hx, hl, hxf⟩ := h5 hf
  obtain ⟨g, hg⟩ := Option.isSome_iff_exists.mp hxf
  exact ⟨_, mem_ctor_loop_of_factory sorted x g (hsort.1.mem_iff.mpr hx) hg, hl⟩

/-- C21 witness: the specifications of the test
`AllInvalidSpecsInjectDefaultNotFoundAtRoot` on the registry of program start: the
unknown type and the `static` specification without `root` are dropped, and the default
route is the whole list. -/
theorem C21_from_specs_routes_witness :
    (BuildRoutesFromSpecs builtin_fixture HandlerRegistry.initial
      [{ name := bytes "bad1", path := bytes "/bad1", type := bytes "does_not_exist",
         options := [] },
       { name := bytes "bad2", path := bytes "/bad2", type := bytes "static",
         options := [] }]).1 =
    surviving_routes builtin_fixture HandlerRegistry.initial
      [{ name := bytes "bad1", path := bytes "/bad1", type := bytes "does_not_exist",
         options := [] },
       { name := bytes "bad2", path := bytes "/bad2", type := bytes "static",
         options := [] }] ++
      [{ location := bytes "/", factory := some (NotFoundHandlerFactory not_found_spec) }] :=
  (C21_from_specs_routes builtin_fixture HandlerRegistry.initial _).2.2.1
    (NotFoundHandlerFactory not_found_spec)
    (by
      rintro ⟨x, hx, _⟩
      have : surviving_routes builtin_fixture HandlerRegistry.initial
        [{ name := bytes "bad1", path := bytes "/bad1", type := bytes "does_not_exist",
           options := [] },
         { name := bytes "bad2", path := bytes "/bad2", type := bytes "static",
           options := [] }] = [] := by
        rfl
      rw [this] at hx
      simp at hx)
    (Eq.refl _)

/-- C21, counterexample: the registry after the one call `RegisterLinkRedirectHandlerFactory()`
that the test `LinkRedirectHandlerFactoryTest.CreatesWorkingHandler` makes before its first
`CreateFactory`, and the specification of that test. The map is not empty, so the built-in
types are never registered and no factory is constructed for `not_found`: no surviving
route is at `/`, no default route is appended, and neither the routes built nor the table
of the dispatcher contain a route at `/`. -/
theorem C21_no_root_route_counterexample :
    (¬ ∃ x ∈ surviving_routes builtin_fixture
        (RegisterLinkRedirectHandlerFactory builtin_fixture HandlerRegistry.initial)
        [{ name := bytes "link_redirect", path := bytes "/l", type := LINK_REDIRECT_HANDLER,
           options := [(bytes "data_path", bytes "/tmp/test_links")] }],
      x.location = bytes "/") ∧
    (BuildRoutesFromSpecs builtin_fixture
        (RegisterLinkRedirectHandlerFactory builtin_fixture HandlerRegistry.initial)
        [{ name := bytes "link_redirect", path := bytes "/l", type := LINK_REDIRECT_HANDLER,
           options := [(bytes "data_path", bytes "/tmp/test_links")] }]).1.map
      (fun x => x.location) = [bytes "/l"] ∧
    (¬ ∃ x ∈ (BuildRoutesFromSpecs builtin_fixture
        (RegisterLinkRedirectHandlerFactory builtin_fixture HandlerRegistry.initial)
        [{ name := bytes "link_redirect", path := bytes "/l", type := LINK_REDIRECT_HANDLER,
           options := [(bytes "data_path", bytes "/tmp/test_links")] }]).1,
      x.location = bytes "/") ∧
    (Dispatcher.new (BuildRoutesFromSpecs builtin_fixture
        (RegisterLinkRedirectHandlerFactory builtin_fixture HandlerRegistry.initial)
        [{ name := bytes "link_redirect", path := bytes "/l", type := LINK_REDIRECT_HANDLER,
           options := [(bytes "data_path", bytes "/tmp/test_links")] }]).1).routes_.map
      (fun x => x.location) = [bytes "/l"] := by
  have hs : surviving_routes builtin_fixture
      (RegisterLinkRedirectHandlerFactory builtin_fixture HandlerRegistry.initial)
      [{ name := bytes "link_redirect", path := bytes "/l", type := LINK_REDIRECT_HANDLER,
         options := [(bytes "data_path", bytes "/tmp/test_links")] }] =
      [{ location := bytes "/l", factory := some null_factory }] := by
    rfl
  have hb : (BuildRoutesFromSpecs builtin_fixture
      (RegisterLinkRedirectHandlerFactory builtin_fixture HandlerRegistry.initial)
      [{ name := bytes "link_redirect", path := bytes "/l", type := LINK_REDIRECT_HANDLER,
         options := [(bytes "data_path", bytes "/tmp/test_links")] }]).1 =
      [{ location := bytes "/l", factory := some null_factory }] := by
    rfl
  refine ⟨?_, ?_, ?_, ?_⟩
  · rw [hs]
    rintro ⟨x, hx, hl⟩
    rw [List.mem_singleton.mp hx] at hl
    exact absurd hl (by decide)
  · rw [hb]
    rfl
  · rw [hb]
    rintro ⟨x, hx, hl⟩
    rw [List.mem_singleton.mp hx] at hl
    exact absurd hl (by decide)
  · rw [hb]
    rfl

/-! ### A request through parser, dispatcher and echo handler (C27) -/

/-- The response of the echo handler for a request whose `raw` is not the five bytes
`unset`. -/
theorem echo_response (name : List Byte) (req : request) (h : req.raw ≠ bytes "unset") :
    (EchoRequestHandler name).handle_request req = .ok
      { m_status_line := bytes "HTTP/1.1 200 OK\r\n",
        m_headers := bytes "Connection: close\r\nContent-Length: " ++
          to_string_nat req.raw.length ++ bytes "\r\nContent-Type: text/plain\r\n\r\n",
        m_content := req.raw,
        m_bufs := [bytes "HTTP/1.1 200 OK\r\n",
          bytes "Connection: close\r\nContent-Length: " ++
            to_string_nat req.raw.length ++ bytes "\r\nContent-Type: text/plain\r\n\r\n",
          req.raw] } := by
  have e1 : str_lt (bytes "Content-Length") (bytes "Content-Type") = true := by decide
  have e2 : str_lt (bytes "Connection") (bytes "Content-Length") = true := by decide
  have h1 : bytes "HTTP/1.1 200 OK\r\n" ≠ bytes "unset" := by decide
  have h2 : ∀ x : List Byte, x ++ bytes "\r\n" ≠ bytes "unset" := by
    intro x hx
    have e1 : bytes "\r\n" = [13, 10] := by decide
    have e2 : bytes "unset" = [117, 110, 115, 101, 116] := by decide
    rw [e1, e2] at hx
    have := congrArg List.getLast? hx
    simp at this
  have hst : bytes "HTTP/" ++ bytes "1.1" ++ bytes " " ++ to_string_int 200 ++ bytes " " ++
      bytes "OK" ++ bytes "\r\n" = bytes "HTTP/1.1 200 OK\r\n" := by decide
  have hhd : headers_str_loop [(bytes "Connection", bytes "close"),
      (bytes "Content-Length", to_string_nat req.raw.length),
      (bytes "Content-Type", bytes "text/plain")] ++ bytes "\r\n" =
      bytes "Connection: close\r\nContent-Length: " ++
        to_string_nat req.raw.length ++ bytes "\r\nContent-Type: text/plain\r\n\r\n" := by
    have a1 : bytes "Connection" ++ bytes ": " ++ bytes "close" ++ bytes "\r\n" ++
        (bytes "Content-Length" ++ bytes ": ") = bytes "Connection: close\r\nContent-Length: " := by
      decide
    have a2 : bytes "\r\n" ++ (bytes "Content-Type" ++ bytes ": " ++ bytes "text/plain" ++
        bytes "\r\n" ++ bytes "\r\n") = bytes "\r\nContent-Type: text/plain\r\n\r\n" := by
      decide
    rw [← a1, ← a2]
    simp only [headers_str_loop, List.append_assoc, List.append_nil]
  have hne : bytes "Connection: close\r\nContent-Length: " ++
      to_string_nat req.raw.length ++ bytes "\r\nContent-Type: text/plain\r\n\r\n" ≠
      bytes "unset" := by
    rw [← hhd]
    exact h2 _
  simp only [EchoRequestHandler, stock_response, ResponseBuilder.build, ResponseBuilder.new,
    ResponseBuilder.withContentType, ResponseBuilder.withHeader, ResponseBuilder.withBody,
    getDefaultReasonPhrase, map_assign, e1, e2, if_true, hst, hhd, response.new,
    response.set_status_line, response.set_headers, response.set_content, response.set_bufs,
    h1, hne, h, if_false]

theorem flatten_take_drop (chunks : List (List Byte)) (k : Nat) :
    (chunks.take k).flatten ++ (chunks.drop k).flatten = chunks.flatten := by
  rw [← List.flatten_append, List.take_append_drop]

/-- A request delivered in any chunking, with a body of exactly the announced length, is
parsed into its fields, and `raw` holds exactly its bytes. -/
theorem feed_exact_request (m u : List Byte) (hs : List (List Byte × List Byte))
    (body : List Byte) (chunks : List (List Byte)) (req0 : request)
    (hm : wf_method m) (hu : wf_uri u) (hh : ∀ h ∈ hs, wf_header h)
    (hd : ∀ c ∈ get_header_value_loop Content_Length hs, 48 ≤ c.val ∧ c.val ≤ 57)
    (hb : body.length = content_length_value hs)
    (hlen : (request_head m u hs ++ body).length < 2 ^ 64)
    (hch : ∀ d ∈ chunks, d ≠ [])
    (hsplit : chunks.flatten = request_head m u hs ++ body) :
    ∃ p, feed RequestParser.new req0 chunks = some (.PROPER_REQUEST, p,
      { method := m, uri := u, version := bytes "1.1", headers := hs, body := body,
        raw := request_head m u hs ++ body }) := by
  have hch2 : ∀ d ∈ chunks, d ≠ [] ∧ d.length < SIZE_MOD := by
    intro d hdm
    refine ⟨hch d hdm, lt_of_le_of_lt (length_le_flatten _ d hdm) ?_⟩
    rw [hsplit]
    exact hlen
  have hN : content_length_value hs < 2 ^ 64 := by
    rw [← hb]
    rw [List.length_append] at hlen
    omega
  obtain ⟨p1, _, hrun⟩ := run_request_head m u hs hm hu hh
  obtain ⟨p2, r2, hend, hbody, hmm, huu, hvv, hhh⟩ := end_of_headers_rest_proper body p1
    { method := m, uri := u, version := bytes "1.1", headers := hs, body := [], raw := [] }
    hd hN (le_of_eq hb.symm)
  have hcore : core RequestParser.new request.empty chunks.flatten =
      (.PROPER_REQUEST, p2, r2) := by
    rw [hsplit, core, if_neg (by simp [RequestParser.new]), hrun body, hend]
  obtain ⟨p3, r3, hf, hfields⟩ := feed_of_core chunks req0 _ _ _ hch2 hcore (by simp)
  simp only [request.fields, Prod.mk.injEq] at hfields
  obtain ⟨f1, f2, f3, f4, f5⟩ := hfields
  simp only [List.nil_append] at hbody
  rw [← hb, List.take_length] at hbody
  rw [hmm] at f1
  rw [huu] at f2
  rw [hvv] at f3
  rw [hhh] at f4
  rw [hbody] at f5
  simp only at f1 f2 f3 f4
  obtain ⟨k, hk, hraw⟩ := feed_consumed chunks RequestParser.new p3 req0 r3 .PROPER_REQUEST
    hch2 hf (by simp)
  have hraw2 : r3.raw = (chunks.take k).flatten := by
    rw [hraw]
    simp [RequestParser.new]
  obtain ⟨hst, hfl⟩ := core_of_feed_new (chunks.take k) req0 .PROPER_REQUEST p3 r3
    (fun d hdm => hch2 d (List.mem_of_mem_take hdm)) hk (by simp)
  obtain ⟨extra, hex⟩ := run_proper_bytes _ hst
  simp only [request.fields, Prod.mk.injEq] at hfl
  obtain ⟨g1, g2, _, g4, g5⟩ := hfl
  rw [g1, g2, g4, g5, f1, f2, f4, f5] at hex
  have htd := flatten_take_drop chunks k
  rw [hsplit] at htd
  have hl := congrArg List.length htd
  have hl2 := congrArg List.length hex
  simp only [List.length_append] at hl hl2
  have hextra : extra = [] := List.length_eq_zero.mp (by omega)
  rw [hextra, List.append_nil] at hex
  refine ⟨p3, ?_⟩
  rw [hf]
  have : r3 =
      { method := m, uri := u, version := bytes "1.1", headers := hs, body := body,
        raw := request_head m u hs ++ body } := by
    cases r3
    simp only at f1 f2 f3 f4 f5 hraw2
    simp only [request.mk.injEq]
    exact ⟨f1, f2, f3, f4, f5, by rw [hraw2, hex]⟩
  rw [this]

theorem request_bytes_ne_unset (m u : List Byte) (hs : List (List Byte × List Byte))
    (body : List Byte) (hm : wf_method m) : request_head m u hs ++ body ≠ bytes "unset" := by
  obtain ⟨hne, hup⟩ := hm
  cases m with
  | nil => exact absurd (Eq.refl _) hne
  | cons c cs =>
    have hc := hup c (List.mem_cons_self _ _)
    intro h
    have e2 : bytes "unset" = [117, 110, 115, 101, 116] := by decide
    rw [e2] at h
    simp only [request_head, request_line, List.cons_append, List.cons.injEq] at h
    obtain ⟨h1, _⟩ := h
    rw [h1] at hc
    revert hc
    decide

/-- C27. For every well-formed request byte string (request line, header lines, blank
line, and a body of exactly the length announced by the Content-Length the parser looks
up, none being 0) that fits a `std::string`, delivered in any chunking, and every route
table in which the route selected for its URI has an echo factory: parsing ends in
`PROPER_REQUEST`, and `Dispatch` returns the echo handler's response, with status line
`HTTP/1.1 200 OK` CR LF, a Content-Length header holding the decimal numeral of the number
of request bytes, and a body equal to the request bytes. -/
theorem C27_echo_pipeline (m u : List Byte) (hs : List (List Byte × List Byte))
    (body : List Byte) (chunks : List (List Byte)) (req0 : request)
    (d : Dispatcher) (pre post : List Route) (route : Route) (spec : HandlerSpec)
    (hm : wf_method m) (hu : wf_uri u) (hh : ∀ h ∈ hs, wf_header h)
    (hd : ∀ c ∈ get_header_value_loop Content_Length hs, 48 ≤ c.val ∧ c.val ≤ 57)
    (hb : body.length = content_length_value hs)
    (hlen : (request_head m u hs ++ body).length < 2 ^ 64)
    (hch : ∀ d ∈ chunks, d ≠ [])
    (hsplit : chunks.flatten = request_head m u hs ++ body)
    (htab : d.routes_ = pre ++ route :: post)
    (hpre : ∀ x ∈ pre, x.location.isPrefixOf u = false)
    (hsel : route.location.isPrefixOf u = true)
    (hf : route.factory = some (EchoHandlerFactory spec)) :
    ∃ p parsed resp,
      feed RequestParser.new req0 chunks = some (.PROPER_REQUEST, p, parsed) ∧
      d.Dispatch parsed = .ok resp ∧
      resp.m_status_line = bytes "HTTP/1.1 200 OK\r\n" ∧
      resp.m_headers = bytes "Connection: close\r\nContent-Length: " ++
        to_string_nat (request_head m u hs ++ body).length ++
        bytes "\r\nContent-Type: text/plain\r\n\r\n" ∧
      digits_value (to_string_nat (request_head m u hs ++ body).length) =
        (request_head m u hs ++ body).length ∧
      resp.m_content = request_head m u hs ++ body ∧
      resp.get_bufs = [resp.m_status_line, resp.m_headers, resp.m_content] := by
  obtain ⟨p, hfeed⟩ := feed_exact_request m u hs body chunks req0 hm hu hh hd hb hlen hch hsplit
  have hdis := dispatch_loop_select d.routes_
    { method := m, uri := u, version := bytes "1.1", headers := hs, body := body,
      raw := request_head m u hs ++ body } route (EchoHandlerFactory spec) post pre hpre hsel hf
  rw [← htab] at hdis
  have hecho := echo_response (if spec.name = [] then ECHO_HANDLER else spec.name)
    { method := m, uri := u, version := bytes "1.1", headers := hs, body := body,
      raw := request_head m u hs ++ body } (request_bytes_ne_unset m u hs body hm)
  have hdisp := hecho
  rw [← show d.Dispatch
      { method := m, uri := u, version := bytes "1.1", headers := hs, body := body,
        raw := request_head m u hs ++ body } =
      (EchoRequestHandler (if spec.name = [] then ECHO_HANDLER else spec.name)).handle_request
        { method := m, uri := u, version := bytes "1.1", headers := hs, body := body,
          raw := request_head m u hs ++ body } from by
    rw [Dispatcher.Dispatch, hdis]
    rfl] at hdisp
  exact ⟨p, _, _, hfeed, hdisp, Eq.refl _, Eq.refl _, digits_value_to_string_nat _, Eq.refl _,
    Eq.refl _⟩

/-- C27 witness: the end-to-end scenario `GET /echo HTTP/1.1`, `Host: x`, split inside the
header, with the table that `FromSpecs` builds for an echo handler at `/echo`. -/
theorem C27_echo_pipeline_witness :
    ∃ p parsed resp,
      feed RequestParser.new request.empty
        [bytes "GET /echo HTTP/1.1\r\nHo", bytes "st: x\r\n\r\n"] =
        some (.PROPER_REQUEST, p, parsed) ∧
      (Dispatcher.FromSpecs
        [{ location := bytes "/echo", factory := some (EchoHandlerFactory
            { name := bytes "e", path := bytes "/echo", type := ECHO_HANDLER, options := [] }) },
         { location := bytes "/",
           factory := some (NotFoundHandlerFactory not_found_spec) }]).Dispatch parsed =
        .ok resp ∧
      resp.m_status_line = bytes "HTTP/1.1 200 OK\r\n" ∧
      resp.m_headers = bytes "Connection: close\r\nContent-Length: " ++
        to_string_nat (request_head (bytes "GET") (bytes "/echo") [(bytes "Host", bytes "x")] ++
          []).length ++ bytes "\r\nContent-Type: text/plain\r\n\r\n" ∧
      digits_value (to_string_nat
        (request_head (bytes "GET") (bytes "/echo") [(bytes "Host", bytes "x")] ++ []).length) =
        (request_head (bytes "GET") (bytes "/echo") [(bytes "Host", bytes "x")] ++ []).length ∧
      resp.m_content =
        request_head (bytes "GET") (bytes "/echo") [(bytes "Host", bytes "x")] ++ [] ∧
      resp.get_bufs = [resp.m_status_line, resp.m_headers, resp.m_content] :=
  C27_echo_pipeline (bytes "GET") (bytes "/echo") [(bytes "Host", bytes "x")] []
    [bytes "GET /echo HTTP/1.1\r\nHo", bytes "st: x\r\n\r\n"] request.empty
    (Dispatcher.FromSpecs
      [{ location := bytes "/echo", factory := some (EchoHandlerFactory
          { name := bytes "e", path := bytes "/echo", type := ECHO_HANDLER, options := [] }) },
       { location := bytes "/", factory := some (NotFoundHandlerFactory not_found_spec) }])
    [] [{ location := bytes "/", factory := some (NotFoundHandlerFactory not_found_spec) }]
    { location := bytes "/echo", factory := some (EchoHandlerFactory
        { name := bytes "e", path := bytes "/echo", type := ECHO_HANDLER, options := [] }) }
    { name := bytes "e", path := bytes "/echo", type := ECHO_HANDLER, options := [] }
    (by decide) (by decide) (by decide) (by decide) (by decide) (by decide) (by decide)
    (by decide) (Eq.refl _) (fun x hx => by simp at hx) (by decide) (Eq.refl _)

/-! ### A parser that is not reset after a complete request (C30) -/

/-- C30, evaluation at the failing input: a request whose body is completed by a second
chunk leaves the parser in state `BODY` with nothing remaining; the bytes of a further
well-formed request, fed without `reset`, are then answered with `PROPER_REQUEST` again
(the record still describes the first request), not with `BAD_REQUEST`. -/
theorem C30_next_request_accepted_after_body :
    (parse_calls RequestParser.new request.empty
      [some (bytes "POST /x HTTP/1.1\r\nContent-Length: 5\r\n\r\nHE"), some (bytes "LLO"),
       some (bytes "GET / HTTP/1.1\r\n\r\n")]).map
      (fun r => (r.1, r.2.1.m_state, r.2.2.uri)) =
      some ([.IN_PROGRESS, .PROPER_REQUEST, .PROPER_REQUEST], .BODY, bytes "/x") := by
  decide

theorem end_of_headers_rest_proper_state (rest : List Byte) (p p1 : RequestParser)
    (req r1 : request) (h : end_of_headers_rest rest p req = (.PROPER_REQUEST, p1, r1)) :
    p1.m_state = p.m_state := by
  unfold end_of_headers_rest at h
  simp only at h
  split_ifs at h
  · cases h; rfl
  · cases h
  · cases hs : stoul (req.get_header_value Content_Length) with
    | none => rw [hs] at h; cases h
    | some n =>
      rw [hs] at h
      simp only [body_split] at h
      split_ifs at h
      · cases h; rfl
      · cases h

theorem run_proper_state (d : List Byte) : ∀ (p p1 : RequestParser) (req r1 : request),
    run p req d = (.PROPER_REQUEST, p1, r1) → p1.m_state = .END_CR := by
  induction d with
  | nil =>
    intro p p1 req r1 h
    simp only [run] at h
    cases h
  | cons c rest ih =>
    intro p p1 req r1 h
    rw [run_cons] at h
    by_cases he : p.m_state = .END_CR ∧ c = 10
    · obtain ⟨he1, he2⟩ := he
      subst he2
      rw [byte_step_end _ p req he1] at h
      rw [end_of_headers_rest_proper_state rest p p1 req r1 h, he1]
    · cases hbs : byte_step rest c p req with
      | done r =>
        rw [hbs] at h
        simp only at h
        rcases byte_step_done_bad rest c p req r he hbs with h2 | ⟨_, h2⟩ <;>
          (rw [h2] at h; cases h)
      | more p2 req2 =>
        rw [hbs] at h
        exact ih p2 p1 req2 r1 h

theorem core_proper_state (p p1 : RequestParser) (req r1 : request) (d : List Byte)
    (h : core p req d = (.PROPER_REQUEST, p1, r1)) :
    p1.m_state = .END_CR ∨ (p1.m_state = .BODY ∧ p1.remaining_body_len_ = 0) := by
  unfold core at h
  by_cases hb : p.m_state = .BODY
  · rw [if_pos hb] at h
    unfold body_branch at h
    simp only at h
    by_cases h0 : p.remaining_body_len_ - min p.remaining_body_len_ d.length = 0
    · rw [if_pos h0] at h
      simp only [Prod.mk.injEq, true_and] at h
      obtain ⟨h1, _⟩ := h
      rw [← h1]
      exact Or.inr ⟨hb, h0⟩
    · rw [if_neg h0] at h
      simp at h
  · simp only [hb, if_false] at h
    exact Or.inl (run_proper_state d p p1 _ r1 h)

/-- Where a run that ends in `PROPER_REQUEST` leaves the parser: in state `END_CR` (the
request ended in the chunk that held the blank line) or in state `BODY` with nothing
remaining (the body was completed by a later chunk). -/
theorem feed_proper_state (chunks : List (List Byte)) :
    ∀ (p p1 : RequestParser) (req r1 : request),
      (∀ d ∈ chunks, d ≠ [] ∧ d.length < SIZE_MOD) →
      feed p req chunks = some (.PROPER_REQUEST, p1, r1) →
      p1.m_state = .END_CR ∨ (p1.m_state = .BODY ∧ p1.remaining_body_len_ = 0) := by
  induction chunks with
  | nil =>
    intro p p1 req r1 _ h
    simp only [feed, Option.some.injEq, Prod.mk.injEq] at h
    exact absurd h.1 (by simp)
  | cons d ds ih =>
    intro p p1 req r1 hch h
    have hd := hch d (List.mem_cons_self _ _)
    rw [feed, parse_eq_core p req d hd.1 hd.2] at h
    rcases hc : core p (prepare p req d) d with ⟨st, p2, r2⟩
    rw [hc] at h
    cases st with
    | IN_PROGRESS =>
      simp only at h
      exact ih p2 p1 r2 r1 (fun x hx => hch x (List.mem_cons_of_mem _ hx)) h
    | PROPER_REQUEST =>
      simp only [Option.some.injEq, Prod.mk.injEq, true_and] at h
      obtain ⟨h1, h2⟩ := h
      subst h1 h2
      exact core_proper_state p p2 _ r2 d hc
    | BAD_REQUEST => simp at h

/-- What the next chunk does to a parser that has just answered `PROPER_REQUEST` and was
not reset: from state `END_CR` a chunk that does not begin with LF (the bytes of a
well-formed request begin with an uppercase letter) is answered with `BAD_REQUEST`;
from state `BODY` with nothing remaining every non-empty chunk is answered with
`PROPER_REQUEST`. -/
theorem parse_after_proper (p : RequestParser) (req : request) (c : Byte) (rest : List Byte)
    (hlen : (c :: rest).length < 2 ^ 64) :
    (p.m_state = .END_CR → c ≠ 10 →
      ∃ p1 r1, p.parse req (some (c :: rest)) = some (.BAD_REQUEST, p1, r1)) ∧
    (p.m_state = .BODY → p.remaining_body_len_ = 0 →
      ∃ p1 r1, p.parse req (some (c :: rest)) = some (.PROPER_REQUEST, p1, r1) ∧
        r1.fields = req.fields) := by
  constructor
  · intro hs hc
    rw [parse_eq_core p req _ (by simp) hlen, core, if_neg (by rw [hs]; simp), run_cons]
    have hb : byte_step rest c p (prepare p req (c :: rest)) =
        .done (.BAD_REQUEST, p, prepare p req (c :: rest)) := by
      simp [byte_step, switch_body, hs, hc, Iter.out, make_bad_request_]
    rw [hb]
    exact ⟨_, _, Eq.refl _⟩
  · intro hs hr
    rw [parse_eq_core p req _ (by simp) hlen, core, if_pos hs]
    simp only [body_branch, hr, Nat.zero_min, lt_self_iff_false, if_false, Nat.sub_zero,
      if_true]
    refine ⟨_, _, Eq.refl _, ?_⟩
    simp [prepare, hs, request.fields]

/-! ### The session: what it writes, and one operation at a time (C28, C29) -/


theorem connection_run_append (es1 es2 : List Event) : ∀ (c c1 : Connection),
    c.run es1 = some c1 → c.run (es1 ++ es2) = c1.run es2 := by
  induction es1 with
  | nil =>
    intro c c1 h
    simp only [Connection.run, Option.some.injEq] at h
    subst h
    rfl
  | cons e es ih =>
    intro c c1 h
    simp only [Connection.run, List.cons_append] at h ⊢
    cases hs : c.step e with
    | none => rw [hs] at h; exact absurd h (by simp)
    | some c2 =>
      rw [hs] at h
      simp only at h ⊢
      exact ih c2 c1 h

theorem step_read_in_progress (c : Connection) (d : List Byte)
    (p : RequestParser) (r : request)
    (hout : c.outstanding = [.async_read_some])
    (hd : d ≠ [] ∧ d.length ≤ max_length)
    (hp : c.session.parser_.parse c.session.current_request_ (some d) =
      some (.IN_PROGRESS, p, r)) :
    c.step (.read_completes false d) =
      some { session := { c.session with parser_ := p, current_request_ := r },
             outstanding := [.async_read_some],
             issued := c.issued ++ [.async_read_some] } := by
  have hin : SocketOp.async_read_some ∈ c.outstanding ∧
      (false = false → d ≠ [] ∧ d.length ≤ max_length) := by
    rw [hout]
    exact ⟨List.mem_singleton.mpr (Eq.refl _), fun _ => hd⟩
  rw [Connection.step, if_pos hin, Session.handle_read_callback, if_neg (by simp), hp, hout]
  simp [Connection.issue, Session.handle_read, SocketOp.is_async]

theorem step_read_bad (c : Connection) (d : List Byte)
    (p : RequestParser) (r : request) (resp : response)
    (hout : c.outstanding = [.async_read_some])
    (hd : d ≠ [] ∧ d.length ≤ max_length)
    (hp : c.session.parser_.parse c.session.current_request_ (some d) =
      some (.BAD_REQUEST, p, r))
    (hb : c.session.dispatcher_.HandleBadRequest = .ok resp)
    (hc : c.session.m_socket_connected = true) :
    c.step (.read_completes false d) =
      some { session :=
               { c.session with
                 m_response := some resp, parser_ := p.reset, current_request_ := r.reset },
             outstanding := [.async_write resp.get_bufs],
             issued := c.issued ++ [.async_write resp.get_bufs] } := by
  have hin : SocketOp.async_read_some ∈ c.outstanding ∧
      (false = false → d ≠ [] ∧ d.length ≤ max_length) := by
    rw [hout]
    exact ⟨List.mem_singleton.mpr (Eq.refl _), fun _ => hd⟩
  rw [Connection.step, if_pos hin, Session.handle_read_callback, if_neg (by simp), hp, hout]
  simp only
  rw [hb]
  simp [Session.handle_write, hc, Connection.issue, SocketOp.is_async]

theorem step_read_proper (c : Connection) (d : List Byte)
    (p : RequestParser) (r : request) (resp : response)
    (hout : c.outstanding = [.async_read_some])
    (hd : d ≠ [] ∧ d.length ≤ max_length)
    (hp : c.session.parser_.parse c.session.current_request_ (some d) =
      some (.PROPER_REQUEST, p, r))
    (hb : c.session.dispatcher_.Dispatch r = .ok resp)
    (hc : c.session.m_socket_connected = true) :
    c.step (.read_completes false d) =
      some { session :=
               { c.session with
                 m_response := some resp, parser_ := p.reset, current_request_ := r.reset },
             outstanding := [.async_write resp.get_bufs],
             issued := c.issued ++ [.async_write resp.get_bufs] } := by
  have hin : SocketOp.async_read_some ∈ c.outstanding ∧
      (false = false → d ≠ [] ∧ d.length ≤ max_length) := by
    rw [hout]
    exact ⟨List.mem_singleton.mpr (Eq.refl _), fun _ => hd⟩
  rw [Connection.step, if_pos hin, Session.handle_read_callback, if_neg (by simp), hp, hout]
  simp only
  rw [hb]
  simp [Session.handle_write, hc, Connection.issue, SocketOp.is_async]

theorem replicate_snoc (n : Nat) (x : SocketOp) :
    List.replicate n x ++ [x] = List.replicate (n + 1) x := by
  rw [List.replicate_succ']

/-- While the parser answers `IN_PROGRESS`, each completed read issues one more read and
nothing else. -/
theorem run_reads_in_progress (cs : List (List Byte)) :
    ∀ (c : Connection) (p : RequestParser) (r : request),
      (∀ d ∈ cs, d ≠ [] ∧ d.length ≤ max_length) →
      c.outstanding = [.async_read_some] →
      feed c.session.parser_ c.session.current_request_ cs = some (.IN_PROGRESS, p, r) →
      c.run (cs.map (Event.read_completes false)) =
        some { session := { c.session with parser_ := p, current_request_ := r },
               outstanding := [.async_read_some],
               issued := c.issued ++ List.replicate cs.length .async_read_some } := by
  induction cs with
  | nil =>
    intro c p r _ hout hf
    simp only [feed, Option.some.injEq, Prod.mk.injEq, true_and] at hf
    obtain ⟨h1, h2⟩ := hf
    subst h1
    subst h2
    cases c
    simp only at hout
    subst hout
    simp [Connection.run]
  | cons d ds ih =>
    intro c p r hch hout hf
    have hd := hch d (List.mem_cons_self _ _)
    rw [feed] at hf
    cases hp : c.session.parser_.parse c.session.current_request_ (some d) with
    | none => rw [hp] at hf; exact absurd hf (by simp)
    | some res =>
      obtain ⟨st, p1, r1⟩ := res
      rw [hp] at hf
      cases st with
      | PROPER_REQUEST => simp at hf
      | BAD_REQUEST => simp at hf
      | IN_PROGRESS =>
        simp only at hf
        have hstep := step_read_in_progress c d p1 r1 hout hd hp
        simp only [List.map_cons, Connection.run, hstep]
        rw [ih _ p r (fun x hx => hch x (List.mem_cons_of_mem _ hx)) (Eq.refl _) hf]
        simp [List.replicate_succ]

/-- C28. For every route table and every sequence of chunks read on a connection (each
read delivers between 1 and 1024 bytes): while the parser reports `IN_PROGRESS` the
session has issued reads only, one for `start` and one per chunk, and one read is
outstanding; when the next chunk makes the parser report `BAD_REQUEST`, the session issues
one write, of the byte ranges of the stock 400 of `HandleBadRequest`; when the next chunk
makes it report `PROPER_REQUEST` and `Dispatch` returns a response for the parsed request,
the session issues one write, of the byte ranges of that response. -/
theorem C28_session_read_step (d : Dispatcher) (cs : List (List Byte))
    (p : RequestParser) (r : request)
    (hch : ∀ x ∈ cs, x ≠ [] ∧ x.length ≤ max_length)
    (hf : feed RequestParser.new request.empty cs = some (.IN_PROGRESS, p, r)) :
    (Connection.new (Session.new d).accepted).run
        (.start :: cs.map (Event.read_completes false)) =
      some { session := { (Session.new d).accepted with parser_ := p, current_request_ := r },
             outstanding := [.async_read_some],
             issued := List.replicate (cs.length + 1) .async_read_some } ∧
    (∀ (x : List Byte) (p1 : RequestParser) (r1 : request),
      x ≠ [] ∧ x.length ≤ max_length →
      p.parse r (some x) = some (.BAD_REQUEST, p1, r1) →
      d.HandleBadRequest = .ok stock_400 ∧
      (Connection.new (Session.new d).accepted).run
          (.start :: (cs ++ [x]).map (Event.read_completes false)) =
        some { session := { (Session.new d).accepted with
                              m_response := some stock_400, parser_ := p1.reset,
                              current_request_ := r1.reset },
               outstanding := [.async_write stock_400.get_bufs],
               issued := List.replicate (cs.length + 1) .async_read_some ++
                 [.async_write stock_400.get_bufs] }) ∧
    (∀ (x : List Byte) (p1 : RequestParser) (r1 : request) (resp : response),
      x ≠ [] ∧ x.length ≤ max_length →
      p.parse r (some x) = some (.PROPER_REQUEST, p1, r1) →
      d.Dispatch r1 = .ok resp →
      (Connection.new (Session.new d).accepted).run
          (.start :: (cs ++ [x]).map (Event.read_completes false)) =
        some { session := { (Session.new d).accepted with
                              m_response := some resp, parser_ := p1.reset,
                              current_request_ := r1.reset },
               outstanding := [.async_write resp.get_bufs],
               issued := List.replicate (cs.length + 1) .async_read_some ++
                 [.async_write resp.get_bufs] }) := by
  have h0 : (Connection.new (Session.new d).accepted).run
        (.start :: cs.map (Event.read_completes false)) =
      some { session := { (Session.new d).accepted with parser_ := p, current_request_ := r },
             outstanding := [.async_read_some],
             issued := List.replicate (cs.length + 1) .async_read_some } := by
    rw [Connection.run]
    simp only [Connection.step]
    rw [run_reads_in_progress cs _ p r hch (Eq.refl _) hf]
    simp [Connection.issue, Connection.new, Session.start, Session.handle_read,
      List.replicate_succ]
  have h1 : ∀ x, (Event.start :: (cs ++ [x]).map (Event.read_completes false)) =
      (Event.start :: cs.map (Event.read_completes false)) ++ [Event.read_completes false x] := by
    intro x
    simp
  refine ⟨h0, ?_, ?_⟩
  · intro x p1 r1 hx hp
    refine ⟨Eq.refl _, ?_⟩
    rw [h1, connection_run_append _ _ _ _ h0, Connection.run]
    rw [step_read_bad
      { session := { (Session.new d).accepted with parser_ := p, current_request_ := r },
        outstanding := [.async_read_some],
        issued := List.replicate (cs.length + 1) .async_read_some }
      x p1 r1 stock_400 (Eq.refl _) hx hp (Eq.refl _) (Eq.refl _)]
    rfl
  · intro x p1 r1 resp hx hp hdis
    rw [h1, connection_run_append _ _ _ _ h0, Connection.run]
    rw [step_read_proper
      { session := { (Session.new d).accepted with parser_ := p, current_request_ := r },
        outstanding := [.async_read_some],
        issued := List.replicate (cs.length + 1) .async_read_some }
      x p1 r1 resp (Eq.refl _) hx hp hdis (Eq.refl _)]
    rfl

/-- C28 witness: the request line `get / HTTP/1.1` (lowercase method) as the only chunk
is answered with one write of the stock 400. -/
theorem C28_session_read_step_witness :
    (Connection.new (Session.new (Dispatcher.from_sorted [])).accepted).run
        (.start :: ([] ++ [bytes "get / HTTP/1.1\r\n\r\n"]).map (Event.read_completes false)) =
      some { session := { (Session.new (Dispatcher.from_sorted [])).accepted with
                            m_response := some stock_400, parser_ := RequestParser.new.reset,
                            current_request_ :=
                              (request.empty.with_raw (bytes "get / HTTP/1.1\r\n\r\n")).reset },
             outstanding := [.async_write stock_400.get_bufs],
             issued := List.replicate ([] : List (List Byte)).length.succ .async_read_some ++
               [.async_write stock_400.get_bufs] } :=
  ((C28_session_read_step (Dispatcher.from_sorted []) [] RequestParser.new request.empty
    (fun x hx => absurd hx (List.not_mem_nil x)) (Eq.refl _)).2.1
    (bytes "get / HTTP/1.1\r\n\r\n") RequestParser.new
    (request.empty.with_raw (bytes "get / HTTP/1.1\r\n\r\n"))
    (by decide) (by decide)).2

/-- The operations one read callback can issue: none, one read, or one write. -/
theorem handle_read_callback_ops (s s1 : Session) (error : Bool) (data : List Byte)
    (ops : List SocketOp) (h : s.handle_read_callback error data = .ok (s1, ops)) :
    ops = [] ∨ ops = [.async_read_some] ∨ ∃ b, ops = [.async_write b] := by
  have hw : ∀ (t t1 : Session) (o : List SocketOp), t.handle_write = .ok (t1, o) →
      ∃ b, o = [.async_write b] := by
    intro t t1 o ht
    unfold Session.handle_write at ht
    split at ht
    · exact absurd ht (by simp)
    · split at ht
      · simp only [Except.ok.injEq, Prod.mk.injEq] at ht
        exact ⟨_, ht.2.symm⟩
      · exact absurd ht (by simp)
  unfold Session.handle_read_callback at h
  split at h
  · simp only [Except.ok.injEq, Prod.mk.injEq] at h
    exact Or.inl h.2.symm
  · split at h
    · exact absurd h (by simp)
    · split at h
      · exact absurd h (by simp)
      · exact Or.inr (Or.inr (hw _ _ _ h))
    · split at h
      · exact absurd h (by simp)
      · exact Or.inr (Or.inr (hw _ _ _ h))
    · simp only [Session.handle_read, Except.ok.injEq, Prod.mk.injEq] at h
      exact Or.inr (Or.inl h.2.symm)

theorem one_at_a_time_step (c c1 : Connection) (e : Event) (he : e ≠ .start)
    (hinv : one_at_a_time c) (hs : c.step e = some c1) : one_at_a_time c1 := by
  cases e with
  | start => exact absurd (Eq.refl _) he
  | read_completes error data =>
    simp only [Connection.step] at hs
    split_ifs at hs with hin
    cases hcb : c.session.handle_read_callback error data with
    | error e => rw [hcb] at hs; exact absurd hs (by simp)
    | ok res =>
      obtain ⟨s1, ops⟩ := res
      rw [hcb] at hs
      simp only [Option.some.injEq] at hs
      subst hs
      rcases hinv with ⟨ho, n, hi⟩ | ⟨b, n, ho, hi⟩ | ⟨ho, _⟩
      · rcases handle_read_callback_ops _ _ _ _ _ hcb with h | h | ⟨b, h⟩
        · subst h
          refine Or.inr (Or.inr ⟨?_, n, [], ?_, Or.inl (Eq.refl _)⟩)
          · simp [Connection.issue, ho]
          · simp [Connection.issue, hi]
        · subst h
          refine Or.inl ⟨?_, n + 1, ?_⟩
          · simp [Connection.issue, ho, SocketOp.is_async]
          · simp [Connection.issue, hi, List.replicate_succ']
        · subst h
          refine Or.inr (Or.inl ⟨b, n, ?_, ?_⟩)
          · simp [Connection.issue, ho, SocketOp.is_async]
          · simp [Connection.issue, hi]
      · rw [ho] at hin
        simp at hin
      · rw [ho] at hin
        simp at hin
  | write_completes error =>
    simp only [Connection.step] at hs
    split_ifs at hs with hin
    simp only [Option.some.injEq] at hs
    subst hs
    rcases hinv with ⟨ho, _⟩ | ⟨b, n, ho, hi⟩ | ⟨ho, _⟩
    · rw [ho] at hin
      simp [SocketOp.is_write] at hin
    · cases error with
      | true =>
        refine Or.inr (Or.inr ⟨?_, n, [.async_write b], ?_, Or.inr ⟨b, Or.inl (Eq.refl _)⟩⟩)
        · simp [Connection.issue, ho, Session.handle_write_callback, SocketOp.is_write]
        · simp [Connection.issue, hi, Session.handle_write_callback]
      | false =>
        refine Or.inr (Or.inr ⟨?_, n, [.async_write b, .shutdown_both], ?_,
          Or.inr ⟨b, Or.inr (Eq.refl _)⟩⟩)
        · simp [Connection.issue, ho, Session.handle_write_callback, SocketOp.is_write,
            SocketOp.is_async]
        · simp [Connection.issue, hi, Session.handle_write_callback]
    · rw [ho] at hin
      simp at hin

theorem one_at_a_time_run (es : List Event) : ∀ (c c1 : Connection),
    (∀ e ∈ es, e ≠ .start) → one_at_a_time c → c.run es = some c1 → one_at_a_time c1 := by
  induction es with
  | nil =>
    intro c c1 _ hinv h
    simp only [Connection.run, Option.some.injEq] at h
    subst h
    exact hinv
  | cons e es ih =>
    intro c c1 hne hinv h
    simp only [Connection.run] at h
    cases hs : c.step e with
    | none => rw [hs] at h; exact absurd h (by simp)
    | some c2 =>
      rw [hs] at h
      exact ih c2 c1 (fun x hx => hne x (List.mem_cons_of_mem _ hx))
        (one_at_a_time_step c c2 e (hne e (List.mem_cons_self _ _)) hinv hs) h

/-- C29 (amended). In every state of a session on which `start` has been called once that
is reached through completions of its reads and writes, at most one asynchronous
operation is outstanding on its socket; the operations issued so far are some reads
followed by nothing, by one write, or by one write and the shutdown; and once the write
has been issued no read is outstanding. -/
theorem C29_one_outstanding_operation (s : Session) (evs : List Event) (c : Connection)
    (hstart : ∀ e ∈ evs, e ≠ .start)
    (hrun : (Connection.new s).run (.start :: evs) = some c) :
    c.outstanding.length ≤ 1 ∧
    (∃ n tail, c.issued = List.replicate n .async_read_some ++ tail ∧
      (tail = [] ∨ ∃ b, tail = [.async_write b] ∨ tail = [.async_write b, .shutdown_both])) ∧
    (∀ b, .async_write b ∈ c.issued → SocketOp.async_read_some ∉ c.outstanding) := by
  have h0 : one_at_a_time ((Connection.new s).issue s.start.1 s.start.2) :=
    Or.inl ⟨Eq.refl _, 1, Eq.refl _⟩
  have hinv := one_at_a_time_run evs _ c hstart h0 hrun
  rcases hinv with ⟨ho, n, hi⟩ | ⟨b, n, ho, hi⟩ | ⟨ho, n, tail, hi, ht⟩
  · refine ⟨by simp [ho], ⟨n, [], by simp [hi], Or.inl (Eq.refl _)⟩, ?_⟩
    intro b hb
    rw [hi] at hb
    have := List.eq_of_mem_replicate hb
    exact absurd this (by simp)
  · refine ⟨by simp [ho], ⟨n, _, hi, Or.inr ⟨b, Or.inl (Eq.refl _)⟩⟩, ?_⟩
    intro _ _
    rw [ho]
    simp
  · refine ⟨by simp [ho], ⟨n, tail, hi, ht⟩, ?_⟩
    intro _ _
    rw [ho]
    simp

/-- C29 witness: `start`, one read that delivers `get / HTTP/1.1`, and the completion of
the write of the stock 400. -/
theorem C29_one_outstanding_operation_witness :
    ∃ c, (Connection.new (Session.new (Dispatcher.from_sorted [])).accepted).run
        [.start, .read_completes false (bytes "get / HTTP/1.1\r\n\r\n"),
          .write_completes false] = some c ∧
      c.issued = [.async_read_some, .async_write stock_400.get_bufs, .shutdown_both] ∧
      c.outstanding.length ≤ 1 ∧
      (∃ n tail, c.issued = List.replicate n .async_read_some ++ tail ∧
        (tail = [] ∨ ∃ b, tail = [.async_write b] ∨
          tail = [.async_write b, .shutdown_both])) ∧
      (∀ b, .async_write b ∈ c.issued → SocketOp.async_read_some ∉ c.outstanding) :=
  ⟨_, Eq.refl _, Eq.refl _,
    C29_one_outstanding_operation (Session.new (Dispatcher.from_sorted [])).accepted
      [.read_completes false (bytes "get / HTTP/1.1\r\n\r\n"), .write_completes false] _
      (by decide) (Eq.refl _)⟩

/-- C29 counterexample: `start` called twice on one session, as the repository's test
`StartIsSafeIfCalledTwiceQuickly` does, leaves two reads outstanding; when the first of
them delivers a request, the write of the response is outstanding together with the
second read; and when that read delivers a byte, a further read is issued after the
write. -/
theorem C29_counterexample :
    ((Connection.new (Session.new (Dispatcher.from_sorted [])).accepted).run
        [.start, .start]).map (fun c => c.outstanding) =
      some [.async_read_some, .async_read_some] ∧
    ((Connection.new (Session.new (Dispatcher.from_sorted [])).accepted).run
        [.start, .start, .read_completes false (bytes "GET / HTTP/1.1\r\n\r\n")]).map
          (fun c => c.outstanding) =
      some [.async_read_some, .async_write stock_404.get_bufs] ∧
    ((Connection.new (Session.new (Dispatcher.from_sorted [])).accepted).run
        [.start, .start, .read_completes false (bytes "GET / HTTP/1.1\r\n\r\n"),
          .read_completes false (bytes "G")]).map (fun c => (c.outstanding, c.issued)) =
      some ([.async_write stock_404.get_bufs, .async_read_some],
        [.async_read_some, .async_read_some, .async_write stock_404.get_bufs,
          .async_read_some]) := by
  decide

/-! ### The route table after construction (C36) -/

theorem ctor_loop_eq_filterMap (routes : List RouteInit) :
    ctor_loop routes = routes_with_factory routes := by
  induction routes with
  | nil => rfl
  | cons init rest ih =>
    cases hf : init.factory with
    | none =>
      rw [ctor_loop, hf, ih]
      simp [routes_with_factory, hf]
    | some f =>
      rw [ctor_loop, hf, ih]
      simp [routes_with_factory, hf]

/-- C36. After construction of a `Dispatcher` from any list of routes, whatever admissible
order `std::sort` produced, the route table is a permutation of the input routes that
have a factory (every entry of the table has one) and is ordered by non-increasing
location length. -/
theorem C36_table_sorted_permutation (routes sorted : List RouteInit)
    (hsort : is_std_sort routes sorted) :
    (Dispatcher.from_sorted sorted).routes_.Perm (routes_with_factory routes) ∧
    (∀ r ∈ (Dispatcher.from_sorted sorted).routes_, r.factory.isSome = true) ∧
    (Dispatcher.from_sorted sorted).routes_.Pairwise
      (fun a b => b.location.length ≤ a.location.length) := by
  obtain ⟨hperm, hpw⟩ := hsort
  simp only [Dispatcher.from_sorted, ctor_loop_eq_filterMap]
  refine ⟨hperm.filterMap _, ?_, ?_⟩
  · intro r hr
    simp only [routes_with_factory, List.mem_filterMap, Option.map_eq_some'] at hr
    obtain ⟨init, _, f, _, hf⟩ := hr
    rw [← hf]
    rfl
  · simp only [routes_with_factory]
    rw [List.pairwise_filterMap]
    refine List.Pairwise.imp ?_ hpw
    intro a b hab x hx y hy
    simp only [Option.mem_def, Option.map_eq_some'] at hx hy
    obtain ⟨_, _, hx⟩ := hx
    obtain ⟨_, _, hy⟩ := hy
    rw [← hx, ← hy]
    simp only [route_cmp, decide_eq_false_iff_not, not_lt] at hab
    exact hab

/-- C36 witness: a route without a factory between two routes with one, given shortest
first, under the sort of `Dispatcher.new`. -/
theorem C36_table_sorted_permutation_witness :
    (Dispatcher.new
      [{ location := bytes "/", factory := some location_echo_factory },
       { location := bytes "/null", factory := none },
       { location := bytes "/static", factory := some location_echo_factory }]).routes_.Perm
      (routes_with_factory
        [{ location := bytes "/", factory := some location_echo_factory },
         { location := bytes "/null", factory := none },
         { location := bytes "/static", factory := some location_echo_factory }]) ∧
    (∀ r ∈ (Dispatcher.new
      [{ location := bytes "/", factory := some location_echo_factory },
       { location := bytes "/null", factory := none },
       { location := bytes "/static", factory := some location_echo_factory }]).routes_,
      r.factory.isSome = true) ∧
    (Dispatcher.new
      [{ location := bytes "/", factory := some location_echo_factory },
       { location := bytes "/null", factory := none },
       { location := bytes "/static", factory := some location_echo_factory }]).routes_.Pairwise
      (fun a b => b.location.length ≤ a.location.length) :=
  C36_table_sorted_permutation _ _ (insertionSort_is_std_sort _)

/-! ### A Content-Length header with an empty value (C39) -/

/-- C39. A request whose first header named Content-Length (ignoring case) has an empty
value is treated like a request without such a header, whatever headers follow it, also
a later Content-Length with a number: on a fresh parser `parse` returns `PROPER_REQUEST`
at the blank line, the parser is left in state `END_CR` (not `BODY`), the body is empty
whatever bytes `rest` follow the blank line, and method, uri, version and headers are
those of the head; the same holds when the bytes arrive in any chunking. -/
theorem C39_empty_content_length_no_body (m u name : List Byte)
    (pre post : List (List Byte × List Byte)) (rest : List Byte) (req : request)
    (hm : wf_method m) (hu : wf_uri u)
    (hh : ∀ h ∈ pre ++ (name, []) :: post, wf_header h)
    (hpre : ∀ h ∈ pre, names_match h.1 Content_Length = false)
    (hname : names_match name Content_Length = true)
    (hlen : (request_head m u (pre ++ (name, []) :: post) ++ rest).length < 2 ^ 64) :
    (∃ p r, RequestParser.new.parse req
        (some (request_head m u (pre ++ (name, []) :: post) ++ rest)) =
        some (.PROPER_REQUEST, p, r) ∧
      p.m_state = .END_CR ∧ r.body = [] ∧
      r.method = m ∧ r.uri = u ∧ r.version = bytes "1.1" ∧
      r.headers = pre ++ (name, []) :: post) ∧
    (∀ chunks : List (List Byte), (∀ d ∈ chunks, d ≠ []) →
      chunks.flatten = request_head m u (pre ++ (name, []) :: post) ++ rest →
      ∃ p r, feed RequestParser.new req chunks = some (.PROPER_REQUEST, p, r) ∧
        r.body = [] ∧ r.method = m ∧ r.uri = u ∧ r.version = bytes "1.1" ∧
        r.headers = pre ++ (name, []) :: post) := by
  obtain ⟨p1, hp1, hrun⟩ := run_request_head m u _ hm hu hh
  have hne : request_head m u (pre ++ (name, []) :: post) ++ rest ≠ [] := by
    simp [request_head]
  have hlook : get_header_value_loop Content_Length (pre ++ (name, []) :: post) = [] :=
    lookup_first Content_Length (name, []) post pre hpre hname
  have hcore : core RequestParser.new request.empty
      (request_head m u (pre ++ (name, []) :: post) ++ rest) =
      (.PROPER_REQUEST, p1,
        { method := m, uri := u, version := bytes "1.1",
          headers := pre ++ (name, []) :: post, body := [], raw := [] }) := by
    rw [core, if_neg (by simp [RequestParser.new]), hrun rest,
      end_of_headers_rest_nil _ _ _ hlook]
  constructor
  · rw [parse_new req _ hne hlen, core, if_neg (by simp [RequestParser.new]), hrun rest,
      end_of_headers_rest_nil _ _ _ hlook]
    exact ⟨_, _, Eq.refl _, hp1, Eq.refl _, Eq.refl _, Eq.refl _, Eq.refl _, Eq.refl _⟩
  · intro chunks hch hsplit
    have hch2 : ∀ d ∈ chunks, d ≠ [] ∧ d.length < SIZE_MOD := by
      intro d hd
      refine ⟨hch d hd, lt_of_le_of_lt (length_le_flatten _ d hd) ?_⟩
      rw [hsplit]
      exact hlen
    rw [← hsplit] at hcore
    obtain ⟨p3, r3, hf, hfields⟩ := feed_of_core chunks req _ _ _ hch2 hcore (by simp)
    simp only [request.fields, Prod.mk.injEq] at hfields
    obtain ⟨f1, f2, f3, f4, f5⟩ := hfields
    exact ⟨p3, r3, hf, f5, f1, f2, f3, f4⟩

/-- C39 witness: a Content-Length with an empty value, then a Content-Length of 5, then
five bytes after the blank line. -/
theorem C39_empty_content_length_no_body_witness :
    ∃ p r, RequestParser.new.parse request.empty
        (some (request_head (bytes "POST") (bytes "/x")
          ([] ++ (bytes "Content-Length", []) :: [(bytes "Content-Length", bytes "5")]) ++
            bytes "HELLO")) =
        some (.PROPER_REQUEST, p, r) ∧
      p.m_state = .END_CR ∧ r.body = [] ∧
      r.method = bytes "POST" ∧ r.uri = bytes "/x" ∧ r.version = bytes "1.1" ∧
      r.headers = [] ++ (bytes "Content-Length", []) :: [(bytes "Content-Length", bytes "5")] :=
  (C39_empty_content_length_no_body (bytes "POST") (bytes "/x") (bytes "Content-Length")
    [] [(bytes "Content-Length", bytes "5")] (bytes "HELLO") request.empty
    (by decide) (by decide) (by decide) (by decide) (by decide) (by decide)).1

/-! ### Iterations of the parser loop (C40) -/

theorem switch_body_cases (data : List Byte) (i : Nat) (c : Byte) (p : RequestParser)
    (req : request) (hi : i < data.length) :
    (p.m_state = .HEADER_START ∧ c ≠ 13 ∧
      ∃ p1, p1.m_state = .HEADER_NAME ∧
        switch_body data i c p req = .cont ((i + (SIZE_MOD - 1)) % SIZE_MOD) p1 req) ∨
    (∃ s p1 req1, switch_body data i c p req = .ret s p1 req1) ∨
    (∃ p1 req1, switch_body data i c p req = .cont i p1 req1) := by
  by_cases hs : p.m_state = .HEADER_START ∧ c ≠ 13
  · exact Or.inl ⟨hs.1, hs.2, _, Eq.refl _, switch_body_rewind data i c p req hs.1 hs.2⟩
  · rw [switch_body_local data i c p req hi hs]
    cases byte_step (data.drop (i + 1)) c p req with
    | done r => exact Or.inr (Or.inl ⟨_, _, _, Eq.refl _⟩)
    | more p1 req1 => exact Or.inr (Or.inr ⟨_, _, Eq.refl _⟩)

theorem parse_loop_reads_bound (data : List Byte) (hlen : data.length < SIZE_MOD) :
    ∀ (fuel i : Nat) (p : RequestParser) (req : request), i ≤ data.length →
      (2 * (data.length - i) + 1 ≤ fuel ∨
        (p.m_state ≠ .HEADER_START ∧ i < data.length ∧ 2 * (data.length - i) ≤ fuel)) →
      (parse_loop_reads data fuel i p req).length ≤ 2 * (data.length - i) ∧
      (p.m_state ≠ .HEADER_START → i < data.length →
        (parse_loop_reads data fuel i p req).length + 1 ≤ 2 * (data.length - i)) ∧
      (∀ j ∈ parse_loop_reads data fuel i p req, i ≤ j ∧ j < data.length) ∧
      (∀ j, (parse_loop_reads data fuel i p req).count j ≤ 2) ∧
      (p.m_state ≠ .HEADER_START → (parse_loop_reads data fuel i p req).count i ≤ 1) ∧
      parse_loop_reads data (fuel + 1) i p req = parse_loop_reads data fuel i p req := by
  intro fuel
  induction fuel with
  | zero =>
    intro i p req hi hf
    rcases hf with hf | ⟨_, h2, h3⟩ <;> omega
  | succ fuel ih =>
    intro i p req hi hf
    by_cases hlt : i < data.length
    · have hi2 : ((i + (SIZE_MOD - 1)) % SIZE_MOD + 1) % SIZE_MOD = i := by
        unfold SIZE_MOD at *
        omega
      have hi3 : (i + 1) % SIZE_MOD = i + 1 := by
        unfold SIZE_MOD at *
        omega
      rcases switch_body_cases data i (data.get ⟨i, hlt⟩) p req hlt with
        ⟨hs, _, p1, hp1, hsw⟩ | ⟨s, p1, req1, hsw⟩ | ⟨p1, req1, hsw⟩
      · have hfuel : 2 * (data.length - i) ≤ fuel := by
          rcases hf with hf | ⟨h1, _, _⟩
          · omega
          · exact absurd hs h1
        obtain ⟨_, h2, h3, h4, h5, h6⟩ := ih i p1 req hi
          (Or.inr ⟨by rw [hp1]; simp, hlt, hfuel⟩)
        have e1 : parse_loop_reads data (fuel + 1) i p req =
            i :: parse_loop_reads data fuel i p1 req := by
          rw [parse_loop_reads, dif_pos hlt, hsw]
          simp only [hi2]
        have e2 : parse_loop_reads data (fuel + 1 + 1) i p req =
            i :: parse_loop_reads data (fuel + 1) i p1 req := by
          rw [parse_loop_reads, dif_pos hlt, hsw]
          simp only [hi2]
        have h2a := h2 (by rw [hp1]; simp) hlt
        have h5a := h5 (by rw [hp1]; simp)
        rw [e2, e1, h6]
        refine ⟨?_, fun hn => absurd hs hn, ?_, ?_, fun hn => absurd hs hn, Eq.refl _⟩
        · simp only [List.length_cons]
          omega
        · intro j hj
          rcases List.mem_cons.mp hj with hj | hj
          · subst hj
            exact ⟨le_refl _, hlt⟩
          · exact h3 j hj
        · intro j
          rw [List.count_cons]
          by_cases hji : i = j
          · subst hji
            simp only [beq_self_eq_true, if_true]
            omega
          · have := h4 j
            simp only [beq_iff_eq, hji, if_false]
            omega
      · have e1 : ∀ f, parse_loop_reads data (f + 1) i p req = [i] := by
          intro f
          rw [parse_loop_reads, dif_pos hlt, hsw]
        rw [e1, e1]
        refine ⟨?_, fun _ _ => ?_, ?_, ?_, fun _ => ?_, Eq.refl _⟩
        · simp only [List.length_singleton]
          omega
        · simp only [List.length_singleton]
          omega
        · intro j hj
          rw [List.mem_singleton] at hj
          subst hj
          exact ⟨le_refl _, hlt⟩
        · intro j
          rw [List.count_singleton]
          split_ifs <;> omega
        · simp
      · obtain ⟨h1, _, h3, h4, _, h6⟩ := ih (i + 1) p1 req1 (by omega) (Or.inl (by omega))
        have e1 : parse_loop_reads data (fuel + 1) i p req =
            i :: parse_loop_reads data fuel (i + 1) p1 req1 := by
          rw [parse_loop_reads, dif_pos hlt, hsw]
          simp only [hi3]
        have e2 : parse_loop_reads data (fuel + 1 + 1) i p req =
            i :: parse_loop_reads data (fuel + 1) (i + 1) p1 req1 := by
          rw [parse_loop_reads, dif_pos hlt, hsw]
          simp only [hi3]
        have hci : (parse_loop_reads data fuel (i + 1) p1 req1).count i = 0 := by
          rw [List.count_eq_zero]
          intro hmem
          have := (h3 i hmem).1
          omega
        rw [e2, e1, h6]
        refine ⟨?_, fun _ _ => ?_, ?_, ?_, fun _ => ?_, Eq.refl _⟩
        · simp only [List.length_cons]
          omega
        · simp only [List.length_cons]
          omega
        · intro j hj
          rcases List.mem_cons.mp hj with hj | hj
          · subst hj
            exact ⟨le_refl _, hlt⟩
          · have := h3 j hj
            omega
        · intro j
          rw [List.count_cons]
          by_cases hji : i = j
          · subst hji
            rw [hci]
            simp
          · have := h4 j
            simp only [beq_iff_eq, hji, if_false]
            omega
        · rw [List.count_cons, hci]
          simp
    · have e1 : ∀ f, parse_loop_reads data (f + 1) i p req = [] := by
        intro f
        rw [parse_loop_reads, dif_neg hlt]
      rw [e1, e1]
      refine ⟨by simp, fun _ h => absurd h hlt, by simp, by simp, by simp, Eq.refl _⟩

theorem parse_loop_reads_more_budget (data : List Byte) (hlen : data.length < SIZE_MOD)
    (p : RequestParser) (req : request) (k : Nat) :
    parse_loop_reads data (2 * data.length + 1 + k) 0 p req =
      parse_loop_reads data (2 * data.length + 1) 0 p req := by
  induction k with
  | zero => rfl
  | succ k ih =>
    rw [← ih]
    exact (parse_loop_reads_bound data hlen (2 * data.length + 1 + k) 0 p req
      (Nat.zero_le _) (Or.inl (by omega))).2.2.2.2.2

/-- C40. `RequestParser::parse` returns on every chunk in every parser state; the loop
over a chunk of length `n` performs at most `2n` iterations, and a larger budget of loop
tests than the `2n + 1` of the model adds none; every index at which the loop reads the
chunk is below `n`; no index is read more than twice; and when the rewind of state
`HEADER_START` happens at index 0, the next read is at index 0 again and every later
read at an index from 1 to `n - 1`. -/
theorem C40_parse_terminates (data : List Byte) (p : RequestParser) (req : request)
    (hlen : data.length < 2 ^ 64) :
    (∃ r, p.parse req (some data) = some r) ∧
    (parse_loop_reads data (2 * data.length + 1) 0 p req).length ≤ 2 * data.length ∧
    (∀ k, parse_loop_reads data (2 * data.length + 1 + k) 0 p req =
      parse_loop_reads data (2 * data.length + 1) 0 p req) ∧
    (∀ j ∈ parse_loop_reads data (2 * data.length + 1) 0 p req, j < data.length) ∧
    (∀ j, (parse_loop_reads data (2 * data.length + 1) 0 p req).count j ≤ 2) ∧
    (∀ c rest, data = c :: rest → p.m_state = .HEADER_START → c ≠ 13 →
      ∃ tail, parse_loop_reads data (2 * data.length + 1) 0 p req = 0 :: 0 :: tail ∧
        ∀ j ∈ tail, 1 ≤ j ∧ j < data.length) := by
  have hb := parse_loop_reads_bound data hlen (2 * data.length + 1) 0 p req
    (Nat.zero_le _) (Or.inl (by omega))
  obtain ⟨h1, _, h3, h4, _, _⟩ := hb
  refine ⟨parse_total p req (some data) (fun d hd => by cases hd; exact hlen), h1,
    parse_loop_reads_more_budget data hlen p req, fun j hj => (h3 j hj).2, h4, ?_⟩
  intro c rest hdata hs hc
  subst hdata
  have hlt : 0 < (c :: rest).length := by simp
  have hget : (c :: rest).get ⟨0, hlt⟩ = c := rfl
  have e1 : parse_loop_reads (c :: rest) (2 * (c :: rest).length + 1) 0 p req =
      0 :: parse_loop_reads (c :: rest) (2 * (c :: rest).length) 0
        { p with current_header_name_ := [], current_header_value_ := [],
                 m_state := .HEADER_NAME } req := by
    rw [parse_loop_reads, dif_pos hlt, hget, switch_body_rewind _ 0 c p req hs hc]
    simp [SIZE_MOD]
  rw [e1]
  have e3 : 2 * (c :: rest).length = (2 * rest.length + 1) + 1 := by
    simp only [List.length_cons]
    omega
  rw [e3] at e1 ⊢
  rw [parse_loop_reads, dif_pos hlt, hget]
  rcases switch_body_cases (c :: rest) 0 c
      { p with current_header_name_ := [], current_header_value_ := [],
               m_state := .HEADER_NAME } req hlt with
    ⟨h, _⟩ | ⟨s, p1, req1, hsw⟩ | ⟨p1, req1, hsw⟩
  · exact absurd h (by simp)
  · rw [hsw]
    exact ⟨[], Eq.refl _, by simp⟩
  · rw [hsw]
    refine ⟨_, Eq.refl _, ?_⟩
    have hb2 := parse_loop_reads_bound (c :: rest) hlen (2 * rest.length + 1) 1 p1 req1
      (by simp) (Or.inl (by simp))
    intro j hj
    have : (0 + 1) % SIZE_MOD = 1 := by simp [SIZE_MOD]
    rw [this] at hj
    exact hb2.2.2.1 j hj

/-- C40 witness: the chunk `Host: x` CR LF in state `HEADER_START`: nine bytes, ten
iterations, the first byte read twice. -/
theorem C40_parse_terminates_witness :
    (∃ r, RequestParser.parse { RequestParser.new with m_state := .HEADER_START }
      request.empty (some (bytes "Host: x\r\n")) = some r) ∧
    parse_loop_reads (bytes "Host: x\r\n") (2 * (bytes "Host: x\r\n").length + 1) 0
      { RequestParser.new with m_state := .HEADER_START } request.empty =
      [0, 0, 1, 2, 3, 4, 5, 6, 7, 8] :=
  ⟨(C40_parse_terminates (bytes "Host: x\r\n")
    { RequestParser.new with m_state := .HEADER_START } request.empty (by decide)).1,
    by decide⟩

/-! ### Header names of the assembler and the redirect response (C38, C37) -/


theorem append_crlf_ne_unset (x : List Byte) : x ++ bytes "\r\n" ≠ bytes "unset" := by
  intro hx
  have e1 : bytes "\r\n" = [13, 10] := by decide
  have e2 : bytes "unset" = [117, 110, 115, 101, 116] := by decide
  rw [e1, e2] at hx
  have := congrArg List.getLast? hx
  simp at this

/-- The response that `build` gives on a fresh response, for every builder whose body is
not the string `unset`. -/
theorem stock_response_eq (b : ResponseBuilder) (hb : b.body_ ≠ bytes "unset") :
    stock_response b = .ok
      { m_status_line := bytes "HTTP/" ++ b.http_version_ ++ bytes " " ++
          to_string_int b.status_code_ ++ bytes " " ++ b.reason_phrase_ ++ bytes "\r\n",
        m_headers := headers_str_loop (map_assign (bytes "Connection") (bytes "close")
          (map_assign (bytes "Content-Length") (to_string_nat b.body_.length) b.headers_)) ++
          bytes "\r\n",
        m_content := b.body_,
        m_bufs := [bytes "HTTP/" ++ b.http_version_ ++ bytes " " ++
            to_string_int b.status_code_ ++ bytes " " ++ b.reason_phrase_ ++ bytes "\r\n",
          headers_str_loop (map_assign (bytes "Connection") (bytes "close")
            (map_assign (bytes "Content-Length") (to_string_nat b.body_.length)
              b.headers_)) ++ bytes "\r\n",
          b.body_] } := by
  simp only [stock_response, ResponseBuilder.build, response.new, response.set_status_line,
    response.set_headers, response.set_content, response.set_bufs,
    append_crlf_ne_unset, hb, if_false]


theorem keys_nodup_of_ascending (m : List (List Byte × List Byte)) (h : keys_ascending m) :
    (m.map Prod.fst).Nodup := by
  unfold keys_ascending at h
  rw [List.Nodup, List.pairwise_map]
  refine List.Pairwise.imp ?_ h
  intro a b hab heq
  rw [heq, str_lt_irrefl] at hab
  cases hab

theorem filter_key_of_nodup (k v : List Byte) : ∀ (m : List (List Byte × List Byte)),
    (m.map Prod.fst).Nodup → (k, v) ∈ m → m.filter (fun e => decide (e.1 = k)) = [(k, v)] := by
  intro m
  induction m with
  | nil => intro _ h; simp at h
  | cons e rest ih =>
    intro hnd hmem
    rw [List.map_cons, List.nodup_cons] at hnd
    rcases List.mem_cons.mp hmem with h | h
    · subst h
      rw [List.filter_cons]
      simp only [decide_True, if_true, List.cons.injEq, true_and]
      rw [List.filter_eq_nil_iff]
      intro x hx
      simp only [decide_eq_true_eq]
      intro hxk
      exact hnd.1 (List.mem_map.mpr ⟨x, hx, hxk⟩)
    · have hne : e.1 ≠ k := by
        intro hek
        exact hnd.1 (List.mem_map.mpr ⟨(k, v), h, hek.symm⟩)
      rw [List.filter_cons]
      simp only [hne, decide_False, Bool.false_eq_true, if_false]
      exact ih hnd.2 h

/-- C38 (amended). For every chain of fluent calls on a builder, `withHeader` calls with
any names and values among them, the header block that `build` produces is the
serialization of header entries whose names are pairwise different as byte strings;
exactly one entry is named `Content-Length` in this spelling, with the decimal size of
the body as value, and exactly one is named `Connection` in this spelling, with the value
`close`. -/
theorem C38_header_names_distinct (code : Int) (phrase : Option (List Byte))
    (cs : List BuilderCall) (out out1 : response) (b1 : ResponseBuilder)
    (hbuild : ((ResponseBuilder.construct code phrase).calls cs).build out = .ok (b1, out1)) :
    out1.m_headers =
      (b1.headers_.map (fun e => e.1 ++ bytes ": " ++ e.2 ++ bytes "\r\n")).flatten ++
        bytes "\r\n" ∧
    (b1.headers_.map Prod.fst).Nodup ∧
    b1.headers_.filter (fun e => decide (e.1 = bytes "Content-Length")) =
      [(bytes "Content-Length",
        to_string_nat ((ResponseBuilder.construct code phrase).calls cs).body_.length)] ∧
    b1.headers_.filter (fun e => decide (e.1 = bytes "Connection")) =
      [(bytes "Connection", bytes "close")] := by
  obtain ⟨hmap, hblock⟩ := build_headers _ b1 out out1 hbuild
  have hasc0 : keys_ascending ((ResponseBuilder.construct code phrase).calls cs).headers_ :=
    calls_keys_ascending cs _ (by rw [construct_headers]; exact List.Pairwise.nil)
  have hasc : keys_ascending b1.headers_ := by
    rw [hmap]
    exact keys_ascending_map_assign _ _ _ (keys_ascending_map_assign _ _ _ hasc0)
  have hnd := keys_nodup_of_ascending _ hasc
  refine ⟨by rw [hblock, headers_str_loop_eq], hnd, ?_, ?_⟩
  · refine filter_key_of_nodup _ _ _ hnd ?_
    rw [hmap]
    exact mem_map_assign_of_ne _ _ _ _ (mem_map_assign_self _ _ _)
      (show bytes "Content-Length" ≠ bytes "Connection" from by decide)
  · refine filter_key_of_nodup _ _ _ hnd ?_
    rw [hmap]
    exact mem_map_assign_self _ _ _

/-- C38 witness: the chain of the test `FluentChaining`. -/
theorem C38_header_names_distinct_witness :
    ∃ b1 out1, ((ResponseBuilder.construct 200 none).calls
        [.withContentType (bytes "text/plain"), .withBody (bytes "Test"),
         .withHeader (bytes "X-Custom-Header") (bytes "value")]).build response.new =
        .ok (b1, out1) ∧
      (b1.headers_.map Prod.fst).Nodup ∧
      b1.headers_.filter (fun e => decide (e.1 = bytes "Content-Length")) =
        [(bytes "Content-Length", to_string_nat ((ResponseBuilder.construct 200 none).calls
          [.withContentType (bytes "text/plain"), .withBody (bytes "Test"),
           .withHeader (bytes "X-Custom-Header") (bytes "value")]).body_.length)] ∧
      b1.headers_.filter (fun e => decide (e.1 = bytes "Connection")) =
        [(bytes "Connection", bytes "close")] :=
  ⟨_, _, Eq.refl _,
    (C38_header_names_distinct 200 none
      [.withContentType (bytes "text/plain"), .withBody (bytes "Test"),
       .withHeader (bytes "X-Custom-Header") (bytes "value")] response.new _ _
      (Eq.refl _)).2⟩

/-- C38 counterexample: after `withHeader("content-length", "5")` the header block has
the lines `Content-Length: 0` and `content-length: 5`, whose names are equal under ASCII
case-insensitive comparison. -/
theorem C38_counterexample :
    (stock_response
      ((ResponseBuilder.new 200).withHeader (bytes "content-length") (bytes "5"))).map
        (fun r => r.m_headers) =
      .ok (bytes "Connection: close\r\nContent-Length: 0\r\ncontent-length: 5\r\n\r\n") ∧
    ascii_ci_eq (bytes "Content-Length") (bytes "content-length") = true ∧
    bytes "Content-Length" ≠ bytes "content-length" :=
  ⟨Eq.refl _, by decide, by decide⟩


theorem crlf_split_no_crlf (s : List Byte) : ∀ (acc t : List Byte),
    has_crlf s = false → (s.head? = some 10 → acc.getLast? ≠ some 13) →
    crlf_split (s ++ 13 :: 10 :: t) acc = (acc ++ s) :: crlf_split t [] := by
  induction s with
  | nil =>
    intro acc t _ _
    simp [crlf_split]
  | cons c rest ih =>
    intro acc t hno hside
    simp only [has_crlf, Bool.or_eq_false_iff, Bool.and_eq_false_iff,
      decide_eq_false_iff_not] at hno
    obtain ⟨hc, hrest⟩ := hno
    have hstep : ¬ (c = 10 ∧ acc.getLast? = some 13) := by
      rintro ⟨h1, h2⟩
      exact hside (by rw [h1]; rfl) h2
    rw [List.cons_append, crlf_split, if_neg hstep]
    rw [ih (acc ++ [c]) t hrest ?_]
    · simp
    · intro h10
      rcases hc with hc | hc
      · simp [hc]
      · exact absurd h10 hc

/-- The response of the redirect handler for a code that the manager resolves. -/
theorem redirect_response (mount code : List Byte) (manager : LinkManagerInterface)
    (req : request) (record : LinkRecord)
    (hmethod : req.method = bytes "GET") (huri : req.uri = mount ++ 47 :: code)
    (hcode : IsValidCode code = true)
    (hget : manager.Get code = { status := .Ok, record := some record }) :
    LinkRedirectRequestHandler.handle_request mount manager req =
      ([.Get code, .IncrementCodeVisits code, .IncrementVisits code],
        .ok { m_status_line := bytes "HTTP/1.1 302 Found\r\n",
              m_headers := bytes "Connection: close\r\nContent-Length: 0\r\nLocation: " ++
                record.url ++ bytes "\r\n\r\n",
              m_content := [],
              m_bufs := [bytes "HTTP/1.1 302 Found\r\n",
                bytes "Connection: close\r\nContent-Length: 0\r\nLocation: " ++
                  record.url ++ bytes "\r\n\r\n", []] }) := by
  have hrel : TrimPrefix req.uri mount = 47 :: code := by
    rw [TrimPrefix, huri, if_pos (by simp)]
    simp
  have hst : bytes "HTTP/" ++ bytes "1.1" ++ bytes " " ++ to_string_int 302 ++ bytes " " ++
      bytes "Found" ++ bytes "\r\n" = bytes "HTTP/1.1 302 Found\r\n" := by decide
  have e1 : str_lt (bytes "Content-Length") (bytes "Location") = true := by decide
  have e2 : str_lt (bytes "Connection") (bytes "Content-Length") = true := by decide
  have e3 : to_string_nat ([] : List Byte).length = bytes "0" := by decide
  have hhd : headers_str_loop [(bytes "Connection", bytes "close"),
      (bytes "Content-Length", bytes "0"), (bytes "Location", record.url)] ++ bytes "\r\n" =
      bytes "Connection: close\r\nContent-Length: 0\r\nLocation: " ++ record.url ++
        bytes "\r\n\r\n" := by
    have a1 : bytes "Connection" ++ bytes ": " ++ bytes "close" ++ bytes "\r\n" ++
        (bytes "Content-Length" ++ bytes ": " ++ bytes "0" ++ bytes "\r\n" ++
          (bytes "Location" ++ bytes ": ")) =
        bytes "Connection: close\r\nContent-Length: 0\r\nLocation: " := by decide
    have a2 : bytes "\r\n" ++ bytes "\r\n" = bytes "\r\n\r\n" := by decide
    rw [← a1, ← a2]
    simp only [headers_str_loop, List.append_assoc, List.append_nil]
  have hsr := stock_response_eq
    ((ResponseBuilder.new_with_reason 302 (bytes "Found")).withHeader (bytes "Location")
      record.url) (show ([] : List Byte) ≠ bytes "unset" from by decide)
  simp only [ResponseBuilder.new_with_reason, ResponseBuilder.withHeader, map_assign, e1, e2,
    e3, if_true, hst, hhd] at hsr
  simp only [LinkRedirectRequestHandler.handle_request, hrel, hmethod, ne_eq,
    not_true_eq_false, if_false, List.head?_cons, if_true, List.drop_succ_cons, List.drop_zero,
    hcode, Bool.not_true, Bool.false_eq_true, hget, reduceCtorEq]
  rw [← hsr]
  rfl

/-- C37 (amended). For every URL accepted by `IsValidUrl` that holds no CR immediately
followed by LF and is stored in the link record that the manager returns for the
requested code, the 302 response of the redirect handler has a header block that the
occurrences of CR LF cut into exactly the three header lines `Connection: close`,
`Content-Length: 0` and `Location: ` followed by the URL, and the two empty pieces of the
blank line. -/
theorem C37_redirect_header_block (mount code : List Byte) (manager : LinkManagerInterface)
    (req : request) (record : LinkRecord)
    (hmethod : req.method = bytes "GET") (huri : req.uri = mount ++ 47 :: code)
    (hcode : IsValidCode code = true)
    (hget : manager.Get code = { status := .Ok, record := some record })
    (hvalid : IsValidUrl record.url = true) (hurl : has_crlf record.url = false) :
    ∃ resp, LinkRedirectRequestHandler.handle_request mount manager req =
        ([.Get code, .IncrementCodeVisits code, .IncrementVisits code], .ok resp) ∧
      resp.m_status_line = bytes "HTTP/1.1 302 Found\r\n" ∧
      resp.m_headers = bytes "Connection: close\r\nContent-Length: 0\r\nLocation: " ++
        record.url ++ bytes "\r\n\r\n" ∧
      crlf_split resp.m_headers [] =
        [bytes "Connection: close", bytes "Content-Length: 0",
          bytes "Location: " ++ record.url, [], []] := by
  refine ⟨_, redirect_response mount code manager req record hmethod huri hcode hget,
    Eq.refl _, Eq.refl _, ?_⟩
  have hne : record.url ≠ [] := by
    intro h
    rw [h] at hvalid
    simp [IsValidUrl] at hvalid
  have e0 : bytes "Connection: close\r\nContent-Length: 0\r\nLocation: " ++
      record.url ++ bytes "\r\n\r\n" =
      bytes "Connection: close" ++ 13 :: 10 :: (bytes "Content-Length: 0" ++ 13 :: 10 ::
        ((bytes "Location: " ++ record.url) ++ 13 :: 10 :: ([] ++ 13 :: 10 :: []))) := by
    have a1 : bytes "Connection: close\r\nContent-Length: 0\r\nLocation: " =
        bytes "Connection: close" ++ 13 :: 10 :: (bytes "Content-Length: 0" ++ 13 :: 10 ::
          bytes "Location: ") := by decide
    have a2 : bytes "\r\n\r\n" = [13, 10, 13, 10] := by decide
    rw [a1, a2]
    simp only [List.append_assoc, List.cons_append, List.nil_append]
  have hloc : has_crlf (bytes "Location: " ++ record.url) = false := by
    have : ∀ (p : List Byte), has_crlf p = false → p.getLast? ≠ some 13 →
        has_crlf (p ++ record.url) = false := by
      intro p
      induction p with
      | nil => intro _ _; exact hurl
      | cons c r ih =>
        intro hp hl
        simp only [has_crlf, Bool.or_eq_false_iff, Bool.and_eq_false_iff,
          decide_eq_false_iff_not] at hp
        rw [List.cons_append, has_crlf]
        simp only [Bool.or_eq_false_iff, Bool.and_eq_false_iff, decide_eq_false_iff_not]
        cases r with
        | nil =>
          refine ⟨Or.inl ?_, hurl⟩
          intro hc
          rw [hc] at hl
          exact hl (Eq.refl _)
        | cons d r2 =>
          refine ⟨?_, ih hp.2 ?_⟩
          · rcases hp.1 with h | h
            · exact Or.inl h
            · exact Or.inr (by simpa using h)
          · rw [List.getLast?_cons_cons] at hl
            exact hl
    exact this _ (by decide) (by decide)
  simp only
  rw [e0, crlf_split_no_crlf _ [] _ (by decide) (by simp),
    crlf_split_no_crlf _ [] _ (by decide) (by simp),
    crlf_split_no_crlf _ [] _ hloc (by simp),
    crlf_split_no_crlf [] [] _ (Eq.refl _) (by simp)]
  simp [crlf_split]

/-- C37 witness: the record of code `abc` holds `https://a.com`. -/
theorem C37_redirect_header_block_witness :
    ∃ resp, LinkRedirectRequestHandler.handle_request (bytes "/l")
        (url_manager (bytes "https://a.com"))
        (make_request (bytes "GET /l/abc HTTP/1.1\r\n\r\n") (bytes "/l" ++ 47 :: bytes "abc")) =
        ([.Get (bytes "abc"), .IncrementCodeVisits (bytes "abc"),
          .IncrementVisits (bytes "abc")], .ok resp) ∧
      resp.m_status_line = bytes "HTTP/1.1 302 Found\r\n" ∧
      resp.m_headers = bytes "Connection: close\r\nContent-Length: 0\r\nLocation: " ++
        (bytes "https://a.com") ++ bytes "\r\n\r\n" ∧
      crlf_split resp.m_headers [] =
        [bytes "Connection: close", bytes "Content-Length: 0",
          bytes "Location: " ++ bytes "https://a.com", [], []] :=
  C37_redirect_header_block (bytes "/l") (bytes "abc")
    (url_manager (bytes "https://a.com"))
    (make_request (bytes "GET /l/abc HTTP/1.1\r\n\r\n") (bytes "/l" ++ 47 :: bytes "abc"))
    { code := bytes "abc", url := bytes "https://a.com", visits := 0,
      password_hash := none, password_salt := none }
    (Eq.refl _) (Eq.refl _) (by decide) (Eq.refl _) (by decide) (by decide)

/-- C37 counterexample: `IsValidUrl` accepts a URL that holds CR LF (only spaces are
excluded); stored in a link record, it gives the 302 response a header block with a
fourth header line, `Set-Cookie:a=b`, supplied by the URL. -/
theorem C37_counterexample :
    IsValidUrl (bytes "http://x\r\nSet-Cookie:a=b") = true ∧
    (LinkRedirectRequestHandler.handle_request (bytes "/l")
        (url_manager (bytes "http://x\r\nSet-Cookie:a=b"))
        (make_request (bytes "GET /l/abc HTTP/1.1\r\n\r\n") (bytes "/l/abc"))).2.toOption.map
        (fun resp => crlf_split resp.m_headers []) =
      some [bytes "Connection: close", bytes "Content-Length: 0", bytes "Location: http://x",
        bytes "Set-Cookie:a=b", [], []] := by
  decide

/-! ### Base 62 codes (C34) -/


theorem kAlphabet_length : kAlphabet.length = 62 := by decide

theorem kAlphabet_indexOf (d : Nat) (h : d < 62) :
    kAlphabet.indexOf (kAlphabet.getD d 0) = d := by
  revert d
  decide

theorem kAlphabet_get_eq (d : Nat) (h : d < kAlphabet.length) :
    kAlphabet.get ⟨d, h⟩ = kAlphabet.getD d 0 := by
  rw [List.getD_eq_getElem _ _ h, List.get_eq_getElem]

theorem Encode_loop_eq : ∀ (fuel n : Nat) (out : List Byte), n < 62 ^ fuel →
    Encode_loop (fuel + 1) n out =
      some (out ++ (Nat.digits 62 n).map (fun d => kAlphabet.getD d 0)) := by
  intro fuel
  induction fuel with
  | zero =>
    intro n out h
    have : n = 0 := by simpa using h
    subst this
    simp [Encode_loop]
  | succ fuel ih =>
    intro n out h
    by_cases hn : n > 0
    · rw [Encode_loop, if_pos hn, ih (n / 62) _ (by
        rw [Nat.div_lt_iff_lt_mul (by decide)]
        rw [pow_succ] at h
        exact h)]
      rw [Nat.digits_def' (by decide) hn, List.map_cons, kAlphabet_get_eq]
      simp
    · have : n = 0 := by omega
      subst this
      simp [Encode_loop]

theorem Encode_eq (n : Nat) (h : n < 2 ^ 64) :
    base62.Encode n = some (((base62_digits n).map (fun d => kAlphabet.getD d 0)).reverse) := by
  by_cases hn : n = 0
  · subst hn
    rfl
  · rw [base62.Encode, if_neg hn, Encode_loop_eq 11 n [] (lt_trans h (by decide))]
    simp [base62_digits, hn]

theorem base62_digits_lt (n d : Nat) (h : d ∈ base62_digits n) : d < 62 := by
  unfold base62_digits at h
  split_ifs at h
  · simp at h
    omega
  · exact Nat.digits_lt_base (by decide) h

theorem base62_digits_value (n : Nat) : Nat.ofDigits 62 (base62_digits n) = n := by
  unfold base62_digits
  split_ifs with h
  · subst h
    simp [Nat.ofDigits]
  · exact Nat.ofDigits_digits 62 n

theorem map_alphabet_inj : ∀ (l1 l2 : List Nat), (∀ d ∈ l1, d < 62) → (∀ d ∈ l2, d < 62) →
    l1.map (fun d => kAlphabet.getD d 0) = l2.map (fun d => kAlphabet.getD d 0) →
    l1 = l2 := by
  intro l1 l2 h1 h2 h
  have e : ∀ l : List Nat, (∀ d ∈ l, d < 62) →
      (l.map (fun d => kAlphabet.getD d 0)).map (fun c => kAlphabet.indexOf c) = l := by
    intro l hl
    rw [List.map_map]
    conv_rhs => rw [← List.map_id l]
    refine List.map_congr_left ?_
    intro d hd
    exact kAlphabet_indexOf d (hl d hd)
  rw [← e l1 h1, ← e l2 h2, h]

theorem Encode_injective (n m : Nat) (hn : n < 2 ^ 64) (hm : m < 2 ^ 64)
    (h : base62.Encode n = base62.Encode m) : n = m := by
  rw [Encode_eq n hn, Encode_eq m hm, Option.some.injEq, List.reverse_inj] at h
  have := map_alphabet_inj _ _ (base62_digits_lt n) (base62_digits_lt m) h
  rw [← base62_digits_value n, ← base62_digits_value m, this]

theorem creates_codes (params : List LinkCreateParams) : ∀ (m : LinkManagerFake),
    m.counter_ + params.length < 2 ^ 64 →
    ∃ rs m1, m.creates params = some (rs, m1) ∧
      (∀ r ∈ rs, r.status = .Ok → ∃ code, r.code = some code) ∧
      (∀ code ∈ rs.filterMap (fun r => r.code),
        ∃ j, m.counter_ < j ∧ j < 2 ^ 64 ∧ base62.Encode j = some code) ∧
      (rs.filterMap (fun r => r.code)).Nodup := by
  induction params with
  | nil =>
    intro m _
    exact ⟨[], m, Eq.refl _, by simp, by simp, by simp⟩
  | cons p rest ih =>
    intro m hm
    simp only [List.length_cons] at hm
    by_cases hv : IsValidUrl p.url = true
    · have hc : (m.counter_ + 1) % 2 ^ 64 = m.counter_ + 1 := Nat.mod_eq_of_lt (by omega)
      obtain ⟨code, hcode⟩ : ∃ code, base62.Encode (m.counter_ + 1) = some code :=
        ⟨_, Encode_eq _ (by omega)⟩
      have hcreate : m.Create p = some ({ status := .Ok, code := some code },
          { counter_ := m.counter_ + 1,
            by_code_ := umap_assign code
              { code := code, url := p.url, visits := 0, password_hash := p.password_hash,
                password_salt := p.password_salt } m.by_code_,
            url_counts_ := umap_emplace p.url 0 m.url_counts_ }) := by
        simp only [LinkManagerFake.Create, hv, Bool.not_true, Bool.false_eq_true, if_false, hc,
          hcode]
      obtain ⟨rs, m2, hrs, hok, hcodes, hnd⟩ := ih
        { counter_ := m.counter_ + 1,
          by_code_ := umap_assign code
            { code := code, url := p.url, visits := 0, password_hash := p.password_hash,
              password_salt := p.password_salt } m.by_code_,
          url_counts_ := umap_emplace p.url 0 m.url_counts_ } (by simp only; omega)
      have hfm : List.filterMap (fun r : CreateResult => r.code)
          ({ status := .Ok, code := some code } :: rs) =
          code :: List.filterMap (fun r : CreateResult => r.code) rs := rfl
      refine ⟨{ status := .Ok, code := some code } :: rs, m2,
        by rw [LinkManagerFake.creates, hcreate]; simp only [hrs], ?_, ?_, ?_⟩
      · intro r hr hst
        rcases List.mem_cons.mp hr with h | h
        · subst h
          exact ⟨code, Eq.refl _⟩
        · exact hok r h hst
      · intro c hc2
        rw [hfm] at hc2
        rcases List.mem_cons.mp hc2 with h | h
        · subst h
          exact ⟨m.counter_ + 1, by omega, by omega, hcode⟩
        · obtain ⟨j, h1, h2, h3⟩ := hcodes c h
          exact ⟨j, by simp only at h1; omega, h2, h3⟩
      · rw [hfm, List.nodup_cons]
        refine ⟨?_, hnd⟩
        intro hmem
        obtain ⟨j, h1, h2, h3⟩ := hcodes code hmem
        simp only at h1
        have := Encode_injective (m.counter_ + 1) j (by omega) h2 (by rw [hcode, h3])
        omega
    · have hcreate : m.Create p = some ({ status := .Invalid, code := none }, m) := by
        simp [LinkManagerFake.Create, hv]
      obtain ⟨rs, m2, hrs, hok, hcodes, hnd⟩ := ih m (by omega)
      have hfm : List.filterMap (fun r : CreateResult => r.code)
          ({ status := .Invalid, code := none } :: rs) =
          List.filterMap (fun r : CreateResult => r.code) rs := rfl
      refine ⟨{ status := .Invalid, code := none } :: rs, m2,
        by rw [LinkManagerFake.creates, hcreate]; simp only [hrs], ?_, ?_, ?_⟩
      · intro r hr hst
        rcases List.mem_cons.mp hr with h | h
        · subst h
          cases hst
        · exact hok r h hst
      · intro c hc2
        rw [hfm] at hc2
        exact hcodes c hc2
      · rw [hfm]
        exact hnd

/-- C34. `base62::Encode` returns for every 64-bit unsigned integer and is injective on
them; so successive `Create` calls on a new fake manager, fewer than `2 ^ 64` of them (the
range in which the counter they encode is strictly increasing), all return, each
successful one returns a code, and the codes returned are pairwise distinct. -/
theorem C34_encode_injective_codes_distinct :
    (∀ n m, n < 2 ^ 64 → m < 2 ^ 64 →
      ∃ a b, base62.Encode n = some a ∧ base62.Encode m = some b ∧ (a = b → n = m)) ∧
    (∀ params : List LinkCreateParams, params.length < 2 ^ 64 →
      ∃ rs m1, LinkManagerFake.new.creates params = some (rs, m1) ∧
        (∀ r ∈ rs, r.status = .Ok → ∃ code, r.code = some code) ∧
        (rs.filterMap (fun r => r.code)).Nodup) := by
  constructor
  · intro n m hn hm
    refine ⟨_, _, Encode_eq n hn, Encode_eq m hm, fun h => ?_⟩
    exact Encode_injective n m hn hm (by rw [Encode_eq n hn, Encode_eq m hm, h])
  · intro params hlen
    obtain ⟨rs, m1, h1, h2, _, h4⟩ := creates_codes params LinkManagerFake.new
      (by simp only [LinkManagerFake.new]; omega)
    exact ⟨rs, m1, h1, h2, h4⟩

/-- C34 witness: the three `Create` calls of the test `MultipleCreatesYieldUniqueCodes`
return the codes `1`, `2` and `3`. -/
theorem C34_encode_injective_codes_distinct_witness :
    (LinkManagerFake.new.creates
      [{ url := bytes "https://a.com", password_hash := none, password_salt := none },
       { url := bytes "https://b.com", password_hash := none, password_salt := none },
       { url := bytes "https://c.com", password_hash := none, password_salt := none }]).map
      (fun r => r.1.filterMap (fun x => x.code)) = some [bytes "1", bytes "2", bytes "3"] ∧
    ∃ rs m1, LinkManagerFake.new.creates
      [{ url := bytes "https://a.com", password_hash := none, password_salt := none },
       { url := bytes "https://b.com", password_hash := none, password_salt := none },
       { url := bytes "https://c.com", password_hash := none, password_salt := none }] =
        some (rs, m1) ∧
      (∀ r ∈ rs, r.status = .Ok → ∃ code, r.code = some code) ∧
      (rs.filterMap (fun r => r.code)).Nodup :=
  ⟨by decide, C34_encode_injective_codes_distinct.2 _ (by decide)⟩

/-! ### The leaderboard query of the analytics handler (C32, C33) -/


theorem to_string_nat_core_digits (fuel : Nat) : ∀ n : Nat,
    ∀ c ∈ (Nat.toDigitsCore 10 fuel n []).map (fun ch => (Fin.ofNat ch.toNat : Byte)),
      48 ≤ c.val ∧ c.val ≤ 57 := by
  induction fuel with
  | zero => intro n c hc; simp [Nat.toDigitsCore] at hc
  | succ f ih =>
    intro n c hc
    have hmod : n % 10 < 10 := Nat.mod_lt _ (by norm_num)
    have hd : (Fin.ofNat (48 + n % 10) : Byte).val = 48 + n % 10 := by
      simp only [Fin.ofNat, Fin.val_mk]
      omega
    simp only [Nat.toDigitsCore] at hc
    split_ifs at hc with h
    · simp only [List.map_cons, List.map_nil, List.mem_singleton] at hc
      rw [hc, digitChar_byte _ hmod, hd]
      omega
    · rw [toDigitsCore_append, List.map_append, List.mem_append] at hc
      rcases hc with hc | hc
      · exact ih _ c hc
      · simp only [List.map_cons, List.map_nil, List.mem_singleton] at hc
        rw [hc, digitChar_byte _ hmod, hd]
        omega

theorem to_string_nat_digits (n : Nat) : ∀ c ∈ to_string_nat n, 48 ≤ c.val ∧ c.val ≤ 57 := by
  unfold to_string_nat Nat.toDigits
  exact to_string_nat_core_digits (n + 1) n

theorem ok_status_line :
    bytes "HTTP/" ++ bytes "1.1" ++ bytes " " ++ to_string_int 200 ++ bytes " " ++
      bytes "OK" ++ bytes "\r\n" = bytes "HTTP/1.1 200 OK\r\n" := by decide

theorem bad_request_status_line :
    bytes "HTTP/" ++ bytes "1.1" ++ bytes " " ++ to_string_int 400 ++ bytes " " ++
      bytes "Bad Request" ++ bytes "\r\n" = bytes "HTTP/1.1 400 Bad Request\r\n" := by decide

/-- The route from `handle_request` to `HandleTopQuery`. -/
theorem handle_request_top (serialize : JsonValue → List Byte) (mount s : List Byte)
    (manager : LinkManagerInterface) (req : request)
    (huri : req.uri = mount ++ bytes "/top/" ++ s) :
    AnalyticsRequestHandler.handle_request serialize mount manager req =
      AnalyticsRequestHandler.HandleTopQuery serialize manager s := by
  have e1 : bytes "/top/" = [47, 116, 111, 112, 47] := by decide
  have e2 : bytes "top" = [116, 111, 112] := by decide
  have hrel : TrimPrefix req.uri mount = 47 :: 116 :: 111 :: 112 :: 47 :: s := by
    rw [TrimPrefix, huri, e1, List.append_assoc, if_pos (by simp)]
    simp
  simp [AnalyticsRequestHandler.handle_request, hrel, e2]

theorem strtol_no_number (c : Byte) (rest : List Byte) (hsp : isspace c = false)
    (h45 : c ≠ 45) (h43 : c ≠ 43) (hd : isdigit c = false) : (strtol (c :: rest)).2 = 0 := by
  simp [strtol, List.dropWhile_cons, hsp, h45, h43, List.takeWhile_cons, hd]

theorem strtol_negative (ds : List Byte) : (strtol (45 :: ds)).1 ≤ 0 := by
  have hsp : isspace 45 = false := by decide
  simp only [strtol, List.dropWhile_cons, hsp, Bool.false_eq_true, if_false, List.head?_cons,
    true_or, if_true, List.drop_succ_cons, List.drop_zero]
  split_ifs <;> simp only <;> omega

/-- C33 (amended). For every leaderboard size string from which `strtol` converts no
number (the empty string, non-numeric text) or a number that is not positive (zero,
negative numbers), the analytics `top/<size>` query returns 400 Bad Request and makes no
call on the manager. -/
theorem C33_invalid_size_rejected (serialize : JsonValue → List Byte) (mount s : List Byte)
    (manager : LinkManagerInterface) (req : request)
    (huri : req.uri = mount ++ bytes "/top/" ++ s)
    (h : s = [] ∨ (strtol s).2 = 0 ∨ (strtol s).1 ≤ 0) :
    ∃ resp, AnalyticsRequestHandler.handle_request serialize mount manager req =
        ([], .ok resp) ∧
      resp.m_status_line = bytes "HTTP/1.1 400 Bad Request\r\n" := by
  rw [handle_request_top serialize mount s manager req huri]
  by_cases hs : s = []
  · simp only [AnalyticsRequestHandler.HandleTopQuery, hs, if_true]
    rw [stock_response_eq _ (by decide)]
    exact ⟨_, Eq.refl _, bad_request_status_line⟩
  · have hcond : (strtol s).2 = 0 ∨ (strtol s).1 ≤ 0 := by
      rcases h with h | h
      · exact absurd h hs
      · exact h
    simp only [AnalyticsRequestHandler.HandleTopQuery, hs, if_false, hcond, if_true]
    rw [stock_response_eq _ (by decide)]
    exact ⟨_, Eq.refl _, bad_request_status_line⟩

/-- C33 witness: the size `0` of the test `TopQueryRejectsZeroCount`. -/
theorem C33_invalid_size_rejected_witness :
    ∃ resp, AnalyticsRequestHandler.handle_request serialize_fixture (bytes "/analytics")
        (stats_manager []) (make_request [] (bytes "/analytics" ++ bytes "/top/" ++ bytes "0")) =
        ([], .ok resp) ∧
      resp.m_status_line = bytes "HTTP/1.1 400 Bad Request\r\n" :=
  C33_invalid_size_rejected serialize_fixture (bytes "/analytics") (bytes "0")
    (stats_manager []) (make_request [] (bytes "/analytics" ++ bytes "/top/" ++ bytes "0"))
    (Eq.refl _) (Or.inr (Or.inr (by decide)))

/-- C33 counterexample: the size string `5abc`, which is the decimal numeral of no
number, is accepted as 5: the manager is consulted and the answer is 200. -/
theorem C33_counterexample :
    (∀ n, to_string_nat n ≠ bytes "5abc") ∧
    (AnalyticsRequestHandler.handle_request serialize_fixture (bytes "/analytics")
      (stats_manager []) (make_request [] (bytes "/analytics/top/5abc"))).1 =
      [.GetAllUrlVisits] ∧
    (AnalyticsRequestHandler.handle_request serialize_fixture (bytes "/analytics")
      (stats_manager []) (make_request [] (bytes "/analytics/top/5abc"))).2.toOption.map
      (fun resp => (resp.m_status_line, resp.m_content)) =
      some (bytes "HTTP/1.1 200 OK\r\n", bytes "[]") := by
  refine ⟨?_, by decide, by decide⟩
  intro n hn
  have := to_string_nat_digits n 97 (by rw [hn]; decide)
  revert this
  decide

/-! ### The server configuration (C35) -/


theorem location_loop_path (block : List NginxConfigStatement) :
    ∀ (spec spec1 : HandlerSpec), location_loop spec block = .ok spec1 →
      spec1.path = spec.path := by
  induction block with
  | nil =>
    intro spec spec1 h
    simp only [location_loop, Except.ok.injEq] at h
    rw [h]
  | cons child rest ih =>
    intro spec spec1 h
    rw [location_loop] at h
    split at h
    · exact ih _ _ h
    · split_ifs at h
      · split at h
        · exact (ih _ _ h).trans (Eq.refl _)
        · cases h
      · split at h
        · exact (ih _ _ h).trans (Eq.refl _)
        · exact ih _ _ h

theorem server_loop_handlers (block : List NginxConfigStatement) :
    ∀ (result result1 : ServerConfig) (port_set port_set1 : Bool) (paths : List (List Byte)),
      server_loop block result port_set paths = .ok (result1, port_set1) →
      (∀ p, p ∈ paths ↔ p ∈ result.handlers.map (fun h => h.path)) →
      (result.handlers.map (fun h => h.path)).Nodup →
      (∀ h ∈ result.handlers, h.path.head? = some 47 ∧ h.type ≠ []) →
      ∃ added : List HandlerSpec, result1.handlers = result.handlers ++ added ∧
        added.map (fun h => h.path) = (location_statements block).map location_path ∧
        (result1.handlers.map (fun h => h.path)).Nodup ∧
        (∀ h ∈ result1.handlers, h.path.head? = some 47 ∧ h.type ≠ []) := by
  induction block with
  | nil =>
    intro result result1 port_set port_set1 paths h _ hnd hval
    simp only [server_loop, Except.ok.injEq, Prod.mk.injEq] at h
    rw [← h.1]
    exact ⟨[], by simp, by simp [location_statements], hnd, hval⟩
  | cons statement rest ih =>
    intro result result1 port_set port_set1 paths h hpaths hnd hval
    rw [server_loop] at h
    cases htok : statement.tokens_ with
    | nil =>
      rw [htok] at h
      simp only at h
      obtain ⟨added, h1, h2, h3, h4⟩ := ih _ _ _ _ _ h hpaths hnd hval
      refine ⟨added, h1, ?_, h3, h4⟩
      rw [h2]
      simp [location_statements, htok]
    | cons directive values =>
      rw [htok] at h
      simp only at h
      by_cases hl : directive = bytes "listen"
      · rw [if_pos hl] at h
        have hnl : ¬ (statement.tokens_.head? = some (bytes "location")) := by
          rw [htok, hl]
          simp only [List.head?_cons, Option.some.injEq]
          decide
        split at h
        · split at h
          · obtain ⟨added, h1, h2, h3, h4⟩ := ih _ _ _ _ _ h hpaths hnd hval
            refine ⟨added, h1, ?_, h3, h4⟩
            rw [h2]
            simp [location_statements, hnl]
          · cases h
        · cases h
      · rw [if_neg hl] at h
        by_cases hloc : directive = bytes "location"
        · rw [if_pos hloc] at h
          have hisl : statement.tokens_.head? = some (bytes "location") := by
            rw [htok, hloc]
            rfl
          cases values with
          | nil => cases h
          | cons path more =>
          cases more with
          | cons _ _ => cases h
          | nil =>
            simp only at h
            cases hcb : statement.child_block_ with
            | none => rw [hcb] at h; cases h
            | some block =>
              rw [hcb] at h
              simp only at h
              cases hll : location_loop
                  { name := path, path := path, type := [], options := [] } block with
              | error e => rw [hll] at h; cases h
              | ok spec =>
                rw [hll] at h
                simp only at h
                have hsp : spec.path = path := location_loop_path block _ _ hll
                by_cases hv : spec.path = [] ∨ spec.path.head? ≠ some 47
                · rw [if_pos hv] at h
                  cases h
                rw [if_neg hv] at h
                by_cases ht : spec.type = []
                · rw [if_pos ht] at h
                  cases h
                rw [if_neg ht] at h
                by_cases hd : spec.path ∈ paths
                · rw [if_pos hd] at h
                  cases h
                rw [if_neg hd] at h
                · have hhead : spec.path.head? = some 47 := by
                    by_contra hc
                    exact hv (Or.inr hc)
                  obtain ⟨added, h1, h2, h3, h4⟩ := ih _ _ _ _ _ h
                    (by
                      intro p
                      simp only [List.mem_cons, List.map_append, List.map_cons, List.map_nil,
                        List.mem_append, List.mem_singleton]
                      rw [hpaths p]
                      tauto)
                    (by
                      simp only [List.map_append, List.map_cons, List.map_nil]
                      rw [List.nodup_append]
                      refine ⟨hnd, List.nodup_singleton _, ?_⟩
                      intro a ha hb
                      rw [List.mem_singleton] at hb
                      rw [hb] at ha
                      exact hd ((hpaths _).mpr ha))
                    (by
                      intro x hx
                      rcases List.mem_append.mp hx with hx | hx
                      · exact hval x hx
                      · rw [List.mem_singleton] at hx
                        rw [hx]
                        exact ⟨hhead, ht⟩)
                  refine ⟨spec :: added, by rw [h1]; simp, ?_, h3, h4⟩
                  simp only [List.map_cons, h2, location_statements]
                  rw [List.filter_cons, if_pos (by simpa using hisl)]
                  simp only [List.map_cons, location_path, htok]
                  rw [hsp]
                  rfl
        · rw [if_neg hloc] at h
          have hnl : ¬ (statement.tokens_.head? = some (bytes "location")) := by
            rw [htok]
            simpa using hloc
          obtain ⟨added, h1, h2, h3, h4⟩ := ih _ _ _ _ _ h hpaths hnd hval
          refine ⟨added, h1, ?_, h3, h4⟩
          rw [h2]
          simp [location_statements, hnl]

theorem BuildError_ne_nil (e : List Byte) : BuildError e ≠ [] := by
  have : bytes "ServerConfigBuilder: " = 83 :: (bytes "ServerConfigBuilder: ").tail := by
    decide
  rw [BuildError, this]
  simp

/-- C35. `ServerConfig::FromTokenizedConfig` returns `true` only for a configuration
with a server block in which every `location` path starts with `/`, every location has
a non-empty handler type and no two locations share a path; then the handler
specifications written to `out` are those of the `location` statements in configuration
order, with pairwise distinct paths, and what `error` points to is left untouched. When
it returns `false`, what `out` points to is left unchanged and, through a non-null
`error`, a non-empty error message is reported. -/
theorem C35_config_validation (tokenized_config : List NginxConfigStatement)
    (out : Option ServerConfig) (error : Option (List Byte)) :
    ((ServerConfig.FromTokenizedConfig tokenized_config out error).1 = true →
      ∃ server_scope result,
        find_server_scope tokenized_config none = .ok (some server_scope) ∧
        (ServerConfig.FromTokenizedConfig tokenized_config out error).2.1 = some result ∧
        (ServerConfig.FromTokenizedConfig tokenized_config out error).2.2 = error ∧
        result.handlers.map (fun h => h.path) =
          (location_statements server_scope).map location_path ∧
        (∀ h ∈ result.handlers, h.path.head? = some 47 ∧ h.type ≠ []) ∧
        (result.handlers.map (fun h => h.path)).Nodup) ∧
    ((ServerConfig.FromTokenizedConfig tokenized_config out error).1 = false →
      (ServerConfig.FromTokenizedConfig tokenized_config out error).2.1 = out ∧
      (error = none →
        (ServerConfig.FromTokenizedConfig tokenized_config out error).2.2 = none) ∧
      ∀ e0, error = some e0 →
        ∃ e, (ServerConfig.FromTokenizedConfig tokenized_config out error).2.2 = some e ∧
          e ≠ []) := by
  cases out with
  | none =>
    refine ⟨fun h => by simp [ServerConfig.FromTokenizedConfig] at h, fun _ => ?_⟩
    refine ⟨Eq.refl _, fun he => by simp [ServerConfig.FromTokenizedConfig, he], ?_⟩
    intro e0 he
    exact ⟨BuildError (bytes "output pointer is null"),
      by simp [ServerConfig.FromTokenizedConfig, he], BuildError_ne_nil _⟩
  | some out0 =>
    cases hb : build_server_config tokenized_config with
    | error e =>
      refine ⟨fun h => by simp [ServerConfig.FromTokenizedConfig, hb] at h, fun _ => ?_⟩
      refine ⟨by simp [ServerConfig.FromTokenizedConfig, hb],
        fun he => by simp [ServerConfig.FromTokenizedConfig, hb, he], ?_⟩
      intro e0 he
      exact ⟨BuildError e, by simp [ServerConfig.FromTokenizedConfig, hb, he],
        BuildError_ne_nil _⟩
    | ok result =>
      refine ⟨fun _ => ?_, fun h => by simp [ServerConfig.FromTokenizedConfig, hb] at h⟩
      unfold build_server_config at hb
      cases hf : find_server_scope tokenized_config none with
      | error e => rw [hf] at hb; cases hb
      | ok scope =>
        rw [hf] at hb
        cases scope with
        | none => cases hb
        | some server_scope =>
          simp only at hb
          cases hs : server_loop server_scope ServerConfig.new false [] with
          | error e => rw [hs] at hb; cases hb
          | ok r =>
            obtain ⟨result1, port_set⟩ := r
            rw [hs] at hb
            simp only at hb
            split_ifs at hb
            simp only [Except.ok.injEq] at hb
            subst hb
            obtain ⟨added, h1, h2, h3, h4⟩ := server_loop_handlers server_scope _ _ _ _ _ hs
              (by simp [ServerConfig.new]) (by simp [ServerConfig.new])
              (by simp [ServerConfig.new])
            refine ⟨server_scope, result1, Eq.refl _, ?_, ?_, ?_, h4, h3⟩
            · simp [ServerConfig.FromTokenizedConfig, build_server_config, hf, hs, *]
            · simp [ServerConfig.FromTokenizedConfig, build_server_config, hf, hs, *]
            · rw [h1]
              simp only [ServerConfig.new, List.nil_append]
              exact h2

/-- C35 witness: the configuration of the test `SuccessDoesNotWriteErrorOutParam` is
accepted and the seeded error string is left as it was; the one of
`RejectsDuplicatePaths` is rejected, `out` keeps its value and the error names the
path. -/
theorem C35_config_validation_witness :
    ServerConfig.FromTokenizedConfig (config_fixture [bytes "/echo"])
        (some ServerConfig.new) (some (bytes "pre-seeded")) =
      (true, some { port := 8082, handlers :=
          [{ name := bytes "/echo", path := bytes "/echo", type := bytes "echo",
             options := [] }] },
        some (bytes "pre-seeded")) ∧
    ServerConfig.FromTokenizedConfig (config_fixture [bytes "/dup", bytes "/dup"])
        (some ServerConfig.new) (some []) =
      (false, some ServerConfig.new,
        some (bytes "ServerConfigBuilder: duplicate handler path: /dup")) ∧
    ∃ server_scope result,
      find_server_scope (config_fixture [bytes "/echo"]) none = .ok (some server_scope) ∧
      (ServerConfig.FromTokenizedConfig (config_fixture [bytes "/echo"])
        (some ServerConfig.new) (some (bytes "pre-seeded"))).2.1 = some result ∧
      (ServerConfig.FromTokenizedConfig (config_fixture [bytes "/echo"])
        (some ServerConfig.new) (some (bytes "pre-seeded"))).2.2 = some (bytes "pre-seeded") ∧
      result.handlers.map (fun h => h.path) =
        (location_statements server_scope).map location_path ∧
      (∀ h ∈ result.handlers, h.path.head? = some 47 ∧ h.type ≠ []) ∧
      (result.handlers.map (fun h => h.path)).Nodup :=
  ⟨by decide, by decide,
    (C35_config_validation (config_fixture [bytes "/echo"]) (some ServerConfig.new)
      (some (bytes "pre-seeded"))).1 (by decide)⟩

/-! ### Path traversal in the static handler (C31) -/

/-- Where neither the root ends nor the relative part begins with `/`, `join_fs_path`
returns the concatenation and never asks for a canonical path. -/
theorem join_fs_path_unchecked (weakly_canonical : List Byte → Except String (List Byte))
    (root rel : List Byte) (hroot : root ≠ []) (hrel : rel ≠ [])
    (h1 : root.getLast? ≠ some 47) (h2 : rel.head? ≠ some 47) :
    join_fs_path weakly_canonical root rel = .ok (some (root ++ bytes "/" ++ rel)) := by
  simp [join_fs_path, hroot, hrel, h1, h2]

/-- Where exactly one of the two has the `/`, a joined path whose canonical form does not
begin with the canonical root is answered with 404. -/
theorem static_checked_branch (weakly_canonical : List Byte → Except String (List Byte))
    (read_file : List Byte → Option (List Byte)) (mount root rel root_path full_path : List Byte)
    (req : request) (huri : req.uri = mount ++ rel)
    (hroot : root ≠ []) (hrel : rel ≠ [] ∧ rel ≠ bytes "/")
    (hj : (root.getLast? = some 47 ∧ rel.head? ≠ some 47) ∨
      (root.getLast? ≠ some 47 ∧ rel.head? = some 47))
    (hc1 : weakly_canonical root = .ok root_path)
    (hc2 : weakly_canonical (root ++ rel) = .ok full_path)
    (hout : root_path.isPrefixOf full_path = false) :
    StaticRequestHandler.handle_request weakly_canonical read_file mount root req =
      .ok stock_404 := by
  have hrel2 : req.uri.drop mount.length = rel := by
    rw [huri]
    simp
  have hpre : mount.isPrefixOf req.uri = true := by
    rw [huri]
    simp
  have hjoin : join_fs_path weakly_canonical root rel = .ok none := by
    rcases hj with ⟨a, b⟩ | ⟨a, b⟩ <;>
      simp [join_fs_path, hroot, hrel.1, a, b, hc1, hc2, hout]
  simp only [StaticRequestHandler.handle_request, hpre, Bool.not_true, Bool.false_eq_true,
    if_false, hrel2, hrel.1, hrel.2, or_self, hjoin]
  exact stock_404_eq

/-- C31, evaluation at the failing input: the handler of the repository's test fixture,
mounted at `/static` with root `static_test_files`, asked for `/static../secret.txt`.
The part after the mount prefix, `../secret.txt`, escapes the root; `join_fs_path`
returns `static_test_files/../secret.txt` without the traversal check, and whatever file
the file system opens under that path is served with 200. -/
theorem C31_traversal_served (weakly_canonical : List Byte → Except String (List Byte))
    (read_file : List Byte → Option (List Byte)) (contents : List Byte)
    (hfile : read_file (bytes "static_test_files/../secret.txt") = some contents)
    (hne : contents ≠ bytes "unset") :
    escapes_root ((bytes "/static../secret.txt").drop (bytes "/static").length) = true ∧
    ∃ resp, StaticRequestHandler.handle_request weakly_canonical read_file
        (bytes "/static") (bytes "static_test_files")
        (make_request [] (bytes "/static../secret.txt")) = .ok resp ∧
      resp.m_status_line = bytes "HTTP/1.1 200 OK\r\n" ∧
      resp.m_content = contents := by
  refine ⟨by decide, ?_⟩
  have hrel : (bytes "/static../secret.txt").drop (bytes "/static").length =
      bytes "../secret.txt" := by decide
  have hjoin := join_fs_path_unchecked weakly_canonical (bytes "static_test_files")
    (bytes "../secret.txt") (by decide) (by decide) (by decide) (by decide)
  have hpath : bytes "static_test_files" ++ bytes "/" ++ bytes "../secret.txt" =
      bytes "static_test_files/../secret.txt" := by decide
  rw [hpath] at hjoin
  have hct : content_type_for_extension (bytes "static_test_files/../secret.txt") =
      bytes "text/plain" := by decide
  have hpre : (bytes "/static").isPrefixOf (bytes "/static../secret.txt") = true := by decide
  have hr1 : bytes "../secret.txt" ≠ [] := by decide
  have hr2 : bytes "../secret.txt" ≠ bytes "/" := by decide
  have hct2 : bytes "text/plain" ≠ [] := by decide
  simp only [StaticRequestHandler.handle_request, make_request, hpre, Bool.not_true,
    Bool.false_eq_true, if_false, hrel, hr1, hr2, or_self, hjoin, hct, hct2, hfile]
  rw [stock_response_eq _ (by simpa [ResponseBuilder.withBody] using hne)]
  refine ⟨_, Eq.refl _, ?_, Eq.refl _⟩
  simp only [ResponseBuilder.withBody, ResponseBuilder.withContentType,
    ResponseBuilder.withHeader, ResponseBuilder.new, getDefaultReasonPhrase, if_true]
  exact ok_status_line

/-- C31 witness: a file system in which that path opens a file with the contents
`secret`. -/
theorem C31_traversal_served_witness :
    escapes_root ((bytes "/static../secret.txt").drop (bytes "/static").length) = true ∧
    ∃ resp, StaticRequestHandler.handle_request (fun p => .ok p)
        (one_file (bytes "static_test_files/../secret.txt") (bytes "secret"))
        (bytes "/static") (bytes "static_test_files")
        (make_request [] (bytes "/static../secret.txt")) = .ok resp ∧
      resp.m_status_line = bytes "HTTP/1.1 200 OK\r\n" ∧
      resp.m_content = bytes "secret" :=
  C31_traversal_served (fun p => .ok p)
    (one_file (bytes "static_test_files/../secret.txt") (bytes "secret")) (bytes "secret")
    (by decide) (by decide)

end Prj130
